import Mathlib

/-!
The Go wrapper of the credential engine (`wrappers/golang/indy-credx/types`).

A shallow embedding of the Go package `types`.  The package is a thin layer over a
foreign library: every operation marshals its arguments, performs one call through
cgo, and turns the return code and the out-parameters into Go values.

* Go objects that own an engine handle live in a heap of cells (`World.heap`);
  a Go pointer is `none` (nil) or the address of a cell.
* The foreign library is a parameter `eng : Engine σ`: a transition function on an
  engine state `σ` that answers each `Call` with a `Reply`.
* Every call crossing the boundary is appended to `World.trace`.
* A Go function is a state transformer `Go σ α` whose run ends in a normal return,
  a run-time panic, a fatal runtime error, or at the point where it leaves defined
  behaviour.

Garbage collection (the moment at which a registered finalizer runs) is outside the
model; what is kept of it is the list of registered finalizers.  Of C memory the model
keeps, for each marshalled list, the number of bytes requested from `malloc` and the
number of bytes the block has room for (`C.malloc`): a store inside the block is a store,
a store behind its end ends the run as `undefined`.
-/

namespace IndyCredx

/-! ## Values -/

/-- `type ObjectHandle C.ulong` (common.go).  The conversions `(C.ulong)(h)` are the identity. -/
abbrev ObjectHandle := Nat

/-- The return code of an engine call.  The wrapper only compares it with `0` and
prints it with `%d` after `int(err)`. -/
abbrev ErrorCode := Int

/-- A Go `error`: `none` is `nil`, `some text` is an error whose `Error()` is `text`. -/
abbrev GoError := Option String

/-- A Go pointer to a heap cell: `none` is `nil`. -/
abbrev Ptr := Option Nat

/-- The layout shared by every handle-owning struct of the package
(`Schema`, `Credential`, `RevocationRegistry`, `RevocationRegistryDelta`, ...):
`struct { handle ObjectHandle; isClosed bool }`. -/
structure Object where
  handle : ObjectHandle
  isClosed : Bool := false
deriving DecidableEq, Repr

abbrev RevocationRegistryDefinition := Object
abbrev RevocationRegistryDefinitionPrivate := Object
abbrev RevocationRegistryDelta := Object
abbrev RevocationRegistry := Object
abbrev CredentialRevocationState := Object
abbrev Credential := Object
abbrev PresentationRequest := Object
abbrev Presentation := Object
abbrev Schema := Object
abbrev CredentialDefinition := Object
abbrev MasterSecret := Object
abbrev CredentialDefinitionPrivate := Object
abbrev KeyCorrectnessProof := Object
abbrev CredentialOffer := Object
abbrev CredentialRequest := Object
abbrev CredentialRequestMetadata := Object

/-- Static Go types, as far as `runtime.SetFinalizer` inspects them. -/
inductive GoType where
  | named (name : String)
  | ptr (elem : GoType)
deriving DecidableEq, Repr

/-- A list marshalled for the engine (`FfiList_*`, `FfiStrList`).
`count` is the `count` field, `requested` the number of bytes asked from `C.malloc`,
`data` the elements written into the block through the array view, in index order. -/
structure FfiList (α : Type) where
  count : Nat
  requested : Nat
  data : List α
deriving DecidableEq, Repr

abbrev FfiListI64 := FfiList Int
abbrev FfiStrList := FfiList String
abbrev FfiListObjectHandle := FfiList ObjectHandle

/-- `C.FfiCredentialEntry`. -/
structure FfiCredentialEntry where
  credential : ObjectHandle
  timestamp : Int
  rev_state : ObjectHandle
deriving DecidableEq, Repr

/-- `C.FfiCredentialProve`. -/
structure FfiCredentialProve where
  entry_idx : Int
  referent : String
  is_predicate : Int
  reveal : Int
deriving DecidableEq, Repr

/-- `C.FfiRevocationEntry`. -/
structure FfiRevocationEntry where
  def_entry_idx : Int
  entry : ObjectHandle
  timestamp : Int
deriving DecidableEq, Repr

/-- `json.RawMessage`, a `[]byte`: the bytes in index order.  A nil slice is the empty
list. -/
abbrev RawMessage := List Nat

/-- `C.ByteBuffer`: the `len` field and the bytes of the block `value` points to. -/
structure ByteBuffer where
  len : Nat
  value : List Nat
deriving DecidableEq, Repr

/-- `type FfiCredentialRevocationInfo C.FfiCredRevInfo`. -/
structure FfiCredentialRevocationInfo where
  reg_def : ObjectHandle
  reg_def_private : ObjectHandle
  registry : ObjectHandle
  reg_idx : Int
  reg_used : FfiListI64
  tails_path : String
deriving DecidableEq, Repr

/-! ## The foreign boundary -/

/-- One call into the engine library with the arguments the wrapper passes.
Out-parameters are not listed: what the engine writes to them is in the `Reply`. -/
inductive Call where
  | credx_get_current_error
  | credx_string_free (s : Option String)
  | credx_object_free (h : ObjectHandle)
  | credx_revoke_credential (regDef reg : ObjectHandle) (credRevIdx : Int) (tailsPath : String)
  | credx_update_revocation_registry (regDef reg : ObjectHandle)
      (issued revoked : FfiListI64) (tailsPath : String)
  | credx_merge_revocation_registry_deltas (delta1 delta2 : ObjectHandle)
  | credx_revocation_registry_definition_get_attribute (h : ObjectHandle) (name : String)
  | credx_create_or_update_revocation_state (regDef regDelta : ObjectHandle)
      (regIdx timestamp : Int) (tailsPath : String) (revState : ObjectHandle)
  | credx_create_presentation (presReq : ObjectHandle)
      (credentials : FfiList FfiCredentialEntry) (credentialsProve : FfiList FfiCredentialProve)
      (selfAttestNames selfAttestValues : FfiStrList) (masterSecret : ObjectHandle)
      (schemas credDefs : FfiListObjectHandle)
  | credx_verify_presentation (presentation presReq : ObjectHandle)
      (schemas credDefs revRegDefs : FfiListObjectHandle)
      (revRegEntries : FfiList FfiRevocationEntry)
  | credx_buffer_free (buffer : ByteBuffer)
  | credx_object_get_json (h : ObjectHandle)
  | credx_schema_from_json (json : ByteBuffer)
  | credx_credential_definition_from_json (json : ByteBuffer)
  | credx_credential_definition_private_from_json (json : ByteBuffer)
  | credx_key_correctness_proof_from_json (json : ByteBuffer)
  | credx_credential_offer_from_json (json : ByteBuffer)
  | credx_credential_request_from_json (json : ByteBuffer)
  | credx_credential_request_metadata_from_json (json : ByteBuffer)
  | credx_credential_from_json (json : ByteBuffer)
  | credx_master_secret_from_json (json : ByteBuffer)
  | credx_presentation_from_json (json : ByteBuffer)
  | credx_presentation_request_from_json (json : ByteBuffer)
  | credx_revocation_registry_definition_from_json (json : ByteBuffer)
  | credx_revocation_registry_definition_private_from_json (json : ByteBuffer)
  | credx_revocation_registry_from_json (json : ByteBuffer)
  | credx_revocation_registry_delta_from_json (json : ByteBuffer)
  | credx_create_credential (credDef credDefPvt credOffer credRequest : ObjectHandle)
      (attrNames attrRawValues attrEnc : FfiStrList)
      (revocation : FfiCredentialRevocationInfo)
  | credx_generate_nonce
  | credx_create_schema (originDid schemaName schemaVersion : String) (attrNames : FfiStrList)
      (seqNo : Int)
  | credx_schema_get_attribute (h : ObjectHandle) (name : String)
  | credx_create_credential_definition (originDid : String) (schema : ObjectHandle)
      (tag signatureType : String) (supportRevocation : Int)
  | credx_credential_definition_get_attribute (h : ObjectHandle) (name : String)
  | credx_create_credential_offer (schemaId : String) (credDef keyProof : ObjectHandle)
  | credx_create_credential_request (proverDid : String) (credDef masterSecret : ObjectHandle)
      (masterSecretId : String) (credOffer : ObjectHandle)
  | credx_create_master_secret
  | credx_process_credential (cred credReqMetadata masterSecret credDef revRegDef : ObjectHandle)
  | credx_credential_get_attribute (h : ObjectHandle) (name : String)
  | credx_create_revocation_registry (originDid : String) (credDef : ObjectHandle)
      (tag revRegType : String) (issuanceType : Option String) (maxCredNum : Int)
      (tailsDirPath : Option String)
deriving DecidableEq, Repr

/-- What an engine call hands back: the return code and the values it wrote to the
out-parameters.  An out-parameter the engine did not write keeps the zero value the
Go variable was declared with (`0` for a handle or an `int8`, `nil` for a `*C.char`, the
buffer it held for a `ByteBuffer`). -/
structure Reply where
  code : ErrorCode
  handles : List ObjectHandle := []
  str : Option String := none
  flag : Option Int := none
  buffer : Option ByteBuffer := none
deriving DecidableEq, Repr

/-- The value of the `i`-th handle out-parameter after the call. -/
def Reply.handle (r : Reply) (i : Nat) : ObjectHandle := r.handles.getD i 0

/-- The engine library: a transition function on its own state. -/
abbrev Engine (σ : Type) := σ → Call → Reply × σ

/-! ## The Go side -/

/-- The state a Go function runs in. -/
structure World (σ : Type) where
  engine : σ
  heap : List Object := []
  finalizers : List Nat := []
  trace : List Call := []

/-- How a run ends: with a return, in a panic, in a fatal error of the Go runtime, or
outside defined behaviour.  `undefined` marks the point where the run writes outside a block
of C memory: from there on neither Go nor C says what the program does (with glibc it may
abort in a later call of the allocator, fault, or go on with clobbered memory), and the
model follows the run no further. -/
inductive Outcome (α : Type) where
  | ret (a : α)
  | panic (msg : String)
  | fatal (msg : String)
  | undefined (msg : String)
deriving DecidableEq, Repr

/-- A Go computation. -/
def Go (σ α : Type) : Type := World σ → Outcome α × World σ

/-- Normal return of a value. -/
def Go.pure {σ α : Type} (a : α) : Go σ α := fun w => (.ret a, w)

/-- Sequencing: a panic, a fatal error or undefined behaviour of the first part ends the
run. -/
def Go.bind {σ α β : Type} (m : Go σ α) (f : α → Go σ β) : Go σ β := fun w =>
  match m w with
  | (.ret a, w1) => f a w1
  | (.panic msg, w1) => (.panic msg, w1)
  | (.fatal msg, w1) => (.fatal msg, w1)
  | (.undefined msg, w1) => (.undefined msg, w1)

instance {σ : Type} : Monad (Go σ) where
  pure := Go.pure
  bind := Go.bind

/-- The struct a pointer refers to in a world, if any. -/
def World.lookup {σ : Type} (w : World σ) (p : Ptr) : Option Object :=
  match p with
  | none => none
  | some a => w.heap[a]?

/-- The text of the run-time panic raised by a nil dereference. -/
def nilDeref : String := "runtime error: invalid memory address or nil pointer dereference"

/-- Read the struct a pointer refers to (`p.handle`, `*p`). -/
def deref {σ : Type} (p : Ptr) : Go σ Object := fun w =>
  match p with
  | none => (.panic nilDeref, w)
  | some a =>
    match w.heap[a]? with
    | some o => (.ret o, w)
    | none => (.panic nilDeref, w)

/-- Assignment `p.handle = h`. -/
def setHandle {σ : Type} (p : Ptr) (h : ObjectHandle) : Go σ Unit := fun w =>
  match p with
  | none => (.panic nilDeref, w)
  | some a =>
    match w.heap[a]? with
    | some o => (.ret (), { w with heap := w.heap.set a { o with handle := h } })
    | none => (.panic nilDeref, w)

/-- Assignment `p.isClosed = b`. -/
def setClosed {σ : Type} (p : Ptr) (b : Bool) : Go σ Unit := fun w =>
  match p with
  | none => (.panic nilDeref, w)
  | some a =>
    match w.heap[a]? with
    | some o => (.ret (), { w with heap := w.heap.set a { o with isClosed := b } })
    | none => (.panic nilDeref, w)

/-- Allocation `&T{...}`: a fresh cell at the end of the heap. -/
def alloc {σ : Type} (o : Object) : Go σ Ptr := fun w =>
  (.ret (some w.heap.length), { w with heap := w.heap ++ [o] })

/-- A call through cgo: the engine answers and moves to its next state; the call is logged. -/
def ffi {σ : Type} (eng : Engine σ) (c : Call) : Go σ Reply := fun w =>
  ((.ret (eng w.engine c).1), { w with engine := (eng w.engine c).2, trace := w.trace ++ [c] })

/-- Go runtime, `runtime.SetFinalizer(obj, finalizer)` for a finalizer that is a
one-argument function: `objTy` is the static type of `obj`, `argTy` the type of the
finalizer's parameter.  The runtime requires `obj` to be a non-nil pointer and the
parameter type to accept it; otherwise it throws, which ends the program.  For the named
struct types of this package and the pointers to them, the parameter accepts the object
exactly when its type is the type of the object. -/
def runtime.SetFinalizer {σ : Type} (obj : Ptr) (objTy argTy : GoType) : Go σ Unit := fun w =>
  match objTy, obj with
  | .ptr _, some a =>
    if argTy = objTy then (.ret (), { w with finalizers := w.finalizers ++ [a] })
    else (.fatal "runtime.SetFinalizer: cannot pass object to finalizer", w)
  | .ptr _, none => (.fatal "runtime.SetFinalizer: nil pointer", w)
  | .named _, _ => (.fatal "runtime.SetFinalizer: first argument is not pointer", w)

/-- `C.CString(s)`: a fresh C block that holds the bytes of `s` followed by a NUL byte.
The model keeps the bytes of `s`; what a reader on the C side takes the block for is
`C.strOf`. -/
def C.CString (s : String) : String := s

/-- The NUL byte that ends a C string. -/
def C.NUL : Char := Char.ofNat 0

/-- The C string at a `*C.char` that points to a block of `C.CString`, as the engine reads
it: the bytes before the first NUL byte (the terminator, or a NUL byte of the Go string
itself). -/
def C.strOf (block : String) : String := ⟨block.data.takeWhile fun ch => ch != C.NUL⟩

/-- `C.GoString(p)`: the Go string of a C string; the empty string for a null pointer. -/
def C.GoString (p : Option String) : String := p.getD ""

/-- The conversion `(C.int)(n)` of a `C.uintptr_t`: the low 32 bits, read as a signed
number. -/
def C.int (n : Nat) : Int :=
  if n % 2 ^ 32 < 2 ^ 31 then ((n % 2 ^ 32 : Nat) : Int)
  else ((n % 2 ^ 32 : Nat) : Int) - 2 ^ 32

/-- `C.GoBytes(p, n)`: a Go copy of the first `n` bytes at `p`; the runtime panics when `n`
is negative.  `value` is the block at `p`; what lies behind the block is not modelled. -/
def C.GoBytes {σ : Type} (value : List Nat) (n : Int) : Go σ RawMessage := fun w =>
  if n < 0 then (.panic "runtime error: gobytes: length out of range", w)
  else (.ret (value.take n.toNat), w)

/-- `fmt` verb `%d` applied to an integer. -/
def fmtD (n : Int) : String := toString n

/-- A run-time panic. -/
def panic {σ α : Type} (msg : String) : Go σ α := fun w => (.panic msg, w)

/-- The statement `defer deferred` at the top of a function with the given body: the
deferred call runs when the body returns or panics (not after a fatal runtime error, and
the model does not follow a run past undefined behaviour). -/
def Go.defer {σ α : Type} (deferred : Go σ Unit) (body : Go σ α) : Go σ α := fun w =>
  match body w with
  | (.fatal msg, w1) => (.fatal msg, w1)
  | (.undefined msg, w1) => (.undefined msg, w1)
  | (.ret a, w1) =>
    match deferred w1 with
    | (.ret _, w2) => (.ret a, w2)
    | (.panic msg, w2) => (.panic msg, w2)
    | (.fatal msg, w2) => (.fatal msg, w2)
    | (.undefined msg, w2) => (.undefined msg, w2)
  | (.panic msg, w1) =>
    match deferred w1 with
    | (.ret _, w2) => (.panic msg, w2)
    | (.panic msg2, w2) => (.panic msg2, w2)
    | (.fatal msg2, w2) => (.fatal msg2, w2)
    | (.undefined msg2, w2) => (.undefined msg2, w2)

/-- Length of the array view `(*[1 << 30]T)(cArray)` through which lists are written. -/
def viewLen : Nat := 1 <<< 30

/-- The element types of the arrays the list marshalers of common.go write through
(`(*[1 << 30]T)(cArray)`). -/
inductive CElem where
  | int64_t
  | charPtr
  | ulong
  | FfiCredentialEntry
  | FfiCredentialProve
  | FfiRevocationEntry
deriving DecidableEq, Repr

/-- The size in bytes of one array element under cgo on a 64-bit platform (LP64):
`C.int64_t`, `*C.char` and `C.ulong` take 8 bytes; `C.FfiCredentialEntry`
(`ulong`, `int64_t`, `ulong`), `C.FfiCredentialProve` (`int64_t`, `*char`, `int8_t`,
`int8_t`, padded) and `C.FfiRevocationEntry` (`int64_t`, `ulong`, `int64_t`) take 24. -/
def CElem.size : CElem → Nat
  | .int64_t => 8
  | .charPtr => 8
  | .ulong => 8
  | .FfiCredentialEntry => 24
  | .FfiCredentialProve => 24
  | .FfiRevocationEntry => 24

/-- `C.malloc(n)`: a fresh block of C memory, of which the model keeps the number of bytes
that may be written.  The allocator hands out chunks, not byte counts: with glibc on a
64-bit platform the chunk is the request plus an 8-byte header, rounded up to a multiple
of 16 and to at least 32 bytes, and the bytes behind the header belong to the block (24
bytes for every request up to 24).  Right behind the block lies the header of the next
chunk.  (A request of 128 KiB or more is served by a mapping of its own, whose room ends
at a page boundary at most 4096 bytes further on; the model keeps the formula of the heap
chunks for it.  Elements take at least 8 bytes each, so in both cases a list fits the block
asked for its length exactly when it has at most three 8-byte elements or one 24-byte
element.) -/
def C.malloc (n : Nat) : Nat := max 32 ((n + 8 + 15) / 16 * 16) - 8

/-- What is wrong with a store behind the end of a block. -/
def heapOverflow : String := "write outside the block returned by C.malloc"

/-- The run leaves defined behaviour. -/
def undefinedBehaviour {σ α : Type} (msg : String) : Go σ α := fun w => (.undefined msg, w)

/-- The loop `for index, item := range list { a[index] = conv(item) }` from position
`index` on, where `a` views a block of `room` bytes as an array of elements of type `elem`:
the converted elements in index order.  The right-hand side is computed, then the store is
bounds-checked against the array view (not against the block), then the element is
written; a store that reaches behind the end of the block overwrites what lies there. -/
def rangeWrite {σ α β : Type} (elem : CElem) (room : Nat) (conv : α → Go σ β) :
    Nat → List α → Go σ (List β)
  | _, [] => pure []
  | index, item :: rest => do
    let v ← conv item
    if index < viewLen then
      if (index + 1) * elem.size ≤ room then
        let vs ← rangeWrite elem room conv (index + 1) rest
        return v :: vs
      else
        undefinedBehaviour heapOverflow
    else
      panic "runtime error: index out of range"

/-! ## common.go -/

/-- `CloseStrBuffer(buffer)`: `C.credx_string_free(buffer)`. -/
def CloseStrBuffer {σ : Type} (eng : Engine σ) (buffer : Option String) : Go σ Unit := do
  let _ ← ffi eng (.credx_string_free buffer)
  return ()

/-- `handleLibError(context)`: asks the engine for its current error and builds the Go
error.  The deferred `CloseStrBuffer(cArray)` has its argument evaluated at the `defer`
statement, where `cArray` is still nil. -/
def handleLibError {σ : Type} (eng : Engine σ) (context : String) : Go σ GoError :=
  Go.defer (CloseStrBuffer eng none) do
    let rep ← ffi eng .credx_get_current_error
    let cArray := rep.str
    if rep.code ≠ 0 then
      return some context
    else
      let goArray := C.GoString cArray
      return some (context ++ ". The following error was encountered: " ++ goArray)

/-- `NewByteBuffer(len)`: a block of `len` bytes from `C.malloc`.  Its contents are not
specified; the model fills it with zero bytes. -/
def NewByteBuffer (len : Nat) : ByteBuffer :=
  { len := len, value := List.replicate len 0 }

/-- `ByteBufferFromRawMessage(json)`: the length of the slice and the address of its first
element.  The index expression `json[0]` is bounds-checked. -/
def ByteBufferFromRawMessage {σ : Type} (json : RawMessage) : Go σ ByteBuffer :=
  match json with
  | [] => panic "runtime error: index out of range [0] with length 0"
  | _ :: _ => pure { len := json.length, value := json }

/-- `func (b ByteBuffer) Close()`: `C.credx_buffer_free(b)`. -/
def ByteBuffer.Close {σ : Type} (eng : Engine σ) (b : ByteBuffer) : Go σ Unit := do
  let _ ← ffi eng (.credx_buffer_free b)
  return ()

/-- A value of the interface `IndyObject` as `genericToJSON` uses it: the method
`getHandle` of the value inside, and the text `reflect.TypeOf(indyObject).String()`. -/
structure IndyObject (σ : Type) where
  getHandle : Go σ ObjectHandle
  typeName : String

/-- `genericToJSON(indyObject)`.  The deferred `buf.Close()` has its receiver evaluated at
the `defer` statement: it is the buffer of `NewByteBuffer(4096)`.  The engine writes its
own buffer to `&buf`. -/
def genericToJSON {σ : Type} (eng : Engine σ) (indyObject : IndyObject σ) :
    Go σ (RawMessage × GoError) :=
  let buf := NewByteBuffer 4096
  Go.defer (ByteBuffer.Close eng buf) do
    let handle ← indyObject.getHandle
    let rep ← ffi eng (.credx_object_get_json handle)
    let buf := rep.buffer.getD buf
    if rep.code ≠ 0 then
      let objectType := indyObject.typeName
      let context := "Couldn't get " ++ objectType ++ " as json, received code " ++
        fmtD rep.code
      let err ← handleLibError eng context
      return ([], err)
    else
      let credOffer ← C.GoBytes buf.value (C.int buf.len)
      return (credOffer, none)

/-- `NewFfiI64(list)`: `C.malloc(C.size_t(len(list)))`, then `a[index] = C.int64_t(item)`
for every element. -/
def NewFfiI64 {σ : Type} (list : List Int) : Go σ FfiListI64 := do
  let data ← rangeWrite .int64_t (C.malloc list.length) (fun item => pure item) 0 list
  return { count := list.length, requested := list.length, data := data }

/-- `NewFfiStrList(list)`: `C.malloc(C.size_t(len(list)))`, then `a[index] = C.CString(item)`. -/
def NewFfiStrList {σ : Type} (list : List String) : Go σ FfiStrList := do
  let data ← rangeWrite .charPtr (C.malloc list.length) (fun item => pure (C.CString item)) 0
    list
  return { count := list.length, requested := list.length, data := data }

/-- `NewFfiListObjectHandle(list)`: `C.malloc(C.size_t(len(list)))`, then
`a[index] = (C.ulong)(item)`. -/
def NewFfiListObjectHandle {σ : Type} (list : List ObjectHandle) : Go σ FfiListObjectHandle := do
  let data ← rangeWrite .ulong (C.malloc list.length) (fun item => pure item) 0 list
  return { count := list.length, requested := list.length, data := data }

/-! ## revocation_registry.go -/

/-- The type `*RevocationRegistryDelta`. -/
def tyDeltaPtr : GoType := .ptr (.named "RevocationRegistryDelta")

/-- The type `RevocationRegistryDelta`. -/
def tyDelta : GoType := .named "RevocationRegistryDelta"

/-- `func (s *RevocationRegistry) RevokeCredential(revRegDefinition, credRevIndex, tailsPath)`:
returns `(*RevocationRegistryDelta, error)`. -/
def RevocationRegistry.RevokeCredential {σ : Type} (eng : Engine σ) (s : Ptr)
    (revRegDefinition : Ptr) (credRevIndex : Int) (tailsPath : String) :
    Go σ (Ptr × GoError) := do
  let cTailsPath := C.CString tailsPath
  let def_ ← deref revRegDefinition
  let self ← deref s
  let rep ← ffi eng (.credx_revoke_credential def_.handle self.handle credRevIndex cTailsPath)
  let regEntryHandle := rep.handle 0
  let regDeltaHandle := rep.handle 1
  if rep.code ≠ 0 then
    let context := "Couldn't update revocation registry, received code " ++ fmtD rep.code
    let err ← handleLibError eng context
    return (none, err)
  else
    setHandle s regEntryHandle
    let revRegDelta ← alloc { handle := regDeltaHandle }
    runtime.SetFinalizer revRegDelta tyDeltaPtr tyDeltaPtr
    return (revRegDelta, none)

/-- `func (s *RevocationRegistry) Update(revRegDefinition, issued, revoked, tailsPath)`:
returns `(*RevocationRegistryDelta, error)`.  The finalizer passed to
`runtime.SetFinalizer` is `func(revocationRegistryDelta RevocationRegistryDelta)`. -/
def RevocationRegistry.Update {σ : Type} (eng : Engine σ) (s : Ptr)
    (revRegDefinition : Ptr) (issued revoked : List Int) (tailsPath : String) :
    Go σ (Ptr × GoError) := do
  let cIssued ← NewFfiI64 issued
  let cRevoked ← NewFfiI64 revoked
  let cTailsPath := C.CString tailsPath
  let def_ ← deref revRegDefinition
  let self ← deref s
  let rep ← ffi eng
    (.credx_update_revocation_registry def_.handle self.handle cIssued cRevoked cTailsPath)
  let regDeltaHandle := rep.handle 1
  if rep.code ≠ 0 then
    let context := "Couldn't update revocation registry, received code " ++ fmtD rep.code
    let err ← handleLibError eng context
    return (none, err)
  else
    let revocationRegistryDelta ← alloc { handle := regDeltaHandle }
    runtime.SetFinalizer revocationRegistryDelta tyDeltaPtr tyDelta
    return (revocationRegistryDelta, none)

/-- `func (s *RevocationRegistryDelta) UpdateWith(delta RevocationRegistryDelta)`: returns
`(*RevocationRegistryDelta, error)`.  The argument is a struct value, the receiver a
pointer.  The finalizer passed to `runtime.SetFinalizer` is
`func(revocationRegistryDelta RevocationRegistryDelta)`. -/
def RevocationRegistryDelta.UpdateWith {σ : Type} (eng : Engine σ) (s : Ptr)
    (delta : RevocationRegistryDelta) : Go σ (Ptr × GoError) := do
  let self ← deref s
  let rep ← ffi eng (.credx_merge_revocation_registry_deltas self.handle delta.handle)
  let updatedDelta := rep.handle 0
  if rep.code ≠ 0 then
    let context := "Couldn't update delta, recevied code " ++ fmtD rep.code ++ "."
    let err ← handleLibError eng context
    return (none, err)
  else
    let revocationRegistryDelta ← alloc { handle := updatedDelta }
    runtime.SetFinalizer revocationRegistryDelta tyDeltaPtr tyDelta
    return (revocationRegistryDelta, none)

/-- `func (s *RevocationRegistryDefinition) getAttr(attrName string) (string, error)`. -/
def RevocationRegistryDefinition.getAttr {σ : Type} (eng : Engine σ) (s : Ptr)
    (attrName : String) : Go σ (String × GoError) :=
  Go.defer (CloseStrBuffer eng none) do
    let cAttrName := C.CString attrName
    let self ← deref s
    let rep ← ffi eng (.credx_revocation_registry_definition_get_attribute self.handle cAttrName)
    let cArray := rep.str
    if rep.code ≠ 0 then
      let context := "Couldn't get attribute " ++ attrName ++ ", received code " ++ fmtD rep.code
      let err ← handleLibError eng context
      return ("", err)
    else
      let goString := C.GoString cArray
      return (goString, none)

/-- `func (s *RevocationRegistryDefinition) GetTailsLocation() (string, error)`. -/
def RevocationRegistryDefinition.GetTailsLocation {σ : Type} (eng : Engine σ) (s : Ptr) :
    Go σ (String × GoError) :=
  RevocationRegistryDefinition.getAttr eng s "tails_location"

/-- `type CredentialRevocationInfo struct` (revocation_registry.go). -/
structure CredentialRevocationInfo where
  registryDefinition : Ptr
  regDefinitionPrivate : Ptr
  regEntry : Ptr
  regIdx : Int
  regUsed : List Int
  tailsPath : String
deriving DecidableEq, Repr

/-- `func (c *CredentialRevocationInfo) ToC() *FfiCredentialRevocationInfo`
(revocation_registry.go).  The receiver is a pointer to a struct the method only reads:
`none` is nil.  The result is a pointer to a new struct that is handed to the engine
and to nothing else, so the model returns the struct. -/
def CredentialRevocationInfo.ToC {σ : Type} (c : Option CredentialRevocationInfo) :
    Go σ FfiCredentialRevocationInfo := do
  let self ← match c with
    | some info => pure info
    | none => panic nilDeref
  let cRegUsed ← NewFfiI64 self.regUsed
  let cTailsPath := C.CString self.tailsPath
  let registryDefinition ← deref self.registryDefinition
  let regDefinitionPrivate ← deref self.regDefinitionPrivate
  let regEntry ← deref self.regEntry
  return { reg_def := registryDefinition.handle,
           reg_def_private := regDefinitionPrivate.handle,
           registry := regEntry.handle,
           reg_idx := self.regIdx,
           reg_used := cRegUsed,
           tails_path := cTailsPath }

/-! ## credential.go -/

/-- The type `*CredentialRevocationState`. -/
def tyRevStatePtr : GoType := .ptr (.named "CredentialRevocationState")

/-- `func NewCredential(credDef, credDefPvt, credOffer, credRequest,
credentialRevocationInfo, attrNames, attrValues, attrEncoded)`: returns
`(*Credential, *RevocationRegistry, *RevocationRegistryDelta, error)`. -/
def NewCredential {σ : Type} (eng : Engine σ) (credDef credDefPvt credOffer credRequest : Ptr)
    (credentialRevocationInfo : Option CredentialRevocationInfo)
    (attrNames attrValues attrEncoded : List String) :
    Go σ (Ptr × Ptr × Ptr × GoError) := do
  let cAttrNames ← NewFfiStrList attrNames
  let cAttrRawValues ← NewFfiStrList attrValues
  let cAttrEnc ← NewFfiStrList attrEncoded
  let cCredRevInfo ← CredentialRevocationInfo.ToC credentialRevocationInfo
  let credDef_ ← deref credDef
  let credDefPvt_ ← deref credDefPvt
  let credOffer_ ← deref credOffer
  let credRequest_ ← deref credRequest
  let rep ← ffi eng (.credx_create_credential credDef_.handle credDefPvt_.handle
    credOffer_.handle credRequest_.handle cAttrNames cAttrRawValues cAttrEnc cCredRevInfo)
  let credHandle := rep.handle 0
  let revRegHandle := rep.handle 1
  let revDeltaHandle := rep.handle 2
  if rep.code ≠ 0 then
    let context := "couldn't create credential, received code " ++ fmtD rep.code
    let err ← handleLibError eng context
    return (none, none, none, err)
  else
    let credential ← alloc { handle := credHandle }
    let revReg ← alloc { handle := revRegHandle }
    let revDelta ← alloc { handle := revDeltaHandle }
    runtime.SetFinalizer credential (.ptr (.named "Credential")) (.ptr (.named "Credential"))
    runtime.SetFinalizer revReg (.ptr (.named "RevocationRegistry"))
      (.ptr (.named "RevocationRegistry"))
    runtime.SetFinalizer revDelta tyDeltaPtr tyDeltaPtr
    return (credential, revReg, revDelta, none)

/-- `func NewCredentialRevocationState(registryDef, registryDelta, credRevInfo, timestamp)`:
returns `(*CredentialRevocationState, error)`.  The argument `credRevInfo` is a pointer to
a struct the function only reads: `none` is nil. -/
def NewCredentialRevocationState {σ : Type} (eng : Engine σ) (registryDef registryDelta : Ptr)
    (credRevInfo : Option CredentialRevocationInfo) (timestamp : Int) :
    Go σ (Ptr × GoError) := do
  let (tails, tailsErr) ← RevocationRegistryDefinition.GetTailsLocation eng registryDef
  if tailsErr ≠ none then
    return (none, tailsErr)
  else
    let def_ ← deref registryDef
    let delta ← deref registryDelta
    let info ← match credRevInfo with
      | some info => pure info
      | none => panic nilDeref
    let rep ← ffi eng (.credx_create_or_update_revocation_state def_.handle delta.handle
      info.regIdx timestamp (C.CString tails) 0)
    let handle := rep.handle 0
    if rep.code ≠ 0 then
      let context :=
        "Couldn't create credential revocation state, received code " ++ fmtD rep.code
      let err ← handleLibError eng context
      return (none, err)
    else
      let credRevState ← alloc { handle := handle }
      runtime.SetFinalizer credRevState tyRevStatePtr tyRevStatePtr
      return (credRevState, none)

/-- `func (p *CredentialRevocationState) Update(definition, delta, revRegIndex, timestamp,
tailsPath)`: returns `(*CredentialRevocationState, error)`. -/
def CredentialRevocationState.Update {σ : Type} (eng : Engine σ) (p : Ptr)
    (definition delta : Ptr) (revRegIndex timestamp : Int) (tailsPath : String) :
    Go σ (Ptr × GoError) := do
  let def_ ← deref definition
  let dlt ← deref delta
  let cTailsPath := C.CString tailsPath
  let self ← deref p
  let rep ← ffi eng (.credx_create_or_update_revocation_state def_.handle dlt.handle
    revRegIndex timestamp cTailsPath self.handle)
  let handle := rep.handle 0
  if rep.code ≠ 0 then
    let context :=
      "Couldn't create credential revocation state, received code " ++ fmtD rep.code
    let err ← handleLibError eng context
    return (none, err)
  else
    let credRevState ← alloc { handle := handle }
    runtime.SetFinalizer credRevState tyRevStatePtr tyRevStatePtr
    return (credRevState, none)

/-! ## presentation.go -/

/-- `type CredentialEntry struct`. -/
structure CredentialEntry where
  credential : Ptr
  timestamp : Int
  revState : Ptr
deriving DecidableEq, Repr

/-- `func (c *CredentialEntry) ToC() FfiCredentialEntry`. -/
def CredentialEntry.ToC {σ : Type} (c : CredentialEntry) : Go σ FfiCredentialEntry := do
  let credential ← deref c.credential
  let revState ← deref c.revState
  return { credential := credential.handle, timestamp := c.timestamp,
           rev_state := revState.handle }

/-- `type CredentialProve struct`. -/
structure CredentialProve where
  entryIndex : Int
  referent : String
  isPredicate : Bool
  reveal : Bool
deriving DecidableEq, Repr

/-- `func (c CredentialProve) ToC() FfiCredentialProve`. -/
def CredentialProve.ToC (c : CredentialProve) : FfiCredentialProve :=
  let cIsPredicate : Int := if c.isPredicate then 1 else 0
  let cReveal : Int := if c.reveal then 1 else 0
  { entry_idx := c.entryIndex, referent := C.CString c.referent,
    is_predicate := cIsPredicate, reveal := cReveal }

/-- `type RevocationEntry struct`. -/
structure RevocationEntry where
  defEntryIndex : Int
  revReg : Ptr
  timestamp : Int
deriving DecidableEq, Repr

/-- `func (r RevocationEntry) ToC() FfiRevocationEntry`. -/
def RevocationEntry.ToC {σ : Type} (r : RevocationEntry) : Go σ FfiRevocationEntry := do
  let revReg ← deref r.revReg
  return { def_entry_idx := r.defEntryIndex, entry := revReg.handle, timestamp := r.timestamp }

/-- `NewFfiListFfiCredentialEntry(list)` (common.go): `C.malloc(C.size_t(len(list)))`, then
`a[index] = item.ToC()`. -/
def NewFfiListFfiCredentialEntry {σ : Type} (list : List CredentialEntry) :
    Go σ (FfiList FfiCredentialEntry) := do
  let data ← rangeWrite .FfiCredentialEntry (C.malloc list.length)
    (fun item => CredentialEntry.ToC item) 0 list
  return { count := list.length, requested := list.length, data := data }

/-- `NewFfiListFfiCredentialProve(list)` (common.go). -/
def NewFfiListFfiCredentialProve {σ : Type} (list : List CredentialProve) :
    Go σ (FfiList FfiCredentialProve) := do
  let data ← rangeWrite .FfiCredentialProve (C.malloc list.length)
    (fun item => pure (CredentialProve.ToC item)) 0 list
  return { count := list.length, requested := list.length, data := data }

/-- `NewFfiListFfiRevocationEntry(list)` (common.go). -/
def NewFfiListFfiRevocationEntry {σ : Type} (list : List RevocationEntry) :
    Go σ (FfiList FfiRevocationEntry) := do
  let data ← rangeWrite .FfiRevocationEntry (C.malloc list.length)
    (fun item => RevocationEntry.ToC item) 0 list
  return { count := list.length, requested := list.length, data := data }

/-- The type `*Presentation`. -/
def tyPresentationPtr : GoType := .ptr (.named "Presentation")

/-- `func NewPresentation(presentationRequest, credEntries, credProves,
selfAttestedAttrNames, selfAttestedAttrValues, masterSecret, schemas, credDefs)`:
returns `(*Presentation, error)`. -/
def NewPresentation {σ : Type} (eng : Engine σ) (presentationRequest : Ptr)
    (credEntries : List CredentialEntry) (credProves : List CredentialProve)
    (selfAttestedAttrNames selfAttestedAttrValues : List String) (masterSecret : Ptr)
    (schemas : List Schema) (credDefs : List CredentialDefinition) :
    Go σ (Ptr × GoError) := do
  let schemaHandles := schemas.map fun schema => schema.handle
  let credDefHandles := credDefs.map fun credDef => credDef.handle
  let cCredEntries ← NewFfiListFfiCredentialEntry credEntries
  let cCredProves ← NewFfiListFfiCredentialProve credProves
  let cSelfAttestedAttrNames ← NewFfiStrList selfAttestedAttrNames
  let cSelfAttestedAttrValues ← NewFfiStrList selfAttestedAttrValues
  let cSchemaHandles ← NewFfiListObjectHandle schemaHandles
  let cCredDefHandles ← NewFfiListObjectHandle credDefHandles
  let req ← deref presentationRequest
  let secret ← deref masterSecret
  let rep ← ffi eng (.credx_create_presentation req.handle cCredEntries cCredProves
    cSelfAttestedAttrNames cSelfAttestedAttrValues secret.handle cSchemaHandles cCredDefHandles)
  let handle := rep.handle 0
  if rep.code ≠ 0 then
    let context := "Couldn't create presentation, received code " ++ fmtD rep.code
    let err ← handleLibError eng context
    return (none, err)
  else
    let presentation ← alloc { handle := handle }
    runtime.SetFinalizer presentation tyPresentationPtr tyPresentationPtr
    return (presentation, none)

/-- `func (c *Presentation) Verify(presReq, schemas, credDefs, regs, revEntries)`:
returns `(bool, error)`. -/
def Presentation.Verify {σ : Type} (eng : Engine σ) (c : Ptr) (presReq : Ptr)
    (schemas : List Schema) (credDefs : List CredentialDefinition)
    (regs : List RevocationRegistryDefinition) (revEntries : List RevocationEntry) :
    Go σ (Bool × GoError) := do
  let schemaHandles := schemas.map fun schema => schema.handle
  let credDefHandles := credDefs.map fun credDef => credDef.handle
  let regDefHandles := regs.map fun regDef => regDef.handle
  let cSchemaHandles ← NewFfiListObjectHandle schemaHandles
  let cCredDefHandles ← NewFfiListObjectHandle credDefHandles
  let cRegDefHandles ← NewFfiListObjectHandle regDefHandles
  let cRevEntries ← NewFfiListFfiRevocationEntry revEntries
  let self ← deref c
  let req ← deref presReq
  let rep ← ffi eng (.credx_verify_presentation self.handle req.handle cSchemaHandles
    cCredDefHandles cRegDefHandles cRevEntries)
  let result := rep.flag.getD 0
  if rep.code ≠ 0 then
    let context := "Couldn't verify presentation, received code " ++ fmtD rep.code
    let err ← handleLibError eng context
    return (false, err)
  else
    return (decide (result ≠ 0), none)

/-! ## The constructors and attribute getters of the other files -/

/-- `len(s)` of a Go string: the number of its bytes. -/
def len (s : String) : Nat := s.utf8ByteSize

/-- `func (b FfiStrList) Close()` (common.go): `C.free(unsafe.Pointer(b.data))`, which
touches neither the Go heap nor the engine. -/
def FfiStrList.Close {σ : Type} (_b : FfiStrList) : Go σ Unit := pure ()

/-- `func GenerateNonce() (*string, error)` (common.go).  The deferred
`CloseStrBuffer(cArray)` has its argument evaluated at the `defer` statement, where
`cArray` is still nil.  The result `&goArray` is a pointer to a string nothing else
refers to: `none` is nil. -/
def GenerateNonce {σ : Type} (eng : Engine σ) : Go σ (Option String × GoError) :=
  Go.defer (CloseStrBuffer eng none) do
    let rep ← ffi eng .credx_generate_nonce
    let cArray := rep.str
    if rep.code ≠ 0 then
      let context := "Couldn't encode raw attributes, received code " ++ fmtD rep.code
      let err ← handleLibError eng context
      return (none, err)
    else
      let goArray := C.GoString cArray
      return (some goArray, none)

/-- `func NewSchema(originDid, schemaName, schemaVersion, attrs, seqNo)` (schema.go):
returns `(*Schema, error)`. -/
def NewSchema {σ : Type} (eng : Engine σ) (originDid schemaName schemaVersion : String)
    (attrs : List String) (seqNo : Int) : Go σ (Ptr × GoError) := do
  let cDid := C.CString originDid
  let cSchemaName := C.CString schemaName
  let cSchemaVersion := C.CString schemaVersion
  let cSeqNo := seqNo
  let cAttrs ← NewFfiStrList attrs
  Go.defer (FfiStrList.Close cAttrs) do
    let rep ← ffi eng (.credx_create_schema cDid cSchemaName cSchemaVersion cAttrs cSeqNo)
    let handle := rep.handle 0
    if rep.code ≠ 0 then
      let context := "Couldn't create Schema, received code " ++ fmtD rep.code
      let err ← handleLibError eng context
      return (none, err)
    else
      let schema ← alloc { handle := handle }
      runtime.SetFinalizer schema (.ptr (.named "Schema")) (.ptr (.named "Schema"))
      return (schema, none)

/-- `func (s *Schema) getSchemaAttribute(attr string) (string, error)` (schema.go). -/
def Schema.getSchemaAttribute {σ : Type} (eng : Engine σ) (s : Ptr) (attr : String) :
    Go σ (String × GoError) :=
  Go.defer (CloseStrBuffer eng none) do
    let self ← deref s
    let rep ← ffi eng (.credx_schema_get_attribute self.handle (C.CString attr))
    let cArray := rep.str
    if rep.code ≠ 0 then
      let context := "Couldn't get schema attributes, received code " ++ fmtD rep.code
      let err ← handleLibError eng context
      return ("", err)
    else
      let goArray := C.GoString cArray
      return (goArray, none)

/-- `func (s *Schema) GetID() (string, error)` (schema.go). -/
def Schema.GetID {σ : Type} (eng : Engine σ) (s : Ptr) : Go σ (String × GoError) :=
  Schema.getSchemaAttribute eng s "id"

/-- `func NewCredentialDefinition(originDid, schema, tag, signatureType,
supportRevocation)` (credential_definition.go): returns `(*CredentialDefinition,
*CredentialDefinitionPrivate, *KeyCorrectnessProof, error)`. -/
def NewCredentialDefinition {σ : Type} (eng : Engine σ) (originDid : String) (schema : Ptr)
    (tag signatureType : String) (supportRevocation : Bool) :
    Go σ (Ptr × Ptr × Ptr × GoError) := do
  let cDid := C.CString originDid
  let cTag := C.CString tag
  let cSignatureType := C.CString signatureType
  let cSupportRevocation : Int := if supportRevocation then 1 else 0
  let schema_ ← deref schema
  let rep ← ffi eng (.credx_create_credential_definition cDid schema_.handle cTag
    cSignatureType cSupportRevocation)
  let credDefHandle := rep.handle 0
  let credDefPvtHandle := rep.handle 1
  let keyProofHandle := rep.handle 2
  if rep.code ≠ 0 then
    let context := "Couldn't create Credential Definition, received code " ++ fmtD rep.code
    let err ← handleLibError eng context
    return (none, none, none, err)
  else
    let credDef ← alloc { handle := credDefHandle }
    let credDefPvt ← alloc { handle := credDefPvtHandle }
    let keyCorrectnessProof ← alloc { handle := keyProofHandle }
    runtime.SetFinalizer keyCorrectnessProof (.ptr (.named "KeyCorrectnessProof"))
      (.ptr (.named "KeyCorrectnessProof"))
    runtime.SetFinalizer credDefPvt (.ptr (.named "CredentialDefinitionPrivate"))
      (.ptr (.named "CredentialDefinitionPrivate"))
    runtime.SetFinalizer credDef (.ptr (.named "CredentialDefinition"))
      (.ptr (.named "CredentialDefinition"))
    return (credDef, credDefPvt, keyCorrectnessProof, none)

/-- `func (c *CredentialDefinition) getCredDefAttribute(attr string) (string, error)`
(credential_definition.go). -/
def CredentialDefinition.getCredDefAttribute {σ : Type} (eng : Engine σ) (c : Ptr)
    (attr : String) : Go σ (String × GoError) :=
  Go.defer (CloseStrBuffer eng none) do
    let self ← deref c
    let rep ← ffi eng (.credx_credential_definition_get_attribute self.handle (C.CString attr))
    let cArray := rep.str
    if rep.code ≠ 0 then
      let context := "Couldn't get cred def attributes, received code " ++ fmtD rep.code
      let err ← handleLibError eng context
      return ("", err)
    else
      let goArray := C.GoString cArray
      return (goArray, none)

/-- `func (c *CredentialDefinition) GetID() (string, error)` (credential_definition.go). -/
def CredentialDefinition.GetID {σ : Type} (eng : Engine σ) (c : Ptr) :
    Go σ (String × GoError) :=
  CredentialDefinition.getCredDefAttribute eng c "id"

/-- `func (c *CredentialDefinition) GetSchemaID() (string, error)`
(credential_definition.go). -/
def CredentialDefinition.GetSchemaID {σ : Type} (eng : Engine σ) (c : Ptr) :
    Go σ (String × GoError) :=
  CredentialDefinition.getCredDefAttribute eng c "schema_id"

/-- `func NewCredentialOffer(schemaId, credDef, proof)` (credential_meta.go): returns
`(*CredentialOffer, error)`. -/
def NewCredentialOffer {σ : Type} (eng : Engine σ) (schemaId : String) (credDef proof : Ptr) :
    Go σ (Ptr × GoError) := do
  let cSchemaId := C.CString schemaId
  let credDef_ ← deref credDef
  let proof_ ← deref proof
  let rep ← ffi eng (.credx_create_credential_offer cSchemaId credDef_.handle proof_.handle)
  let handle := rep.handle 0
  if rep.code ≠ 0 then
    let context := "Couldn't create CredentialOffer, received code " ++ fmtD rep.code
    let err ← handleLibError eng context
    return (none, err)
  else
    let credOffer ← alloc { handle := handle }
    runtime.SetFinalizer credOffer (.ptr (.named "CredentialOffer"))
      (.ptr (.named "CredentialOffer"))
    return (credOffer, none)

/-- `func NewCredentialRequest(proverDid, credDef, masterSecret, masterSecretId,
credOffer)` (credential_meta.go): returns `(*CredentialRequest,
*CredentialRequestMetadata, error)`. -/
def NewCredentialRequest {σ : Type} (eng : Engine σ) (proverDid : String)
    (credDef masterSecret : Ptr) (masterSecretId : String) (credOffer : Ptr) :
    Go σ (Ptr × Ptr × GoError) := do
  let cDid := C.CString proverDid
  let cMasterId := C.CString masterSecretId
  let credDef_ ← deref credDef
  let masterSecret_ ← deref masterSecret
  let credOffer_ ← deref credOffer
  let rep ← ffi eng (.credx_create_credential_request cDid credDef_.handle
    masterSecret_.handle cMasterId credOffer_.handle)
  let credReqHandle := rep.handle 0
  let credReqMetaHandle := rep.handle 1
  if rep.code ≠ 0 then
    let context := "Couldn't create credReq, received code " ++ fmtD rep.code
    let err ← handleLibError eng context
    return (none, none, err)
  else
    let credReq ← alloc { handle := credReqHandle }
    let credReqMetadata ← alloc { handle := credReqMetaHandle }
    runtime.SetFinalizer credReq (.ptr (.named "CredentialRequest"))
      (.ptr (.named "CredentialRequest"))
    runtime.SetFinalizer credReqMetadata (.ptr (.named "CredentialRequestMetadata"))
      (.ptr (.named "CredentialRequestMetadata"))
    return (credReq, credReqMetadata, none)

/-- `func NewMasterSecret() (*MasterSecret, error)` (master_secret.go). -/
def NewMasterSecret {σ : Type} (eng : Engine σ) : Go σ (Ptr × GoError) := do
  let rep ← ffi eng .credx_create_master_secret
  let handle := rep.handle 0
  if rep.code ≠ 0 then
    let context := "Couldn't create MasterSecret, received code " ++ fmtD rep.code
    let err ← handleLibError eng context
    return (none, err)
  else
    let masterSecret ← alloc { handle := handle }
    runtime.SetFinalizer masterSecret (.ptr (.named "MasterSecret"))
      (.ptr (.named "MasterSecret"))
    return (masterSecret, none)

/-- `func (c *Credential) Process(metadata, secret, definition, registryDefinition)`
(credential.go): returns `(*Credential, error)`. -/
def Credential.Process {σ : Type} (eng : Engine σ) (c : Ptr)
    (metadata secret definition registryDefinition : Ptr) : Go σ (Ptr × GoError) := do
  let self ← deref c
  let metadata_ ← deref metadata
  let secret_ ← deref secret
  let definition_ ← deref definition
  let registryDefinition_ ← deref registryDefinition
  let rep ← ffi eng (.credx_process_credential self.handle metadata_.handle secret_.handle
    definition_.handle registryDefinition_.handle)
  let credHandle := rep.handle 0
  if rep.code ≠ 0 then
    let context := "Couldn't process credential, received code " ++ fmtD rep.code
    let err ← handleLibError eng context
    return (none, err)
  else
    let credential ← alloc { handle := credHandle }
    runtime.SetFinalizer credential (.ptr (.named "Credential")) (.ptr (.named "Credential"))
    return (credential, none)

/-- `func (c *Credential) getCredentialAttr(attr string) (string, error)`
(credential.go). -/
def Credential.getCredentialAttr {σ : Type} (eng : Engine σ) (c : Ptr) (attr : String) :
    Go σ (String × GoError) :=
  Go.defer (CloseStrBuffer eng none) do
    let self ← deref c
    let rep ← ffi eng (.credx_credential_get_attribute self.handle (C.CString attr))
    let cArray := rep.str
    if rep.code ≠ 0 then
      let context := "Couldn't get Credential attributes, received code " ++ fmtD rep.code
      let err ← handleLibError eng context
      return ("", err)
    else
      let goArray := C.GoString cArray
      return (goArray, none)

/-- `func (c *Credential) GetSchemaID() (string, error)` (credential.go). -/
def Credential.GetSchemaID {σ : Type} (eng : Engine σ) (c : Ptr) : Go σ (String × GoError) :=
  Credential.getCredentialAttr eng c "schema_id"

/-- `func (c *Credential) GetCredentialDefinitionID() (string, error)` (credential.go). -/
def Credential.GetCredentialDefinitionID {σ : Type} (eng : Engine σ) (c : Ptr) :
    Go σ (String × GoError) :=
  Credential.getCredentialAttr eng c "cred_def_id"

/-- `func (c *Credential) GetRevocationRegistryID() (string, error)` (credential.go). -/
def Credential.GetRevocationRegistryID {σ : Type} (eng : Engine σ) (c : Ptr) :
    Go σ (String × GoError) :=
  Credential.getCredentialAttr eng c "rev_reg_id"

/-- `func (c *Credential) GetRevocationRegistryIndex() (string, error)` (credential.go). -/
def Credential.GetRevocationRegistryIndex {σ : Type} (eng : Engine σ) (c : Ptr) :
    Go σ (String × GoError) :=
  Credential.getCredentialAttr eng c "rev_reg_index"

/-- `func (s *RevocationRegistryDefinition) GetID() (string, error)`
(revocation_registry.go). -/
def RevocationRegistryDefinition.GetID {σ : Type} (eng : Engine σ) (s : Ptr) :
    Go σ (String × GoError) :=
  RevocationRegistryDefinition.getAttr eng s "id"

/-- `func (s *RevocationRegistryDefinition) GetMaxCredNum() (string, error)`
(revocation_registry.go). -/
def RevocationRegistryDefinition.GetMaxCredNum {σ : Type} (eng : Engine σ) (s : Ptr) :
    Go σ (String × GoError) :=
  RevocationRegistryDefinition.getAttr eng s "max_cred_num"

/-- `func (s *RevocationRegistryDefinition) GetTailsHash() (string, error)`
(revocation_registry.go). -/
def RevocationRegistryDefinition.GetTailsHash {σ : Type} (eng : Engine σ) (s : Ptr) :
    Go σ (String × GoError) :=
  RevocationRegistryDefinition.getAttr eng s "tails_hash"

/-- `func NewRevocationRegistryDefinition(originDid, credDef, tag, revRegType,
issuanceType, maxCredNum, tailsDirPath)` (revocation_registry.go): returns
`(*RevocationRegistryDefinition, *RevocationRegistryDefinitionPrivate,
*RevocationRegistry, *RevocationRegistryDelta, error)`.  A `*C.char` that may be nil is an
optional string. -/
def NewRevocationRegistryDefinition {σ : Type} (eng : Engine σ) (originDid : String)
    (credDef : Ptr) (tag revRegType issuanceType : String) (maxCredNum : Int)
    (tailsDirPath : String) : Go σ (Ptr × Ptr × Ptr × Ptr × GoError) := do
  let cDid := C.CString originDid
  let cTag := C.CString tag
  let cRevRegType := C.CString revRegType
  let cIssuanceType : Option String :=
    if len issuanceType = 0 then none else some (C.CString issuanceType)
  let cTailsDirPath : Option String :=
    if len tailsDirPath = 0 then none else some (C.CString tailsDirPath)
  let credDef_ ← deref credDef
  let rep ← ffi eng (.credx_create_revocation_registry cDid credDef_.handle cTag cRevRegType
    cIssuanceType maxCredNum cTailsDirPath)
  let regDefHandle := rep.handle 0
  let regDefPrivateHandle := rep.handle 1
  let regEntryHandle := rep.handle 2
  let regInitDeltaHandle := rep.handle 3
  if rep.code ≠ 0 then
    let context := "Couldn't create Revocastion Registry, received code " ++ fmtD rep.code
    let err ← handleLibError eng context
    return (none, none, none, none, err)
  else
    let revReg ← alloc { handle := regEntryHandle }
    let revRegDef ← alloc { handle := regDefHandle }
    let revRegPrivate ← alloc { handle := regDefPrivateHandle }
    let revRegDelta ← alloc { handle := regInitDeltaHandle }
    runtime.SetFinalizer revReg (.ptr (.named "RevocationRegistry"))
      (.ptr (.named "RevocationRegistry"))
    runtime.SetFinalizer revRegDef (.ptr (.named "RevocationRegistryDefinition"))
      (.ptr (.named "RevocationRegistryDefinition"))
    runtime.SetFinalizer revRegPrivate (.ptr (.named "RevocationRegistryDefinitionPrivate"))
      (.ptr (.named "RevocationRegistryDefinitionPrivate"))
    runtime.SetFinalizer revRegDelta tyDeltaPtr tyDeltaPtr
    return (revRegDef, revRegPrivate, revReg, revRegDelta, none)

/-! ## The `close` method of every handle-owning type -/

/-- `func (s *Schema) close()` (schema.go). -/
def Schema.close {σ : Type} (eng : Engine σ) (s : Ptr) : Go σ Unit := do
  let self ← deref s
  if !self.isClosed then
    let _ ← ffi eng (.credx_object_free self.handle)
    pure ()
  setClosed s true

/-- `func (c *CredentialDefinitionPrivate) close()` (credential_definition.go). -/
def CredentialDefinitionPrivate.close {σ : Type} (eng : Engine σ) (c : Ptr) : Go σ Unit := do
  let self ← deref c
  if !self.isClosed then
    let _ ← ffi eng (.credx_object_free self.handle)
    pure ()
  setClosed c true

/-- `func (c *KeyCorrectnessProof) close()` (credential_definition.go). -/
def KeyCorrectnessProof.close {σ : Type} (eng : Engine σ) (c : Ptr) : Go σ Unit := do
  let self ← deref c
  if !self.isClosed then
    let _ ← ffi eng (.credx_object_free self.handle)
    pure ()
  setClosed c true

/-- `func (c *CredentialDefinition) close()` (credential_definition.go). -/
def CredentialDefinition.close {σ : Type} (eng : Engine σ) (c : Ptr) : Go σ Unit := do
  let self ← deref c
  if !self.isClosed then
    let _ ← ffi eng (.credx_object_free self.handle)
    pure ()
  setClosed c true

/-- `func (c *CredentialOffer) close()` (credential_meta.go). -/
def CredentialOffer.close {σ : Type} (eng : Engine σ) (c : Ptr) : Go σ Unit := do
  let self ← deref c
  if !self.isClosed then
    let _ ← ffi eng (.credx_object_free self.handle)
    pure ()
  setClosed c true

/-- `func (c *CredentialRequest) close()` (credential_meta.go). -/
def CredentialRequest.close {σ : Type} (eng : Engine σ) (c : Ptr) : Go σ Unit := do
  let self ← deref c
  if !self.isClosed then
    let _ ← ffi eng (.credx_object_free self.handle)
    pure ()
  setClosed c true

/-- `func (c *CredentialRequestMetadata) close()` (credential_meta.go). -/
def CredentialRequestMetadata.close {σ : Type} (eng : Engine σ) (c : Ptr) : Go σ Unit := do
  let self ← deref c
  if !self.isClosed then
    let _ ← ffi eng (.credx_object_free self.handle)
    pure ()
  setClosed c true

/-- `func (c *Credential) close()` (credential.go). -/
def Credential.close {σ : Type} (eng : Engine σ) (c : Ptr) : Go σ Unit := do
  let self ← deref c
  if !self.isClosed then
    let _ ← ffi eng (.credx_object_free self.handle)
    pure ()
  setClosed c true

/-- `func (p *CredentialRevocationState) close()` (credential.go). -/
def CredentialRevocationState.close {σ : Type} (eng : Engine σ) (p : Ptr) : Go σ Unit := do
  let self ← deref p
  if !self.isClosed then
    let _ ← ffi eng (.credx_object_free self.handle)
    pure ()
  setClosed p true

/-- `func (c *MasterSecret) close()` (master_secret.go). -/
def MasterSecret.close {σ : Type} (eng : Engine σ) (c : Ptr) : Go σ Unit := do
  let self ← deref c
  if !self.isClosed then
    let _ ← ffi eng (.credx_object_free self.handle)
    pure ()
  setClosed c true

/-- `func (c *Presentation) close()` (presentation.go). -/
def Presentation.close {σ : Type} (eng : Engine σ) (c : Ptr) : Go σ Unit := do
  let self ← deref c
  if !self.isClosed then
    let _ ← ffi eng (.credx_object_free self.handle)
    pure ()
  setClosed c true

/-- `func (s *RevocationRegistryDefinition) close()` (revocation_registry.go). -/
def RevocationRegistryDefinition.close {σ : Type} (eng : Engine σ) (s : Ptr) : Go σ Unit := do
  let self ← deref s
  if !self.isClosed then
    let _ ← ffi eng (.credx_object_free self.handle)
    pure ()
  setClosed s true

/-- `func (s *RevocationRegistryDefinitionPrivate) close()` (revocation_registry.go). -/
def RevocationRegistryDefinitionPrivate.close {σ : Type} (eng : Engine σ) (s : Ptr) :
    Go σ Unit := do
  let self ← deref s
  if !self.isClosed then
    let _ ← ffi eng (.credx_object_free self.handle)
    pure ()
  setClosed s true

/-- `func (s *RevocationRegistryDelta) close()` (revocation_registry.go). -/
def RevocationRegistryDelta.close {σ : Type} (eng : Engine σ) (s : Ptr) : Go σ Unit := do
  let self ← deref s
  if !self.isClosed then
    let _ ← ffi eng (.credx_object_free self.handle)
    pure ()
  setClosed s true

/-- `func (s *RevocationRegistry) close()` (revocation_registry.go). -/
def RevocationRegistry.close {σ : Type} (eng : Engine σ) (s : Ptr) : Go σ Unit := do
  let self ← deref s
  if !self.isClosed then
    let _ ← ffi eng (.credx_object_free self.handle)
    pure ()
  setClosed s true

/-- The `close` methods of the package, one per handle-owning type. -/
def closeMethods {σ : Type} (eng : Engine σ) : List (Ptr → Go σ Unit) :=
  [Schema.close eng,
    CredentialDefinitionPrivate.close eng,
    KeyCorrectnessProof.close eng,
    CredentialDefinition.close eng,
    CredentialOffer.close eng,
    CredentialRequest.close eng,
    CredentialRequestMetadata.close eng,
    Credential.close eng,
    CredentialRevocationState.close eng,
    MasterSecret.close eng,
    Presentation.close eng,
    RevocationRegistryDefinition.close eng,
    RevocationRegistryDefinitionPrivate.close eng,
    RevocationRegistryDelta.close eng,
    RevocationRegistry.close eng]

/-- The statement `m` executed `n` times in a row. -/
def Go.times {σ : Type} (m : Go σ Unit) : Nat → Go σ Unit
  | 0 => pure ()
  | n + 1 => do
    m
    Go.times m n

/-! ## `getHandle`, `ToJSON` and `Load…FromJSON` of every serializable type -/

/-- `func (s *Schema) getHandle() ObjectHandle` (schema.go). -/
def Schema.getHandle {σ : Type} (s : Ptr) : Go σ ObjectHandle := do
  let self ← deref s
  return self.handle

/-- `func (s *Schema) ToJSON() (json.RawMessage, error)` (schema.go). -/
def Schema.ToJSON {σ : Type} (eng : Engine σ) (s : Ptr) : Go σ (RawMessage × GoError) :=
  genericToJSON eng { getHandle := Schema.getHandle s, typeName := "*types.Schema" }

/-- `LoadSchemaFromJSON(json)` (schema.go). -/
def LoadSchemaFromJSON {σ : Type} (eng : Engine σ) (json : RawMessage) :
    Go σ (Ptr × GoError) := do
  let buf ← ByteBufferFromRawMessage json
  let rep ← ffi eng (.credx_schema_from_json buf)
  let handle := rep.handle 0
  if rep.code ≠ 0 then
    let context := "Couldn't create schema from json, recevied code " ++ fmtD rep.code ++ "."
    let err ← handleLibError eng context
    return (none, err)
  else
    let schema ← alloc { handle := handle }
    runtime.SetFinalizer schema (.ptr (.named "Schema")) (.ptr (.named "Schema"))
    return (schema, none)

/-- `func (c *CredentialDefinitionPrivate) getHandle() ObjectHandle` (credential_definition.go). -/
def CredentialDefinitionPrivate.getHandle {σ : Type} (c : Ptr) : Go σ ObjectHandle := do
  let self ← deref c
  return self.handle

/-- `func (c *CredentialDefinitionPrivate) ToJSON() (json.RawMessage, error)`
(credential_definition.go). -/
def CredentialDefinitionPrivate.ToJSON {σ : Type} (eng : Engine σ) (c : Ptr) :
    Go σ (RawMessage × GoError) :=
  genericToJSON eng
    { getHandle := CredentialDefinitionPrivate.getHandle c,
      typeName := "*types.CredentialDefinitionPrivate" }

/-- `LoadCredentialDefinitionPrivateFromJSON(json)` (credential_definition.go). -/
def LoadCredentialDefinitionPrivateFromJSON {σ : Type} (eng : Engine σ) (json : RawMessage) :
    Go σ (Ptr × GoError) := do
  let buf ← ByteBufferFromRawMessage json
  let rep ← ffi eng (.credx_credential_definition_private_from_json buf)
  let handle := rep.handle 0
  if rep.code ≠ 0 then
    let context := "Couldn't create cred def private from json, recevied code " ++
      fmtD rep.code ++ "."
    let err ← handleLibError eng context
    return (none, err)
  else
    let credDefPrivate ← alloc { handle := handle }
    runtime.SetFinalizer credDefPrivate (.ptr (.named "CredentialDefinitionPrivate"))
      (.ptr (.named "CredentialDefinitionPrivate"))
    return (credDefPrivate, none)

/-- `func (c *KeyCorrectnessProof) getHandle() ObjectHandle` (credential_definition.go). -/
def KeyCorrectnessProof.getHandle {σ : Type} (c : Ptr) : Go σ ObjectHandle := do
  let self ← deref c
  return self.handle

/-- `func (c *KeyCorrectnessProof) ToJSON() (json.RawMessage, error)` (credential_definition.go). -/
def KeyCorrectnessProof.ToJSON {σ : Type} (eng : Engine σ) (c : Ptr) :
    Go σ (RawMessage × GoError) :=
  genericToJSON eng
    { getHandle := KeyCorrectnessProof.getHandle c,
      typeName := "*types.KeyCorrectnessProof" }

/-- `LoadKeyCorrectnessProofFromJSON(json)` (credential_definition.go). -/
def LoadKeyCorrectnessProofFromJSON {σ : Type} (eng : Engine σ) (json : RawMessage) :
    Go σ (Ptr × GoError) := do
  let buf ← ByteBufferFromRawMessage json
  let rep ← ffi eng (.credx_key_correctness_proof_from_json buf)
  let handle := rep.handle 0
  if rep.code ≠ 0 then
    let context := "Couldn't create cred def private from json, recevied code " ++
      fmtD rep.code ++ "."
    let err ← handleLibError eng context
    return (none, err)
  else
    let keyProof ← alloc { handle := handle }
    runtime.SetFinalizer keyProof (.ptr (.named "KeyCorrectnessProof"))
      (.ptr (.named "KeyCorrectnessProof"))
    return (keyProof, none)

/-- `func (c *CredentialDefinition) getHandle() ObjectHandle` (credential_definition.go). -/
def CredentialDefinition.getHandle {σ : Type} (c : Ptr) : Go σ ObjectHandle := do
  let self ← deref c
  return self.handle

/-- `func (c *CredentialDefinition) ToJSON() (json.RawMessage, error)`
(credential_definition.go). -/
def CredentialDefinition.ToJSON {σ : Type} (eng : Engine σ) (c : Ptr) :
    Go σ (RawMessage × GoError) :=
  genericToJSON eng
    { getHandle := CredentialDefinition.getHandle c,
      typeName := "*types.CredentialDefinition" }

/-- `LoadCredentialDefinitionFromJSON(json)` (credential_definition.go). -/
def LoadCredentialDefinitionFromJSON {σ : Type} (eng : Engine σ) (json : RawMessage) :
    Go σ (Ptr × GoError) := do
  let buf ← ByteBufferFromRawMessage json
  let rep ← ffi eng (.credx_credential_definition_from_json buf)
  let handle := rep.handle 0
  if rep.code ≠ 0 then
    let context := "Couldn't create cred def from json, recevied code " ++ fmtD rep.code ++ "."
    let err ← handleLibError eng context
    return (none, err)
  else
    let credDef ← alloc { handle := handle }
    runtime.SetFinalizer credDef (.ptr (.named "CredentialDefinition"))
      (.ptr (.named "CredentialDefinition"))
    return (credDef, none)

/-- `func (c *CredentialOffer) getHandle() ObjectHandle` (credential_meta.go). -/
def CredentialOffer.getHandle {σ : Type} (c : Ptr) : Go σ ObjectHandle := do
  let self ← deref c
  return self.handle

/-- `func (c *CredentialOffer) ToJSON() (json.RawMessage, error)` (credential_meta.go). -/
def CredentialOffer.ToJSON {σ : Type} (eng : Engine σ) (c : Ptr) : Go σ (RawMessage × GoError) :=
  genericToJSON eng
    { getHandle := CredentialOffer.getHandle c,
      typeName := "*types.CredentialOffer" }

/-- `LoadCredentialOfferFromJSON(json)` (credential_meta.go). -/
def LoadCredentialOfferFromJSON {σ : Type} (eng : Engine σ) (json : RawMessage) :
    Go σ (Ptr × GoError) := do
  let buf ← ByteBufferFromRawMessage json
  let rep ← ffi eng (.credx_credential_offer_from_json buf)
  let handle := rep.handle 0
  if rep.code ≠ 0 then
    let context := "Couldn't create CredentialOffer from json, recevied code " ++
      fmtD rep.code ++ "."
    let err ← handleLibError eng context
    return (none, err)
  else
    let credOffer ← alloc { handle := handle }
    runtime.SetFinalizer credOffer (.ptr (.named "CredentialOffer"))
      (.ptr (.named "CredentialOffer"))
    return (credOffer, none)

/-- `func (c *CredentialRequest) getHandle() ObjectHandle` (credential_meta.go). -/
def CredentialRequest.getHandle {σ : Type} (c : Ptr) : Go σ ObjectHandle := do
  let self ← deref c
  return self.handle

/-- `func (c *CredentialRequest) ToJSON() (json.RawMessage, error)` (credential_meta.go). -/
def CredentialRequest.ToJSON {σ : Type} (eng : Engine σ) (c : Ptr) : Go σ (RawMessage × GoError) :=
  genericToJSON eng
    { getHandle := CredentialRequest.getHandle c,
      typeName := "*types.CredentialRequest" }

/-- `LoadCredentialRequestFromJSON(json)` (credential_meta.go). -/
def LoadCredentialRequestFromJSON {σ : Type} (eng : Engine σ) (json : RawMessage) :
    Go σ (Ptr × GoError) := do
  let buf ← ByteBufferFromRawMessage json
  let rep ← ffi eng (.credx_credential_request_from_json buf)
  let handle := rep.handle 0
  if rep.code ≠ 0 then
    let context := "Couldn't create CredentialRequest from json, recevied code " ++
      fmtD rep.code ++ "."
    let err ← handleLibError eng context
    return (none, err)
  else
    let credentialRequest ← alloc { handle := handle }
    runtime.SetFinalizer credentialRequest (.ptr (.named "CredentialRequest"))
      (.ptr (.named "CredentialRequest"))
    return (credentialRequest, none)

/-- `func (c *CredentialRequestMetadata) getHandle() ObjectHandle` (credential_meta.go). -/
def CredentialRequestMetadata.getHandle {σ : Type} (c : Ptr) : Go σ ObjectHandle := do
  let self ← deref c
  return self.handle

/-- `func (c *CredentialRequestMetadata) ToJSON() (json.RawMessage, error)` (credential_meta.go). -/
def CredentialRequestMetadata.ToJSON {σ : Type} (eng : Engine σ) (c : Ptr) :
    Go σ (RawMessage × GoError) :=
  genericToJSON eng
    { getHandle := CredentialRequestMetadata.getHandle c,
      typeName := "*types.CredentialRequestMetadata" }

/-- `LoadCredentialRequestMetadataFromJSON(json)` (credential_meta.go). -/
def LoadCredentialRequestMetadataFromJSON {σ : Type} (eng : Engine σ) (json : RawMessage) :
    Go σ (Ptr × GoError) := do
  let buf ← ByteBufferFromRawMessage json
  let rep ← ffi eng (.credx_credential_request_metadata_from_json buf)
  let handle := rep.handle 0
  if rep.code ≠ 0 then
    let context := "Couldn't create CredentialRequestMetadata from json, recevied code " ++
      fmtD rep.code ++ "."
    let err ← handleLibError eng context
    return (none, err)
  else
    let credentialRequestMetadata ← alloc { handle := handle }
    runtime.SetFinalizer credentialRequestMetadata (.ptr (.named "CredentialRequestMetadata"))
      (.ptr (.named "CredentialRequestMetadata"))
    return (credentialRequestMetadata, none)

/-- `func (c *Credential) getHandle() ObjectHandle` (credential.go). -/
def Credential.getHandle {σ : Type} (c : Ptr) : Go σ ObjectHandle := do
  let self ← deref c
  return self.handle

/-- `func (c *Credential) ToJSON() (json.RawMessage, error)` (credential.go). -/
def Credential.ToJSON {σ : Type} (eng : Engine σ) (c : Ptr) : Go σ (RawMessage × GoError) :=
  genericToJSON eng { getHandle := Credential.getHandle c, typeName := "*types.Credential" }

/-- `LoadCredentialFromJSON(json)` (credential.go). -/
def LoadCredentialFromJSON {σ : Type} (eng : Engine σ) (json : RawMessage) :
    Go σ (Ptr × GoError) := do
  let buf ← ByteBufferFromRawMessage json
  let rep ← ffi eng (.credx_credential_from_json buf)
  let handle := rep.handle 0
  if rep.code ≠ 0 then
    let context := "Couldn't create Credential from json, recevied code " ++ fmtD rep.code ++ "."
    let err ← handleLibError eng context
    return (none, err)
  else
    let credential ← alloc { handle := handle }
    runtime.SetFinalizer credential (.ptr (.named "Credential")) (.ptr (.named "Credential"))
    return (credential, none)

/-- `func (c *MasterSecret) getHandle() ObjectHandle` (master_secret.go). -/
def MasterSecret.getHandle {σ : Type} (c : Ptr) : Go σ ObjectHandle := do
  let self ← deref c
  return self.handle

/-- `func (c *MasterSecret) ToJSON() (json.RawMessage, error)` (master_secret.go). -/
def MasterSecret.ToJSON {σ : Type} (eng : Engine σ) (c : Ptr) : Go σ (RawMessage × GoError) :=
  genericToJSON eng { getHandle := MasterSecret.getHandle c, typeName := "*types.MasterSecret" }

/-- `LoadMasterSecretFromJSON(json)` (master_secret.go). -/
def LoadMasterSecretFromJSON {σ : Type} (eng : Engine σ) (json : RawMessage) :
    Go σ (Ptr × GoError) := do
  let buf ← ByteBufferFromRawMessage json
  let rep ← ffi eng (.credx_master_secret_from_json buf)
  let handle := rep.handle 0
  if rep.code ≠ 0 then
    let context := "Couldn't create master secret from json, recevied code " ++ fmtD rep.code ++ "."
    let err ← handleLibError eng context
    return (none, err)
  else
    let masterSecret ← alloc { handle := handle }
    runtime.SetFinalizer masterSecret (.ptr (.named "MasterSecret")) (.ptr (.named "MasterSecret"))
    return (masterSecret, none)

/-- `func (c *Presentation) getHandle() ObjectHandle` (presentation.go). -/
def Presentation.getHandle {σ : Type} (c : Ptr) : Go σ ObjectHandle := do
  let self ← deref c
  return self.handle

/-- `func (c *Presentation) ToJSON() (json.RawMessage, error)` (presentation.go). -/
def Presentation.ToJSON {σ : Type} (eng : Engine σ) (c : Ptr) : Go σ (RawMessage × GoError) :=
  genericToJSON eng { getHandle := Presentation.getHandle c, typeName := "*types.Presentation" }

/-- `LoadPresentationFromJSON(json)` (presentation.go). -/
def LoadPresentationFromJSON {σ : Type} (eng : Engine σ) (json : RawMessage) :
    Go σ (Ptr × GoError) := do
  let buf ← ByteBufferFromRawMessage json
  let rep ← ffi eng (.credx_presentation_from_json buf)
  let handle := rep.handle 0
  if rep.code ≠ 0 then
    let context := "Couldn't create Presentation from json, recevied code " ++ fmtD rep.code ++ "."
    let err ← handleLibError eng context
    return (none, err)
  else
    let presentation ← alloc { handle := handle }
    runtime.SetFinalizer presentation (.ptr (.named "Presentation")) (.ptr (.named "Presentation"))
    return (presentation, none)

/-- `func (s *RevocationRegistryDefinition) getHandle() ObjectHandle` (revocation_registry.go). -/
def RevocationRegistryDefinition.getHandle {σ : Type} (s : Ptr) : Go σ ObjectHandle := do
  let self ← deref s
  return self.handle

/-- `func (s *RevocationRegistryDefinition) ToJSON() (json.RawMessage, error)`
(revocation_registry.go). -/
def RevocationRegistryDefinition.ToJSON {σ : Type} (eng : Engine σ) (s : Ptr) :
    Go σ (RawMessage × GoError) :=
  genericToJSON eng
    { getHandle := RevocationRegistryDefinition.getHandle s,
      typeName := "*types.RevocationRegistryDefinition" }

/-- `LoadRevocationRegistryDefinitionFromJSON(json)` (revocation_registry.go). -/
def LoadRevocationRegistryDefinitionFromJSON {σ : Type} (eng : Engine σ) (json : RawMessage) :
    Go σ (Ptr × GoError) := do
  let buf ← ByteBufferFromRawMessage json
  let rep ← ffi eng (.credx_revocation_registry_definition_from_json buf)
  let handle := rep.handle 0
  if rep.code ≠ 0 then
    let context := "Couldn't create RevocationRegistryDefinition from json, recevied code " ++
      fmtD rep.code ++ "."
    let err ← handleLibError eng context
    return (none, err)
  else
    let revocationRegistryDef ← alloc { handle := handle }
    runtime.SetFinalizer revocationRegistryDef (.ptr (.named "RevocationRegistryDefinition"))
      (.ptr (.named "RevocationRegistryDefinition"))
    return (revocationRegistryDef, none)

/-- `func (s *RevocationRegistryDefinitionPrivate) getHandle() ObjectHandle`
(revocation_registry.go). -/
def RevocationRegistryDefinitionPrivate.getHandle {σ : Type} (s : Ptr) : Go σ ObjectHandle := do
  let self ← deref s
  return self.handle

/-- `func (s *RevocationRegistryDefinitionPrivate) ToJSON() (json.RawMessage, error)`
(revocation_registry.go). -/
def RevocationRegistryDefinitionPrivate.ToJSON {σ : Type} (eng : Engine σ) (s : Ptr) :
    Go σ (RawMessage × GoError) :=
  genericToJSON eng
    { getHandle := RevocationRegistryDefinitionPrivate.getHandle s,
      typeName := "*types.RevocationRegistryDefinitionPrivate" }

/-- `LoadRevocationRegistryDefinitionPrivateFromJSON(json)` (revocation_registry.go). -/
def LoadRevocationRegistryDefinitionPrivateFromJSON {σ : Type} (eng : Engine σ)
    (json : RawMessage) :
    Go σ (Ptr × GoError) := do
  let buf ← ByteBufferFromRawMessage json
  let rep ← ffi eng (.credx_revocation_registry_definition_private_from_json buf)
  let handle := rep.handle 0
  if rep.code ≠ 0 then
    let context :=
      "Couldn't create RevocationRegistryDefinitionPrivate from json, recevied code " ++
      fmtD rep.code ++ "."
    let err ← handleLibError eng context
    return (none, err)
  else
    let revocationRegistryDefPrivate ← alloc { handle := handle }
    runtime.SetFinalizer revocationRegistryDefPrivate
      (.ptr (.named "RevocationRegistryDefinitionPrivate"))
      (.ptr (.named "RevocationRegistryDefinitionPrivate"))
    return (revocationRegistryDefPrivate, none)

/-- `func (s *RevocationRegistry) getHandle() ObjectHandle` (revocation_registry.go). -/
def RevocationRegistry.getHandle {σ : Type} (s : Ptr) : Go σ ObjectHandle := do
  let self ← deref s
  return self.handle

/-- `func (s *RevocationRegistry) ToJSON() (json.RawMessage, error)` (revocation_registry.go). -/
def RevocationRegistry.ToJSON {σ : Type} (eng : Engine σ) (s : Ptr) : Go σ (RawMessage × GoError) :=
  genericToJSON eng
    { getHandle := RevocationRegistry.getHandle s,
      typeName := "*types.RevocationRegistry" }

/-- `LoadRevocationRegistryFromJSON(json)` (revocation_registry.go). -/
def LoadRevocationRegistryFromJSON {σ : Type} (eng : Engine σ) (json : RawMessage) :
    Go σ (Ptr × GoError) := do
  let buf ← ByteBufferFromRawMessage json
  let rep ← ffi eng (.credx_revocation_registry_from_json buf)
  let handle := rep.handle 0
  if rep.code ≠ 0 then
    let context := "Couldn't create RevocationRegistry from json, recevied code " ++
      fmtD rep.code ++ "."
    let err ← handleLibError eng context
    return (none, err)
  else
    let revReg ← alloc { handle := handle }
    runtime.SetFinalizer revReg (.ptr (.named "RevocationRegistry"))
      (.ptr (.named "RevocationRegistry"))
    return (revReg, none)

/-- `func (s *RevocationRegistryDelta) getHandle() ObjectHandle` (revocation_registry.go). -/
def RevocationRegistryDelta.getHandle {σ : Type} (s : Ptr) : Go σ ObjectHandle := do
  let self ← deref s
  return self.handle

/-- `func (s *RevocationRegistryDelta) ToJSON() (json.RawMessage, error)`
(revocation_registry.go). -/
def RevocationRegistryDelta.ToJSON {σ : Type} (eng : Engine σ) (s : Ptr) :
    Go σ (RawMessage × GoError) :=
  genericToJSON eng
    { getHandle := RevocationRegistryDelta.getHandle s,
      typeName := "*types.RevocationRegistryDelta" }

/-- `LoadRevocationRegistryDeltaFromJSON(json)` (revocation_registry.go). -/
def LoadRevocationRegistryDeltaFromJSON {σ : Type} (eng : Engine σ) (json : RawMessage) :
    Go σ (Ptr × GoError) := do
  let buf ← ByteBufferFromRawMessage json
  let rep ← ffi eng (.credx_revocation_registry_delta_from_json buf)
  let handle := rep.handle 0
  if rep.code ≠ 0 then
    let context := "Couldn't create RevocationRegistryDelta from json, recevied code " ++
      fmtD rep.code ++ "."
    let err ← handleLibError eng context
    return (none, err)
  else
    let revRegDelta ← alloc { handle := handle }
    runtime.SetFinalizer revRegDelta (.ptr (.named "RevocationRegistryDelta"))
      (.ptr (.named "RevocationRegistryDelta"))
    return (revRegDelta, none)

/-- `PresentationRequestFromJSON(json)` (presentation.go).  No finalizer is registered. -/
def PresentationRequestFromJSON {σ : Type} (eng : Engine σ) (json : RawMessage) :
    Go σ (Ptr × GoError) := do
  let cJson ← ByteBufferFromRawMessage json
  let rep ← ffi eng (.credx_presentation_request_from_json cJson)
  let handle := rep.handle 0
  if rep.code ≠ 0 then
    let context := "Couldn't load presentation req from json, received code " ++ fmtD rep.code
    let err ← handleLibError eng context
    return (none, err)
  else
    let presentationRequest ← alloc { handle := handle }
    return (presentationRequest, none)

/-! ## Descriptions of runs, and engines and worlds used as concrete inputs -/

/-- The engine state after `handleLibError`: the engine has answered
`credx_get_current_error` and then `credx_string_free(NULL)`. -/
def afterError {σ : Type} (eng : Engine σ) (e : σ) : σ :=
  (eng (eng e .credx_get_current_error).2 (.credx_string_free none)).2

/-- The text of the error `handleLibError(context)` builds in engine state `e`. -/
def errorText {σ : Type} (eng : Engine σ) (e : σ) (context : String) : String :=
  if (eng e .credx_get_current_error).1.code ≠ 0 then context
  else context ++ ". The following error was encountered: " ++
    C.GoString (eng e .credx_get_current_error).1.str

/-- An engine that accepts every call: it writes the handles `7` and `8` to the handle
out-parameters, the string `"tails"` to a string out-parameter and `1` to a flag. -/
def acceptAll : Engine Unit := fun e _ =>
  ({ code := 0, handles := [7, 8], str := some "tails", flag := some 1 }, e)

/-- An engine that rejects every operation with code `1`; its current error can be read
and reads `"rejected"`. -/
def rejectAll : Engine Unit := fun e c =>
  match c with
  | .credx_get_current_error => ({ code := 0, str := some "rejected" }, e)
  | .credx_string_free _ => ({ code := 0 }, e)
  | _ => ({ code := 1 }, e)

/-- A Go heap with a registry at address `0` (handle `1`), a registry definition at `1`
(handle `2`), a delta at `2` (handle `3`), a revocation state at `3` (handle `4`), a
presentation at `4` (handle `5`) and a presentation request at `5` (handle `6`). -/
def world0 : World Unit :=
  { engine := (), heap := [⟨1, false⟩, ⟨2, false⟩, ⟨3, false⟩, ⟨4, false⟩, ⟨5, false⟩, ⟨6, false⟩] }

/-- A computation that leaves existing Go objects alone: whatever the way its run ends,
the final heap is the initial heap followed by the cells allocated on the way. -/
def OnlyAllocates {σ α : Type} (m : Go σ α) : Prop :=
  ∀ w : World σ, ∃ cells : List Object, (m w).2.heap = w.heap ++ cells

/-- The struct `r.ToC()` builds in world `w` when `r.revReg` points to a registry (the
entry handle is the registry's handle in `w`; `0` stands in when the pointer is invalid,
a case in which `ToC` panics instead). -/
def RevocationEntry.view {σ : Type} (w : World σ) (r : RevocationEntry) : FfiRevocationEntry :=
  { def_entry_idx := r.defEntryIndex,
    entry := ((w.lookup r.revReg).map fun reg => reg.handle).getD 0,
    timestamp := r.timestamp }

/-- The handle list `NewFfiListObjectHandle` builds from the handles of a slice of objects. -/
def handleList (objs : List Object) : FfiListObjectHandle :=
  { count := objs.length, requested := objs.length, data := objs.map fun o => o.handle }

/-- The call `Presentation.Verify` makes in world `w` for a presentation `pres`, a request
`req` and the given lists. -/
def verifyCall {σ : Type} (w : World σ) (pres req : Object) (schemas credDefs regs : List Object)
    (revEntries : List RevocationEntry) : Call :=
  .credx_verify_presentation pres.handle req.handle (handleList schemas) (handleList credDefs)
    (handleList regs)
    { count := revEntries.length, requested := revEntries.length,
      data := revEntries.map (RevocationEntry.view w) }

/-- The call `CredentialRevocationState.Update` makes for a definition `dd`, a delta `dl`
and a receiver `st`. -/
def updateStateCall (dd dl st : Object) (revRegIndex timestamp : Int) (tailsPath : String) :
    Call :=
  .credx_create_or_update_revocation_state dd.handle dl.handle revRegIndex timestamp tailsPath
    st.handle

/-- The call `GetTailsLocation` makes on a registry definition `dd`. -/
def tailsCall (dd : Object) : Call :=
  .credx_revocation_registry_definition_get_attribute dd.handle "tails_location"

/-- The engine state in which `NewCredentialRevocationState` asks for the witness: the
engine has answered `tailsCall dd` and the deferred `credx_string_free(NULL)`. -/
def afterTails {σ : Type} (eng : Engine σ) (e : σ) (dd : Object) : σ :=
  (eng (eng e (tailsCall dd)).2 (.credx_string_free none)).2

/-- The call with which `NewCredentialRevocationState` asks for the witness, given the
reply `rep` to `tailsCall dd`. -/
def createStateCall (dd dl : Object) (info : CredentialRevocationInfo) (timestamp : Int)
    (rep : Reply) : Call :=
  .credx_create_or_update_revocation_state dd.handle dl.handle info.regIdx timestamp
    (C.GoString rep.str) 0

/-- Whether a call asks the engine for a witness. -/
def Call.isCreateOrUpdateState : Call → Bool
  | .credx_create_or_update_revocation_state _ _ _ _ _ _ => true
  | _ => false

/-- Use the state at address `b` wherever a credential entry uses the state at address `a`. -/
def CredentialEntry.substState (a b : Nat) (c : CredentialEntry) : CredentialEntry :=
  if c.revState = some a then { c with revState := some b } else c

/-! ## The engine as the specification describes it

The engine library itself (the implementation behind `libindy_credx.h`) is not among the
source files.  The definitions of this section follow the specification's description of
it: sections 3 (data model), 4.2, 4.3, 6 and 7. -/

/-- Modelled from the spec: the accumulator of the engine, which is not under src/.
Glossary: "a compact cryptographic value representing the set of currently non-revoked
registry indices".  Position `i` tells whether registry index `i` is currently
non-revoked. -/
abbrev Accumulator := List Bool

/-- Modelled from the spec: the error kinds of section 7, raised by the engine, which is
not under src/. -/
inductive ErrorKind where
  | InvalidArgument
  | IndexOutOfRange
  | IncompatibleDelta
  | TailsAccessError
  | EngineFailure
  | SerializationError
deriving DecidableEq, Repr

/-- Modelled from the spec: the "discriminated error code" (section 6) of an error kind of
the engine, which is not under src/; the numbering is a choice of the model, every code is
non-zero. -/
def ErrorKind.code : ErrorKind → ErrorCode
  | .InvalidArgument => 1
  | .IndexOutOfRange => 2
  | .IncompatibleDelta => 3
  | .TailsAccessError => 4
  | .EngineFailure => 5
  | .SerializationError => 6

/-- Modelled from the spec: the "human-readable message" (section 6) of an error kind of
the engine, which is not under src/. -/
def ErrorKind.message : ErrorKind → String
  | .InvalidArgument => "InvalidArgument"
  | .IndexOutOfRange => "IndexOutOfRange"
  | .IncompatibleDelta => "IncompatibleDelta"
  | .TailsAccessError => "TailsAccessError"
  | .EngineFailure => "EngineFailure"
  | .SerializationError => "SerializationError"

/-- Modelled from the spec: the witness inside a RevocationState of the engine, which is
not under src/.  Section 4.2: `Fresh(index, timestamp, accumulatorSnapshot)`. -/
structure Witness where
  index : Int
  timestamp : Int
  snapshot : Accumulator
deriving DecidableEq, Repr

/-- Modelled from the spec: one credential entry as a presentation of the engine (not
under src/) carries it.  Section 4.3: an entry "pairs a processed Credential with a
timestamp and a RevocationState"; `regIdx` is the registry slot the credential was issued
at, `witness` is `none` for an entry that carried no RevocationState. -/
structure PresentedCredential where
  regIdx : Int
  timestamp : Int
  witness : Option Witness
deriving DecidableEq, Repr

/-- Modelled from the spec: the objects the engine (not under src/) keeps behind handles,
after the data model of section 3.  Schemas and credential definitions are identified by
an id; a presentation records the schemas and definitions it was built for. -/
inductive EngineObject where
  | schema (id : String)
  | credentialDefinition (id : String)
  | masterSecret
  | presentationRequest (referents : List String)
  | credential (regIdx : Int)
  | registryDefinition (maxCredNum : Int) (tailsLocation : String)
  | registry (value : Accumulator)
  | delta (prior next : Accumulator)
  | revocationState (wit : Witness)
  | presentation (schemas credDefs : List String) (entries : List PresentedCredential)
  | credentialDefinitionPrivate (id : String)
  | keyCorrectnessProof (id : String)
  | credentialOffer (schemaId credDefId : String)
  | credentialRequest (credDefId : String)
  | credentialRequestMetadata
  | registryDefinitionPrivate
deriving DecidableEq, Repr

/-- Modelled from the spec: the domain object types of sections 2 and 3, as the engine (not
under src/) tells its objects apart. -/
inductive Kind where
  | schema
  | credentialDefinition
  | credentialDefinitionPrivate
  | keyCorrectnessProof
  | credentialOffer
  | credentialRequest
  | credentialRequestMetadata
  | credential
  | masterSecret
  | presentation
  | presentationRequest
  | registryDefinition
  | registryDefinitionPrivate
  | registry
  | delta
  | revocationState
deriving DecidableEq, Repr

/-- Modelled from the spec: the domain object type of an object of the engine (not under
src/). -/
def EngineObject.kind : EngineObject → Kind
  | .schema _ => .schema
  | .credentialDefinition _ => .credentialDefinition
  | .masterSecret => .masterSecret
  | .presentationRequest _ => .presentationRequest
  | .credential _ => .credential
  | .registryDefinition _ _ => .registryDefinition
  | .registry _ => .registry
  | .delta _ _ => .delta
  | .revocationState _ => .revocationState
  | .presentation _ _ _ => .presentation
  | .credentialDefinitionPrivate _ => .credentialDefinitionPrivate
  | .keyCorrectnessProof _ => .keyCorrectnessProof
  | .credentialOffer _ _ => .credentialOffer
  | .credentialRequest _ => .credentialRequest
  | .credentialRequestMetadata => .credentialRequestMetadata
  | .registryDefinitionPrivate => .registryDefinitionPrivate

/-- Modelled from the spec: the state of the engine, which is not under src/: its handle
table (handle `h > 0` names `objects[h - 1]`), the tails stores that can be read
(section 6, addressed by path) and the "engine-local error state". -/
structure SpecState where
  objects : List EngineObject := []
  tailsStores : List String := []
  lastError : Option ErrorKind := none
deriving DecidableEq, Repr

/-- Modelled from the spec: handle lookup in the engine, which is not under src/. -/
def SpecState.get (s : SpecState) (h : ObjectHandle) : Option EngineObject :=
  if h = 0 then none else s.objects[h - 1]?

/-- Modelled from the spec: a failing operation of the engine (not under src/) returns the
code of the error and keeps it as current error (section 6). -/
def SpecState.fail (s : SpecState) (k : ErrorKind) : Reply × SpecState :=
  ({ code := k.code }, { s with lastError := some k })

/-- Modelled from the spec: a succeeding operation of the engine (not under src/) that
produces the given new objects returns code 0 and their handles, in order. -/
def SpecState.produce (s : SpecState) (objs : List EngineObject) : Reply × SpecState :=
  ({ code := 0, handles := (List.range objs.length).map fun k => s.objects.length + k + 1 },
    { s with objects := s.objects ++ objs })

/-- A list of optional values as an optional list: `none` as soon as one is missing. -/
def allSome {β : Type} : List (Option β) → Option (List β)
  | [] => some []
  | none :: _ => none
  | some v :: xs => (allSome xs).map fun vs => v :: vs

/-- Modelled from the spec: whether an index is a slot of a registry of the engine (not
under src/); section 4.2: "index in [0, maxCredNum)". -/
def inRange (maxCredNum idx : Int) : Bool := decide (0 ≤ idx) && decide (idx < maxCredNum)

/-- Modelled from the spec: whether a registry index is non-revoked in an accumulator
value of the engine (not under src/). -/
def Accumulator.nonRevoked (acc : Accumulator) (idx : Int) : Bool :=
  decide (0 ≤ idx) && acc.getD idx.toNat false

/-- Modelled from the spec: attribute read on a registry definition of the engine (not
under src/).  Section 3 lists "max credential count, tails-store location/hash"; the
model answers `tails_location` and `max_cred_num`. -/
def SpecState.getAttribute (s : SpecState) (h : ObjectHandle) (name : String) :
    Reply × SpecState :=
  match s.get h with
  | some (.registryDefinition maxCredNum tailsLocation) =>
    if name = "tails_location" then ({ code := 0, str := some tailsLocation }, s)
    else if name = "max_cred_num" then ({ code := 0, str := some (toString maxCredNum) }, s)
    else s.fail .InvalidArgument
  | _ => s.fail .InvalidArgument

/-- Modelled from the spec: `revokeCredential` of the engine (not under src/), section 4.2:
"Preconditions: index in [0, maxCredNum), previously issued.  Effect: the registry's
current value is replaced; the returned delta is the transition (prior value → new
value)".  Failures after sections 4.2 and 7. -/
def SpecState.revoke (s : SpecState) (regDef reg : ObjectHandle) (idx : Int)
    (tailsPath : String) : Reply × SpecState :=
  match s.get regDef, s.get reg with
  | some (.registryDefinition maxCredNum _), some (.registry acc) =>
    if !inRange maxCredNum idx then s.fail .IndexOutOfRange
    else if tailsPath ∉ s.tailsStores then s.fail .TailsAccessError
    else if !acc.nonRevoked idx then s.fail .InvalidArgument
    else s.produce [.registry (acc.set idx.toNat false), .delta acc (acc.set idx.toNat false)]
  | _, _ => s.fail .InvalidArgument

/-- Set the given positions of an accumulator to `b`. -/
def Accumulator.setAll (acc : Accumulator) (idxs : List Int) (b : Bool) : Accumulator :=
  idxs.foldl (fun a i => a.set i.toNat b) acc

/-- Modelled from the spec: batch `update` of the engine (not under src/), section 4.2:
"Generalizes single revoke to simultaneous issue/revoke sets; same replace-and-diff
semantics.  Issued and revoked sets must be disjoint; behavior on overlap ... must be
rejected as an error". -/
def SpecState.update (s : SpecState) (regDef reg : ObjectHandle) (issued revoked : FfiListI64)
    (tailsPath : String) : Reply × SpecState :=
  match s.get regDef, s.get reg with
  | some (.registryDefinition maxCredNum _), some (.registry acc) =>
    if !(issued.data ++ revoked.data).all (inRange maxCredNum) then s.fail .IndexOutOfRange
    else if tailsPath ∉ s.tailsStores then s.fail .TailsAccessError
    else if issued.data.any fun i => revoked.data.contains i then s.fail .InvalidArgument
    else s.produce [.registry ((acc.setAll issued.data true).setAll revoked.data false),
      .delta acc ((acc.setAll issued.data true).setAll revoked.data false)]
  | _, _ => s.fail .InvalidArgument

/-- Modelled from the spec: delta composition of the engine (not under src/), section 4.2:
"if `delta` is the transition A→B and `other` is B→C, `merged` is the transition A→C ...
Merging deltas whose endpoints do not chain is an error (`IncompatibleDelta`)". -/
def SpecState.merge (s : SpecState) (delta1 delta2 : ObjectHandle) : Reply × SpecState :=
  match s.get delta1, s.get delta2 with
  | some (.delta a b), some (.delta b2 c) =>
    if b = b2 then s.produce [.delta a c] else s.fail .IncompatibleDelta
  | _, _ => s.fail .InvalidArgument

/-- Whether a looked-up object is a revocation state. -/
def isRevocationState : Option EngineObject → Bool
  | some (.revocationState _) => true
  | _ => false

/-- Modelled from the spec: `create`/`update` of a RevocationState in the engine (not under
src/), section 4.2: the witness is built "for one specific index at one snapshot", the
snapshot being the accumulator the delta leads to; "if the tails store is unreachable, or
the index exceeds `maxCredNum`, the operation fails with `TailsAccessError` /
`IndexOutOfRange`".  A prior state, when given (handle not 0), must be a state. -/
def SpecState.createOrUpdateState (s : SpecState) (regDef regDelta : ObjectHandle)
    (regIdx timestamp : Int) (tailsPath : String) (revState : ObjectHandle) :
    Reply × SpecState :=
  match s.get regDef, s.get regDelta with
  | some (.registryDefinition maxCredNum _), some (.delta _ next) =>
    if revState ≠ 0 && !isRevocationState (s.get revState) then s.fail .InvalidArgument
    else if !inRange maxCredNum regIdx then s.fail .IndexOutOfRange
    else if tailsPath ∉ s.tailsStores then s.fail .TailsAccessError
    else s.produce [.revocationState ⟨regIdx, timestamp, next⟩]
  | _, _ => s.fail .InvalidArgument

/-- Modelled from the spec: the id of the schema behind a handle of the engine (not under
src/). -/
def SpecState.schemaId (s : SpecState) (h : ObjectHandle) : Option String :=
  match s.get h with
  | some (.schema id) => some id
  | _ => none

/-- Modelled from the spec: the id of the credential definition behind a handle of the
engine (not under src/). -/
def SpecState.credDefId (s : SpecState) (h : ObjectHandle) : Option String :=
  match s.get h with
  | some (.credentialDefinition id) => some id
  | _ => none

/-- Modelled from the spec: how the engine (not under src/) reads one credential entry:
the credential's registry slot, the timestamp, and the witness of the revocation state
when the entry carries one (handle not 0). -/
def SpecState.presented (s : SpecState) (e : FfiCredentialEntry) : Option PresentedCredential :=
  match s.get e.credential with
  | some (.credential regIdx) =>
    if e.rev_state = 0 then some ⟨regIdx, e.timestamp, none⟩
    else
      match s.get e.rev_state with
      | some (.revocationState wit) => some ⟨regIdx, e.timestamp, some wit⟩
      | _ => none
  | _ => none

/-- Modelled from the spec: the coverage precondition of `buildPresentation` in the engine
(not under src/), section 4.3: "every referent named in `request` must be covered by
exactly one `CredentialProve` unless satisfied by a self-attested value". -/
def covered (referents : List String) (proves : List FfiCredentialProve)
    (selfAttested : List String) : Bool :=
  referents.all fun r =>
    selfAttested.contains r || (proves.filter fun p => p.referent = r).length == 1

/-- Modelled from the spec: `buildPresentation` of the engine (not under src/), section
4.3, with its preconditions ("every `entryIndex` referenced by a `CredentialProve` must
exist in `entries`", coverage of the referents) and the argument validation of section 4.1
("non-null references, attribute-name/value list length parity"). -/
def SpecState.createPresentation (s : SpecState) (presReq : ObjectHandle)
    (credentials : FfiList FfiCredentialEntry) (credentialsProve : FfiList FfiCredentialProve)
    (selfAttestNames selfAttestValues : FfiStrList) (masterSecret : ObjectHandle)
    (schemas credDefs : FfiListObjectHandle) : Reply × SpecState :=
  match s.get presReq, s.get masterSecret, allSome (credentials.data.map s.presented),
      allSome (schemas.data.map s.schemaId), allSome (credDefs.data.map s.credDefId) with
  | some (.presentationRequest referents), some .masterSecret, some entries, some schemaIds,
      some credDefIds =>
    if selfAttestNames.data.length ≠ selfAttestValues.data.length then s.fail .InvalidArgument
    else if !(credentialsProve.data.all fun p =>
        decide (0 ≤ p.entry_idx) && decide (p.entry_idx < entries.length)) then
      s.fail .InvalidArgument
    else if !covered referents credentialsProve.data selfAttestNames.data then
      s.fail .InvalidArgument
    else s.produce [.presentation schemaIds credDefIds entries]
  | _, _, _, _, _ => s.fail .InvalidArgument

/-- Modelled from the spec: whether a handle of the engine (not under src/) names a
registry definition. -/
def SpecState.regDefMax (s : SpecState) (h : ObjectHandle) : Option Int :=
  match s.get h with
  | some (.registryDefinition maxCredNum _) => some maxCredNum
  | _ => none

/-- Modelled from the spec: how the engine (not under src/) reads one RevocationEntry,
"a verifier-declared (index, accumulator-snapshot, timestamp) triple": the timestamp and
the accumulator behind the handle; the index must name one of the supplied registry
definitions. -/
def SpecState.snapshot (s : SpecState) (revRegDefs : List ObjectHandle)
    (e : FfiRevocationEntry) : Option (Int × Accumulator) :=
  match s.get e.entry with
  | some (.registry acc) =>
    if 0 ≤ e.def_entry_idx ∧ e.def_entry_idx < revRegDefs.length then some (e.timestamp, acc)
    else none
  | _ => none

/-- Modelled from the spec: consistency of a witness with an accumulator snapshot in the
engine (not under src/).  Section 3: the witness is for "one specific credential (by
registry index)", "consistent with one accumulator snapshot", and "stale witnesses cause
verification to fail": the witness is for the credential's slot, was built against this
very accumulator value, and the slot is non-revoked in it. -/
def Witness.consistent (wit : Witness) (regIdx : Int) (acc : Accumulator) : Bool :=
  decide (wit.index = regIdx) && decide (wit.snapshot = acc) && acc.nonRevoked regIdx

/-- Modelled from the spec: check (b) of `verify` in the engine (not under src/), section
4.3, for one entry: "for every entry that carried a RevocationState, that the witness is
consistent with the accumulator snapshot the verifier supplied for that timestamp".  A
RevocationEntry "must reference the same timestamp the holder used to build the
corresponding RevocationState, else verification legitimately fails". -/
def nonRevocationHolds (snapshots : List (Int × Accumulator)) (e : PresentedCredential) :
    Bool :=
  match e.witness with
  | none => true
  | some wit =>
    match snapshots.find? fun sn => sn.1 == wit.timestamp with
    | some sn => wit.consistent e.regIdx sn.2
    | none => false

/-- Modelled from the spec: `verify` of the engine (not under src/), section 4.3: the
result is whether (a) the proof "is well-formed for the declared schemas/definitions" and
(b) every witness is consistent with the supplied snapshot.  By section 7 a failed
verification is the result `false` (byte 0), not an error; an argument that is not what it
should be is `InvalidArgument`. -/
def SpecState.verify (s : SpecState) (presentation presReq : ObjectHandle)
    (schemas credDefs revRegDefs : FfiListObjectHandle)
    (revRegEntries : FfiList FfiRevocationEntry) : Reply × SpecState :=
  match s.get presentation, s.get presReq, allSome (schemas.data.map s.schemaId),
      allSome (credDefs.data.map s.credDefId),
      allSome (revRegDefs.data.map s.regDefMax),
      allSome (revRegEntries.data.map (s.snapshot revRegDefs.data)) with
  | some (.presentation builtSchemas builtCredDefs entries), some (.presentationRequest _),
      some schemaIds, some credDefIds, some _, some snapshots =>
    ({ code := 0,
       flag := some (if builtSchemas = schemaIds ∧ builtCredDefs = credDefIds ∧
         entries.all (nonRevocationHolds snapshots) = true then 1 else 0) }, s)
  | _, _, _, _, _, _ => s.fail .InvalidArgument

/-! ### The serialized form

Section 1 of the specification treats the codec as opaque, section 6 requires it to be
lossless.  The model fixes one codec: an object is written as a list of numbers (a tag for
its type, then its fields, lists with their length first), and each number `n` as `n`
bytes `1` followed by a byte `0`. -/

/-- Modelled from the spec: an integer field in the serialized form of the engine (not
under src/): a sign and a magnitude. -/
def encodeInt (z : Int) : List Nat := [if 0 ≤ z then 0 else 1, z.natAbs]

/-- Modelled from the spec: reads what `encodeInt` writes, in the codec of the engine, which
is not under src/. -/
def decodeInt : List Nat → Option (Int × List Nat)
  | sign :: magnitude :: rest =>
    some (if sign = 0 then (magnitude : Int) else -(magnitude : Int), rest)
  | _ => none

/-- Modelled from the spec: a flag in the serialized form of the engine (not under src/). -/
def encodeBool (b : Bool) : List Nat := [if b then 1 else 0]

/-- Modelled from the spec: reads what `encodeBool` writes, in the codec of the engine, which
is not under src/. -/
def decodeBool : List Nat → Option (Bool × List Nat)
  | t :: rest => some (decide (t ≠ 0), rest)
  | [] => none

/-- Modelled from the spec: a character in the serialized form of the engine (not under
src/): its code point. -/
def encodeChar (c : Char) : List Nat := [c.toNat]

/-- Modelled from the spec: reads what `encodeChar` writes, in the codec of the engine, which
is not under src/. -/
def decodeChar : List Nat → Option (Char × List Nat)
  | t :: rest => some (Char.ofNat t, rest)
  | [] => none

/-- Modelled from the spec: the elements of a list written one after the other, in the
codec of the engine, which is not under src/. -/
def encodeAll {α : Type} (enc : α → List Nat) : List α → List Nat
  | [] => []
  | a :: rest => enc a ++ encodeAll enc rest

/-- Modelled from the spec: a list in the serialized form of the engine (not under src/):
its length, then its elements. -/
def encodeList {α : Type} (enc : α → List Nat) (l : List α) : List Nat :=
  l.length :: encodeAll enc l

/-- Modelled from the spec: reads `n` elements one after the other, in the codec of the
engine, which is not under src/. -/
def decodeMany {α : Type} (dec : List Nat → Option (α × List Nat)) :
    Nat → List Nat → Option (List α × List Nat)
  | 0, ts => some ([], ts)
  | n + 1, ts =>
    match dec ts with
    | some (a, r1) =>
      match decodeMany dec n r1 with
      | some (rest, r2) => some (a :: rest, r2)
      | none => none
    | none => none

/-- Modelled from the spec: reads what `encodeList` writes, in the codec of the engine, which
is not under src/. -/
def decodeList {α : Type} (dec : List Nat → Option (α × List Nat)) :
    List Nat → Option (List α × List Nat)
  | n :: ts => decodeMany dec n ts
  | [] => none

/-- Modelled from the spec: a text field in the serialized form of the engine (not under
src/). -/
def encodeString (s : String) : List Nat := encodeList encodeChar s.data

/-- Modelled from the spec: reads what `encodeString` writes, in the codec of the engine, which
is not under src/. -/
def decodeString (ts : List Nat) : Option (String × List Nat) :=
  match decodeList decodeChar ts with
  | some (cs, rest) => some (String.mk cs, rest)
  | none => none

/-- Modelled from the spec: a witness in the serialized form of the engine (not under
src/). -/
def encodeWitness (wit : Witness) : List Nat :=
  encodeInt wit.index ++ (encodeInt wit.timestamp ++ encodeList encodeBool wit.snapshot)

/-- Modelled from the spec: reads what `encodeWitness` writes, in the codec of the engine, which
is not under src/. -/
def decodeWitness (ts : List Nat) : Option (Witness × List Nat) :=
  match decodeInt ts with
  | some (index, r1) =>
    match decodeInt r1 with
    | some (timestamp, r2) =>
      match decodeList decodeBool r2 with
      | some (snapshot, r3) => some (⟨index, timestamp, snapshot⟩, r3)
      | none => none
    | none => none
  | none => none

/-- Modelled from the spec: an optional witness in the serialized form of the engine (not
under src/). -/
def encodeOptWitness : Option Witness → List Nat
  | none => [0]
  | some wit => 1 :: encodeWitness wit

/-- Modelled from the spec: reads what `encodeOptWitness` writes, in the codec of the engine, which
is not under src/. -/
def decodeOptWitness : List Nat → Option (Option Witness × List Nat)
  | [] => none
  | t :: rest =>
    if t = 0 then some (none, rest)
    else
      match decodeWitness rest with
      | some (wit, r1) => some (some wit, r1)
      | none => none

/-- Modelled from the spec: a credential entry of a presentation in the serialized form of
the engine (not under src/). -/
def encodePresented (e : PresentedCredential) : List Nat :=
  encodeInt e.regIdx ++ (encodeInt e.timestamp ++ encodeOptWitness e.witness)

/-- Modelled from the spec: reads what `encodePresented` writes, in the codec of the engine, which
is not under src/. -/
def decodePresented (ts : List Nat) : Option (PresentedCredential × List Nat) :=
  match decodeInt ts with
  | some (regIdx, r1) =>
    match decodeInt r1 with
    | some (timestamp, r2) =>
      match decodeOptWitness r2 with
      | some (witness, r3) => some (⟨regIdx, timestamp, witness⟩, r3)
      | none => none
    | none => none
  | none => none

/-- Modelled from the spec: the tag that opens the serialized form of an object of the
engine (not under src/). -/
def Kind.tag : Kind → Nat
  | .schema => 0
  | .credentialDefinition => 1
  | .credentialDefinitionPrivate => 2
  | .keyCorrectnessProof => 3
  | .credentialOffer => 4
  | .credentialRequest => 5
  | .credentialRequestMetadata => 6
  | .credential => 7
  | .masterSecret => 8
  | .presentation => 9
  | .presentationRequest => 10
  | .registryDefinition => 11
  | .registryDefinitionPrivate => 12
  | .registry => 13
  | .delta => 14
  | .revocationState => 15

/-- Modelled from the spec: the fields of an object of the engine (not under src/) as
numbers. -/
def EngineObject.fields : EngineObject → List Nat
  | .schema id => encodeString id
  | .credentialDefinition id => encodeString id
  | .masterSecret => []
  | .presentationRequest referents => encodeList encodeString referents
  | .credential regIdx => encodeInt regIdx
  | .registryDefinition maxCredNum tailsLocation =>
    encodeInt maxCredNum ++ encodeString tailsLocation
  | .registry value => encodeList encodeBool value
  | .delta prior next => encodeList encodeBool prior ++ encodeList encodeBool next
  | .revocationState wit => encodeWitness wit
  | .presentation schemas credDefs entries =>
    encodeList encodeString schemas ++
      (encodeList encodeString credDefs ++ encodeList encodePresented entries)
  | .credentialDefinitionPrivate id => encodeString id
  | .keyCorrectnessProof id => encodeString id
  | .credentialOffer schemaId credDefId => encodeString schemaId ++ encodeString credDefId
  | .credentialRequest credDefId => encodeString credDefId
  | .credentialRequestMetadata => []
  | .registryDefinitionPrivate => []

/-- Modelled from the spec: an object of the engine (not under src/) as numbers: the tag
of its type, then its fields. -/
def EngineObject.tokens (x : EngineObject) : List Nat := x.kind.tag :: x.fields

/-- Modelled from the spec: reads the fields `EngineObject.fields` writes for the type with
the given tag, in the codec of the engine, which is not under src/. -/
def decodeFields (tag : Nat) (ts : List Nat) : Option (EngineObject × List Nat) :=
  if tag = 0 then (decodeString ts).map fun r => (.schema r.1, r.2)
  else if tag = 1 then (decodeString ts).map fun r => (.credentialDefinition r.1, r.2)
  else if tag = 2 then (decodeString ts).map fun r => (.credentialDefinitionPrivate r.1, r.2)
  else if tag = 3 then (decodeString ts).map fun r => (.keyCorrectnessProof r.1, r.2)
  else if tag = 4 then
    match decodeString ts with
    | some (schemaId, r1) => (decodeString r1).map fun r => (.credentialOffer schemaId r.1, r.2)
    | none => none
  else if tag = 5 then (decodeString ts).map fun r => (.credentialRequest r.1, r.2)
  else if tag = 6 then some (.credentialRequestMetadata, ts)
  else if tag = 7 then (decodeInt ts).map fun r => (.credential r.1, r.2)
  else if tag = 8 then some (.masterSecret, ts)
  else if tag = 9 then
    match decodeList decodeString ts with
    | some (schemas, r1) =>
      match decodeList decodeString r1 with
      | some (credDefs, r2) =>
        (decodeList decodePresented r2).map fun r => (.presentation schemas credDefs r.1, r.2)
      | none => none
    | none => none
  else if tag = 10 then
    (decodeList decodeString ts).map fun r => (.presentationRequest r.1, r.2)
  else if tag = 11 then
    match decodeInt ts with
    | some (maxCredNum, r1) =>
      (decodeString r1).map fun r => (.registryDefinition maxCredNum r.1, r.2)
    | none => none
  else if tag = 12 then some (.registryDefinitionPrivate, ts)
  else if tag = 13 then (decodeList decodeBool ts).map fun r => (.registry r.1, r.2)
  else if tag = 14 then
    match decodeList decodeBool ts with
    | some (prior, r1) => (decodeList decodeBool r1).map fun r => (.delta prior r.1, r.2)
    | none => none
  else if tag = 15 then (decodeWitness ts).map fun r => (.revocationState r.1, r.2)
  else none

/-- Modelled from the spec: numbers as bytes in the serialized form of the engine (not
under src/): `n` is written as `n` bytes `1` and a byte `0`. -/
def toBytes : List Nat → List Nat
  | [] => []
  | n :: ts => List.replicate n 1 ++ 0 :: toBytes ts

/-- Modelled from the spec: reads what `toBytes` writes, in the codec of the engine, which
is not under src/; `run` counts the bytes `1` seen since the last byte `0`.  Any other
byte, and bytes after the last `0`, are malformed. -/
def fromBytes : List Nat → Nat → Option (List Nat)
  | [], run => if run = 0 then some [] else none
  | b :: bs, run =>
    if b = 0 then (fromBytes bs 0).map fun ts => run :: ts
    else if b = 1 then fromBytes bs (run + 1)
    else none

/-- Modelled from the spec: `toSerialized` of section 6 for the engine, which is not under
src/. -/
def toSerialized (x : EngineObject) : List Nat := toBytes x.tokens

/-- Modelled from the spec: `fromSerialized` of section 6 for the engine, which is not
under src/: the object whose serialized form the bytes are, if any. -/
def fromSerialized (bytes : List Nat) : Option EngineObject :=
  match fromBytes bytes 0 with
  | some (tag :: ts) =>
    match decodeFields tag ts with
    | some (x, []) => some x
    | _ => none
  | _ => none

/-- Modelled from the spec: serialization of an object by the engine (not under src/),
section 6: the engine hands back a buffer with the serialized form. -/
def SpecState.getJson (s : SpecState) (h : ObjectHandle) : Reply × SpecState :=
  match s.get h with
  | some x =>
    ({ code := 0, buffer := some { len := (toSerialized x).length, value := toSerialized x } },
      s)
  | none => s.fail .InvalidArgument

/-- Modelled from the spec: loading an object of a given type in the engine (not under
src/), sections 6 and 7: the first `len` bytes of the buffer must be the serialized form
of an object of that type, else `SerializationError`. -/
def SpecState.fromJson (s : SpecState) (kind : Kind) (json : ByteBuffer) : Reply × SpecState :=
  match fromSerialized (json.value.take json.len) with
  | some x => if x.kind = kind then s.produce [x] else s.fail .SerializationError
  | none => s.fail .SerializationError

/-- Modelled from the spec: the type of the object behind a handle of the engine (not under
src/). -/
def SpecState.kindOf (s : SpecState) (h : ObjectHandle) : Option Kind :=
  (s.get h).map EngineObject.kind

/-- Modelled from the spec: `createCredential` of the engine (not under src/), section
4.1, with the argument validation named there ("non-null references, attribute-name/value
list length parity") and the invariant of section 3 for the revocation info ("registry
index must be unique and unused within the registry at issuance time").  It "produces a
fresh RevocationRegistry value and the delta from the prior value": the slot of the
credential is marked as issued. -/
def SpecState.createCredential (s : SpecState)
    (credDef credDefPvt credOffer credRequest : ObjectHandle)
    (attrNames attrRawValues attrEnc : FfiStrList)
    (revocation : FfiCredentialRevocationInfo) : Reply × SpecState :=
  if s.kindOf credDef ≠ some .credentialDefinition ∨
      s.kindOf credDefPvt ≠ some .credentialDefinitionPrivate ∨
      s.kindOf credOffer ≠ some .credentialOffer ∨
      s.kindOf credRequest ≠ some .credentialRequest ∨
      s.kindOf revocation.reg_def_private ≠ some .registryDefinitionPrivate then
    s.fail .InvalidArgument
  else if attrNames.data.length ≠ attrRawValues.data.length ∨
      attrNames.data.length ≠ attrEnc.data.length then
    s.fail .InvalidArgument
  else
    match s.get revocation.reg_def, s.get revocation.registry with
    | some (.registryDefinition maxCredNum _), some (.registry acc) =>
      if !inRange maxCredNum revocation.reg_idx then s.fail .IndexOutOfRange
      else if revocation.reg_used.data.contains revocation.reg_idx then
        s.fail .InvalidArgument
      else if revocation.tails_path ∉ s.tailsStores then s.fail .TailsAccessError
      else s.produce [.credential revocation.reg_idx,
        .registry (acc.set revocation.reg_idx.toNat true),
        .delta acc (acc.set revocation.reg_idx.toNat true)]
    | _, _ => s.fail .InvalidArgument

/-- Modelled from the spec: `createSchema` of the engine (not under src/), section 4.1; the
glossary calls a schema a "named, versioned list of attribute names", and the model
identifies it by name and version. -/
def SpecState.createSchema (s : SpecState) (schemaName schemaVersion : String) :
    Reply × SpecState :=
  s.produce [.schema (schemaName ++ ":" ++ schemaVersion)]

/-- Modelled from the spec: `createCredentialDefinition(schema, supportRevocation) → (def,
defPrivate, keyCorrectnessProof)` of the engine (not under src/), section 4.1.  The
identifier of the definition is a choice of the model. -/
def SpecState.createCredentialDefinition (s : SpecState) (originDid : String)
    (schema : ObjectHandle) (tag : String) : Reply × SpecState :=
  match s.schemaId schema with
  | some _ =>
    s.produce [.credentialDefinition (originDid ++ ":" ++ tag),
      .credentialDefinitionPrivate (originDid ++ ":" ++ tag),
      .keyCorrectnessProof (originDid ++ ":" ++ tag)]
  | none => s.fail .InvalidArgument

/-- Modelled from the spec: `createOffer(schemaId, def, proof)` of the engine (not under
src/), section 4.1. -/
def SpecState.createOffer (s : SpecState) (schemaId : String) (credDef keyProof : ObjectHandle) :
    Reply × SpecState :=
  match s.credDefId credDef with
  | some id =>
    if s.kindOf keyProof = some .keyCorrectnessProof then s.produce [.credentialOffer schemaId id]
    else s.fail .InvalidArgument
  | none => s.fail .InvalidArgument

/-- Modelled from the spec: `createRequest(holderDid, def, secret, offer) → (request,
metadata)` of the engine (not under src/), section 4.1. -/
def SpecState.createRequest (s : SpecState) (credDef masterSecret credOffer : ObjectHandle) :
    Reply × SpecState :=
  match s.credDefId credDef with
  | some id =>
    if s.kindOf masterSecret = some .masterSecret ∧ s.kindOf credOffer = some .credentialOffer
    then s.produce [.credentialRequest id, .credentialRequestMetadata]
    else s.fail .InvalidArgument
  | none => s.fail .InvalidArgument

/-- Modelled from the spec: `process(credential, metadata, secret, def, registryDef) →
credential` of the engine (not under src/), section 4.1. -/
def SpecState.process (s : SpecState)
    (cred credReqMetadata masterSecret credDef revRegDef : ObjectHandle) : Reply × SpecState :=
  match s.get cred with
  | some (.credential regIdx) =>
    if s.kindOf credReqMetadata = some .credentialRequestMetadata ∧
        s.kindOf masterSecret = some .masterSecret ∧
        s.kindOf credDef = some .credentialDefinition ∧
        s.kindOf revRegDef = some .registryDefinition
    then s.produce [.credential regIdx]
    else s.fail .InvalidArgument
  | _ => s.fail .InvalidArgument

/-- Modelled from the spec: the attributes of a schema, a credential definition and a
credential that the engine (not under src/) hands out as text, after the "key
attributes" of section 3; the model answers the `id` of a schema and of a credential
definition and the `rev_reg_index` of a credential. -/
def SpecState.objectAttribute (s : SpecState) (kind : Kind) (h : ObjectHandle) (name : String) :
    Reply × SpecState :=
  match kind, s.get h with
  | .schema, some (.schema id) =>
    if name = "id" then ({ code := 0, str := some id }, s) else s.fail .InvalidArgument
  | .credentialDefinition, some (.credentialDefinition id) =>
    if name = "id" then ({ code := 0, str := some id }, s) else s.fail .InvalidArgument
  | .credential, some (.credential regIdx) =>
    if name = "rev_reg_index" then ({ code := 0, str := some (toString regIdx) }, s)
    else s.fail .InvalidArgument
  | _, _ => s.fail .InvalidArgument

/-- Modelled from the spec: `createRevocationRegistry(did, credDef, tag, type,
issuanceType, maxCredNum, tailsDirPath) → (def, defPrivate, registry₀, delta₀)` of the
engine (not under src/), section 4.2: "`delta₀` represents the transition from "empty" to
the initial populated/non-populated state depending on `issuanceType`
(issuance-on-demand vs issuance-by-default)".  The tails store is written to the given
directory.  An absent issuance type stands for issuance by default, a choice of the
model. -/
def SpecState.createRegistry (s : SpecState) (credDef : ObjectHandle)
    (issuanceType : Option String) (maxCredNum : Int) (tailsDirPath : Option String) :
    Reply × SpecState :=
  if s.kindOf credDef ≠ some .credentialDefinition ∨ maxCredNum < 0 then
    s.fail .InvalidArgument
  else
    let acc : Accumulator :=
      List.replicate maxCredNum.toNat (decide (issuanceType ≠ some "ISSUANCE_ON_DEMAND"))
    let location := tailsDirPath.getD ""
    let r := s.produce [.registryDefinition maxCredNum location, .registryDefinitionPrivate,
      .registry acc, .delta [] acc]
    (r.1, { r.2 with tailsStores := r.2.tailsStores ++ [location] })

/-- Modelled from the spec: the engine behind the foreign boundary (section 6), which is
not under src/: each call of the wrapper is answered by the operation the specification
describes.  `credx_get_current_error` reads the engine-local error state; freeing a string,
a buffer or an object always succeeds.  The specification does not describe nonces: the
model answers `credx_generate_nonce` with the number of objects in the handle table. -/
def specEngine : Engine SpecState := fun s c =>
  match c with
  | .credx_get_current_error =>
    ({ code := 0, str := some (match s.lastError with
        | some k => k.message
        | none => "") }, s)
  | .credx_string_free _ => ({ code := 0 }, s)
  | .credx_object_free _ => ({ code := 0 }, s)
  | .credx_revoke_credential regDef reg idx tails => s.revoke regDef reg idx tails
  | .credx_update_revocation_registry regDef reg issued revoked tails =>
    s.update regDef reg issued revoked tails
  | .credx_merge_revocation_registry_deltas delta1 delta2 => s.merge delta1 delta2
  | .credx_revocation_registry_definition_get_attribute h name => s.getAttribute h name
  | .credx_create_or_update_revocation_state regDef regDelta regIdx timestamp tails revState =>
    s.createOrUpdateState regDef regDelta regIdx timestamp tails revState
  | .credx_create_presentation presReq credentials proves names values secret schemas
      credDefs =>
    s.createPresentation presReq credentials proves names values secret schemas credDefs
  | .credx_verify_presentation presentation presReq schemas credDefs revRegDefs entries =>
    s.verify presentation presReq schemas credDefs revRegDefs entries
  | .credx_buffer_free _ => ({ code := 0 }, s)
  | .credx_object_get_json h => s.getJson h
  | .credx_schema_from_json json => s.fromJson .schema json
  | .credx_credential_definition_from_json json => s.fromJson .credentialDefinition json
  | .credx_credential_definition_private_from_json json =>
    s.fromJson .credentialDefinitionPrivate json
  | .credx_key_correctness_proof_from_json json => s.fromJson .keyCorrectnessProof json
  | .credx_credential_offer_from_json json => s.fromJson .credentialOffer json
  | .credx_credential_request_from_json json => s.fromJson .credentialRequest json
  | .credx_credential_request_metadata_from_json json => s.fromJson .credentialRequestMetadata json
  | .credx_credential_from_json json => s.fromJson .credential json
  | .credx_master_secret_from_json json => s.fromJson .masterSecret json
  | .credx_presentation_from_json json => s.fromJson .presentation json
  | .credx_presentation_request_from_json json => s.fromJson .presentationRequest json
  | .credx_revocation_registry_definition_from_json json => s.fromJson .registryDefinition json
  | .credx_revocation_registry_definition_private_from_json json =>
    s.fromJson .registryDefinitionPrivate json
  | .credx_revocation_registry_from_json json => s.fromJson .registry json
  | .credx_revocation_registry_delta_from_json json => s.fromJson .delta json
  | .credx_create_credential credDef credDefPvt credOffer credRequest names values enc
      revocation =>
    s.createCredential credDef credDefPvt credOffer credRequest names values enc revocation
  | .credx_generate_nonce => ({ code := 0, str := some (toString s.objects.length) }, s)
  | .credx_create_schema _ schemaName schemaVersion _ _ =>
    s.createSchema schemaName schemaVersion
  | .credx_schema_get_attribute h name => s.objectAttribute .schema h name
  | .credx_create_credential_definition originDid schema tag _ _ =>
    s.createCredentialDefinition originDid schema tag
  | .credx_credential_definition_get_attribute h name =>
    s.objectAttribute .credentialDefinition h name
  | .credx_create_credential_offer schemaId credDef keyProof =>
    s.createOffer schemaId credDef keyProof
  | .credx_create_credential_request _ credDef masterSecret _ credOffer =>
    s.createRequest credDef masterSecret credOffer
  | .credx_create_master_secret => s.produce [.masterSecret]
  | .credx_process_credential cred credReqMetadata masterSecret credDef revRegDef =>
    s.process cred credReqMetadata masterSecret credDef revRegDef
  | .credx_credential_get_attribute h name => s.objectAttribute .credential h name
  | .credx_create_revocation_registry _ credDef _ _ issuanceType maxCredNum tailsDirPath =>
    s.createRegistry credDef issuanceType maxCredNum tailsDirPath

/-- The struct `c.ToC()` builds in world `w` when both pointers of the entry are valid
(`0` stands in for a handle whose pointer is invalid, a case in which `ToC` panics). -/
def CredentialEntry.view {σ : Type} (w : World σ) (c : CredentialEntry) : FfiCredentialEntry :=
  { credential := ((w.lookup c.credential).map fun o => o.handle).getD 0,
    timestamp := c.timestamp,
    rev_state := ((w.lookup c.revState).map fun o => o.handle).getD 0 }

/-- A Go slice marshalled element by element with `conv`. -/
def marshalled {α β : Type} (conv : α → β) (list : List α) : FfiList β :=
  { count := list.length, requested := list.length, data := list.map conv }

/-- The call `NewPresentation` makes in world `w` for a request `rq`, a master secret `ms`
and the given lists. -/
def presentationCall {σ : Type} (w : World σ) (rq ms : Object) (entries : List CredentialEntry)
    (proves : List CredentialProve) (names values : List String)
    (schemas credDefs : List Object) : Call :=
  .credx_create_presentation rq.handle (marshalled (CredentialEntry.view w) entries)
    (marshalled CredentialProve.ToC proves) (marshalled C.CString names)
    (marshalled C.CString values) ms.handle (handleList schemas) (handleList credDefs)

/-- The engine state of the end-to-end scenario of section 8 before the holder builds
anything: a schema (handle 1), a credential definition (2), a master secret (3), a
presentation request with one referent (4), a credential issued at index 10 (5), a
registry definition with `maxCredNum = 100` (6), its registry with every slot non-revoked
(7) and the initial delta (8); the tails store is readable at `"tails"`. -/
def specState0 : SpecState :=
  { objects := [.schema "schema:1", .credentialDefinition "creddef:1", .masterSecret,
      .presentationRequest ["reft"], .credential 10, .registryDefinition 100 "tails",
      .registry (List.replicate 100 true), .delta [] (List.replicate 100 true)],
    tailsStores := ["tails"] }

/-- The Go side of `specState0`: the object at address `k` holds handle `k + 1`. -/
def specWorld0 : World SpecState :=
  { engine := specState0,
    heap := [⟨1, false⟩, ⟨2, false⟩, ⟨3, false⟩, ⟨4, false⟩, ⟨5, false⟩, ⟨6, false⟩,
      ⟨7, false⟩, ⟨8, false⟩] }

/-- The scenario after the holder has built a revocation state at timestamp 1000 (handle 9)
and a presentation from it (handle 10). -/
def specStateBuilt : SpecState :=
  { specState0 with
    objects := specState0.objects ++
      [.revocationState ⟨10, 1000, List.replicate 100 true⟩,
       .presentation ["schema:1"] ["creddef:1"]
         [⟨10, 1000, some ⟨10, 1000, List.replicate 100 true⟩⟩]] }

/-- The Go side of `specStateBuilt`. -/
def specWorldBuilt : World SpecState :=
  { engine := specStateBuilt, heap := specWorld0.heap ++ [⟨9, false⟩, ⟨10, false⟩] }

/-- The world after `RevokeCredential(10)` on the registry of `specWorldBuilt`. -/
def specWorldRevoked : World SpecState :=
  (RevocationRegistry.RevokeCredential specEngine (some 6) (some 5) 10 "tails"
    specWorldBuilt).2

/-- The text `handleLibError` appends to a context when the current error can be read. -/
def errorSuffix (message : String) : String :=
  ". The following error was encountered: " ++ message

/-- An engine state with two deltas that chain (handle 2: A→B, handle 3: B→C), a delta that
does not follow the first (handle 4: A→C), a registry definition (handle 1), and a
revocation state built at A (handle 5).  A, B, C are accumulators over three slots. -/
def specStateChain : SpecState :=
  { objects := [.registryDefinition 3 "tails",
      .delta [true, true, true] [true, false, true],
      .delta [true, false, true] [false, false, true],
      .delta [true, true, true] [false, false, true],
      .revocationState ⟨2, 1000, [true, true, true]⟩],
    tailsStores := ["tails"] }

/-- The Go side of `specStateChain`: the object at address `k` holds handle `k + 1`. -/
def specWorldChain : World SpecState :=
  { engine := specStateChain,
    heap := [⟨1, false⟩, ⟨2, false⟩, ⟨3, false⟩, ⟨4, false⟩, ⟨5, false⟩] }

/-- One serializable type of the package: its `Load…FromJSON`, its `ToJSON`, and the type
of object of the engine of the specification its handles stand for. -/
structure DomainType (σ : Type) where
  load : RawMessage → Go σ (Ptr × GoError)
  toJSON : Ptr → Go σ (RawMessage × GoError)
  kind : Kind

/-- The types of the package that have both `ToJSON` and `Load…FromJSON`. -/
def domainTypes {σ : Type} (eng : Engine σ) : List (DomainType σ) :=
  [⟨LoadSchemaFromJSON eng, Schema.ToJSON eng, .schema⟩,
    ⟨LoadCredentialDefinitionPrivateFromJSON eng, CredentialDefinitionPrivate.ToJSON eng,
      .credentialDefinitionPrivate⟩,
    ⟨LoadKeyCorrectnessProofFromJSON eng, KeyCorrectnessProof.ToJSON eng, .keyCorrectnessProof⟩,
    ⟨LoadCredentialDefinitionFromJSON eng, CredentialDefinition.ToJSON eng, .credentialDefinition⟩,
    ⟨LoadCredentialOfferFromJSON eng, CredentialOffer.ToJSON eng, .credentialOffer⟩,
    ⟨LoadCredentialRequestFromJSON eng, CredentialRequest.ToJSON eng, .credentialRequest⟩,
    ⟨LoadCredentialRequestMetadataFromJSON eng, CredentialRequestMetadata.ToJSON eng,
      .credentialRequestMetadata⟩,
    ⟨LoadCredentialFromJSON eng, Credential.ToJSON eng, .credential⟩,
    ⟨LoadMasterSecretFromJSON eng, MasterSecret.ToJSON eng, .masterSecret⟩,
    ⟨LoadPresentationFromJSON eng, Presentation.ToJSON eng, .presentation⟩,
    ⟨LoadRevocationRegistryDefinitionFromJSON eng, RevocationRegistryDefinition.ToJSON eng,
      .registryDefinition⟩,
    ⟨LoadRevocationRegistryDefinitionPrivateFromJSON eng, RevocationRegistryDefinitionPrivate.ToJSON eng,
      .registryDefinitionPrivate⟩,
    ⟨LoadRevocationRegistryFromJSON eng, RevocationRegistry.ToJSON eng, .registry⟩,
    ⟨LoadRevocationRegistryDeltaFromJSON eng, RevocationRegistryDelta.ToJSON eng, .delta⟩]

/-- Every function of the package that loads an object from its serialized form. -/
def loaders {σ : Type} (eng : Engine σ) : List (RawMessage → Go σ (Ptr × GoError)) :=
  PresentationRequestFromJSON eng :: (domainTypes eng).map fun t => t.load

/-- The run of a `Load…FromJSON` function on a non-empty input `json`: `call` is the engine
function it calls, `context` the text before the code in its error context; the new
object gets its finalizer. -/
def loadRun {σ : Type} (eng : Engine σ) (call : ByteBuffer → Call) (context : String)
    (json : RawMessage) (w : World σ) : Outcome (Ptr × GoError) × World σ :=
  if (eng w.engine (call { len := json.length, value := json })).1.code ≠ 0 then
    (.ret (none, some (errorText eng (eng w.engine (call { len := json.length, value := json })).2
        (context ++ fmtD (eng w.engine (call { len := json.length, value := json })).1.code
          ++ "."))),
      { w with
        engine := afterError eng (eng w.engine (call { len := json.length, value := json })).2,
        trace := w.trace ++ [call { len := json.length, value := json },
          .credx_get_current_error, .credx_string_free none] })
  else
    (.ret (some w.heap.length, none),
      { engine := (eng w.engine (call { len := json.length, value := json })).2,
        heap := w.heap ++
          [{ handle := (eng w.engine (call { len := json.length, value := json })).1.handle 0 }],
        finalizers := w.finalizers ++ [w.heap.length],
        trace := w.trace ++ [call { len := json.length, value := json }] })

/-- The text the fourteen `Load…FromJSON` functions with a finalizer share, with the engine
function `call`, the text `context` before the code and the type name `name` left open. -/
def loadShape {σ : Type} (eng : Engine σ) (call : ByteBuffer → Call) (context name : String)
    (json : RawMessage) : Go σ (Ptr × GoError) := do
  let buf ← ByteBufferFromRawMessage json
  let rep ← ffi eng (call buf)
  let handle := rep.handle 0
  if rep.code ≠ 0 then
    let context := context ++ fmtD rep.code ++ "."
    let err ← handleLibError eng context
    return (none, err)
  else
    let object ← alloc { handle := handle }
    runtime.SetFinalizer object (.ptr (.named name)) (.ptr (.named name))
    return (object, none)

/-- A registry with `2^30` slots right after its creation: its definition (handle 1), the
registry with every slot non-revoked (handle 2) and the initial delta (handle 3), and the
Go objects that hold the handles. -/
def specWorldLarge : World SpecState :=
  { engine :=
      { objects := [.registryDefinition (2 ^ 30) "tails",
          .registry (List.replicate (2 ^ 30) true),
          .delta [] (List.replicate (2 ^ 30) true)],
        tailsStores := ["tails"] },
    heap := [⟨1, false⟩, ⟨2, false⟩, ⟨3, false⟩] }

/-- A computation that only reads: each run returns or panics in the world it started
in, so it calls nothing and stores nothing. -/
def Quiet {σ α : Type} (m : Go σ α) : Prop :=
  ∀ w, (∃ a, m w = (.ret a, w)) ∨ (∃ msg, m w = (.panic msg, w))

/-- The run of `m` from `w` ends before any Go object is changed and before the engine is
called: in a panic, or outside defined behaviour, in the world it started in. -/
def Stops {σ α : Type} (m : Go σ α) (w : World σ) : Prop :=
  (∃ msg, m w = (.panic msg, w)) ∨ (∃ msg, m w = (.undefined msg, w))

/-- A computation that changes no Go object and calls nothing: each run returns in the
world it started in, or stops there. -/
def Silent {σ α : Type} (m : Go σ α) : Prop :=
  ∀ w, (∃ a, m w = (.ret a, w)) ∨ Stops m w

/-- A heap with the seven objects a call of `NewCredential` names: the object at address
`k` holds handle `k + 1`. -/
def world7 : World Unit :=
  { engine := (),
    heap := [⟨1, false⟩, ⟨2, false⟩, ⟨3, false⟩, ⟨4, false⟩, ⟨5, false⟩, ⟨6, false⟩,
      ⟨7, false⟩] }

/-- A revocation info whose pointers are the last three objects of `world7`. -/
def info0 : CredentialRevocationInfo :=
  { registryDefinition := some 4, regDefinitionPrivate := some 5, regEntry := some 6,
    regIdx := 10, regUsed := [], tailsPath := "tails" }

/-- An engine that accepts every call and writes the handles 8, 9 and 10. -/
def acceptIssue : Engine Unit := fun e _ =>
  ({ code := 0, handles := [8, 9, 10] }, e)

/-- The call `NewCredential` makes for objects `d`, `dp`, `o`, `r` (definition, private
part, offer, request), a revocation info with objects `rd`, `rp`, `re` and the given
lists. -/
def credentialCall (d dp o r rd rp re : Object) (info : CredentialRevocationInfo)
    (attrNames attrValues attrEncoded : List String) : Call :=
  .credx_create_credential d.handle dp.handle o.handle r.handle
    (marshalled C.CString attrNames) (marshalled C.CString attrValues)
    (marshalled C.CString attrEncoded)
    { reg_def := rd.handle, reg_def_private := rp.handle, registry := re.handle,
      reg_idx := info.regIdx,
      reg_used := { count := info.regUsed.length, requested := info.regUsed.length,
                    data := info.regUsed },
      tails_path := info.tailsPath }

/-- The bytes the writes of a marshaler touch: elements `0 .. count - 1` of the given
size. -/
def bytesWritten {α : Type} (elem : CElem) (l : FfiList α) : Nat := l.data.length * elem.size

/-- The engine call `NewRevocationRegistryDefinition` makes when `credDef` points to the
object `cd`: an empty `issuanceType` or `tailsDirPath` goes out as a null pointer. -/
def registryCall (originDid : String) (cd : Object) (tag revRegType issuanceType : String)
    (maxCredNum : Int) (tailsDirPath : String) : Call :=
  .credx_create_revocation_registry originDid cd.handle tag revRegType
    (if issuanceType = "" then none else some issuanceType) maxCredNum
    (if tailsDirPath = "" then none else some tailsDirPath)

/-- The buffer a load call hands to the engine; `none` for every other call. -/
def Call.jsonArg : Call → Option ByteBuffer
  | .credx_schema_from_json json => some json
  | .credx_credential_definition_private_from_json json => some json
  | .credx_key_correctness_proof_from_json json => some json
  | .credx_credential_definition_from_json json => some json
  | .credx_credential_offer_from_json json => some json
  | .credx_credential_request_from_json json => some json
  | .credx_credential_request_metadata_from_json json => some json
  | .credx_credential_from_json json => some json
  | .credx_master_secret_from_json json => some json
  | .credx_presentation_from_json json => some json
  | .credx_revocation_registry_definition_from_json json => some json
  | .credx_revocation_registry_definition_private_from_json json => some json
  | .credx_revocation_registry_from_json json => some json
  | .credx_revocation_registry_delta_from_json json => some json
  | .credx_presentation_request_from_json json => some json
  | _ => none

/-- An engine that answers every call with code `0` and a buffer of `n` bytes, each `7`. -/
def bufferEngine (n : Nat) : Engine Unit := fun e _ =>
  ({ code := 0, buffer := some { len := n, value := List.replicate n 7 } }, e)

/-- The engine state after the engine has answered the given calls, in order. -/
def runTrace {σ : Type} (eng : Engine σ) (e : σ) (calls : List Call) : σ :=
  calls.foldl (fun e c => (eng e c).2) e

/-- A computation whose world keeps the books: the calls it logs are the calls the engine
has answered. -/
def Traced {σ α : Type} (eng : Engine σ) (m : Go σ α) : Prop :=
  ∀ w, ∃ calls, (m w).2.trace = w.trace ++ calls ∧
    (m w).2.engine = runTrace eng w.engine calls

/-- The text `text` reports a failed engine call of a run from world `w` to world `w1`:
the run made a call that the engine answered with a non-zero code and asked for the
current error right after it, and `text` is what `handleLibError` builds, in the engine
state after the failed call, from a context that holds the code in decimal. -/
def Reports {σ : Type} (eng : Engine σ) (w w1 : World σ) (text : String) : Prop :=
  ∃ (before after : List Call) (call : Call) (pre post : String),
    w1.trace = w.trace ++ before ++ call :: .credx_get_current_error :: after ∧
    (eng (runTrace eng w.engine before) call).1.code ≠ 0 ∧
    text = errorText eng (eng (runTrace eng w.engine before) call).2
      (pre ++ fmtD (eng (runTrace eng w.engine before) call).1.code ++ post)

/-- A computation whose every returned error reports a failed engine call; `err` reads
the error out of the result. -/
def Wraps {σ α : Type} (eng : Engine σ) (m : Go σ α) (err : α → GoError) : Prop :=
  ∀ w a w1 text, m w = (.ret a, w1) → err a = some text → Reports eng w w1 text

/-- A computation that returns no error. -/
def NoError {σ α : Type} (m : Go σ α) (err : α → GoError) : Prop :=
  ∀ w a w1, m w = (.ret a, w1) → err a = none

/-- A function of the package that returns an error as its last result: the types of its
arguments and of its results, the function, and the projection to the error. -/
structure Operation (σ : Type) where
  Args : Type
  Result : Type
  run : Args → Go σ Result
  err : Result → GoError

/-- Every function of the package that calls `handleLibError`, and the attribute getters
on top of them; the `Load…FromJSON` functions and the `ToJSON` methods come from `loaders`
and `domainTypes`. -/
def operations {σ : Type} (eng : Engine σ) : List (Operation σ) :=
  [ ⟨Unit, Option String × GoError, fun _ => GenerateNonce eng, fun r => r.2⟩,
    ⟨Ptr × Ptr × Ptr × Ptr × Option CredentialRevocationInfo × List String × List String ×
        List String, Ptr × Ptr × Ptr × GoError,
      fun a => NewCredential eng a.1 a.2.1 a.2.2.1 a.2.2.2.1 a.2.2.2.2.1 a.2.2.2.2.2.1
        a.2.2.2.2.2.2.1 a.2.2.2.2.2.2.2, fun r => r.2.2.2⟩,
    ⟨Ptr × Ptr × Ptr × Ptr × Ptr, Ptr × GoError,
      fun a => Credential.Process eng a.1 a.2.1 a.2.2.1 a.2.2.2.1 a.2.2.2.2, fun r => r.2⟩,
    ⟨Ptr × String, String × GoError, fun a => Credential.getCredentialAttr eng a.1 a.2,
      fun r => r.2⟩,
    ⟨Ptr, String × GoError, Credential.GetSchemaID eng, fun r => r.2⟩,
    ⟨Ptr, String × GoError, Credential.GetCredentialDefinitionID eng, fun r => r.2⟩,
    ⟨Ptr, String × GoError, Credential.GetRevocationRegistryID eng, fun r => r.2⟩,
    ⟨Ptr, String × GoError, Credential.GetRevocationRegistryIndex eng, fun r => r.2⟩,
    ⟨Ptr × Ptr × Option CredentialRevocationInfo × Int, Ptr × GoError,
      fun a => NewCredentialRevocationState eng a.1 a.2.1 a.2.2.1 a.2.2.2, fun r => r.2⟩,
    ⟨Ptr × Ptr × Ptr × Int × Int × String, Ptr × GoError,
      fun a => CredentialRevocationState.Update eng a.1 a.2.1 a.2.2.1 a.2.2.2.1 a.2.2.2.2.1
        a.2.2.2.2.2, fun r => r.2⟩,
    ⟨String × Ptr × String × String × Bool, Ptr × Ptr × Ptr × GoError,
      fun a => NewCredentialDefinition eng a.1 a.2.1 a.2.2.1 a.2.2.2.1 a.2.2.2.2,
      fun r => r.2.2.2⟩,
    ⟨Ptr × String, String × GoError,
      fun a => CredentialDefinition.getCredDefAttribute eng a.1 a.2, fun r => r.2⟩,
    ⟨Ptr, String × GoError, CredentialDefinition.GetID eng, fun r => r.2⟩,
    ⟨Ptr, String × GoError, CredentialDefinition.GetSchemaID eng, fun r => r.2⟩,
    ⟨String × Ptr × Ptr, Ptr × GoError, fun a => NewCredentialOffer eng a.1 a.2.1 a.2.2,
      fun r => r.2⟩,
    ⟨String × Ptr × Ptr × String × Ptr, Ptr × Ptr × GoError,
      fun a => NewCredentialRequest eng a.1 a.2.1 a.2.2.1 a.2.2.2.1 a.2.2.2.2,
      fun r => r.2.2⟩,
    ⟨Unit, Ptr × GoError, fun _ => NewMasterSecret eng, fun r => r.2⟩,
    ⟨Ptr × List CredentialEntry × List CredentialProve × List String × List String × Ptr ×
        List Schema × List CredentialDefinition, Ptr × GoError,
      fun a => NewPresentation eng a.1 a.2.1 a.2.2.1 a.2.2.2.1 a.2.2.2.2.1 a.2.2.2.2.2.1
        a.2.2.2.2.2.2.1 a.2.2.2.2.2.2.2, fun r => r.2⟩,
    ⟨Ptr × Ptr × List Schema × List CredentialDefinition ×
        List RevocationRegistryDefinition × List RevocationEntry, Bool × GoError,
      fun a => Presentation.Verify eng a.1 a.2.1 a.2.2.1 a.2.2.2.1 a.2.2.2.2.1 a.2.2.2.2.2,
      fun r => r.2⟩,
    ⟨String × Ptr × String × String × String × Int × String,
      Ptr × Ptr × Ptr × Ptr × GoError,
      fun a => NewRevocationRegistryDefinition eng a.1 a.2.1 a.2.2.1 a.2.2.2.1 a.2.2.2.2.1
        a.2.2.2.2.2.1 a.2.2.2.2.2.2, fun r => r.2.2.2.2⟩,
    ⟨Ptr × Ptr × Int × String, Ptr × GoError,
      fun a => RevocationRegistry.RevokeCredential eng a.1 a.2.1 a.2.2.1 a.2.2.2,
      fun r => r.2⟩,
    ⟨Ptr × Ptr × List Int × List Int × String, Ptr × GoError,
      fun a => RevocationRegistry.Update eng a.1 a.2.1 a.2.2.1 a.2.2.2.1 a.2.2.2.2,
      fun r => r.2⟩,
    ⟨Ptr × RevocationRegistryDelta, Ptr × GoError,
      fun a => RevocationRegistryDelta.UpdateWith eng a.1 a.2, fun r => r.2⟩,
    ⟨Ptr × String, String × GoError,
      fun a => RevocationRegistryDefinition.getAttr eng a.1 a.2, fun r => r.2⟩,
    ⟨Ptr, String × GoError, RevocationRegistryDefinition.GetID eng, fun r => r.2⟩,
    ⟨Ptr, String × GoError, RevocationRegistryDefinition.GetMaxCredNum eng, fun r => r.2⟩,
    ⟨Ptr, String × GoError, RevocationRegistryDefinition.GetTailsHash eng, fun r => r.2⟩,
    ⟨Ptr, String × GoError, RevocationRegistryDefinition.GetTailsLocation eng, fun r => r.2⟩,
    ⟨String × String × String × List String × Int, Ptr × GoError,
      fun a => NewSchema eng a.1 a.2.1 a.2.2.1 a.2.2.2.1 a.2.2.2.2, fun r => r.2⟩,
    ⟨Ptr × String, String × GoError, fun a => Schema.getSchemaAttribute eng a.1 a.2,
      fun r => r.2⟩,
    ⟨Ptr, String × GoError, Schema.GetID eng, fun r => r.2⟩ ] ++
  ((loaders eng).map fun load => ⟨RawMessage, Ptr × GoError, load, fun r => r.2⟩) ++
  ((domainTypes eng).map fun t => ⟨Ptr, RawMessage × GoError, t.toJSON, fun r => r.2⟩)

/-- An engine that accepts every call and writes the handles `7`, `8`, `9` and `10` to the
handle out-parameters. -/
def acceptFour : Engine Unit := fun e _ =>
  ({ code := 0, handles := [7, 8, 9, 10] }, e)

/-! # Theorems -/

/-! ## Evaluation rules -/

theorem deref_eq {σ : Type} (w : World σ) (p : Ptr) (o : Object) (h : w.lookup p = some o) :
    deref p w = (.ret o, w) := by
  cases p with
  | none => simp [World.lookup] at h
  | some a =>
    simp only [World.lookup] at h
    simp [deref, h]

theorem deref_nil {σ : Type} (w : World σ) (p : Ptr) (h : w.lookup p = none) :
    (deref p : Go σ Object) w = (.panic nilDeref, w) := by
  cases p with
  | none => rfl
  | some a =>
    simp only [World.lookup] at h
    simp [deref, h]

theorem handleLibError_eq {σ : Type} (eng : Engine σ) (context : String) (w : World σ) :
    handleLibError eng context w =
      (.ret (some (errorText eng w.engine context)),
        { w with engine := afterError eng w.engine,
                 trace := w.trace ++ [.credx_get_current_error, .credx_string_free none] }) := by
  by_cases h : (eng w.engine .credx_get_current_error).1.code = 0 <;>
    simp [handleLibError, Go.defer, CloseStrBuffer, bind, Go.bind, pure, Go.pure, ffi, h,
      errorText, afterError]

/-- Every block has room for 24 bytes. -/
theorem C.malloc_ge (n : Nat) : 24 ≤ C.malloc n := by
  unfold C.malloc
  omega

/-- A list of 8-byte elements fits the block asked for its length exactly when it has at
most three elements. -/
theorem fits8_iff (n : Nat) : n * 8 ≤ C.malloc n ↔ n ≤ 3 := by
  unfold C.malloc
  omega

/-- A list of 24-byte elements fits the block asked for its length exactly when it has at
most one element. -/
theorem fits24_iff (n : Nat) : n * 24 ≤ C.malloc n ↔ n ≤ 1 := by
  unfold C.malloc
  omega

theorem room_step {index n size room : Nat} (h : (index + (n + 1)) * size ≤ room) :
    (index + 1) * size ≤ room ∧ (index + 1 + n) * size ≤ room := by
  constructor
  · exact Nat.le_trans (Nat.mul_le_mul_right size (by omega)) h
  · exact Nat.le_trans (Nat.mul_le_mul_right size (by omega)) h

theorem rangeWrite_pure {σ α β : Type} (elem : CElem) (room : Nat) (f : α → β)
    (list : List α) (index : Nat) (hlen : index + list.length ≤ viewLen)
    (hroom : (index + list.length) * elem.size ≤ room) (w : World σ) :
    rangeWrite elem room (fun item => (Go.pure (f item) : Go σ β)) index list w =
      (.ret (list.map f), w) := by
  induction list generalizing index with
  | nil => rfl
  | cons x xs ih =>
    have h1 : index < viewLen := by simp only [List.length_cons] at hlen; omega
    have h2 : index + 1 + xs.length ≤ viewLen := by simp only [List.length_cons] at hlen; omega
    have hr := room_step (by simpa only [List.length_cons] using hroom)
    simp only [rangeWrite, bind, Go.bind, Go.pure, h1, if_true, hr.1]
    have h3 := ih (index + 1) h2 hr.2
    simp only [Go.pure] at h3
    simp only [h3, pure, Go.pure, List.map_cons]

theorem NewFfiI64_eq {σ : Type} (list : List Int) (hlen : list.length ≤ 3) (w : World σ) :
    NewFfiI64 list w =
      (.ret { count := list.length, requested := list.length, data := list }, w) := by
  have h := rangeWrite_pure .int64_t (C.malloc list.length) (fun item : Int => item) list 0
    (by simp only [viewLen]; omega) (by simpa using (fits8_iff list.length).mpr hlen) w
  simp only [List.map_id_fun', id_eq] at h
  simp only [NewFfiI64, bind, Go.bind, pure, h]
  rfl

/-! ## Runs that end before anything is changed or called -/

theorem Quiet.of_pure {σ α : Type} (a : α) : Quiet (Go.pure a : Go σ α) :=
  fun _ => Or.inl ⟨a, rfl⟩

theorem Quiet.of_bind {σ α β : Type} {m : Go σ α} {f : α → Go σ β}
    (hm : Quiet m) (hf : ∀ a, Quiet (f a)) : Quiet (Go.bind m f) := by
  intro w
  rcases hm w with ⟨a, ha⟩ | ⟨msg, hmsg⟩
  · simpa only [Go.bind, ha] using hf a w
  · exact Or.inr ⟨msg, by simp only [Go.bind, hmsg]⟩

theorem Quiet.of_deref {σ : Type} (p : Ptr) : Quiet (IndyCredx.deref p : Go σ Object) := by
  intro w
  rcases h : w.lookup p with _ | o
  · exact Or.inr ⟨_, deref_nil w p h⟩
  · exact Or.inl ⟨o, deref_eq w p o h⟩

theorem silent_of_quiet {σ α : Type} {m : Go σ α} (hm : Quiet m) : Silent m := by
  intro w
  rcases hm w with h | h
  · exact Or.inl h
  · exact Or.inr (Or.inl h)

/-- A step that stops makes the whole function stop. -/
theorem stops_bind {σ α β : Type} {m : Go σ α} (f : α → Go σ β) (w : World σ)
    (h : Stops m w) : Stops (Go.bind m f) w := by
  rcases h with ⟨msg, hm⟩ | ⟨msg, hm⟩
  · exact Or.inl ⟨msg, by simp only [Go.bind, hm]⟩
  · exact Or.inr ⟨msg, by simp only [Go.bind, hm]⟩

theorem silent_bind {σ α β : Type} {m : Go σ α} {f : α → Go σ β}
    (hm : Silent m) (hf : ∀ a, Silent (f a)) : Silent (Go.bind m f) := by
  intro w
  rcases hm w with ⟨a, ha⟩ | h
  · rcases hf a w with ⟨b, hb⟩ | ⟨msg, hb⟩ | ⟨msg, hb⟩
    · exact Or.inl ⟨b, by simp only [Go.bind, ha, hb]⟩
    · exact Or.inr (Or.inl ⟨msg, by simp only [Go.bind, ha, hb]⟩)
    · exact Or.inr (Or.inr ⟨msg, by simp only [Go.bind, ha, hb]⟩)
  · exact Or.inr (stops_bind f w h)

/-- A silent step followed by the rest of a function: when the rest stops after every
return of the step, so does the whole. -/
theorem Silent.step {σ α β : Type} {m : Go σ α} (hm : Silent m) (f : α → Go σ β)
    (w : World σ) (hr : ∀ a, m w = (.ret a, w) → Stops (f a) w) :
    Stops (Go.bind m f) w := by
  rcases hm w with ⟨a, ha⟩ | h
  · rcases hr a ha with ⟨msg, hb⟩ | ⟨msg, hb⟩
    · exact Or.inl ⟨msg, by simp only [Go.bind, ha, hb]⟩
    · exact Or.inr ⟨msg, by simp only [Go.bind, ha, hb]⟩
  · exact stops_bind f w h

/-- A silent computation that does not return stops. -/
theorem Silent.stops_of_not_ret {σ α : Type} {m : Go σ α} (hm : Silent m) (w : World σ)
    (h : ∀ a, m w ≠ (.ret a, w)) : Stops m w := by
  rcases hm w with ⟨a, ha⟩ | hs
  · exact absurd ha (h a)
  · exact hs

/-- The loop of a marshaler changes nothing and calls nothing when the conversions do
not. -/
theorem silent_rangeWrite {σ α β : Type} (elem : CElem) (room : Nat) (conv : α → Go σ β)
    (hq : ∀ item, Silent (conv item)) (index : Nat) (list : List α) :
    Silent (rangeWrite elem room conv index list) := by
  induction list generalizing index with
  | nil => exact fun w => Or.inl ⟨[], rfl⟩
  | cons x xs ih =>
    intro w
    rcases hq x w with ⟨v, hv⟩ | ⟨msg, hmsg⟩ | ⟨msg, hmsg⟩
    · by_cases h1 : index < viewLen
      · by_cases hr : (index + 1) * elem.size ≤ room
        · rcases ih (index + 1) w with ⟨vs, hvs⟩ | ⟨msg, hmsg⟩ | ⟨msg, hmsg⟩
          · exact Or.inl ⟨v :: vs, by
              simp only [rangeWrite, Bind.bind, Go.bind, hv, h1, hr, if_true, hvs, Pure.pure,
                Go.pure]⟩
          · exact Or.inr (Or.inl ⟨msg, by
              simp only [rangeWrite, Bind.bind, Go.bind, hv, h1, hr, if_true, hmsg]⟩)
          · exact Or.inr (Or.inr ⟨msg, by
              simp only [rangeWrite, Bind.bind, Go.bind, hv, h1, hr, if_true, hmsg]⟩)
        · exact Or.inr (Or.inr ⟨heapOverflow, by
            simp only [rangeWrite, Bind.bind, Go.bind, hv, h1, hr, if_true, if_false,
              undefinedBehaviour]⟩)
      · exact Or.inr (Or.inl ⟨"runtime error: index out of range", by
          simp only [rangeWrite, Bind.bind, Go.bind, hv, h1, if_false, panic]⟩)
    · exact Or.inr (Or.inl ⟨msg, by simp only [rangeWrite, Bind.bind, Go.bind, hmsg]⟩)
    · exact Or.inr (Or.inr ⟨msg, by simp only [rangeWrite, Bind.bind, Go.bind, hmsg]⟩)

/-- The loop of a marshaler returns only when every element it wrote lies inside the
block, and then it has written as many elements as the list holds. -/
theorem rangeWrite_ret {σ α β : Type} (elem : CElem) (room : Nat) (conv : α → Go σ β)
    (list : List α) (index : Nat) (w w1 : World σ) (vs : List β)
    (h : rangeWrite elem room conv index list w = (.ret vs, w1)) :
    vs.length = list.length ∧
    (list = [] ∨ (index + list.length) * elem.size ≤ room) := by
  induction list generalizing index w w1 vs with
  | nil =>
    simp only [rangeWrite, pure, Go.pure, Prod.mk.injEq, Outcome.ret.injEq] at h
    rw [← h.1]
    exact ⟨rfl, Or.inl rfl⟩
  | cons x xs ih =>
    simp only [rangeWrite, bind, Go.bind] at h
    rcases hx : conv x w with ⟨o, wx⟩
    cases o with
    | ret v =>
      simp only [hx] at h
      by_cases h1 : index < viewLen
      · by_cases hr : (index + 1) * elem.size ≤ room
        · simp only [h1, hr, if_true, Go.bind] at h
          rcases hxs : rangeWrite elem room conv (index + 1) xs wx with ⟨o2, w2⟩
          cases o2 with
          | ret rest =>
            simp only [hxs, pure, Go.pure, Prod.mk.injEq, Outcome.ret.injEq] at h
            obtain ⟨hl, hfit⟩ := ih (index + 1) wx w2 rest hxs
            refine ⟨by rw [← h.1, List.length_cons, List.length_cons, hl], Or.inr ?_⟩
            rcases hfit with hnil | hfit
            · subst hnil
              simpa using hr
            · rw [List.length_cons]
              rw [show index + (xs.length + 1) = index + 1 + xs.length by omega]
              exact hfit
          | panic msg => simp [hxs] at h
          | fatal msg => simp [hxs] at h
          | undefined msg => simp [hxs] at h
        · simp [h1, hr, undefinedBehaviour] at h
      · simp [h1, panic] at h
    | panic msg => simp [hx] at h
    | fatal msg => simp [hx] at h
    | undefined msg => simp [hx] at h

/-- What a list marshaler of common.go returns, whenever it returns: `count` and the
number of bytes asked from `C.malloc` are both `len(list)`, `len(list)` elements have been
written, and they lie inside the block. -/
theorem marshaler_ret {σ α β : Type} (elem : CElem) (conv : α → Go σ β) (list : List α)
    (w w1 : World σ) (v : FfiList β)
    (h : Go.bind (rangeWrite elem (C.malloc list.length) conv 0 list)
      (fun data => Go.pure { count := list.length, requested := list.length, data := data })
      w = (.ret v, w1) ) :
    v.count = list.length ∧ v.requested = list.length ∧ v.data.length = list.length ∧
    list.length * elem.size ≤ C.malloc list.length := by
  simp only [Go.bind] at h
  rcases hr : rangeWrite elem (C.malloc list.length) conv 0 list w with ⟨o, w2⟩
  cases o with
  | ret data =>
    simp only [hr, Go.pure, Prod.mk.injEq, Outcome.ret.injEq] at h
    obtain ⟨hl, hfit⟩ := rangeWrite_ret elem _ conv list 0 w w2 data hr
    rw [← h.1]
    refine ⟨rfl, rfl, hl, ?_⟩
    rcases hfit with hnil | hfit
    · subst hnil
      simp
    · simpa using hfit
  | panic msg => simp [hr] at h
  | fatal msg => simp [hr] at h
  | undefined msg => simp [hr] at h

theorem silent_NewFfiI64 {σ : Type} (list : List Int) :
    Silent (IndyCredx.NewFfiI64 list : Go σ FfiListI64) := by
  unfold IndyCredx.NewFfiI64
  simp only [Bind.bind, Pure.pure]
  exact silent_bind (silent_rangeWrite _ _ _ (fun _ => silent_of_quiet (Quiet.of_pure _)) 0
    list) fun _ => silent_of_quiet (Quiet.of_pure _)

theorem silent_NewFfiStrList {σ : Type} (list : List String) :
    Silent (IndyCredx.NewFfiStrList list : Go σ FfiStrList) := by
  unfold IndyCredx.NewFfiStrList
  simp only [Bind.bind, Pure.pure]
  exact silent_bind (silent_rangeWrite _ _ _ (fun _ => silent_of_quiet (Quiet.of_pure _)) 0
    list) fun _ => silent_of_quiet (Quiet.of_pure _)

theorem silent_NewFfiListObjectHandle {σ : Type} (list : List ObjectHandle) :
    Silent (NewFfiListObjectHandle list : Go σ FfiListObjectHandle) := by
  unfold NewFfiListObjectHandle
  simp only [Bind.bind, Pure.pure]
  exact silent_bind (silent_rangeWrite _ _ _ (fun _ => silent_of_quiet (Quiet.of_pure _)) 0
    list) fun _ => silent_of_quiet (Quiet.of_pure _)

theorem silent_NewFfiListFfiCredentialProve {σ : Type} (list : List CredentialProve) :
    Silent (NewFfiListFfiCredentialProve list : Go σ (FfiList FfiCredentialProve)) := by
  unfold NewFfiListFfiCredentialProve
  simp only [Bind.bind, Pure.pure]
  exact silent_bind (silent_rangeWrite _ _ _ (fun _ => silent_of_quiet (Quiet.of_pure _)) 0
    list) fun _ => silent_of_quiet (Quiet.of_pure _)

/-- `NewFfiI64` returns only for a list of at most three elements. -/
theorem NewFfiI64_ret_fits {σ : Type} (list : List Int) (w w1 : World σ) (v : FfiListI64)
    (h : NewFfiI64 list w = (.ret v, w1)) : list.length ≤ 3 :=
  (fits8_iff list.length).mp (marshaler_ret .int64_t _ list w w1 v h).2.2.2

/-- `NewFfiStrList` returns only for a list of at most three elements. -/
theorem NewFfiStrList_ret_fits {σ : Type} (list : List String) (w w1 : World σ)
    (v : FfiStrList) (h : NewFfiStrList list w = (.ret v, w1)) : list.length ≤ 3 :=
  (fits8_iff list.length).mp (marshaler_ret .charPtr _ list w w1 v h).2.2.2

/-- `NewFfiListObjectHandle` returns only for a list of at most three elements. -/
theorem NewFfiListObjectHandle_ret_fits {σ : Type} (list : List ObjectHandle)
    (w w1 : World σ) (v : FfiListObjectHandle)
    (h : NewFfiListObjectHandle list w = (.ret v, w1)) : list.length ≤ 3 :=
  (fits8_iff list.length).mp (marshaler_ret .ulong _ list w w1 v h).2.2.2

/-- `NewFfiListFfiCredentialEntry` returns only for a list of at most one element. -/
theorem NewFfiListFfiCredentialEntry_ret_fits {σ : Type} (list : List CredentialEntry)
    (w w1 : World σ) (v : FfiList FfiCredentialEntry)
    (h : NewFfiListFfiCredentialEntry list w = (.ret v, w1)) : list.length ≤ 1 :=
  (fits24_iff list.length).mp (marshaler_ret .FfiCredentialEntry _ list w w1 v h).2.2.2

/-- `NewFfiListFfiCredentialProve` returns only for a list of at most one element. -/
theorem NewFfiListFfiCredentialProve_ret_fits {σ : Type} (list : List CredentialProve)
    (w w1 : World σ) (v : FfiList FfiCredentialProve)
    (h : NewFfiListFfiCredentialProve list w = (.ret v, w1)) : list.length ≤ 1 :=
  (fits24_iff list.length).mp (marshaler_ret .FfiCredentialProve _ list w w1 v h).2.2.2

/-- `NewFfiListFfiRevocationEntry` returns only for a list of at most one element. -/
theorem NewFfiListFfiRevocationEntry_ret_fits {σ : Type} (list : List RevocationEntry)
    (w w1 : World σ) (v : FfiList FfiRevocationEntry)
    (h : NewFfiListFfiRevocationEntry list w = (.ret v, w1)) : list.length ≤ 1 :=
  (fits24_iff list.length).mp (marshaler_ret .FfiRevocationEntry _ list w w1 v h).2.2.2

theorem silent_ToC {σ : Type} (c : Option CredentialRevocationInfo) :
    Silent (CredentialRevocationInfo.ToC c : Go σ FfiCredentialRevocationInfo) := by
  cases c with
  | none => exact fun w => Or.inr (Or.inl ⟨_, rfl⟩)
  | some info =>
    unfold CredentialRevocationInfo.ToC
    simp only [Bind.bind, Pure.pure]
    refine silent_bind (silent_of_quiet (Quiet.of_pure _)) fun _ => ?_
    refine silent_bind (silent_NewFfiI64 _) fun _ => ?_
    refine silent_bind (silent_of_quiet (Quiet.of_deref _)) fun _ => ?_
    refine silent_bind (silent_of_quiet (Quiet.of_deref _)) fun _ => ?_
    exact silent_bind (silent_of_quiet (Quiet.of_deref _)) fun _ =>
      silent_of_quiet (Quiet.of_pure _)

/-! ## Frame rules: which computations leave existing objects alone -/

theorem OnlyAllocates.pure {σ α : Type} (a : α) : OnlyAllocates (Go.pure a : Go σ α) :=
  fun _ => ⟨[], by simp [Go.pure]⟩

theorem OnlyAllocates.panic {σ α : Type} (msg : String) :
    OnlyAllocates (IndyCredx.panic msg : Go σ α) :=
  fun _ => ⟨[], by simp [IndyCredx.panic]⟩

theorem OnlyAllocates.bind {σ α β : Type} {m : Go σ α} {f : α → Go σ β}
    (hm : OnlyAllocates m) (hf : ∀ a, OnlyAllocates (f a)) : OnlyAllocates (Go.bind m f) := by
  intro w
  obtain ⟨c1, h1⟩ := hm w
  unfold Go.bind
  rcases hmw : m w with ⟨out, w1⟩
  rw [hmw] at h1
  cases out with
  | ret a =>
    obtain ⟨c2, h2⟩ := hf a w1
    exact ⟨c1 ++ c2, by simp only [h2]; simp at h1; rw [h1, List.append_assoc]⟩
  | panic msg => exact ⟨c1, h1⟩
  | fatal msg => exact ⟨c1, h1⟩
  | undefined msg => exact ⟨c1, h1⟩

theorem OnlyAllocates.defer {σ α : Type} {d : Go σ Unit} {body : Go σ α}
    (hd : OnlyAllocates d) (hb : OnlyAllocates body) : OnlyAllocates (Go.defer d body) := by
  intro w
  obtain ⟨c1, h1⟩ := hb w
  unfold Go.defer
  rcases hbw : body w with ⟨out, w1⟩
  rw [hbw] at h1
  simp at h1
  obtain ⟨c2, h2⟩ := hd w1
  cases out with
  | fatal msg => exact ⟨c1, h1⟩
  | undefined msg => exact ⟨c1, h1⟩
  | ret a =>
    rcases hdw : d w1 with ⟨out2, w2⟩
    rw [hdw] at h2
    simp at h2
    cases out2 <;> exact ⟨c1 ++ c2, by simp [hdw, h2, h1]⟩
  | panic msg =>
    rcases hdw : d w1 with ⟨out2, w2⟩
    rw [hdw] at h2
    simp at h2
    cases out2 <;> exact ⟨c1 ++ c2, by simp [hdw, h2, h1]⟩

theorem OnlyAllocates.ite {σ α : Type} {c : Prop} [Decidable c] {m1 m2 : Go σ α}
    (h1 : OnlyAllocates m1) (h2 : OnlyAllocates m2) : OnlyAllocates (if c then m1 else m2) := by
  by_cases h : c <;> simp [h, h1, h2]

theorem OnlyAllocates.deref {σ : Type} (p : Ptr) : OnlyAllocates (IndyCredx.deref p : Go σ Object) := by
  intro w
  refine ⟨[], ?_⟩
  cases p with
  | none => simp [IndyCredx.deref]
  | some a =>
    rcases h : w.heap[a]? with _ | o <;> simp [IndyCredx.deref, h]

theorem OnlyAllocates.alloc {σ : Type} (o : Object) : OnlyAllocates (IndyCredx.alloc o : Go σ Ptr) :=
  fun _ => ⟨[o], by simp [IndyCredx.alloc]⟩

theorem OnlyAllocates.ffi {σ : Type} (eng : Engine σ) (c : Call) :
    OnlyAllocates (IndyCredx.ffi eng c) :=
  fun _ => ⟨[], by simp [IndyCredx.ffi]⟩

theorem OnlyAllocates.SetFinalizer {σ : Type} (obj : Ptr) (objTy argTy : GoType) :
    OnlyAllocates (runtime.SetFinalizer obj objTy argTy : Go σ Unit) := by
  intro w
  refine ⟨[], ?_⟩
  unfold runtime.SetFinalizer
  cases objTy <;> cases obj <;> simp
  split <;> simp

theorem OnlyAllocates.handleLibError {σ : Type} (eng : Engine σ) (context : String) :
    OnlyAllocates (IndyCredx.handleLibError eng context) :=
  fun w => ⟨[], by simp [handleLibError_eq]⟩

theorem OnlyAllocates.rangeWrite {σ α β : Type} (elem : CElem) (room : Nat)
    (conv : α → Go σ β) (hconv : ∀ item, OnlyAllocates (conv item)) (index : Nat)
    (list : List α) : OnlyAllocates (IndyCredx.rangeWrite elem room conv index list) := by
  induction list generalizing index with
  | nil => exact OnlyAllocates.pure []
  | cons x xs ih =>
    unfold IndyCredx.rangeWrite
    refine OnlyAllocates.bind (hconv x) fun v => OnlyAllocates.ite ?_ (OnlyAllocates.panic _)
    refine OnlyAllocates.ite ?_ (fun _ => ⟨[], by simp [undefinedBehaviour]⟩)
    exact OnlyAllocates.bind (ih (index + 1)) fun vs => OnlyAllocates.pure _

/-- A cell present before a run of a computation that only allocates is the same after it. -/
theorem OnlyAllocates.lookup_eq {σ α : Type} {m : Go σ α} (hm : OnlyAllocates m)
    (w : World σ) (p : Ptr) (o : Object) (h : w.lookup p = some o) :
    (m w).2.lookup p = some o := by
  obtain ⟨cells, hc⟩ := hm w
  cases p with
  | none => simp [World.lookup] at h
  | some a =>
    have h2 : w.heap[a]? = some o := h
    have hlt : a < w.heap.length := (List.getElem?_eq_some_iff.mp h2).1
    simp only [World.lookup, hc]
    rw [List.getElem?_append_left hlt]
    exact h2

/-! ## RevocationRegistry.RevokeCredential -/

theorem RevokeCredential_ok {σ : Type} (eng : Engine σ) (w : World σ) (a : Nat) (d : Ptr)
    (idx : Int) (path : String) (r dd : Object)
    (hs : w.lookup (some a) = some r) (hd : w.lookup d = some dd)
    (hc : (eng w.engine (.credx_revoke_credential dd.handle r.handle idx path)).1.code = 0) :
    RevocationRegistry.RevokeCredential eng (some a) d idx path w =
      (.ret (some w.heap.length, none),
        { engine := (eng w.engine (.credx_revoke_credential dd.handle r.handle idx path)).2,
          heap := w.heap.set a { r with handle :=
              (eng w.engine (.credx_revoke_credential dd.handle r.handle idx path)).1.handle 0 }
            ++ [{ handle :=
              (eng w.engine (.credx_revoke_credential dd.handle r.handle idx path)).1.handle 1 }],
          finalizers := w.finalizers ++ [w.heap.length],
          trace := w.trace ++ [.credx_revoke_credential dd.handle r.handle idx path] }) := by
  have hs2 : w.heap[a]? = some r := hs
  simp [RevocationRegistry.RevokeCredential, bind, Go.bind, deref_eq w d dd hd,
    deref_eq w (some a) r hs, ffi, C.CString, hc, setHandle, hs2, alloc, runtime.SetFinalizer,
    tyDeltaPtr, pure, Go.pure]

theorem RevokeCredential_err {σ : Type} (eng : Engine σ) (w : World σ) (s d : Ptr)
    (idx : Int) (path : String) (r dd : Object)
    (hs : w.lookup s = some r) (hd : w.lookup d = some dd)
    (hc : (eng w.engine (.credx_revoke_credential dd.handle r.handle idx path)).1.code ≠ 0) :
    RevocationRegistry.RevokeCredential eng s d idx path w =
      (.ret (none, some (errorText eng
          (eng w.engine (.credx_revoke_credential dd.handle r.handle idx path)).2
          ("Couldn't update revocation registry, received code " ++
            fmtD (eng w.engine (.credx_revoke_credential dd.handle r.handle idx path)).1.code))),
        { engine := afterError eng
            (eng w.engine (.credx_revoke_credential dd.handle r.handle idx path)).2,
          heap := w.heap,
          finalizers := w.finalizers,
          trace := w.trace ++ [.credx_revoke_credential dd.handle r.handle idx path,
            .credx_get_current_error, .credx_string_free none] }) := by
  simp [RevocationRegistry.RevokeCredential, bind, Go.bind, deref_eq w d dd hd,
    deref_eq w s r hs, ffi, C.CString, hc, handleLibError_eq, pure, Go.pure]

/-- C1: when the engine accepts `credx_revoke_credential` (code 0), `RevokeCredential`
returns a non-nil delta and a nil error; afterwards the registry holds the new
accumulator handle the engine wrote (its `isClosed` flag untouched) and the delta is a
fresh object holding the engine's delta handle. -/
theorem RevokeCredential_replaces_current_value {σ : Type} (eng : Engine σ) (w : World σ)
    (s d : Ptr) (idx : Int) (path : String) (r dd : Object)
    (hs : w.lookup s = some r) (hd : w.lookup d = some dd)
    (hc : (eng w.engine (.credx_revoke_credential dd.handle r.handle idx path)).1.code = 0) :
    ∃ (delta : Nat) (w1 : World σ),
      RevocationRegistry.RevokeCredential eng s d idx path w = (.ret (some delta, none), w1) ∧
      w1.lookup s = some
        { handle := (eng w.engine (.credx_revoke_credential dd.handle r.handle idx path)).1.handle 0,
          isClosed := r.isClosed } ∧
      w1.lookup (some delta) = some
        { handle := (eng w.engine (.credx_revoke_credential dd.handle r.handle idx path)).1.handle 1,
          isClosed := false } := by
  cases s with
  | none => simp [World.lookup] at hs
  | some a =>
    have hs2 : w.heap[a]? = some r := hs
    have hlt : a < w.heap.length := by
      rcases List.getElem?_eq_some_iff.mp hs2 with ⟨h, _⟩
      exact h
    refine ⟨w.heap.length, _, RevokeCredential_ok eng w a d idx path r dd hs hd hc, ?_, ?_⟩
    · simp [World.lookup, List.getElem?_append_left, hlt]
    · simp [World.lookup]

/-- Witness for C1: the accepting engine on the sample heap. -/
theorem RevokeCredential_replaces_current_value_witness :
    ∃ (delta : Nat) (w1 : World Unit),
      RevocationRegistry.RevokeCredential acceptAll (some 0) (some 1) 10 "tails" world0 =
        (.ret (some delta, none), w1) ∧
      w1.lookup (some 0) = some { handle := 7, isClosed := false } ∧
      w1.lookup (some delta) = some { handle := 8, isClosed := false } :=
  RevokeCredential_replaces_current_value acceptAll world0 (some 0) (some 1) 10 "tails"
    ⟨1, false⟩ ⟨2, false⟩ rfl rfl rfl

/-- C2: when the engine rejects `credx_revoke_credential` (non-zero code),
`RevokeCredential` returns a nil delta and a non-nil error, and the Go heap is the one
from before the call: in particular the registry keeps its handle and `isClosed` flag. -/
theorem RevokeCredential_failure_keeps_registry {σ : Type} (eng : Engine σ) (w : World σ)
    (s d : Ptr) (idx : Int) (path : String) (r dd : Object)
    (hs : w.lookup s = some r) (hd : w.lookup d = some dd)
    (hc : (eng w.engine (.credx_revoke_credential dd.handle r.handle idx path)).1.code ≠ 0) :
    ∃ (msg : String) (w1 : World σ),
      RevocationRegistry.RevokeCredential eng s d idx path w = (.ret (none, some msg), w1) ∧
      w1.heap = w.heap ∧ w1.lookup s = some r := by
  refine ⟨_, _, RevokeCredential_err eng w s d idx path r dd hs hd hc, rfl, ?_⟩
  cases s with
  | none => simp [World.lookup] at hs
  | some a => exact hs

/-- Witness for C2: the rejecting engine on the sample heap. -/
theorem RevokeCredential_failure_keeps_registry_witness :
    ∃ (msg : String) (w1 : World Unit),
      RevocationRegistry.RevokeCredential rejectAll (some 0) (some 1) 10 "tails" world0 =
        (.ret (none, some msg), w1) ∧
      w1.heap = world0.heap ∧ w1.lookup (some 0) = some ⟨1, false⟩ :=
  RevokeCredential_failure_keeps_registry rejectAll world0 (some 0) (some 1) 10 "tails"
    ⟨1, false⟩ ⟨2, false⟩ rfl rfl (by decide)

theorem NewFfiI64_onlyAllocates {σ : Type} (list : List Int) :
    OnlyAllocates (NewFfiI64 list : Go σ FfiListI64) := by
  unfold NewFfiI64
  simp only [bind, pure]
  exact OnlyAllocates.bind
    (OnlyAllocates.rangeWrite _ _ _ (fun _ => OnlyAllocates.pure _) 0 list)
    fun _ => OnlyAllocates.pure _

/-! ## RevocationRegistry.Update -/

/-- No run of `RevocationRegistry.Update` changes an object that existed before it. -/
theorem RevocationRegistry.Update_registry_onlyAllocates {σ : Type} (eng : Engine σ) (s d : Ptr)
    (issued revoked : List Int) (path : String) :
    OnlyAllocates (RevocationRegistry.Update eng s d issued revoked path) := by
  unfold RevocationRegistry.Update
  simp only [bind, pure]
  refine OnlyAllocates.bind (NewFfiI64_onlyAllocates _) fun _ => ?_
  refine OnlyAllocates.bind (NewFfiI64_onlyAllocates _) fun _ => ?_
  refine OnlyAllocates.bind (OnlyAllocates.deref _) fun _ => ?_
  refine OnlyAllocates.bind (OnlyAllocates.deref _) fun _ => ?_
  refine OnlyAllocates.bind (OnlyAllocates.ffi _ _) fun _ => ?_
  refine OnlyAllocates.ite ?_ ?_
  · exact OnlyAllocates.bind (OnlyAllocates.handleLibError _ _) fun _ => OnlyAllocates.pure _
  · refine OnlyAllocates.bind (OnlyAllocates.alloc _) fun _ => ?_
    exact OnlyAllocates.bind (OnlyAllocates.SetFinalizer _ _ _) fun _ => OnlyAllocates.pure _

/-- Whenever the engine accepts `credx_update_revocation_registry`, the run of
`RevocationRegistry.Update` ends in the fatal error raised by `runtime.SetFinalizer`:
the finalizer takes a `RevocationRegistryDelta`, the object is a `*RevocationRegistryDelta`. -/
theorem RevocationRegistry.Update_ok {σ : Type} (eng : Engine σ) (w : World σ) (s d : Ptr)
    (issued revoked : List Int) (path : String) (r dd : Object)
    (hs : w.lookup s = some r) (hd : w.lookup d = some dd)
    (hi : issued.length ≤ 3) (hr : revoked.length ≤ 3)
    (hc : (eng w.engine (.credx_update_revocation_registry dd.handle r.handle
      ⟨issued.length, issued.length, issued⟩ ⟨revoked.length, revoked.length, revoked⟩
      path)).1.code = 0) :
    RevocationRegistry.Update eng s d issued revoked path w =
      (.fatal "runtime.SetFinalizer: cannot pass object to finalizer",
        { engine := (eng w.engine (.credx_update_revocation_registry dd.handle r.handle
            ⟨issued.length, issued.length, issued⟩ ⟨revoked.length, revoked.length, revoked⟩
            path)).2,
          heap := w.heap ++ [{ handle := (eng w.engine (.credx_update_revocation_registry
            dd.handle r.handle ⟨issued.length, issued.length, issued⟩
            ⟨revoked.length, revoked.length, revoked⟩ path)).1.handle 1 }],
          finalizers := w.finalizers,
          trace := w.trace ++ [.credx_update_revocation_registry dd.handle r.handle
            ⟨issued.length, issued.length, issued⟩ ⟨revoked.length, revoked.length, revoked⟩
            path] }) := by
  simp [RevocationRegistry.Update, bind, Go.bind, NewFfiI64_eq _ hi, NewFfiI64_eq _ hr,
    deref_eq w d dd hd, deref_eq w s r hs, ffi, C.CString, hc, alloc, runtime.SetFinalizer,
    tyDeltaPtr, tyDelta, pure, Go.pure]

/-- C3 (the code at the failing input): the engine accepts the update of the registry with
handle `1` and writes the new accumulator handle `7`; the run of `Update` ends in a fatal
error and the registry still holds handle `1`. -/
theorem RevocationRegistry.Update_keeps_old_handle :
    (acceptAll world0.engine
      (.credx_update_revocation_registry 2 1 ⟨0, 0, []⟩ ⟨1, 1, [10]⟩ "tails")).1.code = 0 ∧
    (acceptAll world0.engine
      (.credx_update_revocation_registry 2 1 ⟨0, 0, []⟩ ⟨1, 1, [10]⟩ "tails")).1.handle 0 = 7 ∧
    (∃ msg, (RevocationRegistry.Update acceptAll (some 0) (some 1) [] [10] "tails" world0).1 =
      .fatal msg) ∧
    (RevocationRegistry.Update acceptAll (some 0) (some 1) [] [10] "tails" world0).2.lookup
      (some 0) = some ⟨1, false⟩ := by
  refine ⟨rfl, rfl, ⟨"runtime.SetFinalizer: cannot pass object to finalizer", ?_⟩, ?_⟩
  · rw [RevocationRegistry.Update_ok acceptAll world0 (some 0) (some 1) [] [10] "tails"
      ⟨1, false⟩ ⟨2, false⟩ rfl rfl (by decide) (by decide) rfl]
  · exact (RevocationRegistry.Update_registry_onlyAllocates acceptAll (some 0) (some 1) [] [10]
      "tails").lookup_eq world0 (some 0) ⟨1, false⟩ rfl

/-- C4 (the code at the failing input): on an accepted update the run of `Update` does not
return; it stops in `runtime.SetFinalizer` after the delta object was allocated, and no
finalizer has been registered. -/
theorem RevocationRegistry.Update_aborts_in_SetFinalizer :
    RevocationRegistry.Update acceptAll (some 0) (some 1) [] [10] "tails" world0 =
      (.fatal "runtime.SetFinalizer: cannot pass object to finalizer",
        { engine := (),
          heap := world0.heap ++ [⟨8, false⟩],
          finalizers := [],
          trace := [.credx_update_revocation_registry 2 1 ⟨0, 0, []⟩ ⟨1, 1, [10]⟩ "tails"] }) :=
  RevocationRegistry.Update_ok acceptAll world0 (some 0) (some 1) [] [10] "tails"
    ⟨1, false⟩ ⟨2, false⟩ rfl rfl (by decide) (by decide) rfl

/-! ## Presentation.Verify -/

theorem rangeWrite_ok {σ α β : Type} (elem : CElem) (room : Nat) (conv : α → Go σ β)
    (g : α → β) (w : World σ) (list : List α) (index : Nat)
    (h : ∀ item ∈ list, conv item w = (.ret (g item), w))
    (hlen : index + list.length ≤ viewLen)
    (hroom : (index + list.length) * elem.size ≤ room) :
    rangeWrite elem room conv index list w = (.ret (list.map g), w) := by
  induction list generalizing index with
  | nil => rfl
  | cons x xs ih =>
    have h1 : index < viewLen := by simp only [List.length_cons] at hlen; omega
    have h2 : index + 1 + xs.length ≤ viewLen := by simp only [List.length_cons] at hlen; omega
    have hr := room_step (by simpa only [List.length_cons] using hroom)
    have hx := h x (List.mem_cons_self x xs)
    have hxs := ih (index + 1) (fun item hi => h item (List.mem_cons_of_mem x hi)) h2 hr.2
    simp only [rangeWrite, bind, Go.bind, hx, h1, if_true, hr.1, hxs, pure, Go.pure,
      List.map_cons]

theorem NewFfiListObjectHandle_eq {σ : Type} (objs : List Object)
    (hlen : objs.length ≤ 3) (w : World σ) :
    NewFfiListObjectHandle (objs.map fun o => o.handle) w = (.ret (handleList objs), w) := by
  have h := rangeWrite_pure .ulong (C.malloc (objs.map fun o => o.handle).length)
    (fun item : ObjectHandle => item) (objs.map fun o => o.handle) 0
    (by simp only [viewLen, List.length_map]; omega)
    (by simpa using (fits8_iff objs.length).mpr hlen) w
  simp only [List.map_id_fun', id_eq] at h
  simp only [NewFfiListObjectHandle, bind, Go.bind, pure, h]
  simp [Go.pure, handleList]

theorem RevocationEntry.ToC_revEntry_eq {σ : Type} (w : World σ) (r : RevocationEntry)
    (h : (w.lookup r.revReg).isSome) :
    RevocationEntry.ToC r w = (.ret (RevocationEntry.view w r), w) := by
  obtain ⟨reg, hreg⟩ := Option.isSome_iff_exists.mp h
  simp [RevocationEntry.ToC, bind, Go.bind, deref_eq w _ reg hreg, pure, Go.pure,
    RevocationEntry.view, hreg]

theorem NewFfiListFfiRevocationEntry_eq {σ : Type} (w : World σ) (list : List RevocationEntry)
    (h : ∀ e ∈ list, (w.lookup e.revReg).isSome) (hlen : list.length ≤ 1) :
    NewFfiListFfiRevocationEntry list w =
      (.ret { count := list.length, requested := list.length,
              data := list.map (RevocationEntry.view w) }, w) := by
  have h1 := rangeWrite_ok .FfiRevocationEntry (C.malloc list.length)
    (fun item => RevocationEntry.ToC item) (RevocationEntry.view w) w
    list 0 (fun e he => RevocationEntry.ToC_revEntry_eq w e (h e he))
    (by simp only [viewLen]; omega) (by simpa using (fits24_iff list.length).mpr hlen)
  simp only [NewFfiListFfiRevocationEntry, bind, Go.bind, h1, pure, Go.pure]

/-- `RevocationEntry.ToC` reads only. -/
theorem RevocationEntry.ToC_onlyReads {σ : Type} (r : RevocationEntry) :
    Quiet (RevocationEntry.ToC r : Go σ FfiRevocationEntry) := by
  intro w
  rcases h : w.lookup r.revReg with _ | reg
  · exact Or.inr ⟨nilDeref, by simp [RevocationEntry.ToC, bind, Go.bind, deref_nil w _ h]⟩
  · exact Or.inl ⟨⟨r.defEntryIndex, reg.handle, r.timestamp⟩, by
      simp [RevocationEntry.ToC, bind, Go.bind, deref_eq w _ reg h, pure, Go.pure]⟩

theorem silent_NewFfiListFfiRevocationEntry {σ : Type} (list : List RevocationEntry) :
    Silent (NewFfiListFfiRevocationEntry list : Go σ (FfiList FfiRevocationEntry)) := by
  unfold NewFfiListFfiRevocationEntry
  simp only [Bind.bind, Pure.pure]
  exact silent_bind (silent_rangeWrite _ _ _
    (fun r => silent_of_quiet (RevocationEntry.ToC_onlyReads r)) 0 list)
    fun _ => silent_of_quiet (Quiet.of_pure _)

/-- A struct read through a pointer is the struct the pointer refers to. -/
theorem deref_ret {σ : Type} (p : Ptr) (w w1 : World σ) (o : Object)
    (h : (IndyCredx.deref p : Go σ Object) w = (.ret o, w1)) : w.lookup p = some o := by
  rcases hl : w.lookup p with _ | o2
  · rw [deref_nil w p hl] at h
    simp at h
  · rw [deref_eq w p o2 hl] at h
    simp only [Prod.mk.injEq, Outcome.ret.injEq] at h
    rw [h.1]

/-- When the loop of a marshaler returns, the conversion of every element has returned. -/
theorem rangeWrite_ret_conv {σ α β : Type} (elem : CElem) (room : Nat) (conv : α → Go σ β)
    (hq : ∀ item, Quiet (conv item)) (list : List α) (index : Nat) (w w1 : World σ)
    (vs : List β) (h : rangeWrite elem room conv index list w = (.ret vs, w1)) :
    ∀ item ∈ list, ∃ v, conv item w = (.ret v, w) := by
  induction list generalizing index vs w1 with
  | nil => simp
  | cons x xs ih =>
    rcases hq x w with ⟨v, hv⟩ | ⟨msg, hmsg⟩
    · by_cases h1 : index < viewLen
      · by_cases hr : (index + 1) * elem.size ≤ room
        · simp only [rangeWrite, Bind.bind, Go.bind, hv, h1, hr, if_true] at h
          rcases hxs : rangeWrite elem room conv (index + 1) xs w with ⟨o2, w2⟩
          cases o2 with
          | ret rest =>
            intro item hmem
            rcases List.mem_cons.mp hmem with he | he
            · subst he
              exact ⟨v, hv⟩
            · exact ih (index + 1) w2 rest hxs item he
          | panic msg => simp [hxs] at h
          | fatal msg => simp [hxs] at h
          | undefined msg => simp [hxs] at h
        · simp [rangeWrite, Bind.bind, Go.bind, hv, h1, hr, undefinedBehaviour] at h
      · simp [rangeWrite, Bind.bind, Go.bind, hv, h1, panic] at h
    · simp [rangeWrite, Bind.bind, Go.bind, hmsg] at h

/-- The loop of a marshaler panics when the conversion of one of the elements panics, the
conversion of every element reads only, and the elements before it fit the block. -/
theorem rangeWrite_panics {σ α β : Type} (elem : CElem) (room : Nat) (conv : α → Go σ β)
    (w : World σ) (hq : ∀ item, Quiet (conv item)) (pre : List α) (bad : α) (post : List α)
    (index : Nat) (hroom : (index + pre.length) * elem.size ≤ room)
    (hbad : ∃ msg, conv bad w = (.panic msg, w)) :
    ∃ msg, rangeWrite elem room conv index (pre ++ bad :: post) w = (.panic msg, w) := by
  induction pre generalizing index with
  | nil =>
    obtain ⟨msg, hm⟩ := hbad
    exact ⟨msg, by simp only [List.nil_append, rangeWrite, Bind.bind, Go.bind, hm]⟩
  | cons x xs ih =>
    rcases hq x w with ⟨v, hv⟩ | ⟨msg, hmsg⟩
    · by_cases h1 : index < viewLen
      · have hr := room_step (by simpa only [List.length_cons] using hroom)
        obtain ⟨msg, hm⟩ := ih (index + 1) hr.2
        have hm2 : rangeWrite elem room conv (index + 1) (xs.append (bad :: post)) w =
            (.panic msg, w) := hm
        exact ⟨msg, by
          simp only [List.cons_append, rangeWrite, Bind.bind, Go.bind, hv, h1, hr.1, if_true,
            hm2]⟩
      · exact ⟨"runtime error: index out of range", by
          simp only [List.cons_append, rangeWrite, Bind.bind, Go.bind, hv, h1, if_false,
            panic]⟩
    · exact ⟨msg, by simp only [List.cons_append, rangeWrite, Bind.bind, Go.bind, hmsg]⟩

/-- `NewFfiListFfiRevocationEntry` returns only for a list of at most one entry, each with
a registry. -/
theorem NewFfiListFfiRevocationEntry_ret {σ : Type} (list : List RevocationEntry)
    (w w1 : World σ) (v : FfiList FfiRevocationEntry)
    (h : NewFfiListFfiRevocationEntry list w = (.ret v, w1)) :
    (∀ e ∈ list, (w.lookup e.revReg).isSome) ∧ list.length ≤ 1 := by
  refine ⟨?_, NewFfiListFfiRevocationEntry_ret_fits list w w1 v h⟩
  simp only [NewFfiListFfiRevocationEntry, Bind.bind, Go.bind] at h
  rcases hr : rangeWrite .FfiRevocationEntry (C.malloc list.length)
    (fun item => (RevocationEntry.ToC item : Go σ FfiRevocationEntry)) 0 list w with ⟨o, w2⟩
  cases o with
  | ret data =>
    intro e he
    obtain ⟨x, hx⟩ := rangeWrite_ret_conv _ _ _
      (fun r => RevocationEntry.ToC_onlyReads r) list 0 w w2 data hr e he
    rcases hl : w.lookup e.revReg with _ | reg
    · have hp : RevocationEntry.ToC e w = (.panic nilDeref, w) := by
        simp [RevocationEntry.ToC, Bind.bind, Go.bind, deref_nil w _ hl]
      rw [hp] at hx
      simp at hx
    · rfl
  | panic msg => simp [hr] at h
  | fatal msg => simp [hr] at h
  | undefined msg => simp [hr] at h

/-- `Presentation.Verify` ends before it calls the engine, in a panic or at a store behind
a block, unless both pointers and the registry of every entry are valid and every list
fits its block (three handles, one entry). -/
theorem Presentation.Verify_stops_unless {σ : Type} (eng : Engine σ) (w : World σ)
    (c presReq : Ptr) (schemas credDefs regs : List Object) (revEntries : List RevocationEntry)
    (h : ¬ (w.lookup c ≠ none ∧ w.lookup presReq ≠ none ∧
      (∀ e ∈ revEntries, (w.lookup e.revReg).isSome) ∧
      schemas.length ≤ 3 ∧ credDefs.length ≤ 3 ∧ regs.length ≤ 3 ∧
      revEntries.length ≤ 1)) :
    Stops (Presentation.Verify eng c presReq schemas credDefs regs revEntries) w := by
  unfold Presentation.Verify
  simp only [Bind.bind]
  refine Silent.step (silent_NewFfiListObjectHandle _) _ w fun _ h1 => ?_
  refine Silent.step (silent_NewFfiListObjectHandle _) _ w fun _ h2 => ?_
  refine Silent.step (silent_NewFfiListObjectHandle _) _ w fun _ h3 => ?_
  refine Silent.step (silent_NewFfiListFfiRevocationEntry _) _ w fun _ h4 => ?_
  refine Silent.step (silent_of_quiet (Quiet.of_deref _)) _ w fun _ h5 => ?_
  refine Silent.step (silent_of_quiet (Quiet.of_deref _)) _ w fun _ h6 => ?_
  exfalso
  have hl1 := NewFfiListObjectHandle_ret_fits _ w w _ h1
  have hl2 := NewFfiListObjectHandle_ret_fits _ w w _ h2
  have hl3 := NewFfiListObjectHandle_ret_fits _ w w _ h3
  have hl4 := NewFfiListFfiRevocationEntry_ret _ w w _ h4
  simp only [List.length_map] at hl1 hl2 hl3
  exact h ⟨by simp [deref_ret _ w w _ h5], by simp [deref_ret _ w w _ h6], hl4.1, hl1, hl2,
    hl3, hl4.2⟩

/-- The run of `Verify` on valid pointers: one engine call, then the decoding of its reply. -/
theorem Presentation.Verify_eq {σ : Type} (eng : Engine σ) (w : World σ) (c presReq : Ptr)
    (schemas credDefs regs : List Object) (revEntries : List RevocationEntry)
    (pres req : Object) (hc : w.lookup c = some pres) (hreq : w.lookup presReq = some req)
    (hents : ∀ e ∈ revEntries, (w.lookup e.revReg).isSome)
    (hl1 : schemas.length ≤ 3) (hl2 : credDefs.length ≤ 3)
    (hl3 : regs.length ≤ 3) (hl4 : revEntries.length ≤ 1) :
    Presentation.Verify eng c presReq schemas credDefs regs revEntries w =
      (if (eng w.engine (verifyCall w pres req schemas credDefs regs revEntries)).1.code ≠ 0 then
        (.ret (false, some (errorText eng
            (eng w.engine (verifyCall w pres req schemas credDefs regs revEntries)).2
            ("Couldn't verify presentation, received code " ++
              fmtD (eng w.engine (verifyCall w pres req schemas credDefs regs revEntries)).1.code))),
          { w with
            engine := afterError eng
              (eng w.engine (verifyCall w pres req schemas credDefs regs revEntries)).2,
            trace := w.trace ++ [verifyCall w pres req schemas credDefs regs revEntries,
              .credx_get_current_error, .credx_string_free none] })
      else
        (.ret (decide ((eng w.engine
            (verifyCall w pres req schemas credDefs regs revEntries)).1.flag.getD 0 ≠ 0), none),
          { w with
            engine := (eng w.engine (verifyCall w pres req schemas credDefs regs revEntries)).2,
            trace := w.trace ++ [verifyCall w pres req schemas credDefs regs revEntries] })) := by
  simp only [Presentation.Verify, bind, Go.bind, NewFfiListObjectHandle_eq _ hl1,
    NewFfiListObjectHandle_eq _ hl2, NewFfiListObjectHandle_eq _ hl3,
    NewFfiListFfiRevocationEntry_eq w revEntries hents hl4, deref_eq w c pres hc,
    deref_eq w presReq req hreq, ffi]
  by_cases hcode :
      (eng w.engine (verifyCall w pres req schemas credDefs regs revEntries)).1.code = 0
  · simp [verifyCall] at hcode
    simp [verifyCall, hcode, pure, Go.pure]
  · simp [verifyCall] at hcode
    simp [verifyCall, hcode, pure, Go.pure, Go.bind, handleLibError_eq]

/-- C5: for a valid presentation and request and entries with valid registries.  When
every list fits its block (at most three schemas, definitions and registry definitions, at
most one entry) `Verify` returns.  Every run of `Verify` that returns has its error
non-nil exactly when the engine's verify call returns a non-zero code, in which case the
boolean is `false`; when the code is `0` the error is nil and the boolean is `true` exactly
when the result byte the engine wrote is non-zero (so a failed verification comes back as
`(false, nil)`).  With a list that does not fit its block the run does not return: it
leaves defined behaviour at a store behind the block, or panics, and up to that point the
engine has not been called. -/
theorem Presentation.Verify_error_iff_engine_code {σ : Type} (eng : Engine σ) (w : World σ)
    (c presReq : Ptr) (schemas credDefs regs : List Object) (revEntries : List RevocationEntry)
    (pres req : Object) (hc : w.lookup c = some pres) (hreq : w.lookup presReq = some req)
    (hents : ∀ e ∈ revEntries, (w.lookup e.revReg).isSome) :
    (schemas.length ≤ 3 → credDefs.length ≤ 3 → regs.length ≤ 3 → revEntries.length ≤ 1 →
      ∃ (valid : Bool) (err : GoError) (w1 : World σ),
        Presentation.Verify eng c presReq schemas credDefs regs revEntries w =
          (.ret (valid, err), w1)) ∧
    (∀ (valid : Bool) (err : GoError) (w1 : World σ),
      Presentation.Verify eng c presReq schemas credDefs regs revEntries w =
        (.ret (valid, err), w1) →
      (err ≠ none ↔
        (eng w.engine (verifyCall w pres req schemas credDefs regs revEntries)).1.code ≠ 0) ∧
      ((eng w.engine (verifyCall w pres req schemas credDefs regs revEntries)).1.code ≠ 0 →
        valid = false) ∧
      ((eng w.engine (verifyCall w pres req schemas credDefs regs revEntries)).1.code = 0 →
        (valid = true ↔
          (eng w.engine (verifyCall w pres req schemas credDefs regs revEntries)).1.flag.getD 0
            ≠ 0))) ∧
    (¬ (schemas.length ≤ 3 ∧ credDefs.length ≤ 3 ∧ regs.length ≤ 3 ∧ revEntries.length ≤ 1) →
      Stops (Presentation.Verify eng c presReq schemas credDefs regs revEntries) w) := by
  have hstop : ¬ (schemas.length ≤ 3 ∧ credDefs.length ≤ 3 ∧ regs.length ≤ 3 ∧
      revEntries.length ≤ 1) →
      Stops (Presentation.Verify eng c presReq schemas credDefs regs revEntries) w :=
    fun hno => Presentation.Verify_stops_unless eng w c presReq schemas credDefs regs revEntries
      fun hall => hno hall.2.2.2
  have hrun : schemas.length ≤ 3 → credDefs.length ≤ 3 → regs.length ≤ 3 →
      revEntries.length ≤ 1 →
      ∃ (valid : Bool) (err : GoError) (w1 : World σ),
        Presentation.Verify eng c presReq schemas credDefs regs revEntries w =
          (.ret (valid, err), w1) ∧
        (err ≠ none ↔
          (eng w.engine (verifyCall w pres req schemas credDefs regs revEntries)).1.code ≠ 0) ∧
        ((eng w.engine (verifyCall w pres req schemas credDefs regs revEntries)).1.code ≠ 0 →
          valid = false) ∧
        ((eng w.engine (verifyCall w pres req schemas credDefs regs revEntries)).1.code = 0 →
          (valid = true ↔
            (eng w.engine (verifyCall w pres req schemas credDefs regs
              revEntries)).1.flag.getD 0 ≠ 0)) := by
    intro hl1 hl2 hl3 hl4
    have h := Presentation.Verify_eq eng w c presReq schemas credDefs regs revEntries pres req
      hc hreq hents hl1 hl2 hl3 hl4
    by_cases hcode :
        (eng w.engine (verifyCall w pres req schemas credDefs regs revEntries)).1.code = 0
    · rw [if_neg (by simpa using hcode)] at h
      exact ⟨_, _, _, h, by simp [hcode], by simp [hcode], by simp⟩
    · rw [if_pos hcode] at h
      exact ⟨_, _, _, h, by simp [hcode], by simp, by simp [hcode]⟩
  refine ⟨fun hl1 hl2 hl3 hl4 => ?_, fun valid err w1 hret => ?_, hstop⟩
  · obtain ⟨valid, err, w1, h, _⟩ := hrun hl1 hl2 hl3 hl4
    exact ⟨valid, err, w1, h⟩
  · by_cases hfit : schemas.length ≤ 3 ∧ credDefs.length ≤ 3 ∧ regs.length ≤ 3 ∧
        revEntries.length ≤ 1
    · obtain ⟨valid2, err2, w2, h, hrel⟩ := hrun hfit.1 hfit.2.1 hfit.2.2.1 hfit.2.2.2
      rw [h] at hret
      simp only [Prod.mk.injEq, Outcome.ret.injEq] at hret
      obtain ⟨⟨hv, he⟩, _⟩ := hret
      subst hv
      subst he
      exact hrel
    · rcases hstop hfit with ⟨msg, hm⟩ | ⟨msg, hm⟩ <;> simp [hm] at hret

/-- Witness for C5: the accepting engine, one schema, one definition, one registry
definition and one revocation entry that points at the registry of the sample heap. -/
theorem Presentation.Verify_error_iff_engine_code_witness :
    (∃ (valid : Bool) (err : GoError) (w1 : World Unit),
      Presentation.Verify acceptAll (some 4) (some 5) [⟨11, false⟩] [⟨12, false⟩]
        [⟨2, false⟩] [⟨0, some 0, 100⟩] world0 = (.ret (valid, err), w1)) ∧
    (∀ (valid : Bool) (err : GoError) (w1 : World Unit),
      Presentation.Verify acceptAll (some 4) (some 5) [⟨11, false⟩] [⟨12, false⟩]
        [⟨2, false⟩] [⟨0, some 0, 100⟩] world0 = (.ret (valid, err), w1) →
      (err ≠ none ↔ (acceptAll world0.engine (verifyCall world0 ⟨5, false⟩ ⟨6, false⟩
        [⟨11, false⟩] [⟨12, false⟩] [⟨2, false⟩] [⟨0, some 0, 100⟩])).1.code ≠ 0) ∧
      ((acceptAll world0.engine (verifyCall world0 ⟨5, false⟩ ⟨6, false⟩
        [⟨11, false⟩] [⟨12, false⟩] [⟨2, false⟩] [⟨0, some 0, 100⟩])).1.code ≠ 0 →
        valid = false) ∧
      ((acceptAll world0.engine (verifyCall world0 ⟨5, false⟩ ⟨6, false⟩
        [⟨11, false⟩] [⟨12, false⟩] [⟨2, false⟩] [⟨0, some 0, 100⟩])).1.code = 0 →
        (valid = true ↔ (acceptAll world0.engine (verifyCall world0 ⟨5, false⟩ ⟨6, false⟩
          [⟨11, false⟩] [⟨12, false⟩] [⟨2, false⟩] [⟨0, some 0, 100⟩])).1.flag.getD 0 ≠ 0))) :=
  ⟨(Presentation.Verify_error_iff_engine_code acceptAll world0 (some 4) (some 5)
      [⟨11, false⟩] [⟨12, false⟩] [⟨2, false⟩] [⟨0, some 0, 100⟩] ⟨5, false⟩ ⟨6, false⟩ rfl rfl
      (by simp [world0, World.lookup])).1 (by decide) (by decide) (by decide) (by decide),
    (Presentation.Verify_error_iff_engine_code acceptAll world0 (some 4) (some 5)
      [⟨11, false⟩] [⟨12, false⟩] [⟨2, false⟩] [⟨0, some 0, 100⟩] ⟨5, false⟩ ⟨6, false⟩ rfl rfl
      (by simp [world0, World.lookup])).2.1⟩

/-! ## CredentialRevocationState.Update -/

/-- No run of `CredentialRevocationState.Update` changes an object that existed before. -/
theorem CredentialRevocationState.Update_state_onlyAllocates {σ : Type} (eng : Engine σ)
    (p definition delta : Ptr) (idx ts : Int) (path : String) :
    OnlyAllocates (CredentialRevocationState.Update eng p definition delta idx ts path) := by
  unfold CredentialRevocationState.Update
  simp only [bind, pure]
  refine OnlyAllocates.bind (OnlyAllocates.deref _) fun _ => ?_
  refine OnlyAllocates.bind (OnlyAllocates.deref _) fun _ => ?_
  refine OnlyAllocates.bind (OnlyAllocates.deref _) fun _ => ?_
  refine OnlyAllocates.bind (OnlyAllocates.ffi _ _) fun _ => ?_
  refine OnlyAllocates.ite ?_ ?_
  · exact OnlyAllocates.bind (OnlyAllocates.handleLibError _ _) fun _ => OnlyAllocates.pure _
  · refine OnlyAllocates.bind (OnlyAllocates.alloc _) fun _ => ?_
    exact OnlyAllocates.bind (OnlyAllocates.SetFinalizer _ _ _) fun _ => OnlyAllocates.pure _

/-- The run of `CredentialRevocationState.Update` on valid pointers. -/
theorem CredentialRevocationState.Update_eq {σ : Type} (eng : Engine σ) (w : World σ)
    (p definition delta : Ptr) (idx ts : Int) (path : String) (st dd dl : Object)
    (hp : w.lookup p = some st) (hd : w.lookup definition = some dd)
    (hdl : w.lookup delta = some dl) :
    CredentialRevocationState.Update eng p definition delta idx ts path w =
      (if (eng w.engine (updateStateCall dd dl st idx ts path)).1.code ≠ 0 then
        (.ret (none, some (errorText eng (eng w.engine (updateStateCall dd dl st idx ts path)).2
            ("Couldn't create credential revocation state, received code " ++
              fmtD (eng w.engine (updateStateCall dd dl st idx ts path)).1.code))),
          { w with
            engine := afterError eng (eng w.engine (updateStateCall dd dl st idx ts path)).2,
            trace := w.trace ++ [updateStateCall dd dl st idx ts path,
              .credx_get_current_error, .credx_string_free none] })
      else
        (.ret (some w.heap.length, none),
          { engine := (eng w.engine (updateStateCall dd dl st idx ts path)).2,
            heap := w.heap ++
              [{ handle := (eng w.engine (updateStateCall dd dl st idx ts path)).1.handle 0 }],
            finalizers := w.finalizers ++ [w.heap.length],
            trace := w.trace ++ [updateStateCall dd dl st idx ts path] })) := by
  simp only [CredentialRevocationState.Update, bind, Go.bind, deref_eq w definition dd hd,
    deref_eq w delta dl hdl, deref_eq w p st hp, ffi, C.CString]
  by_cases hcode : (eng w.engine (updateStateCall dd dl st idx ts path)).1.code = 0
  · simp [updateStateCall] at hcode
    simp [updateStateCall, hcode, pure, Go.pure, Go.bind, alloc, runtime.SetFinalizer,
      tyRevStatePtr]
  · simp [updateStateCall] at hcode
    simp [updateStateCall, hcode, pure, Go.pure, Go.bind, handleLibError_eq]

/-- C8: `CredentialRevocationState.Update` never modifies its receiver: whatever the
arguments and however the run ends, the receiver is the same object afterwards.  On valid
pointers, a rejected engine call gives a nil state and a non-nil error; an accepted one
gives a nil error and a new object, at an address different from the receiver, that holds
the handle the engine wrote. -/
theorem CredentialRevocationState.Update_never_modifies_receiver {σ : Type} (eng : Engine σ)
    (w : World σ) (p definition delta : Ptr) (idx ts : Int) (path : String) (st : Object)
    (hp : w.lookup p = some st) :
    (CredentialRevocationState.Update eng p definition delta idx ts path w).2.lookup p
        = some st ∧
    ∀ dd dl : Object, w.lookup definition = some dd → w.lookup delta = some dl →
      ((eng w.engine (updateStateCall dd dl st idx ts path)).1.code ≠ 0 →
        ∃ msg, (CredentialRevocationState.Update eng p definition delta idx ts path w).1 =
          .ret (none, some msg)) ∧
      ((eng w.engine (updateStateCall dd dl st idx ts path)).1.code = 0 →
        ∃ a, (CredentialRevocationState.Update eng p definition delta idx ts path w).1 =
            .ret (some a, none) ∧
          some a ≠ p ∧
          (CredentialRevocationState.Update eng p definition delta idx ts path w).2.lookup
            (some a) = some
              { handle := (eng w.engine (updateStateCall dd dl st idx ts path)).1.handle 0,
                isClosed := false }) := by
  refine ⟨(CredentialRevocationState.Update_state_onlyAllocates eng p definition delta idx ts
    path).lookup_eq w p st hp, ?_⟩
  intro dd dl hd hdl
  have h := CredentialRevocationState.Update_eq eng w p definition delta idx ts path st dd dl
    hp hd hdl
  constructor
  · intro hcode
    rw [if_pos hcode] at h
    exact ⟨_, by rw [h]⟩
  · intro hcode
    rw [if_neg (by simpa using hcode)] at h
    refine ⟨w.heap.length, by rw [h], ?_, by rw [h]; simp [World.lookup]⟩
    intro hEq
    rw [← hEq] at hp
    simp [World.lookup] at hp

/-- Witness for C8: the accepting engine, the state at address `3` of the sample heap. -/
theorem CredentialRevocationState.Update_never_modifies_receiver_witness :
    (CredentialRevocationState.Update acceptAll (some 3) (some 1) (some 2) 10 100 "tails"
        world0).2.lookup (some 3) = some ⟨4, false⟩ ∧
    ∀ dd dl : Object, world0.lookup (some 1) = some dd → world0.lookup (some 2) = some dl →
      ((acceptAll world0.engine (updateStateCall dd dl ⟨4, false⟩ 10 100 "tails")).1.code ≠ 0 →
        ∃ msg, (CredentialRevocationState.Update acceptAll (some 3) (some 1) (some 2) 10 100
          "tails" world0).1 = .ret (none, some msg)) ∧
      ((acceptAll world0.engine (updateStateCall dd dl ⟨4, false⟩ 10 100 "tails")).1.code = 0 →
        ∃ a, (CredentialRevocationState.Update acceptAll (some 3) (some 1) (some 2) 10 100
            "tails" world0).1 = .ret (some a, none) ∧
          some a ≠ some 3 ∧
          (CredentialRevocationState.Update acceptAll (some 3) (some 1) (some 2) 10 100 "tails"
            world0).2.lookup (some a) = some
              { handle :=
                  (acceptAll world0.engine (updateStateCall dd dl ⟨4, false⟩ 10 100
                    "tails")).1.handle 0,
                isClosed := false }) :=
  CredentialRevocationState.Update_never_modifies_receiver acceptAll world0 (some 3) (some 1)
    (some 2) 10 100 "tails" ⟨4, false⟩ rfl

/-! ## NewCredentialRevocationState -/

/-- The run of `getAttr` on a valid receiver. -/
theorem RevocationRegistryDefinition.getAttr_eq {σ : Type} (eng : Engine σ) (w : World σ)
    (s : Ptr) (name : String) (dd : Object) (hs : w.lookup s = some dd) :
    RevocationRegistryDefinition.getAttr eng s name w =
      (if (eng w.engine
          (.credx_revocation_registry_definition_get_attribute dd.handle name)).1.code ≠ 0 then
        (.ret ("", some (errorText eng (eng w.engine
            (.credx_revocation_registry_definition_get_attribute dd.handle name)).2
            ("Couldn't get attribute " ++ name ++ ", received code " ++ fmtD (eng w.engine
              (.credx_revocation_registry_definition_get_attribute dd.handle name)).1.code))),
          { w with
            engine := (eng (afterError eng (eng w.engine
              (.credx_revocation_registry_definition_get_attribute dd.handle name)).2)
              (.credx_string_free none)).2,
            trace := w.trace ++ [.credx_revocation_registry_definition_get_attribute dd.handle
              name, .credx_get_current_error, .credx_string_free none,
              .credx_string_free none] })
      else
        (.ret (C.GoString (eng w.engine
            (.credx_revocation_registry_definition_get_attribute dd.handle name)).1.str, none),
          { w with
            engine := (eng (eng w.engine
              (.credx_revocation_registry_definition_get_attribute dd.handle name)).2
              (.credx_string_free none)).2,
            trace := w.trace ++ [.credx_revocation_registry_definition_get_attribute dd.handle
              name, .credx_string_free none] })) := by
  by_cases hcode : (eng w.engine
      (.credx_revocation_registry_definition_get_attribute dd.handle name)).1.code = 0
  · simp [RevocationRegistryDefinition.getAttr, Go.defer, CloseStrBuffer, bind, Go.bind,
      deref_eq w s dd hs, ffi, C.CString, hcode, pure, Go.pure]
  · simp [RevocationRegistryDefinition.getAttr, Go.defer, CloseStrBuffer, bind, Go.bind,
      deref_eq w s dd hs, ffi, C.CString, hcode, pure, Go.pure, handleLibError_eq]

/-- The run of `NewCredentialRevocationState` when reading the tails location fails. -/
theorem NewCredentialRevocationState_tailsErr {σ : Type} (eng : Engine σ) (w : World σ)
    (registryDef registryDelta : Ptr) (credRevInfo : Option CredentialRevocationInfo)
    (ts : Int) (dd : Object) (hd : w.lookup registryDef = some dd)
    (hcode : (eng w.engine (tailsCall dd)).1.code ≠ 0) :
    NewCredentialRevocationState eng registryDef registryDelta credRevInfo ts w =
      (.ret (none, some (errorText eng (eng w.engine (tailsCall dd)).2
          ("Couldn't get attribute tails_location, received code " ++
            fmtD (eng w.engine (tailsCall dd)).1.code))),
        { w with
          engine := (eng (afterError eng (eng w.engine (tailsCall dd)).2)
            (.credx_string_free none)).2,
          trace := w.trace ++ [tailsCall dd, .credx_get_current_error,
            .credx_string_free none, .credx_string_free none] }) := by
  have h := RevocationRegistryDefinition.getAttr_eq eng w registryDef "tails_location" dd hd
  simp only [tailsCall] at hcode
  rw [if_pos hcode] at h
  simp [NewCredentialRevocationState, RevocationRegistryDefinition.GetTailsLocation, bind,
    Go.bind, h, pure, Go.pure, tailsCall]

/-- The run of `NewCredentialRevocationState` when the tails location was read. -/
theorem NewCredentialRevocationState_eq {σ : Type} (eng : Engine σ) (w : World σ)
    (registryDef registryDelta : Ptr) (info : CredentialRevocationInfo)
    (ts : Int) (dd dl : Object) (hd : w.lookup registryDef = some dd)
    (hdl : w.lookup registryDelta = some dl)
    (hcode : (eng w.engine (tailsCall dd)).1.code = 0) :
    NewCredentialRevocationState eng registryDef registryDelta (some info) ts w =
      (if (eng (afterTails eng w.engine dd)
          (createStateCall dd dl info ts (eng w.engine (tailsCall dd)).1)).1.code ≠ 0 then
        (.ret (none, some (errorText eng (eng (afterTails eng w.engine dd)
            (createStateCall dd dl info ts (eng w.engine (tailsCall dd)).1)).2
            ("Couldn't create credential revocation state, received code " ++
              fmtD (eng (afterTails eng w.engine dd)
                (createStateCall dd dl info ts (eng w.engine (tailsCall dd)).1)).1.code))),
          { w with
            engine := afterError eng (eng (afterTails eng w.engine dd)
              (createStateCall dd dl info ts (eng w.engine (tailsCall dd)).1)).2,
            trace := w.trace ++ [tailsCall dd, .credx_string_free none,
              createStateCall dd dl info ts (eng w.engine (tailsCall dd)).1,
              .credx_get_current_error, .credx_string_free none] })
      else
        (.ret (some w.heap.length, none),
          { engine := (eng (afterTails eng w.engine dd)
              (createStateCall dd dl info ts (eng w.engine (tailsCall dd)).1)).2,
            heap := w.heap ++ [{ handle := (eng (afterTails eng w.engine dd)
              (createStateCall dd dl info ts (eng w.engine (tailsCall dd)).1)).1.handle 0 }],
            finalizers := w.finalizers ++ [w.heap.length],
            trace := w.trace ++ [tailsCall dd, .credx_string_free none,
              createStateCall dd dl info ts (eng w.engine (tailsCall dd)).1] })) := by
  have h := RevocationRegistryDefinition.getAttr_eq eng w registryDef "tails_location" dd hd
  simp only [tailsCall] at hcode
  rw [if_neg (by simpa using hcode)] at h
  have hd2 : ∀ (e : σ) (t : List Call),
      ({ w with engine := e, trace := t } : World σ).lookup registryDef = some dd := by
    intro e t; cases registryDef <;> exact hd
  have hdl2 : ∀ (e : σ) (t : List Call),
      ({ w with engine := e, trace := t } : World σ).lookup registryDelta = some dl := by
    intro e t; cases registryDelta <;> exact hdl
  simp only [NewCredentialRevocationState, RevocationRegistryDefinition.GetTailsLocation, bind,
    Go.bind, h, pure, Go.pure, ne_eq, not_true_eq_false, if_false,
    deref_eq _ registryDef dd (hd2 _ _), deref_eq _ registryDelta dl (hdl2 _ _), ffi, C.CString]
  by_cases hc2 : (eng (afterTails eng w.engine dd)
      (createStateCall dd dl info ts (eng w.engine (tailsCall dd)).1)).1.code = 0
  · simp [afterTails, createStateCall, tailsCall] at hc2
    simp [afterTails, createStateCall, tailsCall, hc2, alloc, runtime.SetFinalizer,
      tyRevStatePtr, Go.pure, Go.bind]
  · simp [afterTails, createStateCall, tailsCall] at hc2
    simp [afterTails, createStateCall, tailsCall, hc2, handleLibError_eq, Go.pure, Go.bind]

/-- C10: on valid pointers `NewCredentialRevocationState` first reads the definition's
`tails_location`.  If that fails it returns the error of `GetTailsLocation` with a nil
state and makes no witness call.  Otherwise its next engine request is the witness call
for `credRevInfo.regIdx` at the given timestamp, with the tails location the engine
reported and prior-state handle `0`; when the engine accepts it, the result is a new state
holding the engine's handle.  The `tailsPath` field of the info is never used. -/
theorem NewCredentialRevocationState_uses_definition_tails {σ : Type} (eng : Engine σ)
    (w : World σ) (registryDef registryDelta : Ptr) (info : CredentialRevocationInfo)
    (ts : Int) (dd dl : Object) (hd : w.lookup registryDef = some dd)
    (hdl : w.lookup registryDelta = some dl) :
    ((eng w.engine (tailsCall dd)).1.code ≠ 0 →
      ∃ msg,
        (RevocationRegistryDefinition.GetTailsLocation eng registryDef w).1 =
          .ret ("", some msg) ∧
        (NewCredentialRevocationState eng registryDef registryDelta (some info) ts w).1 =
          .ret (none, some msg) ∧
        ∀ c ∈ (NewCredentialRevocationState eng registryDef registryDelta (some info) ts
          w).2.trace.drop w.trace.length, c.isCreateOrUpdateState = false) ∧
    ((eng w.engine (tailsCall dd)).1.code = 0 →
      (∃ rest,
        (NewCredentialRevocationState eng registryDef registryDelta (some info) ts w).2.trace =
          w.trace ++ [tailsCall dd, .credx_string_free none,
            .credx_create_or_update_revocation_state dd.handle dl.handle info.regIdx ts
              (C.GoString (eng w.engine (tailsCall dd)).1.str) 0] ++ rest) ∧
      ((eng (afterTails eng w.engine dd)
          (createStateCall dd dl info ts (eng w.engine (tailsCall dd)).1)).1.code = 0 →
        ∃ a,
          (NewCredentialRevocationState eng registryDef registryDelta (some info) ts w).1 =
            .ret (some a, none) ∧
          (NewCredentialRevocationState eng registryDef registryDelta (some info) ts
            w).2.lookup (some a) = some
              { handle := (eng (afterTails eng w.engine dd)
                  (createStateCall dd dl info ts (eng w.engine (tailsCall dd)).1)).1.handle 0,
                isClosed := false })) ∧
    (∀ other : String,
      NewCredentialRevocationState eng registryDef registryDelta
        (some { info with tailsPath := other }) ts w =
      NewCredentialRevocationState eng registryDef registryDelta (some info) ts w) := by
  refine ⟨?_, ?_, fun _ => rfl⟩
  · intro hcode
    have h1 := RevocationRegistryDefinition.getAttr_eq eng w registryDef "tails_location" dd hd
    rw [if_pos (by simpa [tailsCall] using hcode)] at h1
    have h2 := NewCredentialRevocationState_tailsErr eng w registryDef registryDelta
      (some info) ts dd hd hcode
    refine ⟨_, ?_, by rw [h2], ?_⟩
    · simp [RevocationRegistryDefinition.GetTailsLocation, h1, tailsCall]
    · rw [h2]
      simp [tailsCall, Call.isCreateOrUpdateState]
  · intro hcode
    have h := NewCredentialRevocationState_eq eng w registryDef registryDelta info ts dd dl
      hd hdl hcode
    constructor
    · by_cases hc2 : (eng (afterTails eng w.engine dd)
          (createStateCall dd dl info ts (eng w.engine (tailsCall dd)).1)).1.code = 0
      · rw [if_neg (by simpa using hc2)] at h
        exact ⟨[], by rw [h]; simp [createStateCall]⟩
      · rw [if_pos hc2] at h
        exact ⟨[.credx_get_current_error, .credx_string_free none], by
          rw [h]; simp [createStateCall]⟩
    · intro hc2
      rw [if_neg (by simpa using hc2)] at h
      exact ⟨w.heap.length, by rw [h], by rw [h]; simp [World.lookup]⟩

/-- Witness for C10: the accepting engine, the definition and the delta of the sample heap. -/
theorem NewCredentialRevocationState_uses_definition_tails_witness :
    (∃ rest,
      (NewCredentialRevocationState acceptAll (some 1) (some 2)
        (some ⟨some 1, none, some 0, 10, [], "elsewhere"⟩) 100 world0).2.trace =
        world0.trace ++ [tailsCall ⟨2, false⟩, .credx_string_free none,
          .credx_create_or_update_revocation_state 2 3 10 100 "tails" 0] ++ rest) ∧
    ∃ a,
      (NewCredentialRevocationState acceptAll (some 1) (some 2)
        (some ⟨some 1, none, some 0, 10, [], "elsewhere"⟩) 100 world0).1 =
        .ret (some a, none) ∧
      (NewCredentialRevocationState acceptAll (some 1) (some 2)
        (some ⟨some 1, none, some 0, 10, [], "elsewhere"⟩) 100 world0).2.lookup (some a) =
        some { handle := 7, isClosed := false } :=
  have h := (NewCredentialRevocationState_uses_definition_tails acceptAll world0 (some 1)
    (some 2) ⟨some 1, none, some 0, 10, [], "elsewhere"⟩ 100 ⟨2, false⟩ ⟨3, false⟩ rfl rfl).2.1
    rfl
  ⟨h.1, h.2 rfl⟩

/-! ## Two updates with the same arguments -/

theorem CredentialEntry.ToC_credEntry_eq {σ : Type} (c : CredentialEntry) (w : World σ) :
    CredentialEntry.ToC c w =
      (match w.lookup c.credential, w.lookup c.revState with
        | some cred, some st => .ret ⟨cred.handle, c.timestamp, st.handle⟩
        | _, _ => .panic nilDeref, w) := by
  rcases h1 : w.lookup c.credential with _ | cred
  · simp [CredentialEntry.ToC, bind, Go.bind, deref_nil w _ h1]
  · rcases h2 : w.lookup c.revState with _ | st
    · simp [CredentialEntry.ToC, bind, Go.bind, deref_eq w _ cred h1, deref_nil w _ h2]
    · simp [CredentialEntry.ToC, bind, Go.bind, deref_eq w _ cred h1, deref_eq w _ st h2,
        pure, Go.pure]

/-- `CredentialEntry.ToC` reads only. -/
theorem CredentialEntry.ToC_readsOnly {σ : Type} (c : CredentialEntry) :
    Quiet (CredentialEntry.ToC c : Go σ FfiCredentialEntry) := by
  intro w
  rw [CredentialEntry.ToC_credEntry_eq]
  rcases w.lookup c.credential with _ | cred
  · exact Or.inr ⟨_, rfl⟩
  · rcases w.lookup c.revState with _ | st
    · exact Or.inr ⟨_, rfl⟩
    · exact Or.inl ⟨_, rfl⟩

theorem silent_NewFfiListFfiCredentialEntry {σ : Type} (list : List CredentialEntry) :
    Silent (NewFfiListFfiCredentialEntry list : Go σ (FfiList FfiCredentialEntry)) := by
  unfold NewFfiListFfiCredentialEntry
  simp only [Bind.bind, Pure.pure]
  exact silent_bind (silent_rangeWrite _ _ _
    (fun c => silent_of_quiet (CredentialEntry.ToC_readsOnly c)) 0 list)
    fun _ => silent_of_quiet (Quiet.of_pure _)

/-- `NewFfiListFfiCredentialEntry` does not return on a list that holds an entry whose
`ToC` panics. -/
theorem NewFfiListFfiCredentialEntry_stops {σ : Type} (w : World σ) (c : CredentialEntry)
    (entries : List CredentialEntry) (hmem : c ∈ entries)
    (hc : ∃ msg, CredentialEntry.ToC c w = (.panic msg, w)) :
    Stops (NewFfiListFfiCredentialEntry entries) w := by
  refine Silent.stops_of_not_ret (silent_NewFfiListFfiCredentialEntry entries) w
    fun v hret => ?_
  simp only [NewFfiListFfiCredentialEntry, Bind.bind, Go.bind] at hret
  rcases hr : rangeWrite .FfiCredentialEntry (C.malloc entries.length)
    (fun item => (CredentialEntry.ToC item : Go σ FfiCredentialEntry)) 0 entries w
    with ⟨o, w2⟩
  cases o with
  | ret data =>
    obtain ⟨x, hx⟩ := rangeWrite_ret_conv _ _ _
      (fun e => CredentialEntry.ToC_readsOnly e) entries 0 w w2 data hr c hmem
    obtain ⟨msg, hm⟩ := hc
    rw [hm] at hx
    simp at hx
  | panic msg => simp [hr] at hret
  | fatal msg => simp [hr] at hret
  | undefined msg => simp [hr] at hret

/-- `NewPresentation` ends before it calls the engine, in a panic or at a store behind a
block, unless every list fits its block (one entry, one prove, three strings, three
handles). -/
theorem NewPresentation_stops_unless {σ : Type} (eng : Engine σ) (w : World σ)
    (req secret : Ptr) (entries : List CredentialEntry) (proves : List CredentialProve)
    (names values : List String) (schemas credDefs : List Object)
    (h : ¬ (entries.length ≤ 1 ∧ proves.length ≤ 1 ∧ names.length ≤ 3 ∧ values.length ≤ 3 ∧
      schemas.length ≤ 3 ∧ credDefs.length ≤ 3)) :
    Stops (NewPresentation eng req entries proves names values secret schemas credDefs) w := by
  unfold NewPresentation
  simp only [Bind.bind]
  refine Silent.step (silent_NewFfiListFfiCredentialEntry _) _ w fun _ h1 => ?_
  refine Silent.step (silent_NewFfiListFfiCredentialProve _) _ w fun _ h2 => ?_
  refine Silent.step (silent_NewFfiStrList _) _ w fun _ h3 => ?_
  refine Silent.step (silent_NewFfiStrList _) _ w fun _ h4 => ?_
  refine Silent.step (silent_NewFfiListObjectHandle _) _ w fun _ h5 => ?_
  refine Silent.step (silent_NewFfiListObjectHandle _) _ w fun _ h6 => ?_
  exfalso
  have hl5 := NewFfiListObjectHandle_ret_fits _ w w _ h5
  have hl6 := NewFfiListObjectHandle_ret_fits _ w w _ h6
  simp only [List.length_map] at hl5 hl6
  exact h ⟨NewFfiListFfiCredentialEntry_ret_fits _ w w _ h1,
    NewFfiListFfiCredentialProve_ret_fits _ w w _ h2, NewFfiStrList_ret_fits _ w w _ h3,
    NewFfiStrList_ret_fits _ w w _ h4, hl5, hl6⟩

/-- `NewPresentation` returns only when every list fits its block. -/
theorem NewPresentation_ret_fits {σ : Type} (eng : Engine σ) (w w1 : World σ)
    (req secret : Ptr) (entries : List CredentialEntry) (proves : List CredentialProve)
    (names values : List String) (schemas credDefs : List Object) (res : Ptr × GoError)
    (h : NewPresentation eng req entries proves names values secret schemas credDefs w =
      (.ret res, w1)) :
    entries.length ≤ 1 ∧ proves.length ≤ 1 ∧ names.length ≤ 3 ∧ values.length ≤ 3 ∧
      schemas.length ≤ 3 ∧ credDefs.length ≤ 3 := by
  by_contra hno
  rcases NewPresentation_stops_unless eng w req secret entries proves names values schemas
    credDefs hno with ⟨msg, hm⟩ | ⟨msg, hm⟩ <;> simp [hm] at h

theorem rangeWrite_congr {σ α β : Type} (elem : CElem) (room : Nat) (conv : α → Go σ β)
    (w : World σ) (hw : ∀ x, (conv x w).2 = w) (l1 l2 : List α)
    (h : List.Forall₂ (fun x y => conv x w = conv y w) l1 l2) (index : Nat) :
    rangeWrite elem room conv index l1 w = rangeWrite elem room conv index l2 w := by
  induction l1 generalizing l2 index with
  | nil => cases h; rfl
  | cons x xs ih =>
    cases h with
    | cons hxy hrest =>
      rename_i y ys
      simp only [rangeWrite, bind, Go.bind, hxy]
      have hwy := hw y
      rcases hc : conv y w with ⟨out, w1⟩
      rw [hc] at hwy
      simp only at hwy
      subst hwy
      cases out with
      | ret v =>
        by_cases hi : index < viewLen
        · by_cases hr : (index + 1) * elem.size ≤ room
          · simp only [hi, hr, if_true, Go.bind, ih ys hrest (index + 1)]
          · simp only [hi, hr, if_true, if_false]
        · simp only [hi, if_false]
      | panic msg => rfl
      | fatal msg => rfl
      | undefined msg => rfl

/-- Two states with the same content are interchangeable in every presentation request
made from a world. -/
theorem NewPresentation_substState {σ : Type} (eng : Engine σ) (w : World σ) (a b : Nat)
    (hab : w.lookup (some a) = w.lookup (some b)) (req : Ptr) (entries : List CredentialEntry)
    (proves : List CredentialProve) (names values : List String) (secret : Ptr)
    (schemas credDefs : List Object) :
    NewPresentation eng req (entries.map (CredentialEntry.substState a b)) proves names values
      secret schemas credDefs w =
    NewPresentation eng req entries proves names values secret schemas credDefs w := by
  have hitem : ∀ c : CredentialEntry,
      CredentialEntry.ToC (CredentialEntry.substState a b c) w = CredentialEntry.ToC c w := by
    intro c
    unfold CredentialEntry.substState
    by_cases hc : c.revState = some a
    · rw [if_pos hc, CredentialEntry.ToC_credEntry_eq, CredentialEntry.ToC_credEntry_eq]
      simp only [hc, hab]
    · rw [if_neg hc]
  have hlist : NewFfiListFfiCredentialEntry (entries.map (CredentialEntry.substState a b)) w =
      NewFfiListFfiCredentialEntry entries w := by
    have h := rangeWrite_congr .FfiCredentialEntry (C.malloc entries.length)
      (fun item => CredentialEntry.ToC item) w
      (fun x => by simp only [CredentialEntry.ToC_credEntry_eq])
      (entries.map (CredentialEntry.substState a b)) entries
      (by
        rw [List.forall₂_map_left_iff]
        exact List.forall₂_same.mpr fun c _ => hitem c) 0
    simp only [NewFfiListFfiCredentialEntry, bind, Go.bind, List.length_map, h]
  simp only [NewPresentation, bind, Go.bind, hlist]

theorem heap_two {α : Type} (h : List α) (x y : α) :
    (h ++ [x] ++ [y])[h.length]? = some x ∧ (h ++ [x] ++ [y])[h.length + 1]? = some y := by
  constructor
  · rw [List.append_assoc, List.getElem?_append_right (le_refl _)]
    simp
  · rw [List.append_assoc, List.getElem?_append_right (by omega)]
    simp

theorem errorText_congr {σ : Type} (eng : Engine σ)
    (hdet : ∀ (e1 e2 : σ) (c : Call), (eng e1 c).1 = (eng e2 c).1) (e1 e2 : σ)
    (context : String) : errorText eng e1 context = errorText eng e2 context := by
  simp only [errorText, hdet e1 e2]

/-- C9: two successive calls of `Update` on the same state with the same arguments make
the same engine request (same definition, delta, index, timestamp, tails path and
prior-state handle).  If the engine's reply depends on the request only, both calls return
the same error, or both return a state; the two states hold the same handle, so wherever
a presentation is built with the first, building it with the second is the same run (the
state reaches the engine only through `NewPresentation`; `Verify` takes no state). -/
theorem CredentialRevocationState.Update_idempotent {σ : Type} (eng : Engine σ)
    (w : World σ) (p definition delta : Ptr) (idx ts : Int) (path : String)
    (st dd dl : Object) (hp : w.lookup p = some st) (hd : w.lookup definition = some dd)
    (hdl : w.lookup delta = some dl)
    (hdet : ∀ (e1 e2 : σ) (c : Call), (eng e1 c).1 = (eng e2 c).1) :
    ∃ (r1 r2 : Ptr × GoError) (w1 w2 : World σ) (rest1 rest2 : List Call),
      CredentialRevocationState.Update eng p definition delta idx ts path w = (.ret r1, w1) ∧
      CredentialRevocationState.Update eng p definition delta idx ts path w1 = (.ret r2, w2) ∧
      w1.trace = w.trace ++ updateStateCall dd dl st idx ts path :: rest1 ∧
      w2.trace = w1.trace ++ updateStateCall dd dl st idx ts path :: rest2 ∧
      r1.2 = r2.2 ∧
      (r1.1 = none ↔ r2.1 = none) ∧
      w2.lookup r1.1 = w2.lookup r2.1 ∧
      ∀ a b : Nat, r1.1 = some a → r2.1 = some b →
        ∀ (req : Ptr) (entries : List CredentialEntry) (proves : List CredentialProve)
          (names values : List String) (secret : Ptr) (schemas credDefs : List Object),
          NewPresentation eng req (entries.map (CredentialEntry.substState a b)) proves names
            values secret schemas credDefs w2 =
          NewPresentation eng req entries proves names values secret schemas credDefs w2 := by
  have hframe := CredentialRevocationState.Update_state_onlyAllocates eng p definition delta idx ts
    path
  have h1 := CredentialRevocationState.Update_eq eng w p definition delta idx ts path st dd dl
    hp hd hdl
  rcases hrun : CredentialRevocationState.Update eng p definition delta idx ts path w with
    ⟨out1, w1⟩
  have hp1 : w1.lookup p = some st := by
    have := hframe.lookup_eq w p st hp; rw [hrun] at this; exact this
  have hd1 : w1.lookup definition = some dd := by
    have := hframe.lookup_eq w definition dd hd; rw [hrun] at this; exact this
  have hdl1 : w1.lookup delta = some dl := by
    have := hframe.lookup_eq w delta dl hdl; rw [hrun] at this; exact this
  have h2 := CredentialRevocationState.Update_eq eng w1 p definition delta idx ts path st dd dl
    hp1 hd1 hdl1
  have hrep : (eng w1.engine (updateStateCall dd dl st idx ts path)).1 =
      (eng w.engine (updateStateCall dd dl st idx ts path)).1 := hdet _ _ _
  rw [hrep] at h2
  rw [hrun] at h1
  by_cases hcode : (eng w.engine (updateStateCall dd dl st idx ts path)).1.code = 0
  · rw [if_neg (by simpa using hcode)] at h1 h2
    obtain ⟨ho, hw1⟩ := Prod.mk.inj h1
    subst hw1
    subst ho
    refine ⟨_, _, _, _, [], [], rfl, h2, ?_, ?_, ?_, ?_, ?_, ?_⟩
    · simp
    · simp
    · rfl
    · simp
    · simp only [World.lookup, List.length_append, List.length_singleton]
      rw [(heap_two w.heap _ _).1, (heap_two w.heap _ _).2]
    · intro a b ha hb req entries proves names values secret schemas credDefs
      simp only [Option.some.injEq] at ha hb
      subst ha hb
      refine NewPresentation_substState eng _ _ _ ?_ req entries proves
        names values secret schemas credDefs
      simp only [World.lookup, List.length_append, List.length_singleton]
      rw [(heap_two w.heap _ _).1, (heap_two w.heap _ _).2]
  · rw [if_pos hcode] at h1 h2
    obtain ⟨ho, hw1⟩ := Prod.mk.inj h1
    subst hw1
    subst ho
    refine ⟨_, _, _, _, [.credx_get_current_error, .credx_string_free none],
      [.credx_get_current_error, .credx_string_free none], rfl, h2, ?_, ?_, ?_, ?_, ?_, ?_⟩
    · simp
    · simp
    · simp only [Option.some.injEq]
      exact errorText_congr eng hdet _ _ _
    · simp
    · simp
    · intro a b ha
      simp at ha

/-- Witness for C9: the accepting engine answers every request in the same way. -/
theorem CredentialRevocationState.Update_idempotent_witness :
    ∃ (r1 r2 : Ptr × GoError) (w1 w2 : World Unit) (rest1 rest2 : List Call),
      CredentialRevocationState.Update acceptAll (some 3) (some 1) (some 2) 10 100 "tails"
        world0 = (.ret r1, w1) ∧
      CredentialRevocationState.Update acceptAll (some 3) (some 1) (some 2) 10 100 "tails"
        w1 = (.ret r2, w2) ∧
      w1.trace = world0.trace ++
        updateStateCall ⟨2, false⟩ ⟨3, false⟩ ⟨4, false⟩ 10 100 "tails" :: rest1 ∧
      w2.trace = w1.trace ++
        updateStateCall ⟨2, false⟩ ⟨3, false⟩ ⟨4, false⟩ 10 100 "tails" :: rest2 ∧
      r1.2 = r2.2 ∧
      (r1.1 = none ↔ r2.1 = none) ∧
      w2.lookup r1.1 = w2.lookup r2.1 ∧
      ∀ a b : Nat, r1.1 = some a → r2.1 = some b →
        ∀ (req : Ptr) (entries : List CredentialEntry) (proves : List CredentialProve)
          (names values : List String) (secret : Ptr) (schemas credDefs : List Object),
          NewPresentation acceptAll req (entries.map (CredentialEntry.substState a b)) proves
            names values secret schemas credDefs w2 =
          NewPresentation acceptAll req entries proves names values secret schemas credDefs
            w2 :=
  CredentialRevocationState.Update_idempotent acceptAll world0 (some 3) (some 1) (some 2) 10
    100 "tails" ⟨4, false⟩ ⟨2, false⟩ ⟨3, false⟩ rfl rfl rfl (fun _ _ _ => rfl)

/-! ## NewPresentation -/

theorem CredentialEntry.ToC_view {σ : Type} (w : World σ) (c : CredentialEntry)
    (h1 : (w.lookup c.credential).isSome) (h2 : (w.lookup c.revState).isSome) :
    CredentialEntry.ToC c w = (.ret (CredentialEntry.view w c), w) := by
  obtain ⟨cred, hcred⟩ := Option.isSome_iff_exists.mp h1
  obtain ⟨st, hst⟩ := Option.isSome_iff_exists.mp h2
  rw [CredentialEntry.ToC_credEntry_eq]
  simp [hcred, hst, CredentialEntry.view]

/-- The run of `NewPresentation` on valid pointers: one engine call, then the decoding of
its reply. -/
theorem NewPresentation_eq {σ : Type} (eng : Engine σ) (w : World σ) (req secret : Ptr)
    (entries : List CredentialEntry) (proves : List CredentialProve)
    (names values : List String) (schemas credDefs : List Object) (rq ms : Object)
    (hreq : w.lookup req = some rq) (hsecret : w.lookup secret = some ms)
    (hents : ∀ e ∈ entries, (w.lookup e.credential).isSome ∧ (w.lookup e.revState).isSome)
    (hl1 : entries.length ≤ 1) (hl2 : proves.length ≤ 1)
    (hl3 : names.length ≤ 3) (hl4 : values.length ≤ 3)
    (hl5 : schemas.length ≤ 3) (hl6 : credDefs.length ≤ 3) :
    NewPresentation eng req entries proves names values secret schemas credDefs w =
      (if (eng w.engine (presentationCall w rq ms entries proves names values schemas
          credDefs)).1.code ≠ 0 then
        (.ret (none, some (errorText eng (eng w.engine (presentationCall w rq ms entries proves
            names values schemas credDefs)).2
            ("Couldn't create presentation, received code " ++
              fmtD (eng w.engine (presentationCall w rq ms entries proves names values schemas
                credDefs)).1.code))),
          { w with
            engine := afterError eng (eng w.engine (presentationCall w rq ms entries proves
              names values schemas credDefs)).2,
            trace := w.trace ++ [presentationCall w rq ms entries proves names values schemas
              credDefs, .credx_get_current_error, .credx_string_free none] })
      else
        (.ret (some w.heap.length, none),
          { engine := (eng w.engine (presentationCall w rq ms entries proves names values
              schemas credDefs)).2,
            heap := w.heap ++ [{ handle := (eng w.engine (presentationCall w rq ms entries
              proves names values schemas credDefs)).1.handle 0 }],
            finalizers := w.finalizers ++ [w.heap.length],
            trace := w.trace ++ [presentationCall w rq ms entries proves names values schemas
              credDefs] })) := by
  have h1 : NewFfiListFfiCredentialEntry entries w =
      (.ret (marshalled (CredentialEntry.view w) entries), w) := by
    have h := rangeWrite_ok .FfiCredentialEntry (C.malloc entries.length)
      (fun item => CredentialEntry.ToC item) (CredentialEntry.view w) w
      entries 0 (fun e he => CredentialEntry.ToC_view w e (hents e he).1 (hents e he).2)
      (by simp only [viewLen]; omega) (by simpa using (fits24_iff entries.length).mpr hl1)
    simp only [NewFfiListFfiCredentialEntry, bind, Go.bind, h, pure, Go.pure, marshalled]
  have h2 : NewFfiListFfiCredentialProve proves w =
      (.ret (marshalled CredentialProve.ToC proves), w) := by
    have h := rangeWrite_pure (σ := σ) .FfiCredentialProve (C.malloc proves.length)
      CredentialProve.ToC proves 0 (by simp only [viewLen]; omega)
      (by simpa using (fits24_iff proves.length).mpr hl2) w
    simp only [NewFfiListFfiCredentialProve, bind, Go.bind, pure, h]
    rfl
  have h3 : ∀ l : List String, l.length ≤ 3 →
      NewFfiStrList l w = (.ret (marshalled C.CString l), w) := by
    intro l hl
    have h := rangeWrite_pure (σ := σ) .charPtr (C.malloc l.length) C.CString l 0
      (by simp only [viewLen]; omega) (by simpa using (fits8_iff l.length).mpr hl) w
    simp only [NewFfiStrList, bind, Go.bind, pure, h]
    rfl
  simp only [NewPresentation, bind, Go.bind, h1, h2, h3 names hl3, h3 values hl4,
    NewFfiListObjectHandle_eq _ hl5, NewFfiListObjectHandle_eq _ hl6, deref_eq w req rq hreq,
    deref_eq w secret ms hsecret, ffi]
  by_cases hcode : (eng w.engine (presentationCall w rq ms entries proves names values schemas
      credDefs)).1.code = 0
  · simp [presentationCall] at hcode
    simp [presentationCall, hcode, pure, Go.pure, Go.bind, alloc, runtime.SetFinalizer,
      tyPresentationPtr]
  · simp [presentationCall] at hcode
    simp [presentationCall, hcode, pure, Go.pure, Go.bind, handleLibError_eq]

/-! ## The engine of the specification -/

theorem SpecState.get_produce (s : SpecState) (objs : List EngineObject) (h : ObjectHandle)
    (o : EngineObject) (hg : s.get h = some o) : (s.produce objs).2.get h = some o := by
  unfold SpecState.get at hg ⊢
  by_cases h0 : h = 0
  · simp [h0] at hg
  · simp only [h0, if_false] at hg ⊢
    have hlt : h - 1 < s.objects.length := (List.getElem?_eq_some_iff.mp hg).1
    simp only [SpecState.produce]
    rw [List.getElem?_append_left hlt]
    exact hg

theorem SpecState.get_produce_first (s : SpecState) (o : EngineObject)
    (rest : List EngineObject) :
    (s.produce (o :: rest)).2.get ((s.produce (o :: rest)).1.handle 0) = some o := by
  have h : (s.produce (o :: rest)).1.handle 0 = s.objects.length + 1 := by
    simp [SpecState.produce, Reply.handle, List.range_succ_eq_map]
  rw [h]
  simp only [SpecState.get, SpecState.produce, Nat.add_one_ne_zero, if_false,
    Nat.add_sub_cancel]
  rw [List.getElem?_append_right (le_refl _)]
  simp

theorem SpecState.revoke_code_zero (s : SpecState) (regDef reg : ObjectHandle) (idx : Int)
    (tails : String) (h : (s.revoke regDef reg idx tails).1.code = 0) :
    ∃ acc : Accumulator, s.revoke regDef reg idx tails =
      s.produce [.registry (acc.set idx.toNat false), .delta acc (acc.set idx.toNat false)] := by
  unfold SpecState.revoke at h ⊢
  rcases hdef : s.get regDef with _ | od
  · simp [hdef, SpecState.fail, ErrorKind.code] at h
  · rcases hreg : s.get reg with _ | oreg
    · cases od <;> simp [hdef, hreg, SpecState.fail, ErrorKind.code] at h
    · cases od <;> cases oreg <;> simp only [hdef, hreg] at h ⊢ <;>
        first
        | (simp [SpecState.fail, ErrorKind.code] at h; done)
        | skip
      rename_i maxCredNum loc acc
      split_ifs at h ⊢ <;> first
        | exact ⟨acc, rfl⟩
        | (simp [SpecState.fail, ErrorKind.code] at h)

theorem Accumulator.nonRevoked_set_false (acc : Accumulator) (idx : Int) :
    Accumulator.nonRevoked (acc.set idx.toNat false) idx = false := by
  unfold Accumulator.nonRevoked
  by_cases h0 : 0 ≤ idx
  · simp only [h0, decide_True, Bool.true_and]
    by_cases hlt : idx.toNat < acc.length
    · simp [List.getD_eq_getElem?_getD, List.getElem?_set, hlt]
    · simp [List.getD_eq_getElem?_getD, List.getElem?_set, hlt]
  · simp [h0]

theorem allSome_mono {α β : Type} (f g : α → Option β) (l : List α)
    (hfg : ∀ x ∈ l, ∀ v, f x = some v → g x = some v) (vs : List β)
    (hf : allSome (l.map f) = some vs) : allSome (l.map g) = some vs := by
  induction l generalizing vs with
  | nil => exact hf
  | cons x xs ih =>
    simp only [List.map_cons] at hf ⊢
    rcases hx : f x with _ | v
    · simp [hx, allSome] at hf
    · rw [hfg x (List.mem_cons_self x xs) v hx]
      rw [hx] at hf
      simp only [allSome] at hf ⊢
      rcases hxs : allSome (xs.map f) with _ | ws
      · simp [hxs] at hf
      · rw [ih (fun y hy => hfg y (List.mem_cons_of_mem x hy)) ws hxs]
        rw [hxs] at hf
        exact hf

theorem allSome_map_some {α β : Type} (f : α → Option β) (g : α → β) (l : List α)
    (h : ∀ x ∈ l, f x = some (g x)) : allSome (l.map f) = some (l.map g) := by
  induction l with
  | nil => rfl
  | cons x xs ih =>
    simp only [List.map_cons, allSome, h x (List.mem_cons_self x xs),
      ih fun y hy => h y (List.mem_cons_of_mem x hy), Option.map_some']

theorem SpecState.verify_eq (s : SpecState) (pres req : ObjectHandle)
    (schemas credDefs regDefs : FfiListObjectHandle) (revEntries : FfiList FfiRevocationEntry)
    (builtSchemas builtCredDefs : List String) (entries : List PresentedCredential)
    (referents : List String) (schemaIds credDefIds : List String) (maxes : List Int)
    (snapshots : List (Int × Accumulator))
    (h1 : s.get pres = some (.presentation builtSchemas builtCredDefs entries))
    (h2 : s.get req = some (.presentationRequest referents))
    (h3 : allSome (schemas.data.map s.schemaId) = some schemaIds)
    (h4 : allSome (credDefs.data.map s.credDefId) = some credDefIds)
    (h5 : allSome (regDefs.data.map s.regDefMax) = some maxes)
    (h6 : allSome (revEntries.data.map (s.snapshot regDefs.data)) = some snapshots) :
    s.verify pres req schemas credDefs regDefs revEntries =
      ({ code := 0,
         flag := some (if builtSchemas = schemaIds ∧ builtCredDefs = credDefIds ∧
           entries.all (nonRevocationHolds snapshots) = true then 1 else 0) }, s) := by
  simp only [SpecState.verify, h1, h2, h3, h4, h5, h6]

theorem allSome_of_isSome {α β : Type} (f : α → Option β) (l : List α)
    (h : ∀ x ∈ l, (f x).isSome) : ∃ vs, allSome (l.map f) = some vs := by
  induction l with
  | nil => exact ⟨[], rfl⟩
  | cons x xs ih =>
    obtain ⟨v, hv⟩ := Option.isSome_iff_exists.mp (h x (List.mem_cons_self x xs))
    obtain ⟨vs, hvs⟩ := ih fun y hy => h y (List.mem_cons_of_mem x hy)
    exact ⟨v :: vs, by simp only [List.map_cons, hv, allSome, hvs, Option.map_some']⟩

/-- What a successful `RevokeCredential` on the specified engine leaves behind: the Go
registry object holds a handle behind which the engine keeps an accumulator with the
revoked slot cleared. -/
theorem RevokeCredential_spec_result (w w1 : World SpecState) (reg regDef : Ptr) (i : Int)
    (tailsPath : String) (d : Nat)
    (hrev : RevocationRegistry.RevokeCredential specEngine reg regDef i tailsPath w =
      (.ret (some d, none), w1)) :
    ∃ (h : ObjectHandle) (b : Bool) (acc : Accumulator),
      w1.lookup reg = some ⟨h, b⟩ ∧
      w1.engine.get h = some (.registry (acc.set i.toNat false)) := by
  rcases hd : w.lookup regDef with _ | dd
  · simp [RevocationRegistry.RevokeCredential, bind, Go.bind, deref_nil w _ hd] at hrev
  rcases hs : w.lookup reg with _ | r
  · simp [RevocationRegistry.RevokeCredential, bind, Go.bind, deref_eq w _ dd hd,
      deref_nil w _ hs] at hrev
  by_cases hcode :
      (specEngine w.engine (.credx_revoke_credential dd.handle r.handle i tailsPath)).1.code = 0
  · cases reg with
    | none => simp [World.lookup] at hs
    | some a =>
      have hok := RevokeCredential_ok specEngine w a regDef i tailsPath r dd hs hd hcode
      rw [hok] at hrev
      obtain ⟨_, hw1⟩ := Prod.mk.inj hrev
      subst hw1
      have hs2 : w.heap[a]? = some r := hs
      have hlt : a < w.heap.length := (List.getElem?_eq_some_iff.mp hs2).1
      obtain ⟨acc, hacc⟩ := SpecState.revoke_code_zero w.engine dd.handle r.handle i tailsPath
        hcode
      have hcall : specEngine w.engine
          (.credx_revoke_credential dd.handle r.handle i tailsPath) =
          w.engine.produce [.registry (acc.set i.toNat false),
            .delta acc (acc.set i.toNat false)] := hacc
      refine ⟨(specEngine w.engine
        (.credx_revoke_credential dd.handle r.handle i tailsPath)).1.handle 0, r.isClosed, acc,
        ?_, ?_⟩
      · simp only [World.lookup]
        rw [List.getElem?_append_left (by simpa using hlt)]
        simp [hlt]
      · simp only [hcall]
        exact SpecState.get_produce_first w.engine _ _
  · rw [RevokeCredential_err specEngine w reg regDef i tailsPath r dd hs hd hcode] at hrev
    simp at hrev

/-- An entry whose credential sits at a slot that the supplied accumulators all show as
revoked fails check (b), whatever its witness. -/
theorem nonRevocationHolds_revoked (snapshots : List (Int × Accumulator)) (i t0 : Int)
    (wit : Witness) (h : ∀ sn ∈ snapshots, Accumulator.nonRevoked sn.2 i = false) :
    nonRevocationHolds snapshots ⟨i, t0, some wit⟩ = false := by
  unfold nonRevocationHolds
  rcases hfind : snapshots.find? (fun sn => sn.1 == wit.timestamp) with _ | sn
  · simp only [hfind]
  · have hmem : sn ∈ snapshots := List.mem_of_find?_eq_some hfind
    simp only [hfind, Witness.consistent, h sn hmem, Bool.and_false]

/-- On the engine of the specification, after a successful `RevokeCredential(i)` on a
registry, `Verify` on lists that fit their blocks returns `(false, nil)` for every
presentation that holds a credential issued at slot `i` together with a revocation
state. -/
theorem Presentation.Verify_after_revocation (w w1 : World SpecState) (reg regDef c presReq : Ptr) (i : Int)
    (tailsPath : String) (d : Nat) (pres rq : Object) (builtSchemas builtCredDefs : List String)
    (entries : List PresentedCredential) (t0 : Int) (wit : Witness) (referents : List String)
    (schemas credDefs regs : List Object) (revEntries : List RevocationEntry)
    (hrev : RevocationRegistry.RevokeCredential specEngine reg regDef i tailsPath w =
      (.ret (some d, none), w1))
    (hc : w1.lookup c = some pres)
    (hpres : w1.engine.get pres.handle =
      some (.presentation builtSchemas builtCredDefs entries))
    (hentry : ⟨i, t0, some wit⟩ ∈ entries)
    (hreq : w1.lookup presReq = some rq)
    (hrq : w1.engine.get rq.handle = some (.presentationRequest referents))
    (hschemas : ∀ o ∈ schemas, (w1.engine.schemaId o.handle).isSome)
    (hcredDefs : ∀ o ∈ credDefs, (w1.engine.credDefId o.handle).isSome)
    (hregs : ∀ o ∈ regs, (w1.engine.regDefMax o.handle).isSome)
    (hents : ∀ e ∈ revEntries,
      e.revReg = reg ∧ 0 ≤ e.defEntryIndex ∧ e.defEntryIndex < regs.length)
    (hl1 : schemas.length ≤ 3) (hl2 : credDefs.length ≤ 3)
    (hl3 : regs.length ≤ 3) (hl4 : revEntries.length ≤ 1) :
    ∃ w2, Presentation.Verify specEngine c presReq schemas credDefs regs revEntries w1 =
      (.ret (false, none), w2) := by
  obtain ⟨h, b, acc, hregw1, hget⟩ :=
    RevokeCredential_spec_result w w1 reg regDef i tailsPath d hrev
  have hents2 : ∀ e ∈ revEntries, (w1.lookup e.revReg).isSome := by
    intro e he
    rw [(hents e he).1, hregw1]
    rfl
  have hV := Presentation.Verify_eq specEngine w1 c presReq schemas credDefs regs revEntries
    pres rq hc hreq hents2 hl1 hl2 hl3 hl4
  obtain ⟨sids, hs⟩ := allSome_of_isSome w1.engine.schemaId (schemas.map fun o => o.handle)
    (by intro x hx; obtain ⟨o, ho, rfl⟩ := List.mem_map.mp hx; exact hschemas o ho)
  obtain ⟨cids, hcs⟩ := allSome_of_isSome w1.engine.credDefId (credDefs.map fun o => o.handle)
    (by intro x hx; obtain ⟨o, ho, rfl⟩ := List.mem_map.mp hx; exact hcredDefs o ho)
  obtain ⟨maxes, hms⟩ := allSome_of_isSome w1.engine.regDefMax (regs.map fun o => o.handle)
    (by intro x hx; obtain ⟨o, ho, rfl⟩ := List.mem_map.mp hx; exact hregs o ho)
  have hsn : allSome ((revEntries.map (RevocationEntry.view w1)).map
      (w1.engine.snapshot (regs.map fun o => o.handle))) =
      some ((revEntries.map (RevocationEntry.view w1)).map fun fe =>
        (fe.timestamp, acc.set i.toNat false)) := by
    apply allSome_map_some
    intro fe hfe
    obtain ⟨e, he, rfl⟩ := List.mem_map.mp hfe
    have h1 := hents e he
    simp [SpecState.snapshot, RevocationEntry.view, h1.1, hregw1, hget, h1.2.1, h1.2.2]
  have hall : entries.all (nonRevocationHolds ((revEntries.map (RevocationEntry.view w1)).map
      fun fe => (fe.timestamp, acc.set i.toNat false))) = false := by
    rw [List.all_eq_false]
    refine ⟨_, hentry, ?_⟩
    rw [nonRevocationHolds_revoked]
    · simp
    · intro sn hsnm
      obtain ⟨fe, _, rfl⟩ := List.mem_map.mp hsnm
      exact Accumulator.nonRevoked_set_false acc i
  have hcall : specEngine w1.engine
      (verifyCall w1 pres rq schemas credDefs regs revEntries) =
      ({ code := 0, flag := some 0 }, w1.engine) := by
    have := SpecState.verify_eq w1.engine pres.handle rq.handle (handleList schemas)
      (handleList credDefs) (handleList regs)
      { count := revEntries.length, requested := revEntries.length,
        data := revEntries.map (RevocationEntry.view w1) }
      builtSchemas builtCredDefs entries referents sids cids maxes _ hpres hrq hs hcs hms hsn
    simp only [hall, Bool.false_eq_true, and_false, if_false] at this
    exact this
  rw [hcall] at hV
  rw [hV]
  simp

theorem World.lookup_append {σ : Type} (w : World σ) (e : σ) (cells : List Object)
    (f : List Nat) (t : List Call) (p : Ptr) (o : Object) (h : w.lookup p = some o) :
    ({ engine := e, heap := w.heap ++ cells, finalizers := f, trace := t } : World σ).lookup p
      = some o := by
  cases p with
  | none => simp [World.lookup] at h
  | some a =>
    have h2 : w.heap[a]? = some o := h
    have hlt : a < w.heap.length := (List.getElem?_eq_some_iff.mp h2).1
    simp only [World.lookup]
    rw [List.getElem?_append_left hlt]
    exact h2

theorem World.lookup_new {σ : Type} (w : World σ) (e : σ) (o : Object)
    (f : List Nat) (t : List Call) :
    ({ engine := e, heap := w.heap ++ [o], finalizers := f, trace := t } : World σ).lookup
      (some w.heap.length) = some o := by
  simp [World.lookup]

theorem SpecState.schemaId_produce (s : SpecState) (objs : List EngineObject)
    (h : ObjectHandle) (v : String) (hv : s.schemaId h = some v) :
    (s.produce objs).2.schemaId h = some v := by
  unfold SpecState.schemaId at hv ⊢
  rcases hg : s.get h with _ | o
  · simp [hg] at hv
  · rw [SpecState.get_produce s objs h o hg]
    rw [hg] at hv
    exact hv

theorem SpecState.credDefId_produce (s : SpecState) (objs : List EngineObject)
    (h : ObjectHandle) (v : String) (hv : s.credDefId h = some v) :
    (s.produce objs).2.credDefId h = some v := by
  unfold SpecState.credDefId at hv ⊢
  rcases hg : s.get h with _ | o
  · simp [hg] at hv
  · rw [SpecState.get_produce s objs h o hg]
    rw [hg] at hv
    exact hv

theorem SpecState.regDefMax_produce (s : SpecState) (objs : List EngineObject)
    (h : ObjectHandle) (v : Int) (hv : s.regDefMax h = some v) :
    (s.produce objs).2.regDefMax h = some v := by
  unfold SpecState.regDefMax at hv ⊢
  rcases hg : s.get h with _ | o
  · simp [hg] at hv
  · rw [SpecState.get_produce s objs h o hg]
    rw [hg] at hv
    exact hv

theorem SpecState.createOrUpdateState_fresh (s : SpecState) (regDef regDelta : ObjectHandle)
    (idx t : Int) (tails : String) (maxCredNum : Int) (loc : String) (prior acc : Accumulator)
    (h1 : s.get regDef = some (.registryDefinition maxCredNum loc))
    (h2 : s.get regDelta = some (.delta prior acc))
    (hrange : inRange maxCredNum idx = true) (htails : tails ∈ s.tailsStores) :
    s.createOrUpdateState regDef regDelta idx t tails 0 =
      s.produce [.revocationState ⟨idx, t, acc⟩] := by
  simp [SpecState.createOrUpdateState, h1, h2, hrange, htails]

theorem SpecState.createPresentation_eq (s : SpecState) (presReq : ObjectHandle)
    (credentials : FfiList FfiCredentialEntry) (proves : FfiList FfiCredentialProve)
    (names values : FfiStrList) (secret : ObjectHandle) (schemas credDefs : FfiListObjectHandle)
    (referents : List String) (entries : List PresentedCredential)
    (schemaIds credDefIds : List String)
    (h1 : s.get presReq = some (.presentationRequest referents))
    (h2 : s.get secret = some .masterSecret)
    (h3 : allSome (credentials.data.map s.presented) = some entries)
    (h4 : allSome (schemas.data.map s.schemaId) = some schemaIds)
    (h5 : allSome (credDefs.data.map s.credDefId) = some credDefIds)
    (hlen : names.data.length = values.data.length)
    (hidx : ∀ p ∈ proves.data, 0 ≤ p.entry_idx ∧ p.entry_idx < entries.length)
    (hcov : covered referents proves.data names.data = true) :
    s.createPresentation presReq credentials proves names values secret schemas credDefs =
      s.produce [.presentation schemaIds credDefIds entries] := by
  have hall : (proves.data.all fun p =>
      decide (0 ≤ p.entry_idx) && decide (p.entry_idx < entries.length)) = true := by
    rw [List.all_eq_true]
    intro p hp
    simp [hidx p hp]
  simp only [SpecState.createPresentation, h1, h2, h3, h4, h5, hlen, hall, hcov, ne_eq,
    not_true_eq_false, if_false, Bool.not_true, Bool.false_eq_true]

/-- `Presentation.Verify` returns only when every list fits its block. -/
theorem Presentation.Verify_ret_fits {σ : Type} (eng : Engine σ) (w w1 : World σ)
    (c presReq : Ptr) (schemas credDefs regs : List Object) (revEntries : List RevocationEntry)
    (res : Bool × GoError)
    (h : Presentation.Verify eng c presReq schemas credDefs regs revEntries w =
      (.ret res, w1)) :
    schemas.length ≤ 3 ∧ credDefs.length ≤ 3 ∧ regs.length ≤ 3 ∧ revEntries.length ≤ 1 := by
  by_contra hno
  rcases Presentation.Verify_stops_unless eng w c presReq schemas credDefs regs revEntries
    (fun hall => hno hall.2.2.2) with ⟨msg, hm⟩ | ⟨msg, hm⟩ <;> simp [hm] at h

/-- C6 (revocation soundness, on the engine of the specification): after a successful
`RevokeCredential(i)` on a registry, for every presentation that holds a credential issued
at slot `i` together with a revocation state, and revocation entries that refer to this
registry: when every list fits its block (at most three schemas, definitions and registry
definitions, at most one entry) `Verify` returns `(false, nil)`; and whatever the lists,
every run of `Verify` that returns, returns `(false, nil)`. -/
theorem revocation_soundness (w w1 : World SpecState) (reg regDef c presReq : Ptr) (i : Int)
    (tailsPath : String) (d : Nat) (pres rq : Object) (builtSchemas builtCredDefs : List String)
    (entries : List PresentedCredential) (t0 : Int) (wit : Witness) (referents : List String)
    (schemas credDefs regs : List Object) (revEntries : List RevocationEntry)
    (hrev : RevocationRegistry.RevokeCredential specEngine reg regDef i tailsPath w =
      (.ret (some d, none), w1))
    (hc : w1.lookup c = some pres)
    (hpres : w1.engine.get pres.handle =
      some (.presentation builtSchemas builtCredDefs entries))
    (hentry : ⟨i, t0, some wit⟩ ∈ entries)
    (hreq : w1.lookup presReq = some rq)
    (hrq : w1.engine.get rq.handle = some (.presentationRequest referents))
    (hschemas : ∀ o ∈ schemas, (w1.engine.schemaId o.handle).isSome)
    (hcredDefs : ∀ o ∈ credDefs, (w1.engine.credDefId o.handle).isSome)
    (hregs : ∀ o ∈ regs, (w1.engine.regDefMax o.handle).isSome)
    (hents : ∀ e ∈ revEntries,
      e.revReg = reg ∧ 0 ≤ e.defEntryIndex ∧ e.defEntryIndex < regs.length) :
    (schemas.length ≤ 3 → credDefs.length ≤ 3 → regs.length ≤ 3 → revEntries.length ≤ 1 →
      ∃ w2, Presentation.Verify specEngine c presReq schemas credDefs regs revEntries w1 =
        (.ret (false, none), w2)) ∧
    (∀ (res : Bool × GoError) (w2 : World SpecState),
      Presentation.Verify specEngine c presReq schemas credDefs regs revEntries w1 =
        (.ret res, w2) → res = (false, none)) := by
  have hfit := Presentation.Verify_after_revocation w w1 reg regDef c presReq i tailsPath d
    pres rq builtSchemas builtCredDefs entries t0 wit referents schemas credDefs regs
    revEntries hrev hc hpres hentry hreq hrq hschemas hcredDefs hregs hents
  refine ⟨hfit, fun res w2 hret => ?_⟩
  obtain ⟨hl1, hl2, hl3, hl4⟩ := Presentation.Verify_ret_fits specEngine w1 w2 c presReq
    schemas credDefs regs revEntries res hret
  obtain ⟨w3, h3⟩ := hfit hl1 hl2 hl3 hl4
  rw [h3] at hret
  simp only [Prod.mk.injEq, Outcome.ret.injEq] at hret
  exact hret.1.symm

/-- Witness for C6: the scenario of section 8, index 10 revoked after the presentation was
built; the revocation entry refers to the registry, at the holder's timestamp. -/
theorem revocation_soundness_witness :
    (∃ w2, Presentation.Verify specEngine (some 9) (some 3) [⟨1, false⟩] [⟨2, false⟩]
      [⟨6, false⟩] [⟨0, some 6, 1000⟩] specWorldRevoked = (.ret (false, none), w2)) ∧
    (∀ (res : Bool × GoError) (w2 : World SpecState),
      Presentation.Verify specEngine (some 9) (some 3) [⟨1, false⟩] [⟨2, false⟩]
        [⟨6, false⟩] [⟨0, some 6, 1000⟩] specWorldRevoked = (.ret res, w2) →
      res = (false, none)) :=
  ⟨(revocation_soundness specWorldBuilt specWorldRevoked (some 6) (some 5) (some 9) (some 3)
      10 "tails" 10 ⟨10, false⟩ ⟨4, false⟩ ["schema:1"] ["creddef:1"]
      [⟨10, 1000, some ⟨10, 1000, List.replicate 100 true⟩⟩] 1000
      ⟨10, 1000, List.replicate 100 true⟩ ["reft"] [⟨1, false⟩] [⟨2, false⟩] [⟨6, false⟩]
      [⟨0, some 6, 1000⟩] rfl rfl rfl (by simp) rfl rfl (by decide) (by decide) (by decide)
      (by simp)).1 (by decide) (by decide) (by decide) (by decide),
    (revocation_soundness specWorldBuilt specWorldRevoked (some 6) (some 5) (some 9) (some 3)
      10 "tails" 10 ⟨10, false⟩ ⟨4, false⟩ ["schema:1"] ["creddef:1"]
      [⟨10, 1000, some ⟨10, 1000, List.replicate 100 true⟩⟩] 1000
      ⟨10, 1000, List.replicate 100 true⟩ ["reft"] [⟨1, false⟩] [⟨2, false⟩] [⟨6, false⟩]
      [⟨0, some 6, 1000⟩] rfl rfl rfl (by simp) rfl rfl (by decide) (by decide) (by decide)
      (by simp)).2⟩

/-- On the engine of the specification, for a credential issued at a non-revoked slot and
lists that fit their blocks: creating the state, building the presentation and verifying
it against the same accumulator value and timestamp all succeed, and `Verify` returns
`(true, nil)`. -/
theorem NewPresentation_then_Verify_accepts (w : World SpecState)
    (regDef delta reg cred req secret : Ptr) (info : CredentialRevocationInfo) (t : Int)
    (proves : List CredentialProve) (names values : List String)
    (schemas credDefs regs : List Object) (k : Int) (dd dl r cr rq ms : Object)
    (maxCredNum : Int) (loc : String) (prior acc : Accumulator) (referents : List String)
    (hdd : w.lookup regDef = some dd) (hdl : w.lookup delta = some dl)
    (hr : w.lookup reg = some r) (hcr : w.lookup cred = some cr)
    (hrq : w.lookup req = some rq) (hms : w.lookup secret = some ms)
    (edd : w.engine.get dd.handle = some (.registryDefinition maxCredNum loc))
    (edl : w.engine.get dl.handle = some (.delta prior acc))
    (er : w.engine.get r.handle = some (.registry acc))
    (ecr : w.engine.get cr.handle = some (.credential info.regIdx))
    (erq : w.engine.get rq.handle = some (.presentationRequest referents))
    (ems : w.engine.get ms.handle = some .masterSecret)
    (hrange : inRange maxCredNum info.regIdx = true)
    (htails : loc ∈ w.engine.tailsStores)
    (hissued : acc.nonRevoked info.regIdx = true)
    (hproves : ∀ p ∈ proves, p.entryIndex = 0)
    (hnames : names.length = values.length)
    (hcover : covered referents (proves.map CredentialProve.ToC) names = true)
    (hschemas : ∀ o ∈ schemas, (w.engine.schemaId o.handle).isSome)
    (hcredDefs : ∀ o ∈ credDefs, (w.engine.credDefId o.handle).isSome)
    (hregs : ∀ o ∈ regs, (w.engine.regDefMax o.handle).isSome)
    (hk : 0 ≤ k ∧ k < regs.length)
    (hl1 : proves.length ≤ 1) (hl2 : names.length ≤ 3)
    (hl3 : values.length ≤ 3) (hl4 : schemas.length ≤ 3)
    (hl5 : credDefs.length ≤ 3) (hl6 : regs.length ≤ 3) :
    ∃ (state pres : Nat) (w1 w2 w3 : World SpecState),
      NewCredentialRevocationState specEngine regDef delta (some info) t w =
        (.ret (some state, none), w1) ∧
      NewPresentation specEngine req [⟨cred, t, some state⟩] proves names values secret schemas
        credDefs w1 = (.ret (some pres, none), w2) ∧
      Presentation.Verify specEngine (some pres) req schemas credDefs regs [⟨k, reg, t⟩] w2 =
        (.ret (true, none), w3) := by
  have htc : specEngine w.engine (tailsCall dd) = ({ code := 0, str := some loc }, w.engine) := by
    simp [specEngine, tailsCall, SpecState.getAttribute, edd]
  have hcode1 : (specEngine w.engine (tailsCall dd)).1.code = 0 := by rw [htc]
  have h1 := NewCredentialRevocationState_eq specEngine w regDef delta info t dd dl hdd hdl
    hcode1
  have haft : afterTails specEngine w.engine dd = w.engine := by
    unfold afterTails
    rw [htc]
    rfl
  have hcs : specEngine w.engine
      (createStateCall dd dl info t (specEngine w.engine (tailsCall dd)).1) =
      w.engine.produce [.revocationState ⟨info.regIdx, t, acc⟩] := by
    rw [htc]
    simp only [createStateCall, C.GoString, Option.getD, specEngine]
    exact SpecState.createOrUpdateState_fresh w.engine dd.handle dl.handle info.regIdx t loc
      maxCredNum loc prior acc edd edl hrange htails
  rw [haft, hcs] at h1
  rw [if_neg (by simp [SpecState.produce])] at h1
  obtain ⟨sids, hs0⟩ := allSome_of_isSome w.engine.schemaId (schemas.map fun o => o.handle)
    (by intro x hx; obtain ⟨o, ho, rfl⟩ := List.mem_map.mp hx; exact hschemas o ho)
  obtain ⟨cids, hc0⟩ := allSome_of_isSome w.engine.credDefId (credDefs.map fun o => o.handle)
    (by intro x hx; obtain ⟨o, ho, rfl⟩ := List.mem_map.mp hx; exact hcredDefs o ho)
  obtain ⟨maxes, hm0⟩ := allSome_of_isSome w.engine.regDefMax (regs.map fun o => o.handle)
    (by intro x hx; obtain ⟨o, ho, rfl⟩ := List.mem_map.mp hx; exact hregs o ho)
  -- the world after the state was created
  rcases hrun1 : NewCredentialRevocationState specEngine regDef delta (some info) t w with
    ⟨o1, w1⟩
  rw [hrun1] at h1
  obtain ⟨ho1, hw1⟩ := Prod.mk.inj h1
  subst ho1
  have hh1pos : (w.engine.produce [.revocationState ⟨info.regIdx, t, acc⟩]).1.handle 0 ≠ 0 := by
    simp [SpecState.produce, Reply.handle, List.range_succ_eq_map]
  have e1 : ∀ h o, w.engine.get h = some o → w1.engine.get h = some o := by
    intro h o hg; rw [hw1]; exact SpecState.get_produce _ _ h o hg
  have e1st : w1.engine.get
      ((w.engine.produce [.revocationState ⟨info.regIdx, t, acc⟩]).1.handle 0) =
      some (.revocationState ⟨info.regIdx, t, acc⟩) := by
    rw [hw1]; exact SpecState.get_produce_first _ _ _
  have w1look : ∀ p o, w.lookup p = some o → w1.lookup p = some o := by
    intro p o h; rw [hw1]; exact World.lookup_append w _ _ _ _ p o h
  have w1new : w1.lookup (some w.heap.length) =
      some ⟨(w.engine.produce [.revocationState ⟨info.regIdx, t, acc⟩]).1.handle 0, false⟩ := by
    rw [hw1]; exact World.lookup_new w _ _ _ _
  have hs1 : allSome ((schemas.map fun o => o.handle).map w1.engine.schemaId) = some sids := by
    rw [hw1]
    exact allSome_mono _ _ _ (fun x _ v hv => SpecState.schemaId_produce _ _ _ _ hv) _ hs0
  have hc1 : allSome ((credDefs.map fun o => o.handle).map w1.engine.credDefId) = some cids := by
    rw [hw1]
    exact allSome_mono _ _ _ (fun x _ v hv => SpecState.credDefId_produce _ _ _ _ hv) _ hc0
  have hm1 : allSome ((regs.map fun o => o.handle).map w1.engine.regDefMax) = some maxes := by
    rw [hw1]
    exact allSome_mono _ _ _ (fun x _ v hv => SpecState.regDefMax_produce _ _ _ _ hv) _ hm0
  clear hw1 h1
  -- the presentation
  have hents : ∀ e ∈ [(⟨cred, t, some w.heap.length⟩ : CredentialEntry)],
      (w1.lookup e.credential).isSome ∧ (w1.lookup e.revState).isSome := by
    intro e he
    simp only [List.mem_singleton] at he
    subst he
    simp [w1look _ _ hcr, w1new]
  have h2 := NewPresentation_eq specEngine w1 req secret [⟨cred, t, some w.heap.length⟩] proves
    names values schemas credDefs rq ms (w1look _ _ hrq) (w1look _ _ hms) hents
    (by simp) hl1 hl2 hl3 hl4 hl5
  have hpc : specEngine w1.engine (presentationCall w1 rq ms [⟨cred, t, some w.heap.length⟩]
      proves names values schemas credDefs) =
      w1.engine.produce [.presentation sids cids
        [⟨info.regIdx, t, some ⟨info.regIdx, t, acc⟩⟩]] := by
    simp only [presentationCall, specEngine]
    refine SpecState.createPresentation_eq w1.engine _ _ _ _ _ _ _ _ referents _ sids cids
      (e1 _ _ erq) (e1 _ _ ems) ?_ hs1 hc1 ?_ ?_ ?_
    · simp [marshalled, CredentialEntry.view, w1look _ _ hcr, w1new, SpecState.presented,
        e1 _ _ ecr, hh1pos, e1st, allSome]
    · simp [marshalled, hnames]
    · intro p hp
      simp only [marshalled, List.mem_map] at hp
      obtain ⟨q, hq, rfl⟩ := hp
      simp [CredentialProve.ToC, hproves q hq]
    · have hmap : List.map C.CString names = names := by
        rw [show (C.CString : String → String) = id from rfl]
        exact List.map_id names
      simp only [marshalled, hmap]
      exact hcover
  rw [hpc] at h2
  rw [if_neg (by simp [SpecState.produce])] at h2
  -- the world after the presentation was built
  rcases hrun2 : NewPresentation specEngine req [⟨cred, t, some w.heap.length⟩] proves names
    values secret schemas credDefs w1 with ⟨o2, w2⟩
  rw [hrun2] at h2
  obtain ⟨ho2, hw2⟩ := Prod.mk.inj h2
  subst ho2
  have e2 : ∀ h o, w1.engine.get h = some o → w2.engine.get h = some o := by
    intro h o hg; rw [hw2]; exact SpecState.get_produce _ _ h o hg
  have e2p : w2.engine.get ((w1.engine.produce [.presentation sids cids
      [⟨info.regIdx, t, some ⟨info.regIdx, t, acc⟩⟩]]).1.handle 0) =
      some (.presentation sids cids [⟨info.regIdx, t, some ⟨info.regIdx, t, acc⟩⟩]) := by
    rw [hw2]; exact SpecState.get_produce_first _ _ _
  have w2look : ∀ p o, w1.lookup p = some o → w2.lookup p = some o := by
    intro p o h; rw [hw2]; exact World.lookup_append w1 _ _ _ _ p o h
  have w2new : w2.lookup (some w1.heap.length) =
      some ⟨(w1.engine.produce [.presentation sids cids
        [⟨info.regIdx, t, some ⟨info.regIdx, t, acc⟩⟩]]).1.handle 0, false⟩ := by
    rw [hw2]; exact World.lookup_new w1 _ _ _ _
  have hs2 : allSome ((schemas.map fun o => o.handle).map w2.engine.schemaId) = some sids := by
    rw [hw2]
    exact allSome_mono _ _ _ (fun x _ v hv => SpecState.schemaId_produce _ _ _ _ hv) _ hs1
  have hc2 : allSome ((credDefs.map fun o => o.handle).map w2.engine.credDefId) = some cids := by
    rw [hw2]
    exact allSome_mono _ _ _ (fun x _ v hv => SpecState.credDefId_produce _ _ _ _ hv) _ hc1
  have hm2 : allSome ((regs.map fun o => o.handle).map w2.engine.regDefMax) = some maxes := by
    rw [hw2]
    exact allSome_mono _ _ _ (fun x _ v hv => SpecState.regDefMax_produce _ _ _ _ hv) _ hm1
  clear hw2 h2
  -- the verification
  have hr2 : w2.lookup reg = some r := w2look _ _ (w1look _ _ hr)
  have hents3 : ∀ e ∈ [(⟨k, reg, t⟩ : RevocationEntry)], (w2.lookup e.revReg).isSome := by
    intro e he
    simp only [List.mem_singleton] at he
    subst he
    simp [hr2]
  have h3 := Presentation.Verify_eq specEngine w2 (some w1.heap.length) req schemas credDefs
    regs [⟨k, reg, t⟩] _ rq w2new (w2look _ _ (w1look _ _ hrq)) hents3 hl4 hl5 hl6
    (by simp)
  have hsn : allSome (([(⟨k, reg, t⟩ : RevocationEntry)].map (RevocationEntry.view w2)).map
      (w2.engine.snapshot (regs.map fun o => o.handle))) = some [(t, acc)] := by
    simp [RevocationEntry.view, hr2, SpecState.snapshot, e2 _ _ (e1 _ _ er), hk.1, hk.2,
      allSome]
  have hvc : specEngine w2.engine (verifyCall w2
      ⟨(w1.engine.produce [.presentation sids cids
        [⟨info.regIdx, t, some ⟨info.regIdx, t, acc⟩⟩]]).1.handle 0, false⟩ rq schemas credDefs
      regs [⟨k, reg, t⟩]) = ({ code := 0, flag := some 1 }, w2.engine) := by
    have hv := SpecState.verify_eq w2.engine _ rq.handle (handleList schemas)
      (handleList credDefs) (handleList regs)
      { count := 1, requested := 1,
        data := [(⟨k, reg, t⟩ : RevocationEntry)].map (RevocationEntry.view w2) }
      sids cids [⟨info.regIdx, t, some ⟨info.regIdx, t, acc⟩⟩] referents sids cids maxes
      [(t, acc)] e2p (e2 _ _ (e1 _ _ erq)) hs2 hc2 hm2 hsn
    simp only [verifyCall, specEngine]
    rw [show ([(⟨k, reg, t⟩ : RevocationEntry)].length) = 1 from rfl, hv]
    simp [nonRevocationHolds, Witness.consistent, hissued]
  rw [hvc] at h3
  simp only [ne_eq, not_true_eq_false, if_false, Option.getD_some, one_ne_zero,
    not_false_eq_true, decide_True] at h3
  exact ⟨w.heap.length, w1.heap.length, w1, w2, _, rfl, hrun2, h3⟩

/-- C7 (revocation completeness, on the engine of the specification): for a credential
issued at a slot that is non-revoked in the accumulator the delta leads to, the state
created at timestamp `t` for that slot, the presentation built from it with
`NewPresentation`, and `Verify` with the schemas and definitions the presentation was built
for and a revocation entry carrying a registry with that accumulator value and the same
timestamp `t`.  When every list fits its block (at most one prove, at most three
self-attested names and values, schemas, definitions and registry definitions) all three
calls succeed and `Verify` returns `(true, nil)`.  Whatever the lists, whenever
`NewPresentation` and `Verify` return, `NewPresentation` has returned a presentation and a
nil error and `Verify` has returned `(true, nil)`. -/
theorem revocation_completeness (w : World SpecState)
    (regDef delta reg cred req secret : Ptr) (info : CredentialRevocationInfo) (t : Int)
    (proves : List CredentialProve) (names values : List String)
    (schemas credDefs regs : List Object) (k : Int) (dd dl r cr rq ms : Object)
    (maxCredNum : Int) (loc : String) (prior acc : Accumulator) (referents : List String)
    (hdd : w.lookup regDef = some dd) (hdl : w.lookup delta = some dl)
    (hr : w.lookup reg = some r) (hcr : w.lookup cred = some cr)
    (hrq : w.lookup req = some rq) (hms : w.lookup secret = some ms)
    (edd : w.engine.get dd.handle = some (.registryDefinition maxCredNum loc))
    (edl : w.engine.get dl.handle = some (.delta prior acc))
    (er : w.engine.get r.handle = some (.registry acc))
    (ecr : w.engine.get cr.handle = some (.credential info.regIdx))
    (erq : w.engine.get rq.handle = some (.presentationRequest referents))
    (ems : w.engine.get ms.handle = some .masterSecret)
    (hrange : inRange maxCredNum info.regIdx = true)
    (htails : loc ∈ w.engine.tailsStores)
    (hissued : acc.nonRevoked info.regIdx = true)
    (hproves : ∀ p ∈ proves, p.entryIndex = 0)
    (hnames : names.length = values.length)
    (hcover : covered referents (proves.map CredentialProve.ToC) names = true)
    (hschemas : ∀ o ∈ schemas, (w.engine.schemaId o.handle).isSome)
    (hcredDefs : ∀ o ∈ credDefs, (w.engine.credDefId o.handle).isSome)
    (hregs : ∀ o ∈ regs, (w.engine.regDefMax o.handle).isSome)
    (hk : 0 ≤ k ∧ k < regs.length) :
    (proves.length ≤ 1 → names.length ≤ 3 → values.length ≤ 3 → schemas.length ≤ 3 →
      credDefs.length ≤ 3 → regs.length ≤ 3 →
      ∃ (state pres : Nat) (w1 w2 w3 : World SpecState),
        NewCredentialRevocationState specEngine regDef delta (some info) t w =
          (.ret (some state, none), w1) ∧
        NewPresentation specEngine req [⟨cred, t, some state⟩] proves names values secret
          schemas credDefs w1 = (.ret (some pres, none), w2) ∧
        Presentation.Verify specEngine (some pres) req schemas credDefs regs [⟨k, reg, t⟩] w2 =
          (.ret (true, none), w3)) ∧
    (∀ (state : Nat) (p : Ptr) (err : GoError) (res : Bool × GoError)
        (w1 w2 w3 : World SpecState),
      NewCredentialRevocationState specEngine regDef delta (some info) t w =
        (.ret (some state, none), w1) →
      NewPresentation specEngine req [⟨cred, t, some state⟩] proves names values secret
        schemas credDefs w1 = (.ret (p, err), w2) →
      Presentation.Verify specEngine p req schemas credDefs regs [⟨k, reg, t⟩] w2 =
        (.ret res, w3) →
      p ≠ none ∧ err = none ∧ res = (true, none)) := by
  have hfit := NewPresentation_then_Verify_accepts w regDef delta reg cred req secret info t
    proves names values schemas credDefs regs k dd dl r cr rq ms maxCredNum loc prior acc
    referents hdd hdl hr hcr hrq hms edd edl er ecr erq ems hrange htails hissued hproves
    hnames hcover hschemas hcredDefs hregs hk
  refine ⟨hfit, fun state p err res w1 w2 w3 hstate hpres hver => ?_⟩
  obtain ⟨_, hl1, hl2, hl3, hl4, hl5⟩ := NewPresentation_ret_fits specEngine w1 w2 req secret
    _ proves names values schemas credDefs _ hpres
  obtain ⟨_, _, hl6, _⟩ := Presentation.Verify_ret_fits specEngine w2 w3 p req schemas
    credDefs regs _ res hver
  obtain ⟨state2, pres2, v1, v2, v3, g1, g2, g3⟩ := hfit hl1 hl2 hl3 hl4 hl5 hl6
  rw [hstate] at g1
  simp only [Prod.mk.injEq, Outcome.ret.injEq, Option.some.injEq, and_true] at g1
  obtain ⟨hs, hw⟩ := g1
  subst hs
  subst hw
  rw [hpres] at g2
  simp only [Prod.mk.injEq, Outcome.ret.injEq] at g2
  obtain ⟨⟨hp, he⟩, hw2⟩ := g2
  subst hp
  subst he
  subst hw2
  rw [hver] at g3
  simp only [Prod.mk.injEq, Outcome.ret.injEq] at g3
  exact ⟨by simp, rfl, g3.1⟩

/-- Witness for C7: the scenario of section 8 before any revocation. -/
theorem revocation_completeness_witness :
    ∃ (state pres : Nat) (w1 w2 w3 : World SpecState),
      NewCredentialRevocationState specEngine (some 5) (some 7)
        (some ⟨some 5, none, some 6, 10, [], "tails"⟩) 1000 specWorld0 =
        (.ret (some state, none), w1) ∧
      NewPresentation specEngine (some 3) [⟨some 4, 1000, some state⟩]
        [⟨0, "reft", false, true⟩] [] [] (some 2) [⟨1, false⟩] [⟨2, false⟩] w1 =
        (.ret (some pres, none), w2) ∧
      Presentation.Verify specEngine (some pres) (some 3) [⟨1, false⟩] [⟨2, false⟩]
        [⟨6, false⟩] [⟨0, some 6, 1000⟩] w2 = (.ret (true, none), w3) :=
  (revocation_completeness specWorld0 (some 5) (some 7) (some 6) (some 4) (some 3) (some 2)
    ⟨some 5, none, some 6, 10, [], "tails"⟩ 1000 [⟨0, "reft", false, true⟩] [] []
    [⟨1, false⟩] [⟨2, false⟩] [⟨6, false⟩] 0 ⟨6, false⟩ ⟨8, false⟩ ⟨7, false⟩ ⟨5, false⟩
    ⟨4, false⟩ ⟨3, false⟩ 100 "tails" [] (List.replicate 100 true) ["reft"]
    rfl rfl rfl rfl rfl rfl rfl rfl rfl rfl rfl rfl (by decide) (by decide) (by decide)
    (by simp) rfl (by decide) (by decide) (by decide) (by decide) (by decide)).1
    (by decide) (by decide) (by decide) (by decide)
    (by decide) (by decide)

/-! ## RevocationRegistryDelta.UpdateWith -/

/-- No run of `UpdateWith` changes an object that existed before it. -/
theorem RevocationRegistryDelta.UpdateWith_onlyAllocates {σ : Type} (eng : Engine σ) (s : Ptr)
    (delta : Object) : OnlyAllocates (RevocationRegistryDelta.UpdateWith eng s delta) := by
  unfold RevocationRegistryDelta.UpdateWith
  simp only [bind, pure]
  refine OnlyAllocates.bind (OnlyAllocates.deref _) fun _ => ?_
  refine OnlyAllocates.bind (OnlyAllocates.ffi _ _) fun _ => ?_
  refine OnlyAllocates.ite ?_ ?_
  · exact OnlyAllocates.bind (OnlyAllocates.handleLibError _ _) fun _ => OnlyAllocates.pure _
  · refine OnlyAllocates.bind (OnlyAllocates.alloc _) fun _ => ?_
    exact OnlyAllocates.bind (OnlyAllocates.SetFinalizer _ _ _) fun _ => OnlyAllocates.pure _

/-- The run of `UpdateWith` on a valid receiver: when the engine accepts the merge, the run
ends in the fatal error of `runtime.SetFinalizer`. -/
theorem RevocationRegistryDelta.UpdateWith_eq {σ : Type} (eng : Engine σ) (w : World σ)
    (s : Ptr) (delta d1 : Object) (hs : w.lookup s = some d1) :
    RevocationRegistryDelta.UpdateWith eng s delta w =
      (if (eng w.engine
          (.credx_merge_revocation_registry_deltas d1.handle delta.handle)).1.code ≠ 0 then
        (.ret (none, some (errorText eng (eng w.engine
            (.credx_merge_revocation_registry_deltas d1.handle delta.handle)).2
            ("Couldn't update delta, recevied code " ++ fmtD (eng w.engine
              (.credx_merge_revocation_registry_deltas d1.handle delta.handle)).1.code ++ "."))),
          { w with
            engine := afterError eng (eng w.engine
              (.credx_merge_revocation_registry_deltas d1.handle delta.handle)).2,
            trace := w.trace ++ [.credx_merge_revocation_registry_deltas d1.handle
              delta.handle, .credx_get_current_error, .credx_string_free none] })
      else
        (.fatal "runtime.SetFinalizer: cannot pass object to finalizer",
          { engine := (eng w.engine
              (.credx_merge_revocation_registry_deltas d1.handle delta.handle)).2,
            heap := w.heap ++ [{ handle := (eng w.engine
              (.credx_merge_revocation_registry_deltas d1.handle delta.handle)).1.handle 0 }],
            finalizers := w.finalizers,
            trace := w.trace ++ [.credx_merge_revocation_registry_deltas d1.handle
              delta.handle] })) := by
  by_cases hcode : (eng w.engine
      (.credx_merge_revocation_registry_deltas d1.handle delta.handle)).1.code = 0
  · simp [RevocationRegistryDelta.UpdateWith, bind, Go.bind, deref_eq w s d1 hs, ffi, hcode,
      alloc, runtime.SetFinalizer, tyDeltaPtr, tyDelta, pure, Go.pure]
  · simp [RevocationRegistryDelta.UpdateWith, bind, Go.bind, deref_eq w s d1 hs, ffi, hcode,
      handleLibError_eq, pure, Go.pure]

/-- C11 (the code at the failing input): the engine accepts the merge of the delta with
handle `3` and a delta with handle `9` and writes the merged handle `7`; the run of
`UpdateWith` does not return, it stops in `runtime.SetFinalizer` after the new object was
allocated.  The receiver is unchanged. -/
theorem RevocationRegistryDelta.UpdateWith_aborts_in_SetFinalizer :
    (acceptAll world0.engine (.credx_merge_revocation_registry_deltas 3 9)).1.code = 0 ∧
    RevocationRegistryDelta.UpdateWith acceptAll (some 2) ⟨9, false⟩ world0 =
      (.fatal "runtime.SetFinalizer: cannot pass object to finalizer",
        { engine := (),
          heap := world0.heap ++ [⟨7, false⟩],
          finalizers := [],
          trace := [.credx_merge_revocation_registry_deltas 3 9] }) ∧
    (RevocationRegistryDelta.UpdateWith acceptAll (some 2) ⟨9, false⟩ world0).2.lookup
      (some 2) = some ⟨3, false⟩ := by
  refine ⟨rfl, ?_, ?_⟩
  · exact RevocationRegistryDelta.UpdateWith_eq acceptAll world0 (some 2) ⟨9, false⟩
      ⟨3, false⟩ rfl
  · exact (RevocationRegistryDelta.UpdateWith_onlyAllocates acceptAll (some 2)
      ⟨9, false⟩).lookup_eq world0 (some 2) ⟨3, false⟩ rfl

/-- After a failure of the engine of the specification, `handleLibError` reads the message
of the failure. -/
theorem errorText_fail (s : SpecState) (k : ErrorKind) (context : String) :
    errorText specEngine (s.fail k).2 context = context ++ errorSuffix k.message := by
  simp [errorText, specEngine, SpecState.fail, errorSuffix, C.GoString, String.append_assoc]

/-- C12: on the engine of the specification, when the receiver is a delta A→B and the
argument a delta B2→C with B ≠ B2, `UpdateWith` returns a nil delta and a non-nil error
that carries the code and the message of `IncompatibleDelta`; no Go object changes. -/
theorem RevocationRegistryDelta.UpdateWith_incompatible (w : World SpecState) (s : Ptr)
    (d1 d2 : Object) (a b b2 c : Accumulator)
    (hs : w.lookup s = some d1)
    (h1 : w.engine.get d1.handle = some (.delta a b))
    (h2 : w.engine.get d2.handle = some (.delta b2 c))
    (hne : b ≠ b2) :
    ∃ w1 : World SpecState,
      RevocationRegistryDelta.UpdateWith specEngine s d2 w =
        (.ret (none, some ("Couldn't update delta, recevied code " ++
          fmtD ErrorKind.IncompatibleDelta.code ++ "." ++
          errorSuffix ErrorKind.IncompatibleDelta.message)), w1) ∧
      w1.heap = w.heap ∧ w1.engine.lastError = some .IncompatibleDelta := by
  have hcall : specEngine w.engine
      (.credx_merge_revocation_registry_deltas d1.handle d2.handle) =
      w.engine.fail .IncompatibleDelta := by
    simp [specEngine, SpecState.merge, h1, h2, hne]
  rw [RevocationRegistryDelta.UpdateWith_eq specEngine w s d2 d1 hs, hcall]
  have hcode : (w.engine.fail ErrorKind.IncompatibleDelta).1.code ≠ 0 := by
    simp [SpecState.fail, ErrorKind.code]
  rw [if_pos hcode, errorText_fail]
  exact ⟨_, rfl, rfl, rfl⟩

/-- Witness for C12: the delta A→B updated with the delta A→C of `specWorldChain`. -/
theorem RevocationRegistryDelta.UpdateWith_incompatible_witness :
    ∃ w1 : World SpecState,
      RevocationRegistryDelta.UpdateWith specEngine (some 1) ⟨4, false⟩ specWorldChain =
        (.ret (none, some ("Couldn't update delta, recevied code " ++
          fmtD ErrorKind.IncompatibleDelta.code ++ "." ++
          errorSuffix ErrorKind.IncompatibleDelta.message)), w1) ∧
      w1.heap = specWorldChain.heap ∧ w1.engine.lastError = some .IncompatibleDelta :=
  RevocationRegistryDelta.UpdateWith_incompatible specWorldChain (some 1) ⟨2, false⟩
    ⟨4, false⟩ [true, true, true] [true, false, true] [true, true, true] [false, false, true]
    rfl rfl rfl (by decide)

/-- The engine of the specification merges two deltas that chain into the delta from the
start of the first to the end of the second. -/
theorem SpecState.merge_chain (s : SpecState) (delta1 delta2 : ObjectHandle)
    (a b c : Accumulator) (h1 : s.get delta1 = some (.delta a b))
    (h2 : s.get delta2 = some (.delta b c)) :
    s.merge delta1 delta2 = s.produce [.delta a c] := by
  simp [SpecState.merge, h1, h2]

/-- In the engine of the specification the witness of a state built or updated with a
delta depends on the end of the delta only: a merged delta A→C, the second delta B→C of a
chain and any delta that ends at C give the same witness, with or without a prior state. -/
theorem SpecState.createOrUpdateState_snapshot (s : SpecState)
    (regDef regDelta : ObjectHandle) (regIdx timestamp : Int) (tailsPath : String)
    (revState : ObjectHandle) (maxCredNum : Int) (loc : String) (prior next : Accumulator)
    (hdef : s.get regDef = some (.registryDefinition maxCredNum loc))
    (hdelta : s.get regDelta = some (.delta prior next))
    (hstate : revState = 0 ∨ isRevocationState (s.get revState) = true)
    (hidx : inRange maxCredNum regIdx = true) (hpath : tailsPath ∈ s.tailsStores) :
    s.createOrUpdateState regDef regDelta regIdx timestamp tailsPath revState =
      s.produce [.revocationState ⟨regIdx, timestamp, next⟩] := by
  rcases hstate with h | h <;>
    simp [SpecState.createOrUpdateState, hdef, hdelta, h, hidx, hpath]

/-- C13 (the code at the failing input): `specWorldChain` holds the delta A→B (handle 2)
and the delta B→C (handle 3); the engine of the specification accepts their merge and
produces the delta A→C, yet `delta1.UpdateWith(delta2)` does not return it: the run stops
in `runtime.SetFinalizer`, so there is no merged delta to update a state with. -/
theorem RevocationRegistryDelta.UpdateWith_chain_aborts :
    specStateChain.get 2 = some (.delta [true, true, true] [true, false, true]) ∧
    specStateChain.get 3 = some (.delta [true, false, true] [false, false, true]) ∧
    specEngine specStateChain (.credx_merge_revocation_registry_deltas 2 3) =
      specStateChain.produce [.delta [true, true, true] [false, false, true]] ∧
    (RevocationRegistryDelta.UpdateWith specEngine (some 1) ⟨3, false⟩ specWorldChain).1 =
      .fatal "runtime.SetFinalizer: cannot pass object to finalizer" := by
  refine ⟨rfl, rfl, rfl, ?_⟩
  rw [RevocationRegistryDelta.UpdateWith_eq specEngine specWorldChain (some 1) ⟨3, false⟩
    ⟨2, false⟩ rfl]
  rfl

/-! ## Rejections of the engine of the specification seen through the wrapper -/

/-- C15: on the engine of the specification, for a registry of a definition with
`maxCredNum = m` and an index that is negative or at least `m`, `RevokeCredential` returns
a nil delta and a non-nil error that carries the code and the message of
`IndexOutOfRange`; the registry object keeps its handle and the value behind it. -/
theorem RevokeCredential_index_out_of_range (w : World SpecState) (s d : Ptr)
    (idx : Int) (path : String) (r dd : Object) (m : Int) (loc : String) (acc : Accumulator)
    (hs : w.lookup s = some r) (hd : w.lookup d = some dd)
    (hdef : w.engine.get dd.handle = some (.registryDefinition m loc))
    (hreg : w.engine.get r.handle = some (.registry acc))
    (hidx : idx < 0 ∨ m ≤ idx) :
    ∃ w1 : World SpecState,
      RevocationRegistry.RevokeCredential specEngine s d idx path w =
        (.ret (none, some ("Couldn't update revocation registry, received code " ++
          fmtD ErrorKind.IndexOutOfRange.code ++
          errorSuffix ErrorKind.IndexOutOfRange.message)), w1) ∧
      w1.heap = w.heap ∧ w1.lookup s = some r ∧
      w1.engine.get r.handle = some (.registry acc) := by
  have hout : inRange m idx = false := by
    simp only [inRange, Bool.and_eq_false_iff, decide_eq_false_iff_not]
    omega
  have hcall : specEngine w.engine
      (.credx_revoke_credential dd.handle r.handle idx path) =
      w.engine.fail .IndexOutOfRange := by
    simp [specEngine, SpecState.revoke, hdef, hreg, hout]
  have hcode : (specEngine w.engine
      (.credx_revoke_credential dd.handle r.handle idx path)).1.code ≠ 0 := by
    rw [hcall]
    simp [SpecState.fail, ErrorKind.code]
  rw [RevokeCredential_err specEngine w s d idx path r dd hs hd hcode, hcall, errorText_fail]
  refine ⟨_, rfl, rfl, ?_, ?_⟩
  · cases s with
    | none => simp [World.lookup] at hs
    | some a => exact hs
  · exact hreg

/-- Witness for C15: index 100 on the registry of `specWorld0`, whose definition has
`maxCredNum = 100`. -/
theorem RevokeCredential_index_out_of_range_witness :
    ∃ w1 : World SpecState,
      RevocationRegistry.RevokeCredential specEngine (some 6) (some 5) 100 "tails" specWorld0 =
        (.ret (none, some ("Couldn't update revocation registry, received code " ++
          fmtD ErrorKind.IndexOutOfRange.code ++
          errorSuffix ErrorKind.IndexOutOfRange.message)), w1) ∧
      w1.heap = specWorld0.heap ∧ w1.lookup (some 6) = some ⟨7, false⟩ ∧
      w1.engine.get 7 = some (.registry (List.replicate 100 true)) :=
  RevokeCredential_index_out_of_range specWorld0 (some 6) (some 5) 100 "tails" ⟨7, false⟩
    ⟨6, false⟩ 100 "tails" (List.replicate 100 true) rfl rfl rfl rfl (Or.inr (by decide))

/-- The run of `RevocationRegistry.Update` when the engine rejects the update: a nil delta
and the error of `handleLibError`; the heap is the one before the call. -/
theorem RevocationRegistry.Update_err {σ : Type} (eng : Engine σ) (w : World σ) (s d : Ptr)
    (issued revoked : List Int) (path : String) (r dd : Object)
    (hs : w.lookup s = some r) (hd : w.lookup d = some dd)
    (hi : issued.length ≤ 3) (hr : revoked.length ≤ 3)
    (hc : (eng w.engine (.credx_update_revocation_registry dd.handle r.handle
      ⟨issued.length, issued.length, issued⟩ ⟨revoked.length, revoked.length, revoked⟩
      path)).1.code ≠ 0) :
    RevocationRegistry.Update eng s d issued revoked path w =
      (.ret (none, some (errorText eng
          (eng w.engine (.credx_update_revocation_registry dd.handle r.handle
            ⟨issued.length, issued.length, issued⟩ ⟨revoked.length, revoked.length, revoked⟩
            path)).2
          ("Couldn't update revocation registry, received code " ++
            fmtD (eng w.engine (.credx_update_revocation_registry dd.handle r.handle
              ⟨issued.length, issued.length, issued⟩
              ⟨revoked.length, revoked.length, revoked⟩ path)).1.code))),
        { engine := afterError eng
            (eng w.engine (.credx_update_revocation_registry dd.handle r.handle
              ⟨issued.length, issued.length, issued⟩
              ⟨revoked.length, revoked.length, revoked⟩ path)).2,
          heap := w.heap,
          finalizers := w.finalizers,
          trace := w.trace ++ [.credx_update_revocation_registry dd.handle r.handle
            ⟨issued.length, issued.length, issued⟩ ⟨revoked.length, revoked.length, revoked⟩
            path, .credx_get_current_error, .credx_string_free none] }) := by
  simp [RevocationRegistry.Update, bind, Go.bind, NewFfiI64_eq _ hi, NewFfiI64_eq _ hr,
    deref_eq w d dd hd, deref_eq w s r hs, ffi, C.CString, hc, handleLibError_eq, pure,
    Go.pure]

/-- The batch update of the engine of the specification rejects every pair of lists that
share an index, whatever the handles name. -/
theorem SpecState.update_overlap_code (s : SpecState) (regDef reg : ObjectHandle)
    (issued revoked : FfiListI64) (path : String) (i : Int)
    (h1 : i ∈ issued.data) (h2 : i ∈ revoked.data) :
    (s.update regDef reg issued revoked path).1.code ≠ 0 := by
  have hany : (issued.data.any fun i => revoked.data.contains i) = true := by
    simp only [List.any_eq_true]
    exact ⟨i, h1, by simpa using h2⟩
  unfold SpecState.update
  split
  · split_ifs <;> simp [SpecState.fail, SpecState.produce, ErrorKind.code, hany] at *
  · simp [SpecState.fail, ErrorKind.code]

/-- `NewFfiI64` on a list of more than three elements does not return: its fourth store
lies behind the block. -/
theorem NewFfiI64_stops {σ : Type} (list : List Int) (hlen : 3 < list.length)
    (w : World σ) : Stops (NewFfiI64 list) w :=
  Silent.stops_of_not_ret (silent_NewFfiI64 list) w fun v h =>
    absurd (NewFfiI64_ret_fits list w w v h) (by omega)

/-- `RevocationRegistry.Update` with a list of more than three elements ends while it
copies the lists, before a pointer is read and before the engine is called. -/
theorem RevocationRegistry.Update_stops {σ : Type} (eng : Engine σ) (w : World σ)
    (s d : Ptr) (issued revoked : List Int) (path : String)
    (hlen : 3 < issued.length ∨ 3 < revoked.length) :
    Stops (RevocationRegistry.Update eng s d issued revoked path) w := by
  unfold RevocationRegistry.Update
  simp only [Bind.bind]
  rcases hlen with h | h
  · exact stops_bind _ w (NewFfiI64_stops issued h w)
  · exact Silent.step (silent_NewFfiI64 issued) _ w fun _ _ =>
      stops_bind _ w (NewFfiI64_stops revoked h w)

/-- On the engine of the specification, for an issued list and a revoked list of at most
three elements each that share an index, `Update` on a valid registry and definition
returns a nil delta and a non-nil error; no Go object changes. -/
theorem RevocationRegistry.Update_overlap_rejected (w : World SpecState) (s d : Ptr)
    (issued revoked : List Int) (path : String) (r dd : Object) (i : Int)
    (hs : w.lookup s = some r) (hd : w.lookup d = some dd)
    (hi : issued.length ≤ 3) (hr : revoked.length ≤ 3)
    (h1 : i ∈ issued) (h2 : i ∈ revoked) :
    ∃ (msg : String) (w1 : World SpecState),
      RevocationRegistry.Update specEngine s d issued revoked path w =
        (.ret (none, some msg), w1) ∧
      w1.heap = w.heap ∧ w1.lookup s = some r := by
  have hc : (specEngine w.engine (.credx_update_revocation_registry dd.handle r.handle
      ⟨issued.length, issued.length, issued⟩ ⟨revoked.length, revoked.length, revoked⟩
      path)).1.code ≠ 0 :=
    SpecState.update_overlap_code w.engine dd.handle r.handle _ _ path i h1 h2
  refine ⟨_, _, RevocationRegistry.Update_err specEngine w s d issued revoked path r dd hs hd
    hi hr hc, rfl, ?_⟩
  cases s with
  | none => simp [World.lookup] at hs
  | some a => exact hs

/-- C14: `Update` does not return a nil delta and an error for every pair of lists that
share an index.  On the engine of the specification, with a valid registry and definition:
when both lists have at most three elements the engine is asked, rejects the overlap, and
`Update` returns a nil delta and a non-nil error with no Go object changed; when a list
has more than three elements `Update` does not return at all: the run panics or leaves
defined behaviour while the list is copied into its block of `len(list)` bytes, and up to
that point the engine has not been called. -/
theorem RevocationRegistry.Update_overlap_overruns_block (w : World SpecState) (s d : Ptr)
    (issued revoked : List Int) (path : String) (r dd : Object) (i : Int)
    (hs : w.lookup s = some r) (hd : w.lookup d = some dd)
    (h1 : i ∈ issued) (h2 : i ∈ revoked) :
    (issued.length ≤ 3 → revoked.length ≤ 3 →
      ∃ (msg : String) (w1 : World SpecState),
        RevocationRegistry.Update specEngine s d issued revoked path w =
          (.ret (none, some msg), w1) ∧
        w1.heap = w.heap ∧ w1.lookup s = some r) ∧
    (3 < issued.length ∨ 3 < revoked.length →
      Stops (RevocationRegistry.Update specEngine s d issued revoked path) w ∧
      ∀ res w1, RevocationRegistry.Update specEngine s d issued revoked path w ≠
        (.ret res, w1)) := by
  refine ⟨fun hi hr => RevocationRegistry.Update_overlap_rejected w s d issued revoked path
    r dd i hs hd hi hr h1 h2, fun hlen => ?_⟩
  have hstop := RevocationRegistry.Update_stops specEngine w s d issued revoked path hlen
  refine ⟨hstop, fun res w1 hret => ?_⟩
  rcases hstop with ⟨msg, hm⟩ | ⟨msg, hm⟩ <;> simp [hm] at hret

/-- Witness for C14, and the failing input: index 10 issued four times and revoked once on
the registry of `specWorld0`.  The fourth store of the issued list lies behind its block,
so the run leaves defined behaviour there, with the engine not yet called. -/
theorem RevocationRegistry.Update_overlap_overruns_block_witness :
    ((10 : Int) ∈ [(10 : Int), 10, 10, 10] ∧ (10 : Int) ∈ [(10 : Int)]) ∧
    RevocationRegistry.Update specEngine (some 6) (some 5) [10, 10, 10, 10] [10] "tails"
      specWorld0 = (.undefined heapOverflow, specWorld0) ∧
    Stops (RevocationRegistry.Update specEngine (some 6) (some 5) [10, 10, 10, 10] [10]
      "tails") specWorld0 ∧
    ∀ res w1, RevocationRegistry.Update specEngine (some 6) (some 5) [10, 10, 10, 10] [10]
      "tails" specWorld0 ≠ (.ret res, w1) :=
  ⟨⟨by decide, by decide⟩, rfl,
    (RevocationRegistry.Update_overlap_overruns_block specWorld0 (some 6) (some 5)
      [10, 10, 10, 10] [10] "tails" ⟨7, false⟩ ⟨6, false⟩ 10 rfl rfl (by decide)
      (by decide)).2 (Or.inl (by decide))⟩

/-! ## close -/

/-- Storing the element a list already has at a position leaves the list as it was. -/
theorem set_same {α : Type} (l : List α) (a : Nat) (o : α) (h : l[a]? = some o) :
    l.set a o = l := by
  induction l generalizing a with
  | nil => rfl
  | cons x xs ih =>
    cases a with
    | zero => simp at h; simp [h]
    | succ k => simp at h; simp [ih k h]

/-- The first `close` of an open object: one call of `credx_object_free` on its handle,
then `isClosed` is set. -/
theorem Schema.close_open {σ : Type} (eng : Engine σ) (w : World σ) (a : Nat) (o : Object)
    (ho : w.lookup (some a) = some o) (hopen : o.isClosed = false) :
    Schema.close eng (some a) w =
      (.ret (),
        { engine := (eng w.engine (.credx_object_free o.handle)).2,
          heap := w.heap.set a { o with isClosed := true },
          finalizers := w.finalizers,
          trace := w.trace ++ [.credx_object_free o.handle] }) := by
  have ho2 : w.heap[a]? = some o := ho
  simp [Schema.close, bind, Go.bind, deref_eq w (some a) o ho, hopen, ffi, setClosed, ho2,
    pure, Go.pure]

/-- A `close` of a closed object changes nothing and calls nothing. -/
theorem Schema.close_closed {σ : Type} (eng : Engine σ) (w : World σ) (a : Nat) (o : Object)
    (ho : w.lookup (some a) = some o) (hclosed : o.isClosed = true) :
    Schema.close eng (some a) w = (.ret (), w) := by
  have ho2 : w.heap[a]? = some o := ho
  have hset : w.heap.set a { o with isClosed := true } = w.heap := by
    have : ({ o with isClosed := true } : Object) = o := by
      cases o
      simp_all
    rw [this]
    exact set_same _ _ _ ho2
  simp [Schema.close, bind, Go.bind, deref_eq w (some a) o ho, hclosed, setClosed, ho2,
    pure, Go.pure, hset]

/-- After the first `close` of an open object, any number of further calls changes
nothing. -/
theorem Schema.close_times {σ : Type} (eng : Engine σ) (w : World σ) (a : Nat) (o : Object)
    (ho : w.lookup (some a) = some o) (hclosed : o.isClosed = true) (n : Nat) :
    Go.times (Schema.close eng (some a)) n w = (.ret (), w) := by
  induction n with
  | zero => rfl
  | succ k ih =>
    simp only [Go.times, bind, Go.bind, Schema.close_closed eng w a o ho hclosed, ih]

/-- C18: for each `close` method of the package and every object that is not closed,
`n ≥ 1` calls of `close` in a row call `credx_object_free` exactly once, on the object's
handle, and leave the object with `isClosed = true` and its handle as it was.  The world
reached does not depend on `n`: it is the world after the first call, so the second and
later calls change nothing and call nothing. -/
theorem close_releases_exactly_once {σ : Type} (eng : Engine σ) (close : Ptr → Go σ Unit)
    (hclose : close ∈ closeMethods eng) (w : World σ) (a : Nat) (o : Object) (n : Nat)
    (ho : w.lookup (some a) = some o) (hopen : o.isClosed = false) (hn : 1 ≤ n) :
    Go.times (close (some a)) n w =
      (.ret (),
        { engine := (eng w.engine (.credx_object_free o.handle)).2,
          heap := w.heap.set a { o with isClosed := true },
          finalizers := w.finalizers,
          trace := w.trace ++ [.credx_object_free o.handle] }) ∧
    (Go.times (close (some a)) n w).2.lookup (some a) =
      some { handle := o.handle, isClosed := true } := by
  have hlt : a < w.heap.length := by
    have ho2 : w.heap[a]? = some o := ho
    exact (List.getElem?_eq_some_iff.mp ho2).1
  have key : Go.times (Schema.close eng (some a)) n w =
      (.ret (),
        { engine := (eng w.engine (.credx_object_free o.handle)).2,
          heap := w.heap.set a { o with isClosed := true },
          finalizers := w.finalizers,
          trace := w.trace ++ [.credx_object_free o.handle] }) := by
    obtain ⟨k, rfl⟩ : ∃ k, n = k + 1 := ⟨n - 1, by omega⟩
    simp only [Go.times, bind, Go.bind, Schema.close_open eng w a o ho hopen]
    exact Schema.close_times eng _ a { o with isClosed := true }
      (by simp [World.lookup, hlt]) rfl k
  have hall : Go.times (close (some a)) n w = Go.times (Schema.close eng (some a)) n w := by
    simp only [closeMethods, List.mem_cons, List.mem_singleton, List.not_mem_nil,
      or_false] at hclose
    rcases hclose with h | h | h | h | h | h | h | h | h | h | h | h | h | h | h <;>
      (subst h; rfl)
  rw [hall, key]
  exact ⟨rfl, by simp [World.lookup, hlt]⟩

/-- Witness for C18: three calls of `RevocationRegistry.close` on the object with handle
`1` of `world0`. -/
theorem close_releases_exactly_once_witness :
    Go.times (RevocationRegistry.close acceptAll (some 0)) 3 world0 =
      (.ret (),
        { engine := (acceptAll world0.engine (.credx_object_free 1)).2,
          heap := world0.heap.set 0 { handle := 1, isClosed := true },
          finalizers := world0.finalizers,
          trace := world0.trace ++ [.credx_object_free 1] }) ∧
    (Go.times (RevocationRegistry.close acceptAll (some 0)) 3 world0).2.lookup (some 0) =
      some { handle := 1, isClosed := true } :=
  close_releases_exactly_once acceptAll (RevocationRegistry.close acceptAll)
    (by simp [closeMethods]) world0 0 ⟨1, false⟩ 3 rfl rfl (by decide)

/-! ## The serialized form is lossless -/

theorem decodeInt_encodeInt (z : Int) (rest : List Nat) :
    decodeInt (encodeInt z ++ rest) = some (z, rest) := by
  by_cases h : 0 ≤ z
  · simp [encodeInt, decodeInt, h, Int.natAbs_of_nonneg h]
  · have h2 : -(z.natAbs : Int) = z := by omega
    simp only [encodeInt, decodeInt, h, if_false, List.cons_append, List.nil_append,
      Nat.one_ne_zero, h2]

theorem decodeBool_encodeBool (b : Bool) (rest : List Nat) :
    decodeBool (encodeBool b ++ rest) = some (b, rest) := by
  cases b <;> simp [encodeBool, decodeBool]

theorem decodeChar_encodeChar (c : Char) (rest : List Nat) :
    decodeChar (encodeChar c ++ rest) = some (c, rest) := by
  simp [encodeChar, decodeChar, Char.ofNat_toNat]

theorem decodeMany_encodeAll {α : Type} (enc : α → List Nat)
    (dec : List Nat → Option (α × List Nat))
    (h : ∀ a rest, dec (enc a ++ rest) = some (a, rest)) (l : List α) (rest : List Nat) :
    decodeMany dec l.length (encodeAll enc l ++ rest) = some (l, rest) := by
  induction l with
  | nil => rfl
  | cons a as ih =>
    simp only [List.length_cons, encodeAll, List.append_assoc, decodeMany, h, ih]

theorem decodeList_encodeList {α : Type} (enc : α → List Nat)
    (dec : List Nat → Option (α × List Nat))
    (h : ∀ a rest, dec (enc a ++ rest) = some (a, rest)) (l : List α) (rest : List Nat) :
    decodeList dec (encodeList enc l ++ rest) = some (l, rest) := by
  simp only [encodeList, List.cons_append, decodeList, decodeMany_encodeAll enc dec h]

theorem decodeString_encodeString (s : String) (rest : List Nat) :
    decodeString (encodeString s ++ rest) = some (s, rest) := by
  simp only [encodeString, decodeString,
    decodeList_encodeList encodeChar decodeChar decodeChar_encodeChar]

theorem decodeWitness_encodeWitness (wit : Witness) (rest : List Nat) :
    decodeWitness (encodeWitness wit ++ rest) = some (wit, rest) := by
  simp only [encodeWitness, decodeWitness, List.append_assoc, decodeInt_encodeInt,
    decodeList_encodeList encodeBool decodeBool decodeBool_encodeBool]

theorem decodeOptWitness_encodeOptWitness (o : Option Witness) (rest : List Nat) :
    decodeOptWitness (encodeOptWitness o ++ rest) = some (o, rest) := by
  cases o with
  | none => simp [encodeOptWitness, decodeOptWitness]
  | some wit =>
    simp [encodeOptWitness, decodeOptWitness, decodeWitness_encodeWitness]

theorem decodePresented_encodePresented (e : PresentedCredential) (rest : List Nat) :
    decodePresented (encodePresented e ++ rest) = some (e, rest) := by
  simp only [encodePresented, decodePresented, List.append_assoc, decodeInt_encodeInt,
    decodeOptWitness_encodeOptWitness]

theorem decodeFields_fields (x : EngineObject) (rest : List Nat) :
    decodeFields x.kind.tag (x.fields ++ rest) = some (x, rest) := by
  cases x <;>
    simp [EngineObject.kind, Kind.tag, EngineObject.fields, decodeFields,
      decodeString_encodeString, decodeInt_encodeInt, decodeWitness_encodeWitness,
      decodeList_encodeList encodeBool decodeBool decodeBool_encodeBool,
      decodeList_encodeList encodeString decodeString decodeString_encodeString,
      decodeList_encodeList encodePresented decodePresented decodePresented_encodePresented]

theorem fromBytes_run (n : Nat) (bs : List Nat) (run : Nat) :
    fromBytes (List.replicate n 1 ++ 0 :: bs) run =
      (fromBytes bs 0).map fun ts => (run + n) :: ts := by
  induction n generalizing run with
  | zero => simp [fromBytes]
  | succ k ih =>
    have hstep : fromBytes (List.replicate (k + 1) 1 ++ 0 :: bs) run =
        fromBytes (List.replicate k 1 ++ 0 :: bs) (run + 1) := by
      simp [List.replicate_succ, fromBytes]
    rw [hstep, ih (run + 1)]
    simp [Nat.add_assoc, Nat.add_comm 1 k]

theorem fromBytes_toBytes (ts : List Nat) : fromBytes (toBytes ts) 0 = some ts := by
  induction ts with
  | nil => simp [toBytes, fromBytes]
  | cons n rest ih => simp [toBytes, fromBytes_run, ih]

/-- The serialized form of the engine of the specification is lossless: reading what was
written gives the object back. -/
theorem fromSerialized_toSerialized (x : EngineObject) :
    fromSerialized (toSerialized x) = some x := by
  have h := decodeFields_fields x []
  simp only [List.append_nil] at h
  simp only [fromSerialized, toSerialized, fromBytes_toBytes, EngineObject.tokens, h]

/-- The number of bytes `toBytes` writes. -/
theorem length_toBytes (ts : List Nat) : (toBytes ts).length = ts.sum + ts.length := by
  induction ts with
  | nil => rfl
  | cons n rest ih =>
    simp only [toBytes, List.length_append, List.length_replicate, List.length_cons, ih,
      List.sum_cons]
    omega

/-- No serialized form is empty. -/
theorem toSerialized_ne_nil (x : EngineObject) : toSerialized x ≠ [] := by
  intro h
  have h2 := congrArg List.length h
  simp [toSerialized, length_toBytes, EngineObject.tokens] at h2

/-! ## genericToJSON and the Load functions -/

/-- The run of `genericToJSON` on a valid pointer, in its three cases: the engine rejects
the call; the engine's buffer has a length that is negative as a `C.int`; the bytes are
copied.  The deferred `Close` frees the buffer of `NewByteBuffer(4096)` in each case. -/
theorem genericToJSON_eq {σ : Type} (eng : Engine σ) (w : World σ) (p : Ptr) (o : Object)
    (name : String) (hp : w.lookup p = some o) :
    genericToJSON eng { getHandle := Schema.getHandle p, typeName := name } w =
      (if (eng w.engine (.credx_object_get_json o.handle)).1.code ≠ 0 then
        (.ret ([], some (errorText eng (eng w.engine (.credx_object_get_json o.handle)).2
            ("Couldn't get " ++ name ++ " as json, received code " ++
              fmtD (eng w.engine (.credx_object_get_json o.handle)).1.code))),
          { w with
            engine := (eng (afterError eng (eng w.engine (.credx_object_get_json o.handle)).2)
              (.credx_buffer_free (NewByteBuffer 4096))).2,
            trace := w.trace ++ [.credx_object_get_json o.handle, .credx_get_current_error,
              .credx_string_free none, .credx_buffer_free (NewByteBuffer 4096)] })
      else if C.int (((eng w.engine (.credx_object_get_json o.handle)).1.buffer.getD
          (NewByteBuffer 4096)).len) < 0 then
        (.panic "runtime error: gobytes: length out of range",
          { w with
            engine := (eng (eng w.engine (.credx_object_get_json o.handle)).2
              (.credx_buffer_free (NewByteBuffer 4096))).2,
            trace := w.trace ++ [.credx_object_get_json o.handle,
              .credx_buffer_free (NewByteBuffer 4096)] })
      else
        (.ret ((((eng w.engine (.credx_object_get_json o.handle)).1.buffer.getD
            (NewByteBuffer 4096)).value.take
              (C.int (((eng w.engine (.credx_object_get_json o.handle)).1.buffer.getD
                (NewByteBuffer 4096)).len)).toNat), none),
          { w with
            engine := (eng (eng w.engine (.credx_object_get_json o.handle)).2
              (.credx_buffer_free (NewByteBuffer 4096))).2,
            trace := w.trace ++ [.credx_object_get_json o.handle,
              .credx_buffer_free (NewByteBuffer 4096)] })) := by
  by_cases hcode : (eng w.engine (.credx_object_get_json o.handle)).1.code = 0
  · by_cases hneg : C.int (((eng w.engine (.credx_object_get_json o.handle)).1.buffer.getD
        (NewByteBuffer 4096)).len) < 0
    · simp [genericToJSON, Go.defer, ByteBuffer.Close, Schema.getHandle, bind, Go.bind,
        deref_eq w p o hp, ffi, hcode, hneg, C.GoBytes, pure, Go.pure]
    · simp [genericToJSON, Go.defer, ByteBuffer.Close, Schema.getHandle, bind, Go.bind,
        deref_eq w p o hp, ffi, hcode, hneg, C.GoBytes, pure, Go.pure]
  · simp [genericToJSON, Go.defer, ByteBuffer.Close, Schema.getHandle, bind, Go.bind,
      deref_eq w p o hp, ffi, hcode, handleLibError_eq, pure, Go.pure]

/-- The run of the shared text of the `Load…FromJSON` functions on the empty input: the
index expression `json[0]` panics before the engine is called. -/
theorem loadShape_empty {σ : Type} (eng : Engine σ) (call : ByteBuffer → Call)
    (context name : String) (w : World σ) :
    loadShape eng call context name [] w =
      (.panic "runtime error: index out of range [0] with length 0", w) := rfl

/-- The run of the shared text of the `Load…FromJSON` functions on a non-empty input. -/
theorem loadShape_eq {σ : Type} (eng : Engine σ) (call : ByteBuffer → Call)
    (context name : String) (json : RawMessage) (w : World σ) (hne : json ≠ []) :
    loadShape eng call context name json w = loadRun eng call context json w := by
  cases json with
  | nil => exact absurd rfl hne
  | cons b bs =>
    by_cases hcode : (eng w.engine (call { len := bs.length + 1, value := b :: bs })).1.code = 0
    · simp [loadShape, loadRun, ByteBufferFromRawMessage, bind, Go.bind, ffi, hcode,
        alloc, runtime.SetFinalizer, pure, Go.pure]
    · simp [loadShape, loadRun, ByteBufferFromRawMessage, bind, Go.bind, ffi, hcode,
        handleLibError_eq, pure, Go.pure]

/-- Each entry of `domainTypes` is the shared text of the `Load…FromJSON` functions and
`genericToJSON` on the handle of the receiver, and the engine of the specification answers
its load call by `fromJson` at the type of the entry. -/
theorem domainTypes_shape {σ : Type} (eng : Engine σ) (t : DomainType σ)
    (ht : t ∈ domainTypes eng) :
    ∃ (call : ByteBuffer → Call) (context name typeName : String),
      t.load = loadShape eng call context name ∧
      (∀ p, t.toJSON p =
        genericToJSON eng { getHandle := Schema.getHandle p, typeName := typeName }) ∧
      (∀ s buf, specEngine s (call buf) = s.fromJson t.kind buf) := by
  simp only [domainTypes, List.mem_cons, List.mem_singleton, List.not_mem_nil,
    or_false] at ht
  rcases ht with h | h | h | h | h | h | h | h | h | h | h | h | h | h <;> subst h
  · exact ⟨.credx_schema_from_json,
      "Couldn't create schema from json, recevied code ",
      "Schema", "*types.Schema", rfl, fun _ => rfl,
      fun _ _ => rfl⟩
  · exact ⟨.credx_credential_definition_private_from_json,
      "Couldn't create cred def private from json, recevied code ",
      "CredentialDefinitionPrivate", "*types.CredentialDefinitionPrivate", rfl, fun _ => rfl,
      fun _ _ => rfl⟩
  · exact ⟨.credx_key_correctness_proof_from_json,
      "Couldn't create cred def private from json, recevied code ",
      "KeyCorrectnessProof", "*types.KeyCorrectnessProof", rfl, fun _ => rfl,
      fun _ _ => rfl⟩
  · exact ⟨.credx_credential_definition_from_json,
      "Couldn't create cred def from json, recevied code ",
      "CredentialDefinition", "*types.CredentialDefinition", rfl, fun _ => rfl,
      fun _ _ => rfl⟩
  · exact ⟨.credx_credential_offer_from_json,
      "Couldn't create CredentialOffer from json, recevied code ",
      "CredentialOffer", "*types.CredentialOffer", rfl, fun _ => rfl,
      fun _ _ => rfl⟩
  · exact ⟨.credx_credential_request_from_json,
      "Couldn't create CredentialRequest from json, recevied code ",
      "CredentialRequest", "*types.CredentialRequest", rfl, fun _ => rfl,
      fun _ _ => rfl⟩
  · exact ⟨.credx_credential_request_metadata_from_json,
      "Couldn't create CredentialRequestMetadata from json, recevied code ",
      "CredentialRequestMetadata", "*types.CredentialRequestMetadata", rfl, fun _ => rfl,
      fun _ _ => rfl⟩
  · exact ⟨.credx_credential_from_json,
      "Couldn't create Credential from json, recevied code ",
      "Credential", "*types.Credential", rfl, fun _ => rfl,
      fun _ _ => rfl⟩
  · exact ⟨.credx_master_secret_from_json,
      "Couldn't create master secret from json, recevied code ",
      "MasterSecret", "*types.MasterSecret", rfl, fun _ => rfl,
      fun _ _ => rfl⟩
  · exact ⟨.credx_presentation_from_json,
      "Couldn't create Presentation from json, recevied code ",
      "Presentation", "*types.Presentation", rfl, fun _ => rfl,
      fun _ _ => rfl⟩
  · exact ⟨.credx_revocation_registry_definition_from_json,
      "Couldn't create RevocationRegistryDefinition from json, recevied code ",
      "RevocationRegistryDefinition", "*types.RevocationRegistryDefinition", rfl, fun _ => rfl,
      fun _ _ => rfl⟩
  · exact ⟨.credx_revocation_registry_definition_private_from_json,
      "Couldn't create RevocationRegistryDefinitionPrivate from json, recevied code ",
      "RevocationRegistryDefinitionPrivate", "*types.RevocationRegistryDefinitionPrivate", rfl, fun _ => rfl,
      fun _ _ => rfl⟩
  · exact ⟨.credx_revocation_registry_from_json,
      "Couldn't create RevocationRegistry from json, recevied code ",
      "RevocationRegistry", "*types.RevocationRegistry", rfl, fun _ => rfl,
      fun _ _ => rfl⟩
  · exact ⟨.credx_revocation_registry_delta_from_json,
      "Couldn't create RevocationRegistryDelta from json, recevied code ",
      "RevocationRegistryDelta", "*types.RevocationRegistryDelta", rfl, fun _ => rfl,
      fun _ _ => rfl⟩

/-- A length below `2^31` is unchanged by the conversion to `C.int`. -/
theorem C.int_of_lt (n : Nat) (h : n < 2 ^ 31) : C.int n = (n : Int) := by
  have h1 : n % 2 ^ 32 = n := Nat.mod_eq_of_lt (by omega)
  simp only [C.int, h1, h, if_true]

/-- A length from `2^31` up to `2^32` is negative after the conversion to `C.int`. -/
theorem C.int_neg (n : Nat) (h1 : 2 ^ 31 ≤ n) (h2 : n < 2 ^ 32) : C.int n < 0 := by
  have h3 : n % 2 ^ 32 = n := Nat.mod_eq_of_lt h2
  have h4 : ¬ n < 2 ^ 31 := by omega
  simp only [C.int, h3, h4, if_false]
  omega

/-- On the engine of the specification, `genericToJSON` returns the serialized form of the
object behind the handle when that form is shorter than `2^31` bytes; the engine state is
the one before the call. -/
theorem genericToJSON_spec (w : World SpecState) (p : Ptr) (o : Object) (x : EngineObject)
    (name : String) (hp : w.lookup p = some o) (hx : w.engine.get o.handle = some x)
    (hsize : (toSerialized x).length < 2 ^ 31) :
    genericToJSON specEngine { getHandle := Schema.getHandle p, typeName := name } w =
      (.ret (toSerialized x, none),
        { w with trace := w.trace ++ [.credx_object_get_json o.handle,
            .credx_buffer_free (NewByteBuffer 4096)] }) := by
  have hcall : specEngine w.engine (.credx_object_get_json o.handle) =
      ({ code := 0,
         buffer := some { len := (toSerialized x).length, value := toSerialized x } },
        w.engine) := by
    simp [specEngine, SpecState.getJson, hx]
  rw [genericToJSON_eq specEngine w p o name hp, hcall]
  have hnn : ¬ C.int (toSerialized x).length < 0 := by
    rw [C.int_of_lt _ hsize]
    omega
  simp [hnn, C.int_of_lt _ hsize, specEngine]

/-- On the engine of the specification, `genericToJSON` panics in `C.GoBytes` when the
serialized form of the object has at least `2^31` and fewer than `2^32` bytes. -/
theorem genericToJSON_spec_large (w : World SpecState) (p : Ptr) (o : Object)
    (x : EngineObject) (name : String) (hp : w.lookup p = some o)
    (hx : w.engine.get o.handle = some x)
    (h1 : 2 ^ 31 ≤ (toSerialized x).length) (h2 : (toSerialized x).length < 2 ^ 32) :
    (genericToJSON specEngine { getHandle := Schema.getHandle p, typeName := name } w).1 =
      .panic "runtime error: gobytes: length out of range" := by
  have hcall : specEngine w.engine (.credx_object_get_json o.handle) =
      ({ code := 0,
         buffer := some { len := (toSerialized x).length, value := toSerialized x } },
        w.engine) := by
    simp [specEngine, SpecState.getJson, hx]
  rw [genericToJSON_eq specEngine w p o name hp, hcall]
  simp [C.int_neg _ h1 h2]

/-- On the engine of the specification, loading the serialized form of an object `x` with
the loader of its type succeeds: the new Go object holds a new handle, and the engine
object behind that handle is `x`. -/
theorem load_serialized (t : DomainType SpecState) (ht : t ∈ domainTypes specEngine)
    (w : World SpecState) (x : EngineObject) (hk : x.kind = t.kind) :
    ∃ w2 : World SpecState,
      t.load (toSerialized x) w = (.ret (some w.heap.length, none), w2) ∧
      w2.lookup (some w.heap.length) = some ⟨w.engine.objects.length + 1, false⟩ ∧
      w2.engine.get (w.engine.objects.length + 1) = some x ∧
      (∀ p o, w.lookup p = some o → w2.lookup p = some o) := by
  obtain ⟨call, context, name, typeName, hload, _, hspec⟩ :=
    domainTypes_shape specEngine t ht
  have hcall : specEngine w.engine
      (call { len := (toSerialized x).length, value := toSerialized x }) =
      w.engine.produce [x] := by
    rw [hspec]
    simp [SpecState.fromJson, fromSerialized_toSerialized, hk]
  rw [hload, loadShape_eq specEngine call context name _ w (toSerialized_ne_nil x)]
  simp only [loadRun, hcall]
  refine ⟨_, by simp [SpecState.produce]; rfl, ?_, ?_, ?_⟩
  · simp [World.lookup, SpecState.produce, Reply.handle]
  · exact SpecState.get_produce_first w.engine x []
  · intro p o hpo
    cases p with
    | none => simp [World.lookup] at hpo
    | some a =>
      have h1 : w.heap[a]? = some o := hpo
      have hlt : a < w.heap.length := (List.getElem?_eq_some_iff.mp h1).1
      simp only [World.lookup]
      rw [List.getElem?_append_left hlt]
      exact h1

/-- C16 (amended): on the engine of the specification, for every serializable type of the
package and every object `x` of that type whose serialized form is shorter than `2^31`
bytes, `ToJSON` returns the serialized form, the `Load…FromJSON` of the type loads it into
a new Go object whose engine object is `x` again, and `ToJSON` of the loaded object
returns the same bytes. -/
theorem json_round_trip (t : DomainType SpecState) (ht : t ∈ domainTypes specEngine)
    (w : World SpecState) (p : Ptr) (o : Object) (x : EngineObject)
    (hp : w.lookup p = some o) (hx : w.engine.get o.handle = some x) (hk : x.kind = t.kind)
    (hsize : (toSerialized x).length < 2 ^ 31) :
    ∃ (w1 w2 w3 : World SpecState) (q : Ptr) (o2 : Object),
      t.toJSON p w = (.ret (toSerialized x, none), w1) ∧
      t.load (toSerialized x) w1 = (.ret (q, none), w2) ∧
      w2.lookup q = some o2 ∧ w2.engine.get o2.handle = some x ∧
      t.toJSON q w2 = (.ret (toSerialized x, none), w3) := by
  obtain ⟨call, context, name, typeName, _, hjson, _⟩ := domainTypes_shape specEngine t ht
  have h1 := genericToJSON_spec w p o x typeName hp hx hsize
  obtain ⟨w2, h2, hq, hget, _⟩ := load_serialized t ht
    { w with trace := w.trace ++ [.credx_object_get_json o.handle,
        .credx_buffer_free (NewByteBuffer 4096)] } x hk
  have h3 := genericToJSON_spec w2 (some w.heap.length) ⟨w.engine.objects.length + 1, false⟩ x
    typeName hq hget hsize
  exact ⟨_, w2, _, some w.heap.length, ⟨w.engine.objects.length + 1, false⟩,
    (hjson p).symm ▸ h1, h2, hq, hget, (hjson _).symm ▸ h3⟩

/-- The serialized form of a registry with `n` non-revoked slots has `3 * n + 15` bytes. -/
theorem length_toSerialized_registry (n : Nat) :
    (toSerialized (.registry (List.replicate n true))).length = 3 * n + 15 := by
  have hall : ∀ k : Nat, encodeAll encodeBool (List.replicate k true) = List.replicate k 1 := by
    intro k
    induction k with
    | zero => rfl
    | succ j ih => simp [List.replicate_succ, encodeAll, encodeBool, ih]
  simp only [toSerialized, length_toBytes, EngineObject.tokens, EngineObject.kind, Kind.tag,
    EngineObject.fields, encodeList, hall, List.length_replicate, List.sum_cons,
    List.sum_replicate, List.length_cons, smul_eq_mul]
  omega

/-- The entry of `RevocationRegistry` is in the table of serializable types. -/
theorem registry_mem_domainTypes :
    (⟨LoadRevocationRegistryFromJSON specEngine, RevocationRegistry.ToJSON specEngine,
      .registry⟩ : DomainType SpecState) ∈ domainTypes specEngine := by
  simp [domainTypes]

/-- Witness for C16: the registry of `specWorld0` (handle 7, 100 slots). -/
theorem json_round_trip_witness :
    ∃ (w1 w2 w3 : World SpecState) (q : Ptr) (o2 : Object),
      RevocationRegistry.ToJSON specEngine (some 6) specWorld0 =
        (.ret (toSerialized (.registry (List.replicate 100 true)), none), w1) ∧
      LoadRevocationRegistryFromJSON specEngine
        (toSerialized (.registry (List.replicate 100 true))) w1 = (.ret (q, none), w2) ∧
      w2.lookup q = some o2 ∧
      w2.engine.get o2.handle = some (.registry (List.replicate 100 true)) ∧
      RevocationRegistry.ToJSON specEngine q w2 =
        (.ret (toSerialized (.registry (List.replicate 100 true)), none), w3) := by
  have h := json_round_trip
    ⟨LoadRevocationRegistryFromJSON specEngine, RevocationRegistry.ToJSON specEngine, .registry⟩
    registry_mem_domainTypes specWorld0 (some 6) ⟨7, false⟩
    (.registry (List.replicate 100 true)) rfl rfl rfl
    (by rw [length_toSerialized_registry]; decide)
  dsimp only at h
  exact h

/-- The serialized form of the initial delta of a registry with `n` slots has `3 * n + 17`
bytes. -/
theorem length_toSerialized_delta (n : Nat) :
    (toSerialized (.delta [] (List.replicate n true))).length = 3 * n + 17 := by
  have hall : ∀ k : Nat, encodeAll encodeBool (List.replicate k true) = List.replicate k 1 := by
    intro k
    induction k with
    | zero => rfl
    | succ j ih => simp [List.replicate_succ, encodeAll, encodeBool, ih]
  simp only [toSerialized, length_toBytes, EngineObject.tokens, EngineObject.kind, Kind.tag,
    EngineObject.fields, encodeList, encodeAll, hall, List.length_replicate, List.sum_cons,
    List.sum_replicate, List.length_cons, List.length_nil, List.cons_append, List.nil_append,
    smul_eq_mul]
  omega

/-- C16 (counterexample): the initial delta of the registry of `specWorldLarge`, which has
`2^30` slots, has a serialized form of `3 * 2^30 + 17` bytes, a length that is negative as
a `C.int`; `RevocationRegistryDelta.ToJSON` on it returns neither the document nor an
error, it panics in `C.GoBytes`. -/
theorem RevocationRegistryDelta.ToJSON_large_panics :
    specWorldLarge.lookup (some 2) = some ⟨3, false⟩ ∧
    specWorldLarge.engine.get 3 = some (.delta [] (List.replicate (2 ^ 30) true)) ∧
    (RevocationRegistryDelta.ToJSON specEngine (some 2) specWorldLarge).1 =
      .panic "runtime error: gobytes: length out of range" :=
  ⟨rfl, rfl, genericToJSON_spec_large specWorldLarge (some 2) ⟨3, false⟩
    (.delta [] (List.replicate (2 ^ 30) true)) "*types.RevocationRegistryDelta" rfl rfl
    (by rw [length_toSerialized_delta]; decide)
    (by rw [length_toSerialized_delta]; decide)⟩

/-- C17 (the code on the empty input): every function of the package that loads an object
from its serialized form panics on the empty byte sequence, with an index out of range in
`ByteBufferFromRawMessage`; it returns neither an object nor an error, and the engine is
not called. -/
theorem Load_empty_input_panics {σ : Type} (eng : Engine σ)
    (load : RawMessage → Go σ (Ptr × GoError)) (hload : load ∈ loaders eng) (w : World σ) :
    load [] w = (.panic "runtime error: index out of range [0] with length 0", w) := by
  simp only [loaders, List.mem_cons, List.mem_map] at hload
  rcases hload with h | ⟨t, ht, h⟩
  · subst h
    rfl
  · obtain ⟨call, context, name, typeName, hshape, _, _⟩ := domainTypes_shape eng t ht
    rw [← h, hshape]
    rfl

/-- Witness for C17: `LoadSchemaFromJSON` on the empty input. -/
theorem Load_empty_input_panics_witness :
    LoadSchemaFromJSON specEngine [] specWorld0 =
      (.panic "runtime error: index out of range [0] with length 0", specWorld0) :=
  Load_empty_input_panics specEngine (LoadSchemaFromJSON specEngine)
    (by simp [loaders, domainTypes]) specWorld0

/-- On the engine of the specification, a non-empty byte sequence that is not the
serialized form of an object of the type is rejected by the loader of that type: a nil
object and an error with the code and the message of `SerializationError`. -/
theorem load_malformed_rejected (t : DomainType SpecState) (ht : t ∈ domainTypes specEngine)
    (w : World SpecState) (json : RawMessage) (hne : json ≠ [])
    (hbad : ∀ x, fromSerialized json = some x → x.kind ≠ t.kind) :
    ∃ (context : String) (w1 : World SpecState),
      t.load json w = (.ret (none, some (context ++ fmtD ErrorKind.SerializationError.code ++
        "." ++ errorSuffix ErrorKind.SerializationError.message)), w1) ∧
      w1.heap = w.heap := by
  obtain ⟨call, context, name, typeName, hload, _, hspec⟩ :=
    domainTypes_shape specEngine t ht
  have hcall : specEngine w.engine (call { len := json.length, value := json }) =
      w.engine.fail .SerializationError := by
    rw [hspec]
    simp only [SpecState.fromJson, List.take_length]
    rcases hx : fromSerialized json with _ | x
    · rfl
    · simp [hbad x hx]
  rw [hload, loadShape_eq specEngine call context name json w hne]
  have hcode : (w.engine.fail ErrorKind.SerializationError).1.code ≠ 0 := by
    simp [SpecState.fail, ErrorKind.code]
  simp only [loadRun, hcall, if_pos hcode, errorText_fail]
  exact ⟨context, _, rfl, rfl⟩

/-! ## NewCredential -/

/-- `ToC` on a nil receiver does not return. -/
theorem CredentialRevocationInfo.ToC_nil {σ : Type} (w : World σ) :
    (CredentialRevocationInfo.ToC none : Go σ FfiCredentialRevocationInfo) w =
      (.panic nilDeref, w) := rfl

/-- `NewFfiStrList` on a list that fits its block: the C copies of the strings in order. -/
theorem NewFfiStrList_eq {σ : Type} (l : List String) (hl : l.length ≤ 3)
    (w : World σ) : NewFfiStrList l w = (.ret (marshalled C.CString l), w) := by
  have h := rangeWrite_pure (σ := σ) .charPtr (C.malloc l.length) C.CString l 0
    (by simp only [viewLen]; omega) (by simpa using (fits8_iff l.length).mpr hl) w
  simp only [NewFfiStrList, bind, Go.bind, pure, h]
  rfl

/-- A step that returns in the world it started in or panics there with a nil dereference,
followed by a rest that panics with a nil dereference after every return of the step. -/
theorem nilDeref_step {σ α β : Type} {m : Go σ α} (f : α → Go σ β) (w : World σ)
    (hm : (∃ a, m w = (.ret a, w)) ∨ m w = (.panic nilDeref, w))
    (hr : ∀ a, m w = (.ret a, w) → f a w = (.panic nilDeref, w)) :
    Go.bind m f w = (.panic nilDeref, w) := by
  rcases hm with ⟨a, ha⟩ | hp
  · simp only [Go.bind, ha, hr a ha]
  · simp only [Go.bind, hp]

/-- Reading through a pointer returns the struct or panics with a nil dereference. -/
theorem deref_ret_or_nil {σ : Type} (p : Ptr) (w : World σ) :
    (∃ a, (IndyCredx.deref p : Go σ Object) w = (.ret a, w)) ∨
    (IndyCredx.deref p : Go σ Object) w = (.panic nilDeref, w) := by
  rcases h : w.lookup p with _ | o
  · exact Or.inr (deref_nil w p h)
  · exact Or.inl ⟨o, deref_eq w p o h⟩

/-- `ToC` on a revocation info whose `regUsed` fits its block returns or panics with a nil
dereference. -/
theorem CredentialRevocationInfo.ToC_ret_or_nil {σ : Type}
    (c : Option CredentialRevocationInfo)
    (hl : ∀ info, c = some info → info.regUsed.length ≤ 3) (w : World σ) :
    (∃ a, (CredentialRevocationInfo.ToC c : Go σ FfiCredentialRevocationInfo) w =
      (.ret a, w)) ∨
    (CredentialRevocationInfo.ToC c : Go σ FfiCredentialRevocationInfo) w =
      (.panic nilDeref, w) := by
  cases c with
  | none => exact Or.inr rfl
  | some info =>
    have hfit := hl info rfl
    rcases hrd : w.lookup info.registryDefinition with _ | rd
    · right
      simp [CredentialRevocationInfo.ToC, Bind.bind, Go.bind, NewFfiI64_eq _ hfit,
        deref_nil w _ hrd, Pure.pure, Go.pure]
    · rcases hrp : w.lookup info.regDefinitionPrivate with _ | rp
      · right
        simp [CredentialRevocationInfo.ToC, Bind.bind, Go.bind, NewFfiI64_eq _ hfit,
          deref_eq w _ rd hrd, deref_nil w _ hrp, Pure.pure, Go.pure]
      · rcases hre : w.lookup info.regEntry with _ | re
        · right
          simp [CredentialRevocationInfo.ToC, Bind.bind, Go.bind, NewFfiI64_eq _ hfit,
            deref_eq w _ rd hrd, deref_eq w _ rp hrp, deref_nil w _ hre, Pure.pure, Go.pure]
        · left
          refine ⟨{ reg_def := rd.handle, reg_def_private := rp.handle,
                    registry := re.handle, reg_idx := info.regIdx,
                    reg_used := { count := info.regUsed.length,
                                  requested := info.regUsed.length,
                                  data := info.regUsed },
                    tails_path := C.CString info.tailsPath }, ?_⟩
          simp [CredentialRevocationInfo.ToC, Bind.bind, Go.bind, NewFfiI64_eq _ hfit,
            deref_eq w _ rd hrd, deref_eq w _ rp hrp, deref_eq w _ re hre, Pure.pure,
            Go.pure]

/-- C19 (amended): `NewCredential` has no nil check.  For every call in which the
credential definition, its private part, the offer, the request or the revocation info is
nil, the run does not return, neither results nor an error: it panics, or it leaves
defined behaviour at a store behind the block of a list, and up to that point no Go object
has changed and the engine has not been called.  When every list has at most three
elements, so that every store lies inside its block, the run ends in the panic of the nil
dereference. -/
theorem NewCredential_nil_reference_panics {σ : Type} (eng : Engine σ) (w : World σ)
    (credDef credDefPvt credOffer credRequest : Ptr)
    (credentialRevocationInfo : Option CredentialRevocationInfo)
    (attrNames attrValues attrEncoded : List String)
    (hnil : credDef = none ∨ credDefPvt = none ∨ credOffer = none ∨ credRequest = none ∨
      credentialRevocationInfo = none) :
    Stops (NewCredential eng credDef credDefPvt credOffer credRequest
      credentialRevocationInfo attrNames attrValues attrEncoded) w ∧
    (attrNames.length ≤ 3 → attrValues.length ≤ 3 → attrEncoded.length ≤ 3 →
      (∀ info, credentialRevocationInfo = some info → info.regUsed.length ≤ 3) →
      NewCredential eng credDef credDefPvt credOffer credRequest credentialRevocationInfo
        attrNames attrValues attrEncoded w = (.panic nilDeref, w)) := by
  refine ⟨?_, fun hl1 hl2 hl3 hl4 => ?_⟩
  · unfold NewCredential
    simp only [Bind.bind]
    refine Silent.step (silent_NewFfiStrList _) _ w fun _ _ => ?_
    refine Silent.step (silent_NewFfiStrList _) _ w fun _ _ => ?_
    refine Silent.step (silent_NewFfiStrList _) _ w fun _ _ => ?_
    refine Silent.step (silent_ToC _) _ w fun _ h4 => ?_
    refine Silent.step (silent_of_quiet (Quiet.of_deref _)) _ w fun _ h5 => ?_
    refine Silent.step (silent_of_quiet (Quiet.of_deref _)) _ w fun _ h6 => ?_
    refine Silent.step (silent_of_quiet (Quiet.of_deref _)) _ w fun _ h7 => ?_
    refine Silent.step (silent_of_quiet (Quiet.of_deref _)) _ w fun _ h8 => ?_
    exfalso
    rcases hnil with h | h | h | h | h <;> subst h
    · simp [deref] at h5
    · simp [deref] at h6
    · simp [deref] at h7
    · simp [deref] at h8
    · simp [CredentialRevocationInfo.ToC_nil] at h4
  · unfold NewCredential
    simp only [Bind.bind]
    refine nilDeref_step _ w (Or.inl ⟨_, NewFfiStrList_eq _ hl1 w⟩) fun _ _ => ?_
    refine nilDeref_step _ w (Or.inl ⟨_, NewFfiStrList_eq _ hl2 w⟩) fun _ _ => ?_
    refine nilDeref_step _ w (Or.inl ⟨_, NewFfiStrList_eq _ hl3 w⟩) fun _ _ => ?_
    refine nilDeref_step _ w (CredentialRevocationInfo.ToC_ret_or_nil _ hl4 w) fun _ h4 => ?_
    refine nilDeref_step _ w (deref_ret_or_nil _ w) fun _ h5 => ?_
    refine nilDeref_step _ w (deref_ret_or_nil _ w) fun _ h6 => ?_
    refine nilDeref_step _ w (deref_ret_or_nil _ w) fun _ h7 => ?_
    refine nilDeref_step _ w (deref_ret_or_nil _ w) fun _ h8 => ?_
    exfalso
    rcases hnil with h | h | h | h | h <;> subst h
    · simp [deref] at h5
    · simp [deref] at h6
    · simp [deref] at h7
    · simp [deref] at h8
    · simp [CredentialRevocationInfo.ToC_nil] at h4

/-- Witness for C19: a nil revocation info, everything else valid, one attribute. -/
theorem NewCredential_nil_reference_panics_witness :
    Stops (NewCredential acceptIssue (some 0) (some 1) (some 2) (some 3) none
      ["name"] ["Alice"] ["1"]) world7 ∧
    NewCredential acceptIssue (some 0) (some 1) (some 2) (some 3) none
      ["name"] ["Alice"] ["1"] world7 = (.panic nilDeref, world7) :=
  ⟨(NewCredential_nil_reference_panics acceptIssue world7 (some 0) (some 1) (some 2) (some 3)
      none ["name"] ["Alice"] ["1"] (Or.inr (Or.inr (Or.inr (Or.inr rfl))))).1,
    (NewCredential_nil_reference_panics acceptIssue world7 (some 0) (some 1) (some 2) (some 3)
      none ["name"] ["Alice"] ["1"] (Or.inr (Or.inr (Or.inr (Or.inr rfl))))).2
      (by decide) (by decide) (by decide) (fun _ h => Option.noConfusion h)⟩

/-- C19 (counterexample): with a nil credential definition and every other argument valid,
`NewCredential` returns no error, so no `InvalidArgument` error either: `credDef.handle`
is evaluated and the run panics with a nil pointer dereference. -/
theorem NewCredential_nil_credDef :
    NewCredential acceptIssue none (some 1) (some 2) (some 3) (some info0)
      ["name"] ["Alice"] ["1"] world7 = (.panic nilDeref, world7) := rfl

/-- The run of `NewCredential` on valid pointers and lists that fit their blocks: one
engine call with the lists as given; a non-zero code gives nil results and the error of
`handleLibError`, code `0` gives three new objects with their finalizers. -/
theorem NewCredential_eq {σ : Type} (eng : Engine σ) (w : World σ)
    (credDef credDefPvt credOffer credRequest : Ptr) (info : CredentialRevocationInfo)
    (attrNames attrValues attrEncoded : List String) (d dp o r rd rp re : Object)
    (hd : w.lookup credDef = some d) (hdp : w.lookup credDefPvt = some dp)
    (ho : w.lookup credOffer = some o) (hr : w.lookup credRequest = some r)
    (hrd : w.lookup info.registryDefinition = some rd)
    (hrp : w.lookup info.regDefinitionPrivate = some rp)
    (hre : w.lookup info.regEntry = some re)
    (hl1 : attrNames.length ≤ 3) (hl2 : attrValues.length ≤ 3)
    (hl3 : attrEncoded.length ≤ 3) (hl4 : info.regUsed.length ≤ 3) :
    NewCredential eng credDef credDefPvt credOffer credRequest (some info) attrNames attrValues
        attrEncoded w =
      (if (eng w.engine (credentialCall d dp o r rd rp re info attrNames attrValues
          attrEncoded)).1.code ≠ 0 then
        (.ret (none, none, none, some (errorText eng (eng w.engine (credentialCall d dp o r rd
            rp re info attrNames attrValues attrEncoded)).2
            ("couldn't create credential, received code " ++
              fmtD (eng w.engine (credentialCall d dp o r rd rp re info attrNames attrValues
                attrEncoded)).1.code))),
          { w with
            engine := afterError eng (eng w.engine (credentialCall d dp o r rd rp re info
              attrNames attrValues attrEncoded)).2,
            trace := w.trace ++ [credentialCall d dp o r rd rp re info attrNames attrValues
              attrEncoded, .credx_get_current_error, .credx_string_free none] })
      else
        (.ret (some w.heap.length, some (w.heap.length + 1), some (w.heap.length + 2), none),
          { engine := (eng w.engine (credentialCall d dp o r rd rp re info attrNames attrValues
              attrEncoded)).2,
            heap := w.heap ++
              [{ handle := (eng w.engine (credentialCall d dp o r rd rp re info attrNames
                  attrValues attrEncoded)).1.handle 0 },
               { handle := (eng w.engine (credentialCall d dp o r rd rp re info attrNames
                  attrValues attrEncoded)).1.handle 1 },
               { handle := (eng w.engine (credentialCall d dp o r rd rp re info attrNames
                  attrValues attrEncoded)).1.handle 2 }],
            finalizers := w.finalizers ++
              [w.heap.length, w.heap.length + 1, w.heap.length + 2],
            trace := w.trace ++ [credentialCall d dp o r rd rp re info attrNames attrValues
              attrEncoded] })) := by
  have hToC : CredentialRevocationInfo.ToC (some info) w =
      (.ret { reg_def := rd.handle, reg_def_private := rp.handle, registry := re.handle,
              reg_idx := info.regIdx,
              reg_used := { count := info.regUsed.length, requested := info.regUsed.length,
                            data := info.regUsed },
              tails_path := info.tailsPath }, w) := by
    simp [CredentialRevocationInfo.ToC, bind, Go.bind, NewFfiI64_eq _ hl4,
      deref_eq w _ rd hrd, deref_eq w _ rp hrp, deref_eq w _ re hre, pure, Go.pure, C.CString]
  simp only [NewCredential, bind, Go.bind, NewFfiStrList_eq _ hl1, NewFfiStrList_eq _ hl2,
    NewFfiStrList_eq _ hl3, hToC, deref_eq w _ d hd, deref_eq w _ dp hdp, deref_eq w _ o ho,
    deref_eq w _ r hr, ffi]
  by_cases hcode : (eng w.engine (credentialCall d dp o r rd rp re info attrNames attrValues
      attrEncoded)).1.code = 0
  · simp [credentialCall] at hcode
    simp [credentialCall, hcode, pure, Go.pure, Go.bind, alloc, runtime.SetFinalizer,
      tyDeltaPtr, Nat.add_assoc]
  · simp [credentialCall] at hcode
    simp [credentialCall, hcode, pure, Go.pure, Go.bind, handleLibError_eq]

/-- C20 (amended): `NewCredential` does not compare the lengths of `attrNames` and
`attrValues`.  On valid pointers and lists of at most three elements each (`attrNames`,
`attrValues`, `attrEncoded` and `regUsed`, so that every store of the marshalers lies
inside its block) it makes one engine call with the C copies of the lists in the given
order, equal in length or not, and its result follows the code of the engine: a non-zero
code gives nil credential, registry and delta and a non-nil error, code `0` gives three
non-nil objects and a nil error. -/
theorem NewCredential_result_follows_engine {σ : Type} (eng : Engine σ) (w : World σ)
    (credDef credDefPvt credOffer credRequest : Ptr) (info : CredentialRevocationInfo)
    (attrNames attrValues attrEncoded : List String) (d dp o r rd rp re : Object)
    (hd : w.lookup credDef = some d) (hdp : w.lookup credDefPvt = some dp)
    (ho : w.lookup credOffer = some o) (hr : w.lookup credRequest = some r)
    (hrd : w.lookup info.registryDefinition = some rd)
    (hrp : w.lookup info.regDefinitionPrivate = some rp)
    (hre : w.lookup info.regEntry = some re)
    (hl1 : attrNames.length ≤ 3) (hl2 : attrValues.length ≤ 3)
    (hl3 : attrEncoded.length ≤ 3) (hl4 : info.regUsed.length ≤ 3) :
    ∃ (cred reg delta : Ptr) (err : GoError) (w1 : World σ) (rest : List Call),
      NewCredential eng credDef credDefPvt credOffer credRequest (some info) attrNames
        attrValues attrEncoded w = (.ret (cred, reg, delta, err), w1) ∧
      w1.trace = w.trace ++
        credentialCall d dp o r rd rp re info attrNames attrValues attrEncoded :: rest ∧
      ((eng w.engine (credentialCall d dp o r rd rp re info attrNames attrValues
          attrEncoded)).1.code ≠ 0 →
        cred = none ∧ reg = none ∧ delta = none ∧ err ≠ none) ∧
      ((eng w.engine (credentialCall d dp o r rd rp re info attrNames attrValues
          attrEncoded)).1.code = 0 →
        cred ≠ none ∧ reg ≠ none ∧ delta ≠ none ∧ err = none) := by
  have h := NewCredential_eq eng w credDef credDefPvt credOffer credRequest info attrNames
    attrValues attrEncoded d dp o r rd rp re hd hdp ho hr hrd hrp hre hl1 hl2 hl3 hl4
  by_cases hcode : (eng w.engine (credentialCall d dp o r rd rp re info attrNames attrValues
      attrEncoded)).1.code = 0
  · rw [if_neg (not_not.mpr hcode)] at h
    exact ⟨_, _, _, _, _, [], h, rfl, fun hne => absurd hcode hne,
      fun _ => ⟨by simp, by simp, by simp, rfl⟩⟩
  · rw [if_pos hcode] at h
    exact ⟨_, _, _, _, _, [.credx_get_current_error, .credx_string_free none], h, rfl,
      fun _ => ⟨rfl, rfl, rfl, by simp⟩, fun h0 => absurd h0 hcode⟩

/-- Witness for C20: one attribute name, no attribute value, and an engine that accepts
the call. -/
theorem NewCredential_result_follows_engine_witness :
    ∃ (cred reg delta : Ptr) (err : GoError) (w1 : World Unit) (rest : List Call),
      NewCredential acceptIssue (some 0) (some 1) (some 2) (some 3) (some info0) ["name"] []
        ["1"] world7 = (.ret (cred, reg, delta, err), w1) ∧
      w1.trace = world7.trace ++
        credentialCall ⟨1, false⟩ ⟨2, false⟩ ⟨3, false⟩ ⟨4, false⟩ ⟨5, false⟩ ⟨6, false⟩
          ⟨7, false⟩ info0 ["name"] [] ["1"] :: rest ∧
      ((acceptIssue world7.engine (credentialCall ⟨1, false⟩ ⟨2, false⟩ ⟨3, false⟩ ⟨4, false⟩
          ⟨5, false⟩ ⟨6, false⟩ ⟨7, false⟩ info0 ["name"] [] ["1"])).1.code ≠ 0 →
        cred = none ∧ reg = none ∧ delta = none ∧ err ≠ none) ∧
      ((acceptIssue world7.engine (credentialCall ⟨1, false⟩ ⟨2, false⟩ ⟨3, false⟩ ⟨4, false⟩
          ⟨5, false⟩ ⟨6, false⟩ ⟨7, false⟩ info0 ["name"] [] ["1"])).1.code = 0 →
        cred ≠ none ∧ reg ≠ none ∧ delta ≠ none ∧ err = none) :=
  NewCredential_result_follows_engine acceptIssue world7 (some 0) (some 1) (some 2) (some 3)
    info0 ["name"] [] ["1"] ⟨1, false⟩ ⟨2, false⟩ ⟨3, false⟩ ⟨4, false⟩ ⟨5, false⟩ ⟨6, false⟩
    ⟨7, false⟩ rfl rfl rfl rfl rfl rfl rfl (by decide) (by decide) (by decide) (by decide)

/-- C20 (counterexample): one attribute name and no attribute value, with an engine that
accepts the call: `NewCredential` returns a non-nil credential, registry and delta and a
nil error. -/
theorem NewCredential_mismatched_lists_accepted :
    ["name"].length ≠ ([] : List String).length ∧
    NewCredential acceptIssue (some 0) (some 1) (some 2) (some 3) (some info0) ["name"] []
        ["1"] world7 =
      (.ret (some 7, some 8, some 9, none),
        { engine := (),
          heap := world7.heap ++ [⟨8, false⟩, ⟨9, false⟩, ⟨10, false⟩],
          finalizers := [7, 8, 9],
          trace := [credentialCall ⟨1, false⟩ ⟨2, false⟩ ⟨3, false⟩ ⟨4, false⟩ ⟨5, false⟩
            ⟨6, false⟩ ⟨7, false⟩ info0 ["name"] [] ["1"]] }) :=
  ⟨by decide, rfl⟩

/-- The engine of the specification rejects attribute names and values of different
lengths, whatever the handles name. -/
theorem SpecState.createCredential_mismatch_code (s : SpecState)
    (credDef credDefPvt credOffer credRequest : ObjectHandle)
    (attrNames attrRawValues attrEnc : FfiStrList) (revocation : FfiCredentialRevocationInfo)
    (hne : attrNames.data.length ≠ attrRawValues.data.length) :
    (s.createCredential credDef credDefPvt credOffer credRequest attrNames attrRawValues
      attrEnc revocation).1.code ≠ 0 := by
  unfold SpecState.createCredential
  by_cases h1 : s.kindOf credDef ≠ some .credentialDefinition ∨
      s.kindOf credDefPvt ≠ some .credentialDefinitionPrivate ∨
      s.kindOf credOffer ≠ some .credentialOffer ∨
      s.kindOf credRequest ≠ some .credentialRequest ∨
      s.kindOf revocation.reg_def_private ≠ some .registryDefinitionPrivate
  · rw [if_pos h1]
    simp [SpecState.fail, ErrorKind.code]
  · rw [if_neg h1, if_pos (Or.inl hne)]
    simp [SpecState.fail, ErrorKind.code]

/-! ## CredentialProve.ToC -/

/-- C30: for every `CredentialProve` `p`, `p.ToC()` has `is_predicate` equal to `1` when
`p.isPredicate` holds and `0` otherwise, `reveal` equal to `1` when `p.reveal` holds and `0`
otherwise, `entry_idx` equal to `p.entryIndex` and `referent` equal to `p.referent`; the
flag `reveal` has no influence on `is_predicate`, nor `isPredicate` on `reveal`. -/
theorem CredentialProve.ToC_encodes_flags (p : CredentialProve) :
    (CredentialProve.ToC p).is_predicate = (if p.isPredicate then 1 else 0) ∧
    (CredentialProve.ToC p).reveal = (if p.reveal then 1 else 0) ∧
    (CredentialProve.ToC p).entry_idx = p.entryIndex ∧
    (CredentialProve.ToC p).referent = p.referent ∧
    (∀ b : Bool, (CredentialProve.ToC { p with reveal := b }).is_predicate =
      (CredentialProve.ToC p).is_predicate) ∧
    (∀ b : Bool, (CredentialProve.ToC { p with isPredicate := b }).reveal =
      (CredentialProve.ToC p).reveal) :=
  ⟨rfl, rfl, rfl, rfl, fun _ => rfl, fun _ => rfl⟩

/-! ## RevocationEntry.ToC after a revocation -/

/-- The registry object after a successful `RevokeCredential`: it holds the handle the
engine wrote first. -/
theorem RevokeCredential_lookup_after {σ : Type} (eng : Engine σ) (w : World σ) (a : Nat)
    (d : Ptr) (idx : Int) (path : String) (r dd : Object)
    (hs : w.lookup (some a) = some r) (hd : w.lookup d = some dd)
    (hc : (eng w.engine (.credx_revoke_credential dd.handle r.handle idx path)).1.code = 0) :
    (RevocationRegistry.RevokeCredential eng (some a) d idx path w).2.lookup (some a) =
      some { r with handle :=
        (eng w.engine (.credx_revoke_credential dd.handle r.handle idx path)).1.handle 0 } := by
  have hs2 : w.heap[a]? = some r := hs
  have hlt : a < w.heap.length := (List.getElem?_eq_some_iff.mp hs2).1
  rw [RevokeCredential_ok eng w a d idx path r dd hs hd hc]
  simp only [World.lookup]
  rw [List.getElem?_append_left (by simpa using hlt)]
  simp [hlt]

/-- C25: a `RevocationEntry` `e` built with `revReg = r` marshals, in every world, to `r`'s
handle in that world with its own `defEntryIndex` and `timestamp`; so after a successful
`r.RevokeCredential` the same `e` marshals to the handle the engine wrote as the new
registry value, with `defEntryIndex` and `timestamp` as before. -/
theorem RevocationEntry.ToC_carries_current_handle {σ : Type} (eng : Engine σ) (w : World σ)
    (a : Nat) (d : Ptr) (idx : Int) (path : String) (r dd : Object) (e : RevocationEntry)
    (he : e.revReg = some a)
    (hs : w.lookup (some a) = some r) (hd : w.lookup d = some dd)
    (hc : (eng w.engine (.credx_revoke_credential dd.handle r.handle idx path)).1.code = 0) :
    (∀ (w2 : World σ) (r2 : Object), w2.lookup e.revReg = some r2 →
      RevocationEntry.ToC e w2 =
        (.ret { def_entry_idx := e.defEntryIndex, entry := r2.handle,
                timestamp := e.timestamp }, w2)) ∧
    RevocationEntry.ToC e w =
      (.ret { def_entry_idx := e.defEntryIndex, entry := r.handle,
              timestamp := e.timestamp }, w) ∧
    RevocationEntry.ToC e (RevocationRegistry.RevokeCredential eng (some a) d idx path w).2 =
      (.ret { def_entry_idx := e.defEntryIndex,
              entry := (eng w.engine
                (.credx_revoke_credential dd.handle r.handle idx path)).1.handle 0,
              timestamp := e.timestamp },
        (RevocationRegistry.RevokeCredential eng (some a) d idx path w).2) := by
  have hall : ∀ (w2 : World σ) (r2 : Object), w2.lookup e.revReg = some r2 →
      RevocationEntry.ToC e w2 =
        (.ret { def_entry_idx := e.defEntryIndex, entry := r2.handle,
                timestamp := e.timestamp }, w2) := by
    intro w2 r2 h2
    simp [RevocationEntry.ToC, bind, Go.bind, deref_eq w2 _ r2 h2, pure, Go.pure]
  refine ⟨hall, hall w r (he ▸ hs), ?_⟩
  have h1 := RevokeCredential_lookup_after eng w a d idx path r dd hs hd hc
  have h2 : (RevocationRegistry.RevokeCredential eng (some a) d idx path w).2.lookup e.revReg =
      some { r with handle :=
        (eng w.engine (.credx_revoke_credential dd.handle r.handle idx path)).1.handle 0 } := by
    rw [he]
    exact h1
  exact hall _ _ h2

/-- Witness for C25: the entry for the registry at address `0` of `world0`, before and
after a revocation the engine accepts. -/
theorem RevocationEntry.ToC_carries_current_handle_witness :
    (∀ (w2 : World Unit) (r2 : Object),
      w2.lookup (⟨0, some 0, 100⟩ : RevocationEntry).revReg = some r2 →
      RevocationEntry.ToC ⟨0, some 0, 100⟩ w2 =
        (.ret { def_entry_idx := 0, entry := r2.handle, timestamp := 100 }, w2)) ∧
    RevocationEntry.ToC ⟨0, some 0, 100⟩ world0 =
      (.ret { def_entry_idx := 0, entry := 1, timestamp := 100 }, world0) ∧
    RevocationEntry.ToC ⟨0, some 0, 100⟩
        (RevocationRegistry.RevokeCredential acceptAll (some 0) (some 1) 10 "tails" world0).2 =
      (.ret { def_entry_idx := 0, entry := 7, timestamp := 100 },
        (RevocationRegistry.RevokeCredential acceptAll (some 0) (some 1) 10 "tails" world0).2) :=
  RevocationEntry.ToC_carries_current_handle acceptAll world0 0 (some 1) 10 "tails" ⟨1, false⟩
    ⟨2, false⟩ ⟨0, some 0, 100⟩ rfl rfl rfl rfl

/-! ## Successive revocations -/

/-- The first engine call of `RevokeCredential` on valid pointers: the handle of the
definition, then the handle the registry object holds at that moment. -/
theorem RevokeCredential_first_call {σ : Type} (eng : Engine σ) (w : World σ) (s d : Ptr)
    (idx : Int) (path : String) (r dd : Object)
    (hs : w.lookup s = some r) (hd : w.lookup d = some dd) :
    ∃ rest : List Call,
      (RevocationRegistry.RevokeCredential eng s d idx path w).2.trace =
        w.trace ++ .credx_revoke_credential dd.handle r.handle idx path :: rest := by
  by_cases hc : (eng w.engine (.credx_revoke_credential dd.handle r.handle idx path)).1.code = 0
  · cases s with
    | none => simp [World.lookup] at hs
    | some a =>
      rw [RevokeCredential_ok eng w a d idx path r dd hs hd hc]
      exact ⟨[], rfl⟩
  · rw [RevokeCredential_err eng w s d idx path r dd hs hd hc]
    exact ⟨[.credx_get_current_error, .credx_string_free none], rfl⟩

/-- C24: two calls of `RevokeCredential` in a row on the same registry object.  When the
engine accepts the first call, the second call hands the engine the handle the engine
wrote as the new registry value in the first call; when the engine rejects the first
call, the second call hands it the handle the registry held before. -/
theorem RevokeCredential_successive_calls_chain {σ : Type} (eng : Engine σ) (w : World σ)
    (a : Nat) (d d2 : Ptr) (idx idx2 : Int) (path path2 : String) (r dd dd2 : Object)
    (hs : w.lookup (some a) = some r) (hd : w.lookup d = some dd)
    (hd2 : (RevocationRegistry.RevokeCredential eng (some a) d idx path w).2.lookup d2 =
      some dd2) :
    ∃ rest : List Call,
      (RevocationRegistry.RevokeCredential eng (some a) d2 idx2 path2
          (RevocationRegistry.RevokeCredential eng (some a) d idx path w).2).2.trace =
        (RevocationRegistry.RevokeCredential eng (some a) d idx path w).2.trace ++
          .credx_revoke_credential dd2.handle
            (if (eng w.engine
                (.credx_revoke_credential dd.handle r.handle idx path)).1.code = 0 then
              (eng w.engine (.credx_revoke_credential dd.handle r.handle idx path)).1.handle 0
            else r.handle) idx2 path2 :: rest := by
  by_cases hc : (eng w.engine (.credx_revoke_credential dd.handle r.handle idx path)).1.code = 0
  · rw [if_pos hc]
    have h1 := RevokeCredential_lookup_after eng w a d idx path r dd hs hd hc
    exact RevokeCredential_first_call eng _ (some a) d2 idx2 path2 _ dd2 h1 hd2
  · rw [if_neg hc]
    have h1 : (RevocationRegistry.RevokeCredential eng (some a) d idx path w).2.lookup
        (some a) = some r := by
      rw [RevokeCredential_err eng w (some a) d idx path r dd hs hd hc]
      exact hs
    exact RevokeCredential_first_call eng _ (some a) d2 idx2 path2 r dd2 h1 hd2

/-- Witness for C24: two revocations on the registry of `world0` with the engine that
accepts every call and writes `7` as the new registry handle. -/
theorem RevokeCredential_successive_calls_chain_witness :
    ∃ rest : List Call,
      (RevocationRegistry.RevokeCredential acceptAll (some 0) (some 1) 11 "tails"
          (RevocationRegistry.RevokeCredential acceptAll (some 0) (some 1) 10 "tails"
            world0).2).2.trace =
        (RevocationRegistry.RevokeCredential acceptAll (some 0) (some 1) 10 "tails"
            world0).2.trace ++
          .credx_revoke_credential 2
            (if (acceptAll world0.engine (.credx_revoke_credential 2 1 10 "tails")).1.code = 0
              then (acceptAll world0.engine (.credx_revoke_credential 2 1 10 "tails")).1.handle 0
              else 1) 11 "tails" :: rest :=
  RevokeCredential_successive_calls_chain acceptAll world0 0 (some 1) (some 1) 10 11 "tails"
    "tails" ⟨1, false⟩ ⟨2, false⟩ ⟨2, false⟩ rfl rfl rfl

/-! ## A credential entry without a revocation state -/

/-- C21 (the code on an entry without a revocation state): for every entry whose
credential is set and whose `revState` is nil, `CredentialEntry.ToC` does not marshal the
entry: it panics with a nil pointer dereference.  `NewFfiListFfiCredentialEntry` and
`NewPresentation` do not return on any list that holds such an entry, and the engine is
not called; they end in a panic when the entry is the first or the second of the list (the
stores before its `ToC` lie inside the block), and that panic is the nil dereference when
the entry is the first. -/
theorem CredentialEntry.ToC_nil_revState_panics {σ : Type} (eng : Engine σ) (w : World σ)
    (c : CredentialEntry) (entries : List CredentialEntry)
    (hcred : (w.lookup c.credential).isSome) (hnil : c.revState = none)
    (hmem : c ∈ entries) :
    CredentialEntry.ToC c w = (.panic nilDeref, w) ∧
    Stops (NewFfiListFfiCredentialEntry entries) w ∧
    (∀ (presentationRequest masterSecret : Ptr) (credProves : List CredentialProve)
        (names values : List String) (schemas credDefs : List Object),
      Stops (NewPresentation eng presentationRequest entries credProves names values
        masterSecret schemas credDefs) w) ∧
    (∀ pre post : List CredentialEntry, entries = pre ++ c :: post → pre.length ≤ 1 →
      (∃ msg, NewFfiListFfiCredentialEntry entries w = (.panic msg, w)) ∧
      (∀ (presentationRequest masterSecret : Ptr) (credProves : List CredentialProve)
          (names values : List String) (schemas credDefs : List Object),
        ∃ msg, NewPresentation eng presentationRequest entries credProves names values
          masterSecret schemas credDefs w = (.panic msg, w))) ∧
    (∀ post : List CredentialEntry, entries = c :: post →
      NewFfiListFfiCredentialEntry entries w = (.panic nilDeref, w) ∧
      (∀ (presentationRequest masterSecret : Ptr) (credProves : List CredentialProve)
          (names values : List String) (schemas credDefs : List Object),
        NewPresentation eng presentationRequest entries credProves names values
          masterSecret schemas credDefs w = (.panic nilDeref, w))) := by
  obtain ⟨cred, hc⟩ := Option.isSome_iff_exists.mp hcred
  have h1 : CredentialEntry.ToC c w = (.panic nilDeref, w) := by
    rw [CredentialEntry.ToC_credEntry_eq]
    simp [hc, hnil, World.lookup]
  have h2 := NewFfiListFfiCredentialEntry_stops w c entries hmem ⟨_, h1⟩
  refine ⟨h1, h2, ?_, ?_, ?_⟩
  · intro presentationRequest masterSecret credProves names values schemas credDefs
    unfold NewPresentation
    simp only [Bind.bind]
    exact stops_bind _ w h2
  · intro pre post hsplit hpre
    have hroom : (0 + pre.length) * CElem.FfiCredentialEntry.size ≤ C.malloc entries.length := by
      have h24 := C.malloc_ge entries.length
      simp only [CElem.size]
      omega
    obtain ⟨msg, hm⟩ := rangeWrite_panics .FfiCredentialEntry (C.malloc entries.length)
      (fun item => CredentialEntry.ToC item) w
      (fun item => CredentialEntry.ToC_readsOnly item) pre c post 0 hroom ⟨_, h1⟩
    rw [← hsplit] at hm
    have h3 : NewFfiListFfiCredentialEntry entries w = (.panic msg, w) := by
      simp only [NewFfiListFfiCredentialEntry, bind, Go.bind, hm]
    refine ⟨⟨msg, h3⟩, ?_⟩
    intro presentationRequest masterSecret credProves names values schemas credDefs
    exact ⟨msg, by simp only [NewPresentation, bind, Go.bind, h3]⟩
  · intro post hsplit
    have h3 : NewFfiListFfiCredentialEntry entries w = (.panic nilDeref, w) := by
      rw [hsplit]
      simp only [NewFfiListFfiCredentialEntry, rangeWrite, bind, Go.bind, h1]
    refine ⟨h3, ?_⟩
    intro presentationRequest masterSecret credProves names values schemas credDefs
    simp only [NewPresentation, bind, Go.bind, h3]

/-- Witness for C21: one entry whose credential is the object at address `0` of `world0`
and which has no revocation state. -/
theorem CredentialEntry.ToC_nil_revState_panics_witness :
    CredentialEntry.ToC ⟨some 0, 100, none⟩ world0 = (.panic nilDeref, world0) ∧
    (∃ msg, NewFfiListFfiCredentialEntry [⟨some 0, 100, none⟩] world0 =
      (.panic msg, world0)) ∧
    (∀ (presentationRequest masterSecret : Ptr) (credProves : List CredentialProve)
        (names values : List String) (schemas credDefs : List Object),
      ∃ msg, NewPresentation acceptAll presentationRequest [⟨some 0, 100, none⟩] credProves
        names values masterSecret schemas credDefs world0 = (.panic msg, world0)) :=
  ⟨(CredentialEntry.ToC_nil_revState_panics acceptAll world0 ⟨some 0, 100, none⟩
      [⟨some 0, 100, none⟩] rfl rfl (List.mem_singleton.mpr rfl)).1,
    (CredentialEntry.ToC_nil_revState_panics acceptAll world0 ⟨some 0, 100, none⟩
      [⟨some 0, 100, none⟩] rfl rfl (List.mem_singleton.mpr rfl)).2.2.2.1 [] [] rfl
      (by decide)⟩

/-! ## What Presentation.Verify hands to the engine -/

/-- C26: what `Presentation.Verify` hands to the engine.  When both pointers and the
registry of every entry are valid and every list fits its block (at most three schemas,
definitions and registry definitions, at most one entry), `Verify` returns and its first
engine call is `credx_verify_presentation` with the handles of the presentation and the
request, three handle lists whose counts are `len(schemas)`, `len(credDefs)`, `len(regs)`
and whose elements are the handles of the objects in caller order, and an entry list whose
count is `len(revEntries)` and whose elements are the results of `ToC` on the entries in
caller order (each with its own `defEntryIndex`).  With more than three schemas,
definitions or registry definitions, or more than one entry, the lists are not handed
over: the run does not return, it leaves defined behaviour at a store behind the block of
`len(list)` bytes, or panics, and up to that point the engine has not been called.  For
every input: the heap is left as it was, and either the run ends in that way or its first
engine call is the one described. -/
theorem Presentation.Verify_passes_lists_in_order {σ : Type} (eng : Engine σ) (w : World σ)
    (c presReq : Ptr) (schemas credDefs regs : List Object)
    (revEntries : List RevocationEntry) :
    (Presentation.Verify eng c presReq schemas credDefs regs revEntries w).2.heap = w.heap ∧
    (Stops (Presentation.Verify eng c presReq schemas credDefs regs revEntries) w ∨
      (∃ (pres req : Object) (rest : List Call),
        w.lookup c = some pres ∧ w.lookup presReq = some req ∧
        (∀ e ∈ revEntries, ∃ reg, w.lookup e.revReg = some reg ∧
          RevocationEntry.ToC e w =
            (.ret { def_entry_idx := e.defEntryIndex, entry := reg.handle,
                    timestamp := e.timestamp }, w) ∧
          RevocationEntry.view w e =
            { def_entry_idx := e.defEntryIndex, entry := reg.handle,
              timestamp := e.timestamp }) ∧
        (Presentation.Verify eng c presReq schemas credDefs regs revEntries w).2.trace =
          w.trace ++ .credx_verify_presentation pres.handle req.handle
            { count := schemas.length, requested := schemas.length,
              data := schemas.map fun o => o.handle }
            { count := credDefs.length, requested := credDefs.length,
              data := credDefs.map fun o => o.handle }
            { count := regs.length, requested := regs.length,
              data := regs.map fun o => o.handle }
            { count := revEntries.length, requested := revEntries.length,
              data := revEntries.map (RevocationEntry.view w) } :: rest)) ∧
    (w.lookup c ≠ none → w.lookup presReq ≠ none →
      (∀ e ∈ revEntries, (w.lookup e.revReg).isSome) →
      schemas.length ≤ 3 → credDefs.length ≤ 3 → regs.length ≤ 3 →
      revEntries.length ≤ 1 →
      (∃ res w1, Presentation.Verify eng c presReq schemas credDefs regs revEntries w =
        (.ret res, w1)) ∧
      ¬ Stops (Presentation.Verify eng c presReq schemas credDefs regs revEntries) w) ∧
    (3 < schemas.length ∨ 3 < credDefs.length ∨ 3 < regs.length ∨ 1 < revEntries.length →
      Stops (Presentation.Verify eng c presReq schemas credDefs regs revEntries) w ∧
      (Presentation.Verify eng c presReq schemas credDefs regs revEntries w).2.trace =
        w.trace) := by
  have hlong : 3 < schemas.length ∨ 3 < credDefs.length ∨ 3 < regs.length ∨
      1 < revEntries.length →
      Stops (Presentation.Verify eng c presReq schemas credDefs regs revEntries) w ∧
      (Presentation.Verify eng c presReq schemas credDefs regs revEntries w).2.trace =
        w.trace := by
    intro hl
    have hs := Presentation.Verify_stops_unless eng w c presReq schemas credDefs regs revEntries
      (fun hall => by omega)
    refine ⟨hs, ?_⟩
    rcases hs with ⟨msg, hm⟩ | ⟨msg, hm⟩ <;> rw [hm]
  by_cases hcond : w.lookup c ≠ none ∧ w.lookup presReq ≠ none ∧
      (∀ e ∈ revEntries, (w.lookup e.revReg).isSome) ∧
      schemas.length ≤ 3 ∧ credDefs.length ≤ 3 ∧ regs.length ≤ 3 ∧
      revEntries.length ≤ 1
  · obtain ⟨hc0, hreq0, hents, hl1, hl2, hl3, hl4⟩ := hcond
    obtain ⟨pres, hc⟩ := Option.ne_none_iff_exists'.mp hc0
    obtain ⟨req, hreq⟩ := Option.ne_none_iff_exists'.mp hreq0
    have hrun := Presentation.Verify_eq eng w c presReq schemas credDefs regs revEntries pres req
      hc hreq hents hl1 hl2 hl3 hl4
    have hentries : ∀ e ∈ revEntries, ∃ reg, w.lookup e.revReg = some reg ∧
        RevocationEntry.ToC e w =
          (.ret { def_entry_idx := e.defEntryIndex, entry := reg.handle,
                  timestamp := e.timestamp }, w) ∧
        RevocationEntry.view w e =
          { def_entry_idx := e.defEntryIndex, entry := reg.handle,
            timestamp := e.timestamp } := by
      intro e he
      obtain ⟨reg, hreg⟩ := Option.isSome_iff_exists.mp (hents e he)
      have hview : RevocationEntry.view w e =
          { def_entry_idx := e.defEntryIndex, entry := reg.handle,
            timestamp := e.timestamp } := by
        simp [RevocationEntry.view, hreg]
      exact ⟨reg, hreg, hview ▸ RevocationEntry.ToC_revEntry_eq w e (hents e he), hview⟩
    by_cases hcode :
        (eng w.engine (verifyCall w pres req schemas credDefs regs revEntries)).1.code = 0
    · rw [if_neg (not_not.mpr hcode)] at hrun
      refine ⟨by rw [hrun], Or.inr ⟨pres, req, [], hc, hreq, hentries, by rw [hrun]; rfl⟩, ?_,
        hlong⟩
      intro _ _ _ _ _ _ _
      refine ⟨⟨_, _, hrun⟩, fun hp => ?_⟩
      rcases hp with ⟨msg, hm⟩ | ⟨msg, hm⟩ <;> rw [hrun] at hm <;> simp at hm
    · rw [if_pos hcode] at hrun
      refine ⟨by rw [hrun], Or.inr ⟨pres, req, [.credx_get_current_error,
        .credx_string_free none], hc, hreq, hentries, by rw [hrun]; rfl⟩, ?_, hlong⟩
      intro _ _ _ _ _ _ _
      refine ⟨⟨_, _, hrun⟩, fun hp => ?_⟩
      rcases hp with ⟨msg, hm⟩ | ⟨msg, hm⟩ <;> rw [hrun] at hm <;> simp at hm
  · have hs := Presentation.Verify_stops_unless eng w c presReq schemas credDefs regs
      revEntries hcond
    refine ⟨?_, Or.inl hs, ?_, hlong⟩
    · rcases hs with ⟨msg, hm⟩ | ⟨msg, hm⟩ <;> rw [hm]
    · intro h1 h2 h3 h4 h5 h6 h7
      exact absurd ⟨h1, h2, h3, h4, h5, h6, h7⟩ hcond

/-- The failing input of C26: four schemas, with the accepting engine and the
presentation and request of the sample heap.  The fourth store of the schema handles lies
behind their block, so the run leaves defined behaviour there and the engine has not been
called. -/
theorem Presentation.Verify_passes_lists_in_order_witness :
    Presentation.Verify acceptAll (some 4) (some 5)
      [⟨11, false⟩, ⟨11, false⟩, ⟨11, false⟩, ⟨11, false⟩] [⟨12, false⟩] [⟨2, false⟩]
      [⟨0, some 0, 100⟩] world0 = (.undefined heapOverflow, world0) ∧
    Stops (Presentation.Verify acceptAll (some 4) (some 5)
      [⟨11, false⟩, ⟨11, false⟩, ⟨11, false⟩, ⟨11, false⟩] [⟨12, false⟩] [⟨2, false⟩]
      [⟨0, some 0, 100⟩]) world0 ∧
    (Presentation.Verify acceptAll (some 4) (some 5)
      [⟨11, false⟩, ⟨11, false⟩, ⟨11, false⟩, ⟨11, false⟩] [⟨12, false⟩] [⟨2, false⟩]
      [⟨0, some 0, 100⟩] world0).2.trace = world0.trace :=
  ⟨rfl, (Presentation.Verify_passes_lists_in_order acceptAll world0 (some 4) (some 5)
    [⟨11, false⟩, ⟨11, false⟩, ⟨11, false⟩, ⟨11, false⟩] [⟨12, false⟩] [⟨2, false⟩]
    [⟨0, some 0, 100⟩]).2.2.2 (Or.inl (by decide))⟩

/-! ## The buffers of the list marshalers -/

/-- C27 (the code): each list marshaler asks `C.malloc` for `len(list)` bytes, not for
`len(list)` elements.  `NewFfiI64` on the one-element list `[5]` asks for 1 byte and writes
an 8-byte element.  Whenever one of the six marshalers returns, its result has
`count = len(list)`, the buffer it asked for has `len(list)` bytes, and for a non-empty
list the elements written take more bytes than that. -/
theorem marshalers_request_one_byte_per_element {σ : Type} (w : World σ) :
    NewFfiI64 [5] w = (.ret { count := 1, requested := 1, data := [5] }, w) ∧
    (1 : Nat) < 1 * CElem.int64_t.size ∧
    (∀ (list : List Int) (v : FfiListI64) (w1 : World σ),
      NewFfiI64 list w = (.ret v, w1) →
      v.count = list.length ∧ v.requested = list.length ∧
      (list ≠ [] → v.requested < bytesWritten .int64_t v)) ∧
    (∀ (list : List String) (v : FfiStrList) (w1 : World σ),
      NewFfiStrList list w = (.ret v, w1) →
      v.count = list.length ∧ v.requested = list.length ∧
      (list ≠ [] → v.requested < bytesWritten .charPtr v)) ∧
    (∀ (list : List ObjectHandle) (v : FfiListObjectHandle) (w1 : World σ),
      NewFfiListObjectHandle list w = (.ret v, w1) →
      v.count = list.length ∧ v.requested = list.length ∧
      (list ≠ [] → v.requested < bytesWritten .ulong v)) ∧
    (∀ (list : List CredentialEntry) (v : FfiList FfiCredentialEntry) (w1 : World σ),
      NewFfiListFfiCredentialEntry list w = (.ret v, w1) →
      v.count = list.length ∧ v.requested = list.length ∧
      (list ≠ [] → v.requested < bytesWritten .FfiCredentialEntry v)) ∧
    (∀ (list : List CredentialProve) (v : FfiList FfiCredentialProve) (w1 : World σ),
      NewFfiListFfiCredentialProve list w = (.ret v, w1) →
      v.count = list.length ∧ v.requested = list.length ∧
      (list ≠ [] → v.requested < bytesWritten .FfiCredentialProve v)) ∧
    (∀ (list : List RevocationEntry) (v : FfiList FfiRevocationEntry) (w1 : World σ),
      NewFfiListFfiRevocationEntry list w = (.ret v, w1) →
      v.count = list.length ∧ v.requested = list.length ∧
      (list ≠ [] → v.requested < bytesWritten .FfiRevocationEntry v)) := by
  have key : ∀ {α β : Type} (elem : CElem) (helem : 1 < elem.size) (conv : α → Go σ β)
      (list : List α) (v : FfiList β) (w1 : World σ),
      Go.bind (rangeWrite elem (C.malloc list.length) conv 0 list)
        (fun data => Go.pure { count := list.length, requested := list.length, data := data })
        w = (.ret v, w1) →
      v.count = list.length ∧ v.requested = list.length ∧
      (list ≠ [] → v.requested < bytesWritten elem v) := by
    intro α β elem helem conv list v w1 h
    obtain ⟨h1, h2, h3, _⟩ := marshaler_ret elem conv list w w1 v h
    refine ⟨h1, h2, fun hne => ?_⟩
    have hpos : 0 < list.length := List.length_pos.mpr hne
    rw [h2, bytesWritten, h3]
    calc list.length = list.length * 1 := (Nat.mul_one _).symm
      _ < list.length * elem.size := Nat.mul_lt_mul_of_pos_left helem hpos
  refine ⟨NewFfiI64_eq [5] (by decide) w, by decide, ?_, ?_, ?_, ?_, ?_, ?_⟩
  · exact fun list v w1 h => key .int64_t (by decide) _ list v w1 h
  · exact fun list v w1 h => key .charPtr (by decide) _ list v w1 h
  · exact fun list v w1 h => key .ulong (by decide) _ list v w1 h
  · exact fun list v w1 h => key .FfiCredentialEntry (by decide) _ list v w1 h
  · exact fun list v w1 h => key .FfiCredentialProve (by decide) _ list v w1 h
  · exact fun list v w1 h => key .FfiRevocationEntry (by decide) _ list v w1 h

/-! ## NewRevocationRegistryDefinition -/

/-- A Go string has length `0` exactly when it is the empty string. -/
theorem len_eq_zero_iff (s : String) : len s = 0 ↔ s = "" := by
  cases s with
  | mk data =>
    cases data with
    | nil => exact ⟨fun _ => rfl, fun _ => rfl⟩
    | cons c cs =>
      have hpos := Char.utf8Size_pos c
      constructor
      · intro h
        simp only [len, String.utf8ByteSize, String.utf8ByteSize.go] at h
        omega
      · intro h
        exact absurd (congrArg String.data h) (by simp)

/-- The run of `NewRevocationRegistryDefinition` on a valid `credDef`: one engine call; a
non-zero code gives nil results and the error of `handleLibError`, code `0` gives four new
objects with their finalizers. -/
theorem NewRevocationRegistryDefinition_eq {σ : Type} (eng : Engine σ) (w : World σ)
    (originDid : String) (credDef : Ptr) (tag revRegType issuanceType : String)
    (maxCredNum : Int) (tailsDirPath : String) (cd : Object)
    (hc : w.lookup credDef = some cd) :
    NewRevocationRegistryDefinition eng originDid credDef tag revRegType issuanceType
        maxCredNum tailsDirPath w =
      (if (eng w.engine (registryCall originDid cd tag revRegType issuanceType maxCredNum
          tailsDirPath)).1.code ≠ 0 then
        (.ret (none, none, none, none, some (errorText eng (eng w.engine (registryCall
            originDid cd tag revRegType issuanceType maxCredNum tailsDirPath)).2
            ("Couldn't create Revocastion Registry, received code " ++
              fmtD (eng w.engine (registryCall originDid cd tag revRegType issuanceType
                maxCredNum tailsDirPath)).1.code))),
          { w with
            engine := afterError eng (eng w.engine (registryCall originDid cd tag revRegType
              issuanceType maxCredNum tailsDirPath)).2,
            trace := w.trace ++ [registryCall originDid cd tag revRegType issuanceType
              maxCredNum tailsDirPath, .credx_get_current_error, .credx_string_free none] })
      else
        (.ret (some (w.heap.length + 1), some (w.heap.length + 2), some w.heap.length,
            some (w.heap.length + 3), none),
          { engine := (eng w.engine (registryCall originDid cd tag revRegType issuanceType
              maxCredNum tailsDirPath)).2,
            heap := w.heap ++
              [{ handle := (eng w.engine (registryCall originDid cd tag revRegType
                  issuanceType maxCredNum tailsDirPath)).1.handle 2 },
               { handle := (eng w.engine (registryCall originDid cd tag revRegType
                  issuanceType maxCredNum tailsDirPath)).1.handle 0 },
               { handle := (eng w.engine (registryCall originDid cd tag revRegType
                  issuanceType maxCredNum tailsDirPath)).1.handle 1 },
               { handle := (eng w.engine (registryCall originDid cd tag revRegType
                  issuanceType maxCredNum tailsDirPath)).1.handle 3 }],
            finalizers := w.finalizers ++
              [w.heap.length, w.heap.length + 1, w.heap.length + 2, w.heap.length + 3],
            trace := w.trace ++ [registryCall originDid cd tag revRegType issuanceType
              maxCredNum tailsDirPath] })) := by
  simp only [NewRevocationRegistryDefinition, bind, Go.bind, deref_eq w _ cd hc, ffi,
    len_eq_zero_iff, C.CString]
  by_cases hcode : (eng w.engine (registryCall originDid cd tag revRegType issuanceType
      maxCredNum tailsDirPath)).1.code = 0
  · simp [registryCall] at hcode
    simp [registryCall, hcode, pure, Go.pure, Go.bind, alloc, runtime.SetFinalizer,
      tyDeltaPtr, Nat.add_assoc]
  · simp [registryCall] at hcode
    simp [registryCall, hcode, pure, Go.pure, Go.bind, handleLibError_eq]

/-- The cells a run appends to the heap are found at the addresses behind the old ones. -/
theorem World.lookup_fresh {σ : Type} (w : World σ) (e : σ) (cells : List Object)
    (f : List Nat) (t : List Call) (k : Nat) :
    ({ engine := e, heap := w.heap ++ cells, finalizers := f, trace := t } : World σ).lookup
      (some (w.heap.length + k)) = cells[k]? := by
  simp only [World.lookup]
  rw [List.getElem?_append_right (Nat.le_add_right _ _), Nat.add_sub_cancel_left]

/-- C23: `NewRevocationRegistryDefinition` on a valid `credDef` returns, and what it
returns follows the code of its one create call.  A non-zero code gives four nil objects
and a non-nil error, and the only further engine calls read the error.  Code `0` gives a
nil error and four non-nil, pairwise distinct, new objects (definition, private
definition, registry, delta) that hold the first, second, third and fourth handle the
engine wrote, and no further engine call is made. -/
theorem NewRevocationRegistryDefinition_propagates_outcome {σ : Type} (eng : Engine σ)
    (w : World σ) (originDid : String) (credDef : Ptr) (tag revRegType issuanceType : String)
    (maxCredNum : Int) (tailsDirPath : String) (cd : Object)
    (hc : w.lookup credDef = some cd) :
    ∃ (regDef regDefPrivate reg delta : Ptr) (err : GoError) (w1 : World σ),
      NewRevocationRegistryDefinition eng originDid credDef tag revRegType issuanceType
        maxCredNum tailsDirPath w = (.ret (regDef, regDefPrivate, reg, delta, err), w1) ∧
      ((eng w.engine (registryCall originDid cd tag revRegType issuanceType maxCredNum
          tailsDirPath)).1.code ≠ 0 →
        regDef = none ∧ regDefPrivate = none ∧ reg = none ∧ delta = none ∧ err ≠ none ∧
        w1.heap = w.heap ∧
        w1.trace = w.trace ++ [registryCall originDid cd tag revRegType issuanceType
          maxCredNum tailsDirPath, .credx_get_current_error, .credx_string_free none]) ∧
      ((eng w.engine (registryCall originDid cd tag revRegType issuanceType maxCredNum
          tailsDirPath)).1.code = 0 →
        err = none ∧
        regDef ≠ none ∧ regDefPrivate ≠ none ∧ reg ≠ none ∧ delta ≠ none ∧
        [regDef, regDefPrivate, reg, delta].Nodup ∧
        (∀ p ∈ [regDef, regDefPrivate, reg, delta], w.lookup p = none) ∧
        w1.lookup regDef = some { handle := (eng w.engine (registryCall originDid cd tag
          revRegType issuanceType maxCredNum tailsDirPath)).1.handle 0 } ∧
        w1.lookup regDefPrivate = some { handle := (eng w.engine (registryCall originDid cd
          tag revRegType issuanceType maxCredNum tailsDirPath)).1.handle 1 } ∧
        w1.lookup reg = some { handle := (eng w.engine (registryCall originDid cd tag
          revRegType issuanceType maxCredNum tailsDirPath)).1.handle 2 } ∧
        w1.lookup delta = some { handle := (eng w.engine (registryCall originDid cd tag
          revRegType issuanceType maxCredNum tailsDirPath)).1.handle 3 } ∧
        w1.trace = w.trace ++ [registryCall originDid cd tag revRegType issuanceType
          maxCredNum tailsDirPath]) := by
  have h := NewRevocationRegistryDefinition_eq eng w originDid credDef tag revRegType
    issuanceType maxCredNum tailsDirPath cd hc
  by_cases hcode : (eng w.engine (registryCall originDid cd tag revRegType issuanceType
      maxCredNum tailsDirPath)).1.code = 0
  · rw [if_neg (not_not.mpr hcode)] at h
    refine ⟨_, _, _, _, _, _, h, fun hne => absurd hcode hne, fun _ => ?_⟩
    refine ⟨rfl, by simp, by simp, by simp, by simp, ?_, ?_, ?_, ?_, ?_, ?_, rfl⟩
    · simp
    · intro p hp
      simp only [List.mem_cons, List.mem_singleton, List.not_mem_nil, or_false] at hp
      rcases hp with hp | hp | hp | hp <;> subst hp <;> simp [World.lookup]
    · exact World.lookup_fresh w _ _ _ _ 1
    · exact World.lookup_fresh w _ _ _ _ 2
    · exact World.lookup_fresh w _ _ _ _ 0
    · exact World.lookup_fresh w _ _ _ _ 3
  · rw [if_pos hcode] at h
    exact ⟨_, _, _, _, _, _, h, fun _ => ⟨rfl, rfl, rfl, rfl, by simp, rfl, rfl⟩,
      fun h0 => absurd h0 hcode⟩

/-- Witness for C23: the object at address `1` of `world0` as credential definition, and
an engine that accepts the call and writes four handles. -/
theorem NewRevocationRegistryDefinition_propagates_outcome_witness :
    ∃ (regDef regDefPrivate reg delta : Ptr) (err : GoError) (w1 : World Unit),
      NewRevocationRegistryDefinition acceptFour "did" (some 1) "tag" "CL_ACCUM" "" 100
        "tails" world0 = (.ret (regDef, regDefPrivate, reg, delta, err), w1) ∧
      ((acceptFour world0.engine (registryCall "did" ⟨2, false⟩ "tag" "CL_ACCUM" "" 100
          "tails")).1.code ≠ 0 →
        regDef = none ∧ regDefPrivate = none ∧ reg = none ∧ delta = none ∧ err ≠ none ∧
        w1.heap = world0.heap ∧
        w1.trace = world0.trace ++ [registryCall "did" ⟨2, false⟩ "tag" "CL_ACCUM" "" 100
          "tails", .credx_get_current_error, .credx_string_free none]) ∧
      ((acceptFour world0.engine (registryCall "did" ⟨2, false⟩ "tag" "CL_ACCUM" "" 100
          "tails")).1.code = 0 →
        err = none ∧
        regDef ≠ none ∧ regDefPrivate ≠ none ∧ reg ≠ none ∧ delta ≠ none ∧
        [regDef, regDefPrivate, reg, delta].Nodup ∧
        (∀ p ∈ [regDef, regDefPrivate, reg, delta], world0.lookup p = none) ∧
        w1.lookup regDef = some { handle := (acceptFour world0.engine (registryCall "did"
          ⟨2, false⟩ "tag" "CL_ACCUM" "" 100 "tails")).1.handle 0 } ∧
        w1.lookup regDefPrivate = some { handle := (acceptFour world0.engine
          (registryCall "did" ⟨2, false⟩ "tag" "CL_ACCUM" "" 100 "tails")).1.handle 1 } ∧
        w1.lookup reg = some { handle := (acceptFour world0.engine (registryCall "did"
          ⟨2, false⟩ "tag" "CL_ACCUM" "" 100 "tails")).1.handle 2 } ∧
        w1.lookup delta = some { handle := (acceptFour world0.engine (registryCall "did"
          ⟨2, false⟩ "tag" "CL_ACCUM" "" 100 "tails")).1.handle 3 } ∧
        w1.trace = world0.trace ++ [registryCall "did" ⟨2, false⟩ "tag" "CL_ACCUM" "" 100
          "tails"]) :=
  NewRevocationRegistryDefinition_propagates_outcome acceptFour world0 "did" (some 1) "tag"
    "CL_ACCUM" "" 100 "tails" ⟨2, false⟩ rfl

/-- A prefix taken while a test holds is the whole list exactly when every element passes
the test. -/
theorem takeWhile_eq_self {α : Type} (p : α → Bool) (l : List α) :
    l.takeWhile p = l ↔ ∀ x ∈ l, p x = true := by
  induction l with
  | nil => simp
  | cons x xs ih =>
    by_cases hx : p x = true
    · simp [List.takeWhile_cons, hx, ih]
    · simp [List.takeWhile_cons, hx]

/-- The engine reads the block of `C.CString(s)` as `s` exactly when `s` holds no NUL
byte. -/
theorem C.strOf_eq_iff (s : String) : C.strOf (C.CString s) = s ↔ C.NUL ∉ s.data := by
  cases s with
  | mk data =>
    have hmk : (String.mk (List.takeWhile (fun ch => ch != C.NUL) data) = String.mk data) ↔
        List.takeWhile (fun ch => ch != C.NUL) data = data :=
      ⟨fun h => congrArg String.data h, fun h => congrArg String.mk h⟩
    simp only [C.strOf, C.CString]
    rw [hmk, takeWhile_eq_self]
    constructor
    · intro h hmem
      simpa using h C.NUL hmem
    · intro h x hx
      have hne : x ≠ C.NUL := fun he => h (he ▸ hx)
      simpa using hne

/-- C29 (amended): on a valid `credDef`, the first engine call of
`NewRevocationRegistryDefinition` is the create call; its issuance type is null exactly
when `issuanceType` is the empty string and its tails directory is null exactly when
`tailsDirPath` is the empty string, each whatever the other is; a non-empty value goes out
as the block `C.CString` makes of it, which the engine reads as the value itself exactly
when the value holds no NUL byte; `maxCredNum` goes out as it is, and `originDid`, `tag`
and `revRegType` go out as their `C.CString` blocks. -/
theorem NewRevocationRegistryDefinition_empty_is_null {σ : Type} (eng : Engine σ)
    (w : World σ) (originDid : String) (credDef : Ptr) (tag revRegType issuanceType : String)
    (maxCredNum : Int) (tailsDirPath : String) (cd : Object)
    (hc : w.lookup credDef = some cd) :
    ∃ (issuance tails : Option String) (rest : List Call),
      (NewRevocationRegistryDefinition eng originDid credDef tag revRegType issuanceType
        maxCredNum tailsDirPath w).2.trace =
        w.trace ++ .credx_create_revocation_registry (C.CString originDid) cd.handle
          (C.CString tag) (C.CString revRegType) issuance maxCredNum tails :: rest ∧
      (issuance = none ↔ issuanceType = "") ∧
      (tails = none ↔ tailsDirPath = "") ∧
      (issuanceType ≠ "" → issuance = some (C.CString issuanceType) ∧
        (C.strOf (C.CString issuanceType) = issuanceType ↔ C.NUL ∉ issuanceType.data)) ∧
      (tailsDirPath ≠ "" → tails = some (C.CString tailsDirPath) ∧
        (C.strOf (C.CString tailsDirPath) = tailsDirPath ↔ C.NUL ∉ tailsDirPath.data)) := by
  have h := NewRevocationRegistryDefinition_eq eng w originDid credDef tag revRegType
    issuanceType maxCredNum tailsDirPath cd hc
  have htrace : ∃ rest, (NewRevocationRegistryDefinition eng originDid credDef tag revRegType
      issuanceType maxCredNum tailsDirPath w).2.trace =
      w.trace ++ registryCall originDid cd tag revRegType issuanceType maxCredNum
        tailsDirPath :: rest := by
    by_cases hcode : (eng w.engine (registryCall originDid cd tag revRegType issuanceType
        maxCredNum tailsDirPath)).1.code = 0
    · rw [if_neg (not_not.mpr hcode)] at h
      exact ⟨[], by rw [h]⟩
    · rw [if_pos hcode] at h
      exact ⟨[.credx_get_current_error, .credx_string_free none], by rw [h]⟩
  obtain ⟨rest, hrest⟩ := htrace
  refine ⟨if issuanceType = "" then none else some issuanceType,
    if tailsDirPath = "" then none else some tailsDirPath, rest, hrest, ?_, ?_, ?_, ?_⟩
  · by_cases h1 : issuanceType = "" <;> simp [h1]
  · by_cases h1 : tailsDirPath = "" <;> simp [h1]
  · intro h1
    rw [if_neg h1]
    exact ⟨rfl, C.strOf_eq_iff issuanceType⟩
  · intro h1
    rw [if_neg h1]
    exact ⟨rfl, C.strOf_eq_iff tailsDirPath⟩

/-- Witness for C29: an empty issuance type next to a tails directory, with the object at
address `1` of `world0` as credential definition and an engine that accepts the call. -/
theorem NewRevocationRegistryDefinition_empty_is_null_witness :
    ∃ (issuance tails : Option String) (rest : List Call),
      (NewRevocationRegistryDefinition acceptAll "did" (some 1) "tag" "CL_ACCUM" "" 100
        "tails" world0).2.trace =
        world0.trace ++ .credx_create_revocation_registry (C.CString "did") 2
          (C.CString "tag") (C.CString "CL_ACCUM") issuance 100 tails :: rest ∧
      (issuance = none ↔ "" = "") ∧
      (tails = none ↔ "tails" = "") ∧
      ("" ≠ "" → issuance = some (C.CString "") ∧
        (C.strOf (C.CString "") = "" ↔ C.NUL ∉ "".data)) ∧
      ("tails" ≠ "" → tails = some (C.CString "tails") ∧
        (C.strOf (C.CString "tails") = "tails" ↔ C.NUL ∉ "tails".data)) :=
  NewRevocationRegistryDefinition_empty_is_null acceptAll world0 "did" (some 1) "tag"
    "CL_ACCUM" "" 100 "tails" ⟨2, false⟩ rfl

/-- C29 (counterexample): an issuance type with a NUL byte in the middle and a tails
directory that is one NUL byte, with the object at address `1` of `world0` as credential
definition.  Both values are non-empty, so both go out as non-null pointers; the engine
reads the issuance type cut at the NUL byte and the tails directory as the empty string:
neither is passed verbatim. -/
theorem NewRevocationRegistryDefinition_cuts_at_NUL :
    (NewRevocationRegistryDefinition acceptAll "did" (some 1) "tag" "CL_ACCUM"
      ⟨['a', C.NUL, 'b']⟩ 100 ⟨[C.NUL]⟩ world0).2.trace =
      world0.trace ++ [.credx_create_revocation_registry (C.CString "did") 2
        (C.CString "tag") (C.CString "CL_ACCUM") (some (C.CString ⟨['a', C.NUL, 'b']⟩)) 100
        (some (C.CString ⟨[C.NUL]⟩))] ∧
    C.strOf (C.CString ⟨['a', C.NUL, 'b']⟩) = "a" ∧
    C.strOf (C.CString ⟨['a', C.NUL, 'b']⟩) ≠ ⟨['a', C.NUL, 'b']⟩ ∧
    (⟨[C.NUL]⟩ : String) ≠ "" ∧
    C.strOf (C.CString ⟨[C.NUL]⟩) = "" := by
  refine ⟨rfl, by decide, by decide, by decide, by decide⟩

/-! ## The bytes that cross the boundary -/

/-- Each `Load…FromJSON` of `domainTypes` is the shared text on an engine function that
takes the buffer as its argument. -/
theorem domainTypes_load_call {σ : Type} (eng : Engine σ) (t : DomainType σ)
    (ht : t ∈ domainTypes eng) :
    ∃ (call : ByteBuffer → Call) (context name : String),
      t.load = loadShape eng call context name ∧
      (∀ buf, (call buf).jsonArg = some buf) := by
  simp only [domainTypes, List.mem_cons, List.mem_singleton, List.not_mem_nil,
    or_false] at ht
  rcases ht with h | h | h | h | h | h | h | h | h | h | h | h | h | h <;> subst h
  · exact ⟨.credx_schema_from_json,
      "Couldn't create schema from json, recevied code ",
      "Schema", rfl, fun _ => rfl⟩
  · exact ⟨.credx_credential_definition_private_from_json,
      "Couldn't create cred def private from json, recevied code ",
      "CredentialDefinitionPrivate", rfl, fun _ => rfl⟩
  · exact ⟨.credx_key_correctness_proof_from_json,
      "Couldn't create cred def private from json, recevied code ",
      "KeyCorrectnessProof", rfl, fun _ => rfl⟩
  · exact ⟨.credx_credential_definition_from_json,
      "Couldn't create cred def from json, recevied code ",
      "CredentialDefinition", rfl, fun _ => rfl⟩
  · exact ⟨.credx_credential_offer_from_json,
      "Couldn't create CredentialOffer from json, recevied code ",
      "CredentialOffer", rfl, fun _ => rfl⟩
  · exact ⟨.credx_credential_request_from_json,
      "Couldn't create CredentialRequest from json, recevied code ",
      "CredentialRequest", rfl, fun _ => rfl⟩
  · exact ⟨.credx_credential_request_metadata_from_json,
      "Couldn't create CredentialRequestMetadata from json, recevied code ",
      "CredentialRequestMetadata", rfl, fun _ => rfl⟩
  · exact ⟨.credx_credential_from_json,
      "Couldn't create Credential from json, recevied code ",
      "Credential", rfl, fun _ => rfl⟩
  · exact ⟨.credx_master_secret_from_json,
      "Couldn't create master secret from json, recevied code ",
      "MasterSecret", rfl, fun _ => rfl⟩
  · exact ⟨.credx_presentation_from_json,
      "Couldn't create Presentation from json, recevied code ",
      "Presentation", rfl, fun _ => rfl⟩
  · exact ⟨.credx_revocation_registry_definition_from_json,
      "Couldn't create RevocationRegistryDefinition from json, recevied code ",
      "RevocationRegistryDefinition", rfl, fun _ => rfl⟩
  · exact ⟨.credx_revocation_registry_definition_private_from_json,
      "Couldn't create RevocationRegistryDefinitionPrivate from json, recevied code ",
      "RevocationRegistryDefinitionPrivate", rfl, fun _ => rfl⟩
  · exact ⟨.credx_revocation_registry_from_json,
      "Couldn't create RevocationRegistry from json, recevied code ",
      "RevocationRegistry", rfl, fun _ => rfl⟩
  · exact ⟨.credx_revocation_registry_delta_from_json,
      "Couldn't create RevocationRegistryDelta from json, recevied code ",
      "RevocationRegistryDelta", rfl, fun _ => rfl⟩

/-- The calls `handleLibError` makes are no load calls. -/
theorem loadRun_trace {σ : Type} (eng : Engine σ) (call : ByteBuffer → Call) (context : String)
    (json : RawMessage) (w : World σ) :
    ∃ rest, (loadRun eng call context json w).2.trace =
        w.trace ++ call { len := json.length, value := json } :: rest ∧
      ∀ c ∈ rest, c.jsonArg = none := by
  by_cases hcode : (eng w.engine (call { len := json.length, value := json })).1.code = 0
  · refine ⟨[], ?_, by simp⟩
    simp only [loadRun, hcode, ne_eq, not_true_eq_false, if_false]
  · refine ⟨[.credx_get_current_error, .credx_string_free none], ?_, ?_⟩
    · simp only [loadRun, hcode, ne_eq, not_false_eq_true, if_true]
    · intro c hc
      simp only [List.mem_cons, List.mem_singleton, List.not_mem_nil, or_false] at hc
      rcases hc with hc | hc <;> subst hc <;> rfl

/-- The run of `PresentationRequestFromJSON` on a non-empty input. -/
theorem PresentationRequestFromJSON_trace {σ : Type} (eng : Engine σ) (json : RawMessage)
    (w : World σ) (hne : json ≠ []) :
    ∃ rest, (PresentationRequestFromJSON eng json w).2.trace =
        w.trace ++ .credx_presentation_request_from_json { len := json.length, value := json }
          :: rest ∧
      ∀ c ∈ rest, c.jsonArg = none := by
  cases json with
  | nil => exact absurd rfl hne
  | cons b bs =>
    by_cases hcode : (eng w.engine (.credx_presentation_request_from_json
        { len := bs.length + 1, value := b :: bs })).1.code = 0
    · refine ⟨[], ?_, by simp⟩
      simp [PresentationRequestFromJSON, ByteBufferFromRawMessage, bind, Go.bind, ffi, hcode,
        alloc, pure, Go.pure]
    · refine ⟨[.credx_get_current_error, .credx_string_free none], ?_, ?_⟩
      · simp [PresentationRequestFromJSON, ByteBufferFromRawMessage, bind, Go.bind, ffi, hcode,
          handleLibError_eq, pure, Go.pure]
      · intro c hc
        simp only [List.mem_cons, List.mem_singleton, List.not_mem_nil, or_false] at hc
        rcases hc with hc | hc <;> subst hc <;> rfl

/-- On an engine that answers with `n` bytes, where `n` taken modulo `2^32` is below `2^31`,
`genericToJSON` returns as many bytes as `n` modulo `2^32` says. -/
theorem genericToJSON_bufferEngine (n : Nat) (hn : n % 2 ^ 32 < 2 ^ 31) (w : World Unit)
    (p : Ptr) (o : Object) (name : String) (hp : w.lookup p = some o) :
    (genericToJSON (bufferEngine n) { getHandle := Schema.getHandle p, typeName := name } w).1
      = .ret (List.replicate (n % 2 ^ 32) 7, none) := by
  have hint : C.int n = ((n % 2 ^ 32 : Nat) : Int) := by simp only [C.int, hn, if_true]
  have hle : n % 2 ^ 32 ≤ n := Nat.mod_le _ _
  rw [genericToJSON_eq (bufferEngine n) w p o name hp]
  simp only [bufferEngine, ne_eq, not_true_eq_false, if_false, Option.getD_some, hint,
    Int.toNat_ofNat, List.take_replicate]
  have hnn : ¬ ((n % 2 ^ 32 : Nat) : Int) < 0 := by omega
  rw [if_neg hnn, Nat.min_eq_left hle]

/-- C28 (amended): every `Load…FromJSON` on a non-empty `json` makes one load call, which
hands the engine a buffer of length `len(json)` holding the bytes of `json`; `ToJSON` on a
valid receiver returns exactly the first `buf.len` bytes of the engine's buffer and a nil
error when the engine's code is `0` and `buf.len` is below `2^31`, and no bytes and a
non-nil error when the code is not `0`. -/
theorem serialized_forms_cross_unchanged {σ : Type} (eng : Engine σ) :
    (∀ load ∈ loaders eng, ∀ (json : RawMessage) (w : World σ), json ≠ [] →
      ∃ (call : Call) (rest : List Call),
        (load json w).2.trace = w.trace ++ call :: rest ∧
        call.jsonArg = some { len := json.length, value := json } ∧
        ∀ c ∈ rest, c.jsonArg = none) ∧
    (∀ t ∈ domainTypes eng, ∀ (p : Ptr) (o : Object) (w : World σ), w.lookup p = some o →
      ((eng w.engine (.credx_object_get_json o.handle)).1.code = 0 →
        ((eng w.engine (.credx_object_get_json o.handle)).1.buffer.getD
          (NewByteBuffer 4096)).len < 2 ^ 31 →
        (t.toJSON p w).1 = .ret
          (((eng w.engine (.credx_object_get_json o.handle)).1.buffer.getD
              (NewByteBuffer 4096)).value.take
            ((eng w.engine (.credx_object_get_json o.handle)).1.buffer.getD
              (NewByteBuffer 4096)).len, none)) ∧
      ((eng w.engine (.credx_object_get_json o.handle)).1.code ≠ 0 →
        ∃ msg, (t.toJSON p w).1 = .ret ([], some msg))) := by
  constructor
  · intro load hload json w hne
    simp only [loaders, List.mem_cons, List.mem_map] at hload
    rcases hload with h | ⟨t, ht, h⟩
    · subst h
      obtain ⟨rest, h1, h2⟩ := PresentationRequestFromJSON_trace eng json w hne
      exact ⟨_, rest, h1, rfl, h2⟩
    · obtain ⟨call, context, name, hshape, harg⟩ := domainTypes_load_call eng t ht
      obtain ⟨rest, h1, h2⟩ := loadRun_trace eng call context json w
      rw [← h, hshape, loadShape_eq eng call context name json w hne]
      exact ⟨_, rest, h1, harg _, h2⟩
  · intro t ht p o w hp
    obtain ⟨call, context, name, typeName, _, hjson, _⟩ := domainTypes_shape eng t ht
    have h := genericToJSON_eq eng w p o typeName hp
    rw [hjson p]
    constructor
    · intro hcode hlen
      have hint := C.int_of_lt _ hlen
      have hnn : ¬ C.int (((eng w.engine (.credx_object_get_json o.handle)).1.buffer.getD
          (NewByteBuffer 4096)).len) < 0 := by rw [hint]; omega
      rw [h, if_neg (not_not.mpr hcode), if_neg hnn, hint, Int.toNat_ofNat]
    · intro hcode
      rw [h, if_pos hcode]
      exact ⟨_, rfl⟩

/-- Fewer bytes than the buffer holds are not the bytes of the buffer. -/
theorem replicate_ne_take (k n : Nat) (h : k < n) :
    (List.replicate k 7 : List Nat) ≠ (List.replicate n 7).take n := by
  intro he
  have hl := congrArg List.length he
  rw [List.length_take, List.length_replicate, List.length_replicate, Nat.min_self] at hl
  omega

/-- C28 (counterexample): the engine answers `credx_object_get_json` with code `0` and a
buffer of `2^32 + 5` bytes; `Schema.ToJSON` returns 5 bytes and a nil error, which are not
the first `2^32 + 5` bytes of the buffer. -/
theorem Schema.ToJSON_truncates_long_buffer :
    (bufferEngine (2 ^ 32 + 5) world0.engine (.credx_object_get_json 1)).1.code = 0 ∧
    (bufferEngine (2 ^ 32 + 5) world0.engine (.credx_object_get_json 1)).1.buffer =
      some { len := 2 ^ 32 + 5, value := List.replicate (2 ^ 32 + 5) 7 } ∧
    (Schema.ToJSON (bufferEngine (2 ^ 32 + 5)) (some 0) world0).1 =
      .ret (List.replicate 5 7, none) ∧
    (List.replicate 5 7 : List Nat) ≠ (List.replicate (2 ^ 32 + 5) 7).take (2 ^ 32 + 5) :=
  ⟨rfl, rfl, genericToJSON_bufferEngine (2 ^ 32 + 5) (by decide) world0 (some 0) ⟨1, false⟩
    "*types.Schema" rfl, replicate_ne_take 5 (2 ^ 32 + 5) (by decide)⟩

/-! ## Errors report the failed engine call -/

theorem runTrace_append {σ : Type} (eng : Engine σ) (e : σ) (xs ys : List Call) :
    runTrace eng e (xs ++ ys) = runTrace eng (runTrace eng e xs) ys := by
  simp only [runTrace, List.foldl_append]

theorem traced_pure {σ α : Type} (eng : Engine σ) (a : α) : Traced eng (Go.pure a : Go σ α) :=
  fun _ => ⟨[], by simp [Go.pure], rfl⟩

theorem traced_quiet {σ α : Type} (eng : Engine σ) {m : Go σ α} (hm : Quiet m) :
    Traced eng m := by
  intro w
  rcases hm w with ⟨a, ha⟩ | ⟨msg, hmsg⟩
  · exact ⟨[], by simp [ha], by rw [ha]; rfl⟩
  · exact ⟨[], by simp [hmsg], by rw [hmsg]; rfl⟩

theorem traced_ffi {σ : Type} (eng : Engine σ) (c : Call) : Traced eng (ffi eng c) :=
  fun _ => ⟨[c], rfl, rfl⟩

theorem traced_bind {σ α β : Type} (eng : Engine σ) {m : Go σ α} {f : α → Go σ β}
    (hm : Traced eng m) (hf : ∀ a, Traced eng (f a)) : Traced eng (Go.bind m f) := by
  intro w
  obtain ⟨c1, ht1, he1⟩ := hm w
  rcases hmw : m w with ⟨o, w1⟩
  rw [hmw] at ht1 he1
  cases o with
  | ret a =>
    obtain ⟨c2, ht2, he2⟩ := hf a w1
    refine ⟨c1 ++ c2, ?_, ?_⟩
    · simp only [Go.bind, hmw, ht2]
      rw [show w1.trace = w.trace ++ c1 from ht1, List.append_assoc]
    · simp only [Go.bind, hmw, he2]
      rw [show w1.engine = runTrace eng w.engine c1 from he1, runTrace_append]
  | panic msg => exact ⟨c1, by simp only [Go.bind, hmw]; exact ht1,
      by simp only [Go.bind, hmw]; exact he1⟩
  | fatal msg => exact ⟨c1, by simp only [Go.bind, hmw]; exact ht1,
      by simp only [Go.bind, hmw]; exact he1⟩
  | undefined msg => exact ⟨c1, by simp only [Go.bind, hmw]; exact ht1,
      by simp only [Go.bind, hmw]; exact he1⟩

theorem traced_defer {σ α : Type} (eng : Engine σ) {d : Go σ Unit} {body : Go σ α}
    (hd : Traced eng d) (hb : Traced eng body) : Traced eng (Go.defer d body) := by
  intro w
  obtain ⟨c1, ht1, he1⟩ := hb w
  rcases hbw : body w with ⟨o, w1⟩
  rw [hbw] at ht1 he1
  obtain ⟨c2, ht2, he2⟩ := hd w1
  have key : (d w1).2.trace = w.trace ++ (c1 ++ c2) ∧
      (d w1).2.engine = runTrace eng w.engine (c1 ++ c2) := by
    constructor
    · rw [ht2, show w1.trace = w.trace ++ c1 from ht1, List.append_assoc]
    · rw [he2, show w1.engine = runTrace eng w.engine c1 from he1, runTrace_append]
  cases o with
  | fatal msg => exact ⟨c1, by simp only [Go.defer, hbw]; exact ht1,
      by simp only [Go.defer, hbw]; exact he1⟩
  | undefined msg => exact ⟨c1, by simp only [Go.defer, hbw]; exact ht1,
      by simp only [Go.defer, hbw]; exact he1⟩
  | ret a =>
    refine ⟨c1 ++ c2, ?_, ?_⟩
    · simp only [Go.defer, hbw]
      rcases hdw : d w1 with ⟨o2, w2⟩
      rw [hdw] at key
      cases o2 <;> exact key.1
    · simp only [Go.defer, hbw]
      rcases hdw : d w1 with ⟨o2, w2⟩
      rw [hdw] at key
      cases o2 <;> exact key.2
  | panic msg =>
    refine ⟨c1 ++ c2, ?_, ?_⟩
    · simp only [Go.defer, hbw]
      rcases hdw : d w1 with ⟨o2, w2⟩
      rw [hdw] at key
      cases o2 <;> exact key.1
    · simp only [Go.defer, hbw]
      rcases hdw : d w1 with ⟨o2, w2⟩
      rw [hdw] at key
      cases o2 <;> exact key.2

theorem traced_handleLibError {σ : Type} (eng : Engine σ) (context : String) :
    Traced eng (handleLibError eng context) := by
  intro w
  rw [handleLibError_eq]
  exact ⟨[.credx_get_current_error, .credx_string_free none], rfl, rfl⟩

theorem traced_CloseStrBuffer {σ : Type} (eng : Engine σ) (buffer : Option String) :
    Traced eng (CloseStrBuffer eng buffer) :=
  fun _ => ⟨[.credx_string_free buffer], rfl, rfl⟩

theorem noError_pure {σ α : Type} (a : α) (err : α → GoError) (h : err a = none) :
    NoError (Go.pure a : Go σ α) err := by
  intro w b w1 hb
  simp only [Go.pure, Prod.mk.injEq, Outcome.ret.injEq] at hb
  rw [← hb.1]
  exact h

theorem noError_bind {σ α β : Type} (m : Go σ β) (f : β → Go σ α) (err : α → GoError)
    (hf : ∀ b, NoError (f b) err) : NoError (Go.bind m f) err := by
  intro w a w1 ha
  simp only [Go.bind] at ha
  rcases hm : m w with ⟨o, w2⟩
  rw [hm] at ha
  cases o with
  | ret b => exact hf b w2 a w1 ha
  | panic msg => simp at ha
  | fatal msg => simp at ha
  | undefined msg => simp at ha

/-- The shape every function of the package has after its preparations: one engine call;
on a non-zero code the error of `handleLibError` on a context that holds the code, else a
continuation that returns no error. -/
theorem wraps_call {σ α : Type} (eng : Engine σ) (c : Call) (ctx : Int → String)
    (k : GoError → α) (succ : Reply → Go σ α) (err : α → GoError)
    (hctx : ∀ n, ∃ pre post, ctx n = pre ++ fmtD n ++ post)
    (hk : ∀ e, err (k e) = e)
    (hsucc : ∀ rep, NoError (succ rep) err) :
    Wraps eng (Go.bind (ffi eng c) fun rep =>
      if rep.code ≠ 0 then Go.bind (handleLibError eng (ctx rep.code)) (fun e => Go.pure (k e))
      else succ rep) err := by
  intro w a w1 text hrun herr
  by_cases hcode : (eng w.engine c).1.code = 0
  · simp only [Go.bind, ffi, hcode, ne_eq, not_true_eq_false, if_false] at hrun
    rw [hsucc _ _ a w1 hrun] at herr
    simp at herr
  · simp only [Go.bind, ffi, hcode, ne_eq, not_false_eq_true, if_true, handleLibError_eq,
      Go.pure, Prod.mk.injEq, Outcome.ret.injEq] at hrun
    obtain ⟨pre, post, hpp⟩ := hctx (eng w.engine c).1.code
    rw [← hrun.1, hk] at herr
    refine ⟨[], [.credx_string_free none], c, pre, post, ?_, hcode, ?_⟩
    · rw [← hrun.2]
      simp
    · show text = errorText eng (eng w.engine c).2
        (pre ++ fmtD (eng w.engine c).1.code ++ post)
      rw [← hpp]
      exact (Option.some.inj herr).symm

theorem wraps_after_quiet {σ α β : Type} (eng : Engine σ) {m : Go σ β} {f : β → Go σ α}
    (err : α → GoError) (hm : Quiet m) (hf : ∀ b, Wraps eng (f b) err) :
    Wraps eng (Go.bind m f) err := by
  intro w a w1 text hrun herr
  rcases hm w with ⟨b, hb⟩ | ⟨msg, hmsg⟩
  · simp only [Go.bind, hb] at hrun
    exact hf b w a w1 text hrun herr
  · simp [Go.bind, hmsg] at hrun

theorem wraps_after_silent {σ α β : Type} (eng : Engine σ) {m : Go σ β} {f : β → Go σ α}
    (err : α → GoError) (hm : Silent m) (hf : ∀ b, Wraps eng (f b) err) :
    Wraps eng (Go.bind m f) err := by
  intro w a w1 text hrun herr
  rcases hm w with ⟨b, hb⟩ | ⟨msg, hmsg⟩ | ⟨msg, hmsg⟩
  · simp only [Go.bind, hb] at hrun
    exact hf b w a w1 text hrun herr
  · simp [Go.bind, hmsg] at hrun
  · simp [Go.bind, hmsg] at hrun

theorem wraps_deferred {σ α : Type} (eng : Engine σ) {d : Go σ Unit} {body : Go σ α}
    (err : α → GoError) (hd : Traced eng d) (hb : Wraps eng body err) :
    Wraps eng (Go.defer d body) err := by
  intro w a w1 text hrun herr
  simp only [Go.defer] at hrun
  rcases hbw : body w with ⟨o, w2⟩
  rw [hbw] at hrun
  obtain ⟨calls, ht, _⟩ := hd w2
  cases o with
  | fatal msg => simp at hrun
  | undefined msg => simp at hrun
  | panic msg =>
    rcases hdw : d w2 with ⟨o2, w3⟩
    cases o2 <;> simp [hdw] at hrun
  | ret b =>
    rcases hdw : d w2 with ⟨o2, w3⟩
    rw [hdw] at ht
    cases o2 with
    | panic msg => simp [hdw] at hrun
    | fatal msg => simp [hdw] at hrun
    | undefined msg => simp [hdw] at hrun
    | ret u =>
      simp only [hdw, Prod.mk.injEq, Outcome.ret.injEq] at hrun
      obtain ⟨before, after, call, pre, post, h1, h2, h3⟩ := hb w b w2 text hbw
        (by rw [hrun.1]; exact herr)
      refine ⟨before, after ++ calls, call, pre, post, ?_, h2, h3⟩
      rw [← hrun.2, show w3.trace = w2.trace ++ calls from ht, h1]
      simp

theorem reports_after {σ : Type} (eng : Engine σ) (w w1 w2 : World σ) (calls : List Call)
    (text : String) (ht : w1.trace = w.trace ++ calls)
    (he : w1.engine = runTrace eng w.engine calls) (h : Reports eng w1 w2 text) :
    Reports eng w w2 text := by
  obtain ⟨before, after, call, pre, post, h1, h2, h3⟩ := h
  refine ⟨calls ++ before, after, call, pre, post, ?_, ?_, ?_⟩
  · rw [h1, ht]
    simp
  · rw [runTrace_append, ← he]
    exact h2
  · rw [runTrace_append, ← he]
    exact h3

theorem ctx_plain (pre : String) : ∀ n : Int, ∃ p q, pre ++ fmtD n = p ++ fmtD n ++ q :=
  fun _ => ⟨pre, "", (String.append_empty _).symm⟩

theorem ctx_dot (pre post : String) :
    ∀ n : Int, ∃ p q, pre ++ fmtD n ++ post = p ++ fmtD n ++ q :=
  fun _ => ⟨pre, post, rfl⟩

theorem wraps_propagate {σ α γ : Type} (eng : Engine σ) {m : Go σ (γ × GoError)}
    {rest : γ × GoError → Go σ α} (k : GoError → α) (err : α → GoError)
    (hk : ∀ e, err (k e) = e) (hm : Wraps eng m fun r => r.2) (ht : Traced eng m)
    (hrest : ∀ r, Wraps eng (rest r) err) :
    Wraps eng (Go.bind m fun r => if r.2 ≠ none then Go.pure (k r.2) else rest r) err := by
  intro w a w1 text hrun herr
  simp only [Go.bind] at hrun
  rcases hg : m w with ⟨o, w2⟩
  rw [hg] at hrun
  cases o with
  | panic msg => simp at hrun
  | fatal msg => simp at hrun
  | undefined msg => simp at hrun
  | ret r =>
    by_cases hr : r.2 = none
    · simp only [hr, ne_eq, not_true_eq_false, if_false] at hrun
      obtain ⟨calls, htr, hen⟩ := ht w
      rw [hg] at htr hen
      exact reports_after eng w w2 w1 calls text htr hen (hrest r w2 a w1 text hrun herr)
    · simp only [hr, ne_eq, not_false_eq_true, if_true, Go.pure, Prod.mk.injEq,
        Outcome.ret.injEq] at hrun
      rw [← hrun.1, hk] at herr
      rw [← hrun.2]
      exact hm w r w2 text hg herr

theorem wraps_NewMasterSecret {σ : Type} (eng : Engine σ) :
    Wraps eng (NewMasterSecret eng) fun r => r.2 := by
  unfold NewMasterSecret
  simp only [Bind.bind, Pure.pure]
  exact wraps_call eng _ (fun n => "Couldn't create MasterSecret, received code " ++ fmtD n)
    (fun e => (none, e)) _ _ (ctx_plain _) (fun _ => rfl)
    (fun _ => noError_bind _ _ _ fun _ => noError_bind _ _ _ fun _ => noError_pure _ _ rfl)

theorem wraps_RevokeCredential {σ : Type} (eng : Engine σ) (s d : Ptr) (idx : Int)
    (path : String) : Wraps eng (RevocationRegistry.RevokeCredential eng s d idx path)
      fun r => r.2 := by
  unfold RevocationRegistry.RevokeCredential
  simp only [Bind.bind, Pure.pure]
  refine wraps_after_quiet eng _ (Quiet.of_deref _) fun _ => ?_
  refine wraps_after_quiet eng _ (Quiet.of_deref _) fun _ => ?_
  exact wraps_call eng _
    (fun n => "Couldn't update revocation registry, received code " ++ fmtD n)
    (fun e => (none, e)) _ _ (ctx_plain _) (fun _ => rfl)
    (fun _ => noError_bind _ _ _ fun _ => noError_bind _ _ _ fun _ =>
      noError_bind _ _ _ fun _ => noError_pure _ _ rfl)

theorem wraps_getAttr {σ : Type} (eng : Engine σ) (s : Ptr) (attrName : String) :
    Wraps eng (RevocationRegistryDefinition.getAttr eng s attrName) fun r => r.2 := by
  unfold RevocationRegistryDefinition.getAttr
  simp only [Bind.bind, Pure.pure]
  refine wraps_deferred eng _ (traced_CloseStrBuffer eng none) ?_
  refine wraps_after_quiet eng _ (Quiet.of_deref _) fun _ => ?_
  exact wraps_call eng _
    (fun n => "Couldn't get attribute " ++ attrName ++ ", received code " ++ fmtD n)
    (fun e => ("", e)) _ _ (ctx_plain _) (fun _ => rfl) (fun _ => noError_pure _ _ rfl)

theorem traced_getAttr {σ : Type} (eng : Engine σ) (s : Ptr) (attrName : String) :
    Traced eng (RevocationRegistryDefinition.getAttr eng s attrName) := by
  unfold RevocationRegistryDefinition.getAttr
  simp only [Bind.bind, Pure.pure]
  refine traced_defer eng (traced_CloseStrBuffer eng none) ?_
  refine traced_bind eng (traced_quiet eng (Quiet.of_deref _)) fun _ => ?_
  refine traced_bind eng (traced_ffi eng _) fun rep => ?_
  by_cases h : rep.code = 0
  · simp only [h, ne_eq, not_true_eq_false, if_false]
    exact traced_pure eng _
  · simp only [h, ne_eq, not_false_eq_true, if_true]
    exact traced_bind eng (traced_handleLibError eng _) fun _ => traced_pure eng _

theorem wraps_NewCredentialRevocationState {σ : Type} (eng : Engine σ)
    (registryDef registryDelta : Ptr) (credRevInfo : Option CredentialRevocationInfo)
    (timestamp : Int) :
    Wraps eng (NewCredentialRevocationState eng registryDef registryDelta credRevInfo
      timestamp) fun r => r.2 := by
  cases credRevInfo with
  | none =>
    unfold NewCredentialRevocationState
    simp only [Bind.bind, Pure.pure]
    refine wraps_propagate eng (fun e => (none, e)) (fun r : Ptr × GoError => r.2)
      (fun _ => rfl) (wraps_getAttr eng registryDef "tails_location")
      (traced_getAttr eng registryDef "tails_location") fun tails => ?_
    refine wraps_after_quiet eng _ (Quiet.of_deref _) fun _ => ?_
    refine wraps_after_quiet eng _ (Quiet.of_deref _) fun _ => ?_
    intro w a w1 text hrun
    simp [Go.bind, panic] at hrun
  | some info =>
    unfold NewCredentialRevocationState
    simp only [Bind.bind, Pure.pure]
    refine wraps_propagate eng (fun e => (none, e)) (fun r : Ptr × GoError => r.2)
      (fun _ => rfl) (wraps_getAttr eng registryDef "tails_location")
      (traced_getAttr eng registryDef "tails_location") fun tails => ?_
    refine wraps_after_quiet eng _ (Quiet.of_deref _) fun _ => ?_
    refine wraps_after_quiet eng _ (Quiet.of_deref _) fun _ => ?_
    refine wraps_after_quiet eng _ (Quiet.of_pure _) fun _ => ?_
    exact wraps_call eng _
      (fun n => "Couldn't create credential revocation state, received code " ++ fmtD n)
      (fun e => (none, e)) _ _ (ctx_plain _) (fun _ => rfl)
      (fun _ => noError_bind _ _ _ fun _ => noError_bind _ _ _ fun _ => noError_pure _ _ rfl)

theorem quiet_getHandle {σ : Type} (p : Ptr) : Quiet (Schema.getHandle p : Go σ ObjectHandle) := by
  unfold Schema.getHandle
  simp only [Bind.bind, Pure.pure]
  exact Quiet.of_bind (Quiet.of_deref _) fun _ => Quiet.of_pure _

theorem wraps_genericToJSON {σ : Type} (eng : Engine σ) (p : Ptr) (typeName : String) :
    Wraps eng (genericToJSON eng { getHandle := Schema.getHandle p, typeName := typeName })
      fun r => r.2 := by
  unfold genericToJSON
  simp only [Bind.bind, Pure.pure]
  refine wraps_deferred eng _ (fun _ => ⟨[.credx_buffer_free (NewByteBuffer 4096)], rfl, rfl⟩) ?_
  refine wraps_after_quiet eng _ (quiet_getHandle p) fun _ => ?_
  exact wraps_call eng _
    (fun n => "Couldn't get " ++ typeName ++ " as json, received code " ++ fmtD n)
    (fun e => ([], e)) _ _ (ctx_plain _) (fun _ => rfl)
    (fun _ => noError_bind _ _ _ fun _ => noError_pure _ _ rfl)

theorem quiet_ByteBufferFromRawMessage {σ : Type} (json : RawMessage) :
    Quiet (ByteBufferFromRawMessage json : Go σ ByteBuffer) := by
  cases json with
  | nil => exact fun w => Or.inr ⟨_, rfl⟩
  | cons b bs => exact fun w => Or.inl ⟨_, rfl⟩

theorem wraps_GenerateNonce {σ : Type} (eng : Engine σ) :
    Wraps eng (GenerateNonce eng) fun r => r.2 := by
  unfold GenerateNonce
  simp only [Bind.bind, Pure.pure]
  refine wraps_deferred eng _ (traced_CloseStrBuffer eng none) ?_
  exact wraps_call eng _ (fun n => "Couldn't encode raw attributes, received code " ++ fmtD n)
    (fun e => (none, e)) _ _ (ctx_plain _) (fun _ => rfl) (fun _ => noError_pure _ _ rfl)

theorem wraps_NewCredential {σ : Type} (eng : Engine σ)
    (credDef credDefPvt credOffer credRequest : Ptr)
    (credentialRevocationInfo : Option CredentialRevocationInfo)
    (attrNames attrValues attrEncoded : List String) :
    Wraps eng (NewCredential eng credDef credDefPvt credOffer credRequest
      credentialRevocationInfo attrNames attrValues attrEncoded) fun r => r.2.2.2 := by
  unfold NewCredential
  simp only [Bind.bind, Pure.pure]
  refine wraps_after_silent eng _ (silent_NewFfiStrList _) fun _ => ?_
  refine wraps_after_silent eng _ (silent_NewFfiStrList _) fun _ => ?_
  refine wraps_after_silent eng _ (silent_NewFfiStrList _) fun _ => ?_
  refine wraps_after_silent eng _ (silent_ToC _) fun _ => ?_
  refine wraps_after_quiet eng _ (Quiet.of_deref _) fun _ => ?_
  refine wraps_after_quiet eng _ (Quiet.of_deref _) fun _ => ?_
  refine wraps_after_quiet eng _ (Quiet.of_deref _) fun _ => ?_
  refine wraps_after_quiet eng _ (Quiet.of_deref _) fun _ => ?_
  exact wraps_call eng _ (fun n => "couldn't create credential, received code " ++ fmtD n)
    (fun e => (none, none, none, e)) _ _ (ctx_plain _) (fun _ => rfl)
    (fun _ => noError_bind _ _ _ fun _ => noError_bind _ _ _ fun _ =>
      noError_bind _ _ _ fun _ => noError_bind _ _ _ fun _ => noError_bind _ _ _ fun _ =>
      noError_bind _ _ _ fun _ => noError_pure _ _ rfl)

theorem wraps_Process {σ : Type} (eng : Engine σ)
    (c metadata secret definition registryDefinition : Ptr) :
    Wraps eng (Credential.Process eng c metadata secret definition registryDefinition)
      fun r => r.2 := by
  unfold Credential.Process
  simp only [Bind.bind, Pure.pure]
  refine wraps_after_quiet eng _ (Quiet.of_deref _) fun _ => ?_
  refine wraps_after_quiet eng _ (Quiet.of_deref _) fun _ => ?_
  refine wraps_after_quiet eng _ (Quiet.of_deref _) fun _ => ?_
  refine wraps_after_quiet eng _ (Quiet.of_deref _) fun _ => ?_
  refine wraps_after_quiet eng _ (Quiet.of_deref _) fun _ => ?_
  exact wraps_call eng _ (fun n => "Couldn't process credential, received code " ++ fmtD n)
    (fun e => (none, e)) _ _ (ctx_plain _) (fun _ => rfl)
    (fun _ => noError_bind _ _ _ fun _ => noError_bind _ _ _ fun _ => noError_pure _ _ rfl)

theorem wraps_getCredentialAttr {σ : Type} (eng : Engine σ) (c : Ptr) (attr : String) :
    Wraps eng (Credential.getCredentialAttr eng c attr) fun r => r.2 := by
  unfold Credential.getCredentialAttr
  simp only [Bind.bind, Pure.pure]
  refine wraps_deferred eng _ (traced_CloseStrBuffer eng none) ?_
  refine wraps_after_quiet eng _ (Quiet.of_deref _) fun _ => ?_
  exact wraps_call eng _
    (fun n => "Couldn't get Credential attributes, received code " ++ fmtD n)
    (fun e => ("", e)) _ _ (ctx_plain _) (fun _ => rfl) (fun _ => noError_pure _ _ rfl)

theorem wraps_StateUpdate {σ : Type} (eng : Engine σ) (p definition delta : Ptr)
    (revRegIndex timestamp : Int) (tailsPath : String) :
    Wraps eng (CredentialRevocationState.Update eng p definition delta revRegIndex timestamp
      tailsPath) fun r => r.2 := by
  unfold CredentialRevocationState.Update
  simp only [Bind.bind, Pure.pure]
  refine wraps_after_quiet eng _ (Quiet.of_deref _) fun _ => ?_
  refine wraps_after_quiet eng _ (Quiet.of_deref _) fun _ => ?_
  refine wraps_after_quiet eng _ (Quiet.of_deref _) fun _ => ?_
  exact wraps_call eng _
    (fun n => "Couldn't create credential revocation state, received code " ++ fmtD n)
    (fun e => (none, e)) _ _ (ctx_plain _) (fun _ => rfl)
    (fun _ => noError_bind _ _ _ fun _ => noError_bind _ _ _ fun _ => noError_pure _ _ rfl)

theorem wraps_NewCredentialDefinition {σ : Type} (eng : Engine σ) (originDid : String)
    (schema : Ptr) (tag signatureType : String) (supportRevocation : Bool) :
    Wraps eng (NewCredentialDefinition eng originDid schema tag signatureType
      supportRevocation) fun r => r.2.2.2 := by
  unfold NewCredentialDefinition
  simp only [Bind.bind, Pure.pure]
  refine wraps_after_quiet eng _ (Quiet.of_deref _) fun _ => ?_
  exact wraps_call eng _
    (fun n => "Couldn't create Credential Definition, received code " ++ fmtD n)
    (fun e => (none, none, none, e)) _ _ (ctx_plain _) (fun _ => rfl)
    (fun _ => noError_bind _ _ _ fun _ => noError_bind _ _ _ fun _ =>
      noError_bind _ _ _ fun _ => noError_bind _ _ _ fun _ => noError_bind _ _ _ fun _ =>
      noError_bind _ _ _ fun _ => noError_pure _ _ rfl)

theorem wraps_getCredDefAttribute {σ : Type} (eng : Engine σ) (c : Ptr) (attr : String) :
    Wraps eng (CredentialDefinition.getCredDefAttribute eng c attr) fun r => r.2 := by
  unfold CredentialDefinition.getCredDefAttribute
  simp only [Bind.bind, Pure.pure]
  refine wraps_deferred eng _ (traced_CloseStrBuffer eng none) ?_
  refine wraps_after_quiet eng _ (Quiet.of_deref _) fun _ => ?_
  exact wraps_call eng _
    (fun n => "Couldn't get cred def attributes, received code " ++ fmtD n)
    (fun e => ("", e)) _ _ (ctx_plain _) (fun _ => rfl) (fun _ => noError_pure _ _ rfl)

theorem wraps_NewCredentialOffer {σ : Type} (eng : Engine σ) (schemaId : String)
    (credDef proof : Ptr) :
    Wraps eng (NewCredentialOffer eng schemaId credDef proof) fun r => r.2 := by
  unfold NewCredentialOffer
  simp only [Bind.bind, Pure.pure]
  refine wraps_after_quiet eng _ (Quiet.of_deref _) fun _ => ?_
  refine wraps_after_quiet eng _ (Quiet.of_deref _) fun _ => ?_
  exact wraps_call eng _
    (fun n => "Couldn't create CredentialOffer, received code " ++ fmtD n)
    (fun e => (none, e)) _ _ (ctx_plain _) (fun _ => rfl)
    (fun _ => noError_bind _ _ _ fun _ => noError_bind _ _ _ fun _ => noError_pure _ _ rfl)

theorem wraps_NewCredentialRequest {σ : Type} (eng : Engine σ) (proverDid : String)
    (credDef masterSecret : Ptr) (masterSecretId : String) (credOffer : Ptr) :
    Wraps eng (NewCredentialRequest eng proverDid credDef masterSecret masterSecretId
      credOffer) fun r => r.2.2 := by
  unfold NewCredentialRequest
  simp only [Bind.bind, Pure.pure]
  refine wraps_after_quiet eng _ (Quiet.of_deref _) fun _ => ?_
  refine wraps_after_quiet eng _ (Quiet.of_deref _) fun _ => ?_
  refine wraps_after_quiet eng _ (Quiet.of_deref _) fun _ => ?_
  exact wraps_call eng _ (fun n => "Couldn't create credReq, received code " ++ fmtD n)
    (fun e => (none, none, e)) _ _ (ctx_plain _) (fun _ => rfl)
    (fun _ => noError_bind _ _ _ fun _ => noError_bind _ _ _ fun _ =>
      noError_bind _ _ _ fun _ => noError_bind _ _ _ fun _ => noError_pure _ _ rfl)

theorem wraps_NewPresentation {σ : Type} (eng : Engine σ) (presentationRequest : Ptr)
    (credEntries : List CredentialEntry) (credProves : List CredentialProve)
    (selfAttestedAttrNames selfAttestedAttrValues : List String) (masterSecret : Ptr)
    (schemas : List Schema) (credDefs : List CredentialDefinition) :
    Wraps eng (NewPresentation eng presentationRequest credEntries credProves
      selfAttestedAttrNames selfAttestedAttrValues masterSecret schemas credDefs)
      fun r => r.2 := by
  unfold NewPresentation
  simp only [Bind.bind, Pure.pure]
  refine wraps_after_silent eng _ (silent_NewFfiListFfiCredentialEntry _) fun _ => ?_
  refine wraps_after_silent eng _ (silent_NewFfiListFfiCredentialProve _) fun _ => ?_
  refine wraps_after_silent eng _ (silent_NewFfiStrList _) fun _ => ?_
  refine wraps_after_silent eng _ (silent_NewFfiStrList _) fun _ => ?_
  refine wraps_after_silent eng _ (silent_NewFfiListObjectHandle _) fun _ => ?_
  refine wraps_after_silent eng _ (silent_NewFfiListObjectHandle _) fun _ => ?_
  refine wraps_after_quiet eng _ (Quiet.of_deref _) fun _ => ?_
  refine wraps_after_quiet eng _ (Quiet.of_deref _) fun _ => ?_
  exact wraps_call eng _ (fun n => "Couldn't create presentation, received code " ++ fmtD n)
    (fun e => (none, e)) _ _ (ctx_plain _) (fun _ => rfl)
    (fun _ => noError_bind _ _ _ fun _ => noError_bind _ _ _ fun _ => noError_pure _ _ rfl)

theorem wraps_Verify {σ : Type} (eng : Engine σ) (c presReq : Ptr) (schemas : List Schema)
    (credDefs : List CredentialDefinition) (regs : List RevocationRegistryDefinition)
    (revEntries : List RevocationEntry) :
    Wraps eng (Presentation.Verify eng c presReq schemas credDefs regs revEntries)
      fun r => r.2 := by
  unfold Presentation.Verify
  simp only [Bind.bind, Pure.pure]
  refine wraps_after_silent eng _ (silent_NewFfiListObjectHandle _) fun _ => ?_
  refine wraps_after_silent eng _ (silent_NewFfiListObjectHandle _) fun _ => ?_
  refine wraps_after_silent eng _ (silent_NewFfiListObjectHandle _) fun _ => ?_
  refine wraps_after_silent eng _ (silent_NewFfiListFfiRevocationEntry _) fun _ => ?_
  refine wraps_after_quiet eng _ (Quiet.of_deref _) fun _ => ?_
  refine wraps_after_quiet eng _ (Quiet.of_deref _) fun _ => ?_
  exact wraps_call eng _ (fun n => "Couldn't verify presentation, received code " ++ fmtD n)
    (fun e => (false, e)) _ _ (ctx_plain _) (fun _ => rfl) (fun _ => noError_pure _ _ rfl)

theorem wraps_NewRevocationRegistryDefinition {σ : Type} (eng : Engine σ)
    (originDid : String) (credDef : Ptr) (tag revRegType issuanceType : String)
    (maxCredNum : Int) (tailsDirPath : String) :
    Wraps eng (NewRevocationRegistryDefinition eng originDid credDef tag revRegType
      issuanceType maxCredNum tailsDirPath) fun r => r.2.2.2.2 := by
  unfold NewRevocationRegistryDefinition
  simp only [Bind.bind, Pure.pure]
  refine wraps_after_quiet eng _ (Quiet.of_deref _) fun _ => ?_
  exact wraps_call eng _
    (fun n => "Couldn't create Revocastion Registry, received code " ++ fmtD n)
    (fun e => (none, none, none, none, e)) _ _ (ctx_plain _) (fun _ => rfl)
    (fun _ => noError_bind _ _ _ fun _ => noError_bind _ _ _ fun _ =>
      noError_bind _ _ _ fun _ => noError_bind _ _ _ fun _ => noError_bind _ _ _ fun _ =>
      noError_bind _ _ _ fun _ => noError_bind _ _ _ fun _ => noError_bind _ _ _ fun _ =>
      noError_pure _ _ rfl)

theorem wraps_RegistryUpdate {σ : Type} (eng : Engine σ) (s revRegDefinition : Ptr)
    (issued revoked : List Int) (tailsPath : String) :
    Wraps eng (RevocationRegistry.Update eng s revRegDefinition issued revoked tailsPath)
      fun r => r.2 := by
  unfold RevocationRegistry.Update
  simp only [Bind.bind, Pure.pure]
  refine wraps_after_silent eng _ (silent_NewFfiI64 _) fun _ => ?_
  refine wraps_after_silent eng _ (silent_NewFfiI64 _) fun _ => ?_
  refine wraps_after_quiet eng _ (Quiet.of_deref _) fun _ => ?_
  refine wraps_after_quiet eng _ (Quiet.of_deref _) fun _ => ?_
  exact wraps_call eng _
    (fun n => "Couldn't update revocation registry, received code " ++ fmtD n)
    (fun e => (none, e)) _ _ (ctx_plain _) (fun _ => rfl)
    (fun _ => noError_bind _ _ _ fun _ => noError_bind _ _ _ fun _ => noError_pure _ _ rfl)

theorem wraps_UpdateWith {σ : Type} (eng : Engine σ) (s : Ptr)
    (delta : RevocationRegistryDelta) :
    Wraps eng (RevocationRegistryDelta.UpdateWith eng s delta) fun r => r.2 := by
  unfold RevocationRegistryDelta.UpdateWith
  simp only [Bind.bind, Pure.pure]
  refine wraps_after_quiet eng _ (Quiet.of_deref _) fun _ => ?_
  exact wraps_call eng _ (fun n => "Couldn't update delta, recevied code " ++ fmtD n ++ ".")
    (fun e => (none, e)) _ _ (ctx_dot _ _) (fun _ => rfl)
    (fun _ => noError_bind _ _ _ fun _ => noError_bind _ _ _ fun _ => noError_pure _ _ rfl)

theorem wraps_NewSchema {σ : Type} (eng : Engine σ)
    (originDid schemaName schemaVersion : String) (attrs : List String) (seqNo : Int) :
    Wraps eng (NewSchema eng originDid schemaName schemaVersion attrs seqNo)
      fun r => r.2 := by
  unfold NewSchema
  simp only [Bind.bind, Pure.pure]
  refine wraps_after_silent eng _ (silent_NewFfiStrList _) fun _ => ?_
  refine wraps_deferred eng _ (traced_pure eng ()) ?_
  exact wraps_call eng _ (fun n => "Couldn't create Schema, received code " ++ fmtD n)
    (fun e => (none, e)) _ _ (ctx_plain _) (fun _ => rfl)
    (fun _ => noError_bind _ _ _ fun _ => noError_bind _ _ _ fun _ => noError_pure _ _ rfl)

theorem wraps_getSchemaAttribute {σ : Type} (eng : Engine σ) (s : Ptr) (attr : String) :
    Wraps eng (Schema.getSchemaAttribute eng s attr) fun r => r.2 := by
  unfold Schema.getSchemaAttribute
  simp only [Bind.bind, Pure.pure]
  refine wraps_deferred eng _ (traced_CloseStrBuffer eng none) ?_
  refine wraps_after_quiet eng _ (Quiet.of_deref _) fun _ => ?_
  exact wraps_call eng _
    (fun n => "Couldn't get schema attributes, received code " ++ fmtD n)
    (fun e => ("", e)) _ _ (ctx_plain _) (fun _ => rfl) (fun _ => noError_pure _ _ rfl)

theorem wraps_loadShape {σ : Type} (eng : Engine σ) (call : ByteBuffer → Call)
    (context name : String) (json : RawMessage) :
    Wraps eng (loadShape eng call context name json) fun r => r.2 := by
  unfold loadShape
  simp only [Bind.bind, Pure.pure]
  refine wraps_after_quiet eng _ (quiet_ByteBufferFromRawMessage _) fun _ => ?_
  exact wraps_call eng _ (fun n => context ++ fmtD n ++ ".")
    (fun e => (none, e)) _ _ (ctx_dot _ _) (fun _ => rfl)
    (fun _ => noError_bind _ _ _ fun _ => noError_bind _ _ _ fun _ => noError_pure _ _ rfl)

theorem wraps_PresentationRequestFromJSON {σ : Type} (eng : Engine σ) (json : RawMessage) :
    Wraps eng (PresentationRequestFromJSON eng json) fun r => r.2 := by
  unfold PresentationRequestFromJSON
  simp only [Bind.bind, Pure.pure]
  refine wraps_after_quiet eng _ (quiet_ByteBufferFromRawMessage _) fun _ => ?_
  exact wraps_call eng _
    (fun n => "Couldn't load presentation req from json, received code " ++ fmtD n)
    (fun e => (none, e)) _ _ (ctx_plain _) (fun _ => rfl)
    (fun _ => noError_bind _ _ _ fun _ => noError_pure _ _ rfl)

/-- Every operation of the table reports the failed engine call in each error it returns. -/
theorem operations_wrap {σ : Type} (eng : Engine σ) (op : Operation σ)
    (hop : op ∈ operations eng) : ∀ args, Wraps eng (op.run args) op.err := by
  simp only [operations, List.mem_append, List.mem_cons, List.mem_map, List.not_mem_nil,
    or_false] at hop
  rcases hop with ((h | h | h | h | h | h | h | h | h | h | h | h | h | h | h | h | h | h | h | h | h | h | h | h | h | h | h | h | h | h | h) | ⟨load, hl, h⟩) | ⟨t, ht, h⟩
  · subst h
    exact fun _ => wraps_GenerateNonce eng
  · subst h
    exact fun a => wraps_NewCredential eng a.1 a.2.1 a.2.2.1 a.2.2.2.1 a.2.2.2.2.1 a.2.2.2.2.2.1
      a.2.2.2.2.2.2.1 a.2.2.2.2.2.2.2
  · subst h
    exact fun a => wraps_Process eng a.1 a.2.1 a.2.2.1 a.2.2.2.1 a.2.2.2.2
  · subst h
    exact fun a => wraps_getCredentialAttr eng a.1 a.2
  · subst h
    exact fun c => wraps_getCredentialAttr eng c "schema_id"
  · subst h
    exact fun c => wraps_getCredentialAttr eng c "cred_def_id"
  · subst h
    exact fun c => wraps_getCredentialAttr eng c "rev_reg_id"
  · subst h
    exact fun c => wraps_getCredentialAttr eng c "rev_reg_index"
  · subst h
    exact fun a => wraps_NewCredentialRevocationState eng a.1 a.2.1 a.2.2.1 a.2.2.2
  · subst h
    exact fun a => wraps_StateUpdate eng a.1 a.2.1 a.2.2.1 a.2.2.2.1 a.2.2.2.2.1 a.2.2.2.2.2
  · subst h
    exact fun a => wraps_NewCredentialDefinition eng a.1 a.2.1 a.2.2.1 a.2.2.2.1 a.2.2.2.2
  · subst h
    exact fun a => wraps_getCredDefAttribute eng a.1 a.2
  · subst h
    exact fun c => wraps_getCredDefAttribute eng c "id"
  · subst h
    exact fun c => wraps_getCredDefAttribute eng c "schema_id"
  · subst h
    exact fun a => wraps_NewCredentialOffer eng a.1 a.2.1 a.2.2
  · subst h
    exact fun a => wraps_NewCredentialRequest eng a.1 a.2.1 a.2.2.1 a.2.2.2.1 a.2.2.2.2
  · subst h
    exact fun _ => wraps_NewMasterSecret eng
  · subst h
    exact fun a => wraps_NewPresentation eng a.1 a.2.1 a.2.2.1 a.2.2.2.1 a.2.2.2.2.1
      a.2.2.2.2.2.1 a.2.2.2.2.2.2.1 a.2.2.2.2.2.2.2
  · subst h
    exact fun a => wraps_Verify eng a.1 a.2.1 a.2.2.1 a.2.2.2.1 a.2.2.2.2.1 a.2.2.2.2.2
  · subst h
    exact fun a => wraps_NewRevocationRegistryDefinition eng a.1 a.2.1 a.2.2.1 a.2.2.2.1
      a.2.2.2.2.1 a.2.2.2.2.2.1 a.2.2.2.2.2.2
  · subst h
    exact fun a => wraps_RevokeCredential eng a.1 a.2.1 a.2.2.1 a.2.2.2
  · subst h
    exact fun a => wraps_RegistryUpdate eng a.1 a.2.1 a.2.2.1 a.2.2.2.1 a.2.2.2.2
  · subst h
    exact fun a => wraps_UpdateWith eng a.1 a.2
  · subst h
    exact fun a => wraps_getAttr eng a.1 a.2
  · subst h
    exact fun s => wraps_getAttr eng s "id"
  · subst h
    exact fun s => wraps_getAttr eng s "max_cred_num"
  · subst h
    exact fun s => wraps_getAttr eng s "tails_hash"
  · subst h
    exact fun s => wraps_getAttr eng s "tails_location"
  · subst h
    exact fun a => wraps_NewSchema eng a.1 a.2.1 a.2.2.1 a.2.2.2.1 a.2.2.2.2
  · subst h
    exact fun a => wraps_getSchemaAttribute eng a.1 a.2
  · subst h
    exact fun s => wraps_getSchemaAttribute eng s "id"
  · subst h
    simp only [loaders, List.mem_cons, List.mem_map] at hl
    rcases hl with h2 | ⟨t, ht, h2⟩
    · subst h2
      exact fun json => wraps_PresentationRequestFromJSON eng json
    · obtain ⟨call, context, name, _, hshape, _, _⟩ := domainTypes_shape eng t ht
      subst h2
      intro json
      show Wraps eng (t.load json) fun r => r.2
      rw [hshape]
      exact wraps_loadShape eng call context name json
  · subst h
    obtain ⟨call, context, name, typeName, _, hjson, _⟩ := domainTypes_shape eng t ht
    intro p
    show Wraps eng (t.toJSON p) fun r => r.2
    rw [hjson p]
    exact wraps_genericToJSON eng p typeName

/-- What a report says, spelled out. -/
theorem reports_spelled {σ : Type} (eng : Engine σ) (w w1 : World σ) (text : String)
    (h : Reports eng w w1 text) :
    ∃ (before after : List Call) (call : Call) (pre post : String) (rep : Reply) (e1 : σ),
      eng (runTrace eng w.engine before) call = (rep, e1) ∧
      w1.trace = w.trace ++ before ++ call :: .credx_get_current_error :: after ∧
      rep.code ≠ 0 ∧
      ((eng e1 .credx_get_current_error).1.code = 0 →
        text = pre ++ fmtD rep.code ++ post ++ ". The following error was encountered: " ++
          C.GoString (eng e1 .credx_get_current_error).1.str) ∧
      ((eng e1 .credx_get_current_error).1.code ≠ 0 → text = pre ++ fmtD rep.code ++ post) := by
  obtain ⟨before, after, call, pre, post, h1, h2, h3⟩ := h
  refine ⟨before, after, call, pre, post, _, _, rfl, h1, h2, ?_, ?_⟩
  · intro h0
    rw [h3, errorText, if_neg (not_not.mpr h0)]
  · intro h0
    rw [h3, errorText, if_pos h0]

/-- C22: `handleLibError` always returns an error, whose text is the context followed by
". The following error was encountered: " and the engine's current error message when that
message can be read (code `0`), and the context alone when it cannot.  Every error returned
by a function of the package that calls `handleLibError`, or by an attribute getter on top
of one, comes from an engine call of the run that the engine answered with a non-zero code
`c`, right after which the run asked for the current error: its text is, in the engine
state after the failed call, such a text for a context that holds `c` in decimal.  And a
rejected call is reported: `RevokeCredential` on valid pointers returns an error when the
engine answers with a non-zero code. -/
theorem errors_wrap_engine_code_and_message {σ : Type} (eng : Engine σ) :
    (∀ (context : String) (w : World σ), ∃ text,
      (handleLibError eng context w).1 = .ret (some text) ∧
      ((eng w.engine .credx_get_current_error).1.code = 0 →
        text = context ++ ". The following error was encountered: " ++
          C.GoString (eng w.engine .credx_get_current_error).1.str) ∧
      ((eng w.engine .credx_get_current_error).1.code ≠ 0 → text = context)) ∧
    (∀ op ∈ operations eng, ∀ (args : op.Args) (w w1 : World σ) (res : op.Result)
        (text : String),
      op.run args w = (.ret res, w1) → op.err res = some text →
      ∃ (before after : List Call) (call : Call) (pre post : String) (rep : Reply) (e1 : σ),
        eng (runTrace eng w.engine before) call = (rep, e1) ∧
        w1.trace = w.trace ++ before ++ call :: .credx_get_current_error :: after ∧
        rep.code ≠ 0 ∧
        ((eng e1 .credx_get_current_error).1.code = 0 →
          text = pre ++ fmtD rep.code ++ post ++ ". The following error was encountered: " ++
            C.GoString (eng e1 .credx_get_current_error).1.str) ∧
        ((eng e1 .credx_get_current_error).1.code ≠ 0 →
          text = pre ++ fmtD rep.code ++ post)) ∧
    (∀ (w : World σ) (s d : Ptr) (idx : Int) (path : String) (r dd : Object),
      w.lookup s = some r → w.lookup d = some dd →
      (eng w.engine (.credx_revoke_credential dd.handle r.handle idx path)).1.code ≠ 0 →
      ∃ text, (RevocationRegistry.RevokeCredential eng s d idx path w).1 =
        .ret (none, some text)) := by
  refine ⟨fun context w => ⟨errorText eng w.engine context, ?_, ?_, ?_⟩, ?_, ?_⟩
  · rw [handleLibError_eq]
  · intro h0
    rw [errorText, if_neg (not_not.mpr h0)]
  · intro h0
    rw [errorText, if_pos h0]
  · intro op hop args w w1 res text hrun herr
    exact reports_spelled eng w w1 text (operations_wrap eng op hop args w res w1 text hrun herr)
  · intro w s d idx path r dd hs hd hc
    rw [RevokeCredential_err eng w s d idx path r dd hs hd hc]
    exact ⟨_, rfl⟩

end IndyCredx
